import Mathlib

/-! # ZVal.cc: the unboxed value cell of the ZAM abstract machine

A shallow embedding of `src/ZVal.cc`.  Objects that the C++ code reaches
through pointers live in an explicit store; a pointer is the address of an
object in that store and `0` is `nullptr`.  Fatal reports
(`reporter->InternalError`) and memory faults end a computation with a
`Fault`; recoverable reports (`ZAM_run_time_error`) are appended to a log and
raise the caller's error flag.
-/

namespace ZVal

/-! ## Type tags and type descriptors -/

/-- The tags of `TypeTag`, one for every `case` label used in `ZVal.cc`. -/
inductive TypeTag
  | TYPE_VOID | TYPE_BOOL | TYPE_INT | TYPE_COUNT | TYPE_COUNTER
  | TYPE_DOUBLE | TYPE_TIME | TYPE_INTERVAL | TYPE_STRING | TYPE_PATTERN
  | TYPE_ENUM | TYPE_TIMER | TYPE_PORT | TYPE_ADDR | TYPE_SUBNET
  | TYPE_ANY | TYPE_TABLE | TYPE_UNION | TYPE_RECORD | TYPE_LIST
  | TYPE_FUNC | TYPE_FILE | TYPE_VECTOR | TYPE_OPAQUE | TYPE_TYPE
  | TYPE_ERROR
  deriving DecidableEq, Repr, Inhabited

/-- A type descriptor (`BroType`).  `base tag` is a descriptor that carries
nothing but its tag, `vector yt` is a `VectorType` with yield type `yt`, and
`typetype d` is a `TypeType` denoting the descriptor `d`. -/
inductive BroType
  | base (tag : TypeTag)
  | vector (yt : BroType)
  | typetype (d : BroType)
  deriving DecidableEq, Repr, Inhabited

/-- The accessor `BroType::Tag()`. -/
def BroType.Tag : BroType → TypeTag
  | .base tag => tag
  | .vector _ => .TYPE_VECTOR
  | .typetype _ => .TYPE_TYPE

/-- The chain `AsVectorType()->YieldType()`; `none` when the descriptor is not
a `VectorType`, where the C++ cast is invalid. -/
def BroType.YieldType : BroType → Option BroType
  | .vector yt => some yt
  | _ => none

/-- A machine address; `0` is `nullptr`. -/
abbrev Ptr := Nat

/-- The null pointer. -/
abbrev nullptr : Ptr := 0

/-! ## The classifier (lines 13-43) -/

/-- Source lines 13-16. -/
def IsAny (t : BroType) : Bool :=
  t.Tag == .TYPE_ANY

/-- Source lines 18-27.  The yield type is only read once the tag is known to
be `TYPE_VECTOR`; a descriptor with that tag and no yield type makes the C++
code read through an invalid cast, which is reported here as `none`. -/
def IsAnyVec (t : BroType) : Option Bool :=
  if t.Tag != .TYPE_VECTOR then
    some false
  else
    match t.YieldType with
    | some yt => some (yt.Tag == .TYPE_ANY)
    | none => none

/-- Source lines 29-43. -/
def IsManagedType (t : BroType) : Bool :=
  match t.Tag with
  | .TYPE_ADDR | .TYPE_SUBNET | .TYPE_STRING => true
  | .TYPE_VECTOR => ! IsAny t
  | _ => false

/-! ## The value cell -/

/-- The union `ZAMValUnion`: one machine word.  Every alternative of the union
occupies that same word, so a cell is the word itself; the numeric
alternatives are their bit patterns and the pointer alternatives are
addresses.  Which alternative is meant is known only to the caller, through
the type it passes. -/
structure ZAMValUnion where
  word : Nat
  deriving DecidableEq, Repr, Inhabited

namespace ZAMValUnion

/-- Alternative for bool, int, enum. -/
@[simp] abbrev int_val (z : ZAMValUnion) : Nat := z.word
/-- Alternative for count, counter, port. -/
@[simp] abbrev uint_val (z : ZAMValUnion) : Nat := z.word
/-- Alternative for double, time, interval (the bit pattern). -/
@[simp] abbrev double_val (z : ZAMValUnion) : Nat := z.word
/-- Owned `BroString*`. -/
@[simp] abbrev string_val (z : ZAMValUnion) : Ptr := z.word
/-- Owned `IPAddr*`. -/
@[simp] abbrev addr_val (z : ZAMValUnion) : Ptr := z.word
/-- Owned `IPPrefix*`. -/
@[simp] abbrev subnet_val (z : ZAMValUnion) : Ptr := z.word
/-- Owned `ZAMVector*`. -/
@[simp] abbrev vector_val (z : ZAMValUnion) : Ptr := z.word
/-- Shared `BroFile*`. -/
@[simp] abbrev file_val (z : ZAMValUnion) : Ptr := z.word
/-- Shared `Func*`. -/
@[simp] abbrev func_val (z : ZAMValUnion) : Ptr := z.word
/-- Shared `ListVal*`. -/
@[simp] abbrev list_val (z : ZAMValUnion) : Ptr := z.word
/-- Shared `OpaqueVal*`. -/
@[simp] abbrev opaque_val (z : ZAMValUnion) : Ptr := z.word
/-- Shared `PatternVal*`. -/
@[simp] abbrev re_val (z : ZAMValUnion) : Ptr := z.word
/-- Shared `RecordVal*`. -/
@[simp] abbrev record_val (z : ZAMValUnion) : Ptr := z.word
/-- Shared `TableVal*`. -/
@[simp] abbrev table_val (z : ZAMValUnion) : Ptr := z.word
/-- Shared `BroType*`. -/
@[simp] abbrev type_val (z : ZAMValUnion) : Ptr := z.word
/-- Shared `Val*` of an "any" value. -/
@[simp] abbrev any_val (z : ZAMValUnion) : Ptr := z.word
/-- The catch-all `void*` alternative. -/
@[simp] abbrev void_val (z : ZAMValUnion) : Ptr := z.word

/-- The default constructor `ZAMValUnion()`, which sets `void_val = nullptr`. -/
def nil : ZAMValUnion := ⟨nullptr⟩

/-- Source lines 160-178. -/
def IsNil (z : ZAMValUnion) (t : BroType) : Bool :=
  match t.Tag with
  | .TYPE_ADDR => z.addr_val == nullptr
  | .TYPE_ANY => z.any_val == nullptr
  | .TYPE_FILE => z.file_val == nullptr
  | .TYPE_FUNC => z.func_val == nullptr
  | .TYPE_LIST => z.list_val == nullptr
  | .TYPE_OPAQUE => z.opaque_val == nullptr
  | .TYPE_PATTERN => z.re_val == nullptr
  | .TYPE_RECORD => z.record_val == nullptr
  | .TYPE_STRING => z.string_val == nullptr
  | .TYPE_SUBNET => z.subnet_val == nullptr
  | .TYPE_TABLE => z.table_val == nullptr
  | .TYPE_TYPE => z.type_val == nullptr
  | _ => false

end ZAMValUnion

/-! ## The store -/

/-- A boxed value (`Val`): its declared type, the payload word of its
`BroValUnion` (a scalar bit pattern or the address of the object that holds
the content) and its reference count. -/
structure Val where
  type : BroType
  val : Nat
  ref_cnt : Nat
  deriving DecidableEq, Repr, Inhabited

/-- The shadow vector (`ZAM_vector`): the slots, the mirrored boxed vector (a
bare `VectorVal*`, null when there is none), the dirty flag, the managed yield
type (null when the elements are not managed) and the bindings handle. -/
structure ZAM_vector where
  zvec : List ZAMValUnion
  vv : Ptr
  is_dirty : Bool
  managed_yt : Option BroType
  bindings : Ptr
  deriving DecidableEq, Repr, Inhabited

/-- The vector handle (`ZAMVector`): the shared shadow vector and the resolved
yield type (null when unresolved). -/
structure ZAMVector where
  vec : Ptr
  yield_type : Option BroType
  deriving DecidableEq, Repr, Inhabited

/-- What an address of the store holds. -/
inductive Obj
  | freed
  | BroString (bytes : List Nat)
  | IPAddr (bits : Nat)
  | IPPrefix (bits : Nat) (len : Nat)
  | Func (ftype : BroType) (ref_cnt : Nat)
  | BroFile (ref_cnt : Nat)
  | Val (v : Val)
  | val_vec (elems : List Ptr)
  | ZAM_vector (z : ZAM_vector)
  | ZAMVector (z : ZAMVector)
  deriving DecidableEq, Repr, Inhabited

/-- How a computation ends when it does not return. -/
inductive Fault
  /-- The fatal sink `reporter->InternalError(msg)`. -/
  | InternalError (msg : String)
  /-- A read, write or release through `nullptr`, through a pointer to a
  released object, or through a pointer to an object of another class. -/
  | BadAccess
  /-- A failed `ASSERT`. -/
  | AssertFailure
  /-- The C++ exception `std::length_error`, thrown by a container that is
  asked for more elements than its `max_size()`. -/
  | LengthError
  /-- The nesting of vectors is deeper than the depth the evaluation was
  given. -/
  | OutOfFuel
  deriving DecidableEq, Repr, Inhabited

deriving instance DecidableEq for Except

/-- The program state: the objects by address (address `a` is entry `a - 1`)
and the reports received by the recoverable sink, each with its source
context. -/
structure State where
  heap : List Obj
  log : List (String × Ptr)
  deriving DecidableEq, Repr, Inhabited

namespace State

/-- The object at an address, if any. -/
def read (s : State) (p : Ptr) : Option Obj :=
  if p = nullptr then none else s.heap[p - 1]?

/-- Replace the object at an address; every use follows a successful read
of that address, and there is nothing to replace at `nullptr`. -/
def write (s : State) (p : Ptr) (o : Obj) : State :=
  if p = nullptr then s else { s with heap := s.heap.set (p - 1) o }

/-- The C++ `new`: the object is placed at a fresh, non-null address. -/
def alloc (s : State) (o : Obj) : Ptr × State :=
  (s.heap.length + 1, { s with heap := s.heap ++ [o] })

/-- The C++ `delete p`: nothing for `nullptr`, otherwise the object is
released.  The destructors of the released classes are not part of
`ZVal.cc`; releasing marks the object itself as gone. -/
def delete (s : State) (p : Ptr) : Except Fault State :=
  if p = nullptr then .ok s
  else
    match s.read p with
    | none => .error .BadAccess
    | some .freed => .error .BadAccess
    | some _ => .ok (s.write p .freed)

/-- Dereference a `Val*`. -/
def getVal (s : State) (p : Ptr) : Except Fault Val :=
  match s.read p with
  | some (.Val v) => .ok v
  | _ => .error .BadAccess

/-- Dereference a `vector<Val*>*`. -/
def get_val_vec (s : State) (p : Ptr) : Except Fault (List Ptr) :=
  match s.read p with
  | some (.val_vec elems) => .ok elems
  | _ => .error .BadAccess

/-- Dereference a `ZAM_vector*`. -/
def getZAM_vector (s : State) (p : Ptr) : Except Fault ZAM_vector :=
  match s.read p with
  | some (.ZAM_vector z) => .ok z
  | _ => .error .BadAccess

/-- Dereference a `ZAMVector*`. -/
def getZAMVector (s : State) (p : Ptr) : Except Fault ZAMVector :=
  match s.read p with
  | some (.ZAMVector z) => .ok z
  | _ => .error .BadAccess

/-- Dereference a `BroString*`. -/
def getBroString (s : State) (p : Ptr) : Except Fault (List Nat) :=
  match s.read p with
  | some (.BroString bytes) => .ok bytes
  | _ => .error .BadAccess

/-- Dereference an `IPAddr*`. -/
def getIPAddr (s : State) (p : Ptr) : Except Fault Nat :=
  match s.read p with
  | some (.IPAddr bits) => .ok bits
  | _ => .error .BadAccess

/-- Dereference an `IPPrefix*`. -/
def getIPPrefix (s : State) (p : Ptr) : Except Fault (Nat × Nat) :=
  match s.read p with
  | some (.IPPrefix bits len) => .ok (bits, len)
  | _ => .error .BadAccess

/-- Modelled from the spec: `Ref`, missing from ZVal.cc, the "shared-reference
increment" of a boxed value, function or file; it reads through its argument,
so it faults on `nullptr`. -/
def Ref (s : State) (p : Ptr) : Except Fault State :=
  match s.read p with
  | some (.Val v) => .ok (s.write p (.Val { v with ref_cnt := v.ref_cnt + 1 }))
  | some (.Func ft n) => .ok (s.write p (.Func ft (n + 1)))
  | some (.BroFile n) => .ok (s.write p (.BroFile (n + 1)))
  | _ => .error .BadAccess

/-- Modelled from the spec: `Unref`, missing from ZVal.cc, the "shared-reference
decrement"; nothing for `nullptr`.  Reclaiming an object whose count reaches
zero belongs to the host object model and is not modelled. -/
def Unref (s : State) (p : Ptr) : Except Fault State :=
  if p = nullptr then .ok s
  else
    match s.read p with
    | some (.Val v) => .ok (s.write p (.Val { v with ref_cnt := v.ref_cnt - 1 }))
    | some (.Func ft n) => .ok (s.write p (.Func ft (n - 1)))
    | some (.BroFile n) => .ok (s.write p (.BroFile (n - 1)))
    | _ => .error .BadAccess

/-- Modelled from the spec: the `Val` constructors, missing from ZVal.cc:
"allocate a new boxed scalar" of the given type around a payload word, held
by one reference. -/
def new_Val (s : State) (type : BroType) (payload : Nat) : Ptr × State :=
  s.alloc (.Val { type := type, val := payload, ref_cnt := 1 })

/-- The method `push_back` on a `vector<Val*>` in the store. -/
def val_vec_push_back (s : State) (p : Ptr) (elem : Ptr) : Except Fault State :=
  match s.read p with
  | some (.val_vec elems) => .ok (s.write p (.val_vec (elems ++ [elem])))
  | _ => .error .BadAccess

/-- The method `push_back` on the slot sequence of a `ZAM_vector` in the
store. -/
def zvec_push_back (s : State) (p : Ptr) (elem : ZAMValUnion) : Except Fault State :=
  match s.read p with
  | some (.ZAM_vector z) => .ok (s.write p (.ZAM_vector { z with zvec := z.zvec ++ [elem] }))
  | _ => .error .BadAccess

end State

/-- Modelled from the spec: `ZAM_run_time_error(msg, o, error)`, missing from
ZVal.cc, the recoverable sink: it records the message with its source
context and "sets a caller-visible flag".  The second component is the new
value of the caller's `error`. -/
def ZAM_run_time_error (s : State) (msg : String) (o : Ptr) : State × Bool :=
  ({ s with log := s.log ++ [(msg, o)] }, true)

/-- What `ZVal.cc` uses of the host and cannot see: the table behind
`type_name`, the internal storage kind `InternalType()` of a descriptor with
the code of `TYPE_INTERNAL_OTHER`, the address at which a type descriptor
lives and the descriptor at an address, and the interned port values of
`val_mgr->GetPort`, a read-only table. -/
structure Host where
  type_name : TypeTag → String
  InternalType : BroType → Nat
  TYPE_INTERNAL_OTHER : Nat
  typeAddr : BroType → Ptr
  typeAt : Ptr → Option BroType
  GetPort : Nat → Ptr

/-! ## Releasing a managed alternative (lines 45-60) -/

/-- Source lines 45-60.  The cell is passed by reference, so the updated cell
is returned with the new state. -/
def DeleteManagedType (s : State) (v : ZAMValUnion) (t : BroType) :
    Except Fault (ZAMValUnion × State) :=
  match t.Tag with
  | .TYPE_ADDR => do
    let s ← s.delete v.addr_val
    return (⟨nullptr⟩, s)
  | .TYPE_SUBNET => do
    let s ← s.delete v.subnet_val
    return (⟨nullptr⟩, s)
  | .TYPE_STRING => do
    let s ← s.delete v.string_val
    return (⟨nullptr⟩, s)
  | .TYPE_VECTOR => do
    let s ← s.delete v.vector_val
    return (⟨nullptr⟩, s)
  | _ => .error (.InternalError "type inconsistency in DeleteManagedType")

/-! ## Boxed vectors and the shadow classes (declared outside ZVal.cc) -/

/-- Modelled from the spec: `VectorVal::Lookup(index)`, missing from ZVal.cc,
the "indexed element lookup (nullable)" of a boxed vector: the entry of the
backing storage, `nullptr` for a hole or past the end. -/
def VectorVal.Lookup (s : State) (vv : Ptr) (index : Nat) : Except Fault Ptr := do
  let vobj ← s.getVal vv
  let elems ← s.get_val_vec vobj.val
  return elems.getD index nullptr

/-- Modelled from the spec: `VectorVal::Assign(index, element)`, missing from
ZVal.cc: the element is stored at `index`; when `index` is past the end the
backing storage is first extended with null entries (the "default-fill
behavior" of the backing container). -/
def VectorVal.Assign (s : State) (v : Ptr) (index : Nat) (element : Ptr) :
    Except Fault State := do
  let vobj ← s.getVal v
  let elems ← s.get_val_vec vobj.val
  let elems := elems ++ List.replicate (index + 1 - elems.length) nullptr
  return s.write vobj.val (.val_vec (elems.set index element))

/-- Modelled from the spec: `make_intrusive<VectorVal>(vt)`, missing from
ZVal.cc: a new boxed vector of the given vector type with an empty backing
storage of its own. -/
def VectorVal.make (s : State) (vt : BroType) : Ptr × State :=
  let (storage, s) := s.alloc (.val_vec [])
  s.new_Val vt storage

/-- Modelled from the spec: `IntrusivePtr{NewRef{}, p}`, missing from ZVal.cc:
"the held pointer with an incremented reference"; a null pointer is passed
on as it is. -/
def NewRef (s : State) (p : Ptr) : Except Fault State :=
  if p == nullptr then .ok s else s.Ref p

/-- Modelled from the spec: the constructor of `ZAM_vector` (declared in
ZVal.h), as `to_raw_ZAM_vector` calls it: no slots yet, the dirty flag unset,
mirroring the given boxed vector. -/
def ZAM_vector.make (vv : Ptr) (bindings : Ptr) (myt : Option BroType) : ZAM_vector :=
  { zvec := [], vv := vv, is_dirty := false, managed_yt := myt, bindings := bindings }

/-- Modelled from the spec: `ZAM_vector::SetManagedYieldType` (declared in
ZVal.h), which "records it on the ShadowVector". -/
def ZAM_vector.SetManagedYieldType (s : State) (this : Ptr) (yt : BroType) :
    Except Fault State := do
  let z ← s.getZAM_vector this
  return s.write this (.ZAM_vector { z with managed_yt := some yt })

/-! ## The vector handle (lines 364-397) -/

/-- Source lines 364-397, run by `new ZAMVector(_vec)`; the result is the
address of the new handle. -/
def ZAMVector.ctor (s : State) (_vec : Ptr) : Except Fault (Ptr × State) := do
  let vec := _vec
  let zobj ← s.getZAM_vector vec
  let vv := zobj.vv
  if vv == nullptr then
    .ok (s.alloc (.ZAMVector { vec := vec, yield_type := none }))
  else do
    let vobj ← s.getVal vv
    match vobj.type.YieldType with
    | none => .error .BadAccess
    | some yt0 =>
      let resolved : Except Fault (Option BroType) :=
        if yt0.Tag == .TYPE_ANY then
          if zobj.zvec.length > 0 then do
            let zee_row := 0
            let elem0 ← VectorVal.Lookup s vv zee_row
            let e0 ← s.getVal elem0
            pure (some e0.type)
          else
            pure none
        else
          pure (some yt0)
      let yt ← resolved
      let s ← match yt with
        | some y =>
          if IsManagedType y then ZAM_vector.SetManagedYieldType s vec y else pure s
        | none => pure s
      .ok (s.alloc (.ZAMVector { vec := vec, yield_type := yt }))

/-! ## From a boxed vector to a shadow vector (lines 470-503) -/

/-- The loop of source lines 494-500; `ctor` is the cell constructor for the
elements.  The `error` flag handed to it is a local of `to_raw_ZAM_vector`
and is dropped. -/
def to_raw_ZAM_vector_loop
    (ctor : State → Ptr → BroType → Ptr → Ptr → Bool → Except Fault (ZAMValUnion × Bool × State))
    (yt : BroType) (bindings vec zv : Ptr) : List Ptr → State → Except Fault State
  | [], s => .ok s
  | elem :: rest, s =>
    if elem == nullptr then do
      let s ← s.zvec_push_back zv ZAMValUnion.nil
      to_raw_ZAM_vector_loop ctor yt bindings vec zv rest s
    else do
      let (z, _, s) ← ctor s elem yt bindings vec false
      let s ← s.zvec_push_back zv z
      to_raw_ZAM_vector_loop ctor yt bindings vec zv rest s

/-- Source lines 481-503, over the cell constructor used for the elements. -/
def to_raw_ZAM_vector_with
    (ctor : State → Ptr → BroType → Ptr → Ptr → Bool → Except Fault (ZAMValUnion × Bool × State))
    (s : State) (vec : Ptr) (bindings : Ptr) : Except Fault (Ptr × State) := do
  let vobj ← s.getVal vec
  let vv ← s.get_val_vec vobj.val
  match vobj.type.YieldType with
  | none => .error .BadAccess
  | some yt =>
    let myt := if IsManagedType yt then some yt else none
    let (zv, s) := s.alloc (.ZAM_vector (ZAM_vector.make vec bindings myt))
    let s ← to_raw_ZAM_vector_loop ctor yt bindings vec zv vv s
    .ok (zv, s)

/-- Source lines 470-479, over the cell constructor used for the elements. -/
def to_ZAM_vector_with
    (ctor : State → Ptr → BroType → Ptr → Ptr → Bool → Except Fault (ZAMValUnion × Bool × State))
    (s : State) (vec : Ptr) (bindings : Ptr) (track_val : Bool) :
    Except Fault (Ptr × State) := do
  let bindings := if ! track_val then nullptr else bindings
  let (raw, s) ← to_raw_ZAM_vector_with ctor s vec bindings
  ZAMVector.ctor s raw

/-! ## Constructing a cell from a boxed value (lines 63-158) -/

/-- Source lines 63-158, over the function called on line 132. -/
def ZAMValUnion.ctor_step (h : Host)
    (to_ZAM_vector : State → Ptr → Ptr → Bool → Except Fault (Ptr × State))
    (s : State) (v : Ptr) (t : BroType) (bindings : Ptr) (o : Ptr) (error : Bool) :
    Except Fault (ZAMValUnion × Bool × State) :=
  if v == nullptr then
    let (s, error) := ZAM_run_time_error s "uninitialized value in compiled code" o
    -- int_val = 0
    .ok (⟨0⟩, error, s)
  else do
    let vobj ← s.getVal v
    let vu := vobj.val
    let vt := vobj.type
    if vt.Tag != t.Tag && t.Tag != .TYPE_ANY
        && (h.InternalType t == h.TYPE_INTERNAL_OTHER
            || h.InternalType t != h.InternalType vt) then
      .error (.InternalError "type inconsistency in ZAMValUnion constructor")
    else
      match t.Tag with
      | .TYPE_BOOL | .TYPE_INT | .TYPE_ENUM => .ok (⟨vu⟩, error, s)
      | .TYPE_COUNT | .TYPE_COUNTER | .TYPE_PORT => .ok (⟨vu⟩, error, s)
      | .TYPE_DOUBLE | .TYPE_INTERVAL | .TYPE_TIME => .ok (⟨vu⟩, error, s)
      | .TYPE_FUNC => .ok (⟨vu⟩, error, s)
      | .TYPE_FILE => .ok (⟨vu⟩, error, s)
      | .TYPE_LIST => .ok (⟨v⟩, error, s)
      | .TYPE_OPAQUE => .ok (⟨v⟩, error, s)
      | .TYPE_PATTERN => .ok (⟨v⟩, error, s)
      | .TYPE_RECORD => .ok (⟨v⟩, error, s)
      | .TYPE_TABLE => .ok (⟨v⟩, error, s)
      | .TYPE_VECTOR =>
        match t.YieldType, vt.YieldType with
        | some my_yt, some v_yt =>
          let my_ytag := my_yt.Tag
          let v_ytag := v_yt.Tag
          if my_ytag != v_ytag && my_ytag != .TYPE_ANY && v_ytag != .TYPE_ANY then
            let msg := "vector type clash: " ++ h.type_name my_ytag ++ " vs. "
              ++ h.type_name v_ytag
            let (s, error) := ZAM_run_time_error s msg o
            .ok (⟨nullptr⟩, error, s)
          else do
            let (p, s) ← to_ZAM_vector s v bindings true
            .ok (⟨p⟩, error, s)
        | _, _ => .error .BadAccess
      | .TYPE_STRING => do
        let bytes ← s.getBroString vu
        let (p, s) := s.alloc (.BroString bytes)
        .ok (⟨p⟩, error, s)
      | .TYPE_ADDR => do
        let bits ← s.getIPAddr vu
        let (p, s) := s.alloc (.IPAddr bits)
        .ok (⟨p⟩, error, s)
      | .TYPE_SUBNET => do
        let (bits, len) ← s.getIPPrefix vu
        let (p, s) := s.alloc (.IPPrefix bits len)
        .ok (⟨p⟩, error, s)
      | .TYPE_ANY => .ok (⟨v⟩, error, s)
      | .TYPE_TYPE => .ok (⟨h.typeAddr t⟩, error, s)
      | .TYPE_ERROR | .TYPE_TIMER | .TYPE_UNION | .TYPE_VOID =>
        .error (.InternalError "bad type in ZAMValUnion constructor")

/-- The constructor `ZAMValUnion(v, t, bindings, o, error)`.  The first
argument bounds how deep the boxed value may nest vectors: each level of
elements is constructed with one unit less, and a vector met with none left
ends the evaluation with `OutOfFuel`.  The result is the cell, the caller's
`error` flag and the new state. -/
def ZAMValUnion.ctor (h : Host) :
    Nat → State → Ptr → BroType → Ptr → Ptr → Bool → Except Fault (ZAMValUnion × Bool × State)
  | 0 => ZAMValUnion.ctor_step h (fun _ _ _ _ => .error .OutOfFuel)
  | n + 1 => ZAMValUnion.ctor_step h (to_ZAM_vector_with (ZAMValUnion.ctor h n))

/-- The function `to_raw_ZAM_vector(vec, bindings)`, elements nesting vectors
at most `n` deep. -/
def to_raw_ZAM_vector (h : Host) (n : Nat) (s : State) (vec : Ptr) (bindings : Ptr) :
    Except Fault (Ptr × State) :=
  to_raw_ZAM_vector_with (ZAMValUnion.ctor h n) s vec bindings

/-- The function `to_ZAM_vector(vec, bindings, track_val)`, elements nesting
vectors at most `n` deep. -/
def to_ZAM_vector (h : Host) (n : Nat) (s : State) (vec : Ptr) (bindings : Ptr)
    (track_val : Bool) : Except Fault (Ptr × State) :=
  to_ZAM_vector_with (ZAMValUnion.ctor h n) s vec bindings track_val

/-! ## Flushing a shadow vector (lines 315-340) -/

/-- The loop of source lines 324-330; `ToVal` converts the slots. -/
def ZAM_vector.Spill_loop
    (ToVal : State → ZAMValUnion → BroType → Except Fault (Ptr × State))
    (yt : BroType) (val_vec : Ptr) : List ZAMValUnion → State → Except Fault State
  | [], s => .ok s
  | elem :: rest, s =>
    if elem.IsNil yt then do
      let s ← s.val_vec_push_back val_vec nullptr
      ZAM_vector.Spill_loop ToVal yt val_vec rest s
    else do
      let (p, s) ← ToVal s elem yt
      let s ← s.val_vec_push_back val_vec p
      ZAM_vector.Spill_loop ToVal yt val_vec rest s

/-- The loop of source lines 333-334. -/
def ZAM_vector.Spill_unref : List Ptr → State → Except Fault State
  | [], s => .ok s
  | p :: rest, s => do
    let s ← s.Unref p
    ZAM_vector.Spill_unref rest s

/-- Source lines 315-340, over the conversion used for the slots. -/
def ZAM_vector.Spill_with
    (ToVal : State → ZAMValUnion → BroType → Except Fault (Ptr × State))
    (s : State) (this : Ptr) : Except Fault State := do
  let z ← s.getZAM_vector this
  if z.vv == nullptr || ! z.is_dirty then
    .ok s
  else do
    let vobj ← s.getVal z.vv
    match vobj.type.YieldType with
    | none => .error .BadAccess
    | some yt =>
      let (val_vec, s) := s.alloc (.val_vec [])
      let s ← ZAM_vector.Spill_loop ToVal yt val_vec z.zvec s
      let vobj ← s.getVal z.vv
      let vvv ← s.get_val_vec vobj.val
      let s ← ZAM_vector.Spill_unref vvv s
      let s ← s.delete vobj.val
      let vobj ← s.getVal z.vv
      let s := s.write z.vv (.Val { vobj with val := val_vec })
      let z ← s.getZAM_vector this
      .ok (s.write this (.ZAM_vector { z with is_dirty := false }))

/-! ## From a cell back to a boxed value (lines 180-268) -/

/-- The loop of source lines 249-263; `i` is the index of the first slot of
the list. -/
def ZAMValUnion.ToVector_loop
    (ToVal : State → ZAMValUnion → BroType → Except Fault (Ptr × State))
    (actual_yt : BroType) (is_any : Bool) (v : Ptr) :
    Nat → List ZAMValUnion → State → Except Fault State
  | _, [], s => .ok s
  | i, vr :: rest, s =>
    if vr.IsNil actual_yt then
      ZAMValUnion.ToVector_loop ToVal actual_yt is_any v (i + 1) rest s
    else do
      let (v_i, s) ←
        if is_any then do
          let s ← NewRef s vr.any_val
          pure (vr.any_val, s)
        else
          ToVal s vr actual_yt
      let s ← VectorVal.Assign s v i v_i
      ZAMValUnion.ToVector_loop ToVal actual_yt is_any v (i + 1) rest s

/-- Source lines 226-268, over the conversion used for the slots.
`ZAMVector::Spill`, `VecVal`, `ConstVec`, `YieldType` and `SetVecVal` are
declared in ZVal.h; following the spec they forward to the shared shadow
vector (flush it, read its mirrored boxed vector and its slots, record the
boxed vector on it) or read the handle's resolved yield type. -/
def ZAMValUnion.ToVector_with
    (ToVal : State → ZAMValUnion → BroType → Except Fault (Ptr × State))
    (s : State) (z : ZAMValUnion) (t : BroType) : Except Fault (Ptr × State) := do
  let zv ← s.getZAMVector z.vector_val
  let s ← ZAM_vector.Spill_with ToVal s zv.vec
  let zobj ← s.getZAM_vector zv.vec
  let v := zobj.vv
  if v != nullptr then
    .ok (v, s)
  else
    match t.YieldType with
    | none => .error .BadAccess
    | some yt =>
      let vec := zobj.zvec
      let actual_yt := match zv.yield_type with
        | some a => a
        | none => yt
      let is_any := actual_yt.Tag == .TYPE_ANY
      let (v, s) := VectorVal.make s t
      do
        let s ← ZAMValUnion.ToVector_loop ToVal actual_yt is_any v 0 vec s
        let zobj ← s.getZAM_vector zv.vec
        let s := s.write zv.vec (.ZAM_vector { zobj with vv := v })
        .ok (v, s)

/-- Source lines 180-224, over the function called on line 204.  The boxed
scalars are built by constructors declared outside ZVal.cc; following the
spec each is "a new boxed scalar" around the payload of the cell, and the
port value comes from the interned table of the host. -/
def ZAMValUnion.ToVal_step (h : Host)
    (ToVector : State → ZAMValUnion → BroType → Except Fault (Ptr × State))
    (s : State) (z : ZAMValUnion) (t : BroType) : Except Fault (Ptr × State) :=
  match t.Tag with
  | .TYPE_INT => .ok (s.new_Val (.base .TYPE_INT) z.int_val)
  | .TYPE_BOOL => .ok (s.new_Val (.base .TYPE_BOOL) z.int_val)
  | .TYPE_COUNT => .ok (s.new_Val (.base .TYPE_COUNT) z.uint_val)
  | .TYPE_COUNTER => .ok (s.new_Val (.base .TYPE_COUNTER) z.uint_val)
  | .TYPE_DOUBLE => .ok (s.new_Val (.base .TYPE_DOUBLE) z.double_val)
  | .TYPE_INTERVAL => .ok (s.new_Val (.base .TYPE_INTERVAL) z.double_val)
  | .TYPE_TIME => .ok (s.new_Val (.base .TYPE_TIME) z.double_val)
  | .TYPE_FUNC => do
    let s ← s.Ref z.func_val
    match s.read z.func_val with
    | some (.Func ftype _) => .ok (s.new_Val ftype z.func_val)
    | _ => .error .BadAccess
  | .TYPE_FILE => do
    let s ← s.Ref z.file_val
    match s.read z.file_val with
    | some (.BroFile _) => .ok (s.new_Val (.base .TYPE_FILE) z.file_val)
    | _ => .error .BadAccess
  | .TYPE_ADDR => do
    let bits ← s.getIPAddr z.addr_val
    let (p, s) := s.alloc (.IPAddr bits)
    .ok (s.new_Val (.base .TYPE_ADDR) p)
  | .TYPE_SUBNET => do
    let (bits, len) ← s.getIPPrefix z.subnet_val
    let (p, s) := s.alloc (.IPPrefix bits len)
    .ok (s.new_Val (.base .TYPE_SUBNET) p)
  | .TYPE_STRING => do
    let bytes ← s.getBroString z.string_val
    let (p, s) := s.alloc (.BroString bytes)
    .ok (s.new_Val (.base .TYPE_STRING) p)
  | .TYPE_ENUM => .ok (s.new_Val t z.int_val)
  | .TYPE_PORT => .ok (h.GetPort z.uint_val, s)
  | .TYPE_VECTOR => ToVector s z t
  | .TYPE_ANY => do
    let s ← NewRef s z.any_val
    .ok (z.any_val, s)
  | .TYPE_TYPE =>
    match h.typeAt z.type_val with
    | some d => .ok (s.new_Val (.typetype d) z.type_val)
    | none => .error .BadAccess
  | .TYPE_LIST => do
    let s ← s.Ref z.list_val
    .ok (z.list_val, s)
  | .TYPE_OPAQUE => do
    let s ← s.Ref z.opaque_val
    .ok (z.opaque_val, s)
  | .TYPE_RECORD => do
    let s ← s.Ref z.record_val
    .ok (z.record_val, s)
  | .TYPE_TABLE => do
    let s ← s.Ref z.table_val
    .ok (z.table_val, s)
  | .TYPE_PATTERN => do
    let s ← s.Ref z.re_val
    .ok (z.re_val, s)
  | .TYPE_ERROR | .TYPE_TIMER | .TYPE_UNION | .TYPE_VOID =>
    .error (.InternalError "bad ret type return tag")

/-- The method `ZAMValUnion::ToVal(t)`.  The first argument bounds how deep
the cell may nest vectors, as for the constructor.  The result is the
address of the boxed value and the new state. -/
def ZAMValUnion.ToVal (h : Host) :
    Nat → State → ZAMValUnion → BroType → Except Fault (Ptr × State)
  | 0 => ZAMValUnion.ToVal_step h (fun _ _ _ => .error .OutOfFuel)
  | n + 1 => ZAMValUnion.ToVal_step h (ZAMValUnion.ToVector_with (ZAMValUnion.ToVal h n))

/-- The method `ZAMValUnion::ToVector(t)`, slots nesting vectors at most `n`
deep. -/
def ZAMValUnion.ToVector (h : Host) (n : Nat) (s : State) (z : ZAMValUnion) (t : BroType) :
    Except Fault (Ptr × State) :=
  ZAMValUnion.ToVector_with (ZAMValUnion.ToVal h n) s z t

/-- The method `ZAM_vector::Spill()`, slots nesting vectors at most `n`
deep. -/
def ZAM_vector.Spill (h : Host) (n : Nat) (s : State) (this : Ptr) : Except Fault State :=
  ZAM_vector.Spill_with (ZAMValUnion.ToVal h n) s this

/-! ## Element operations of the shadow vector (lines 271-313, 342-361) -/

/-- Assignment to the slot `zvec[n]` of the shadow vector at `this`, through
the reference the C++ code holds to it. -/
def State.zvec_set (s : State) (this : Ptr) (n : Nat) (cell : ZAMValUnion) :
    Except Fault State :=
  match s.read this with
  | some (.ZAM_vector z) =>
    if n < z.zvec.length then
      .ok (s.write this (.ZAM_vector { z with zvec := z.zvec.set n cell }))
    else .error .BadAccess
  | _ => .error .BadAccess

/-- Modelled from the spec: `ZAMVector::ShallowCopy` (declared in ZVal.h), a
new handle "sharing its own internal shadow" with the copied one. -/
def ZAMVector.ShallowCopy (s : State) (this : Ptr) : Except Fault (Ptr × State) := do
  let zv ← s.getZAMVector this
  return s.alloc (.ZAMVector { vec := zv.vec, yield_type := zv.yield_type })

/-- Modelled from the spec: `ZAM_vector::ModVec` (declared in ZVal.h), the
access through which the slots are mutated: "any mutation through the shadow
marks the whole vector dirty". -/
def ZAM_vector.ModVec (s : State) (this : Ptr) : Except Fault State := do
  let z ← s.getZAM_vector this
  return s.write this (.ZAM_vector { z with is_dirty := true })

/-- Source lines 271-296.  `v` is read only; it is taken to be a cell other
than the slot `zvec[n]` itself.  An index past the end reads outside the
slots.  The `TYPE_VECTOR` case has no `break`, so after its assignment
control runs on into `default`. -/
def ZAM_vector.SetManagedElement (s : State) (this : Ptr) (n : Nat) (v : ZAMValUnion) :
    Except Fault State := do
  let z ← s.getZAM_vector this
  match z.zvec[n]? with
  | none => .error .BadAccess
  | some zn =>
    match z.managed_yt with
    | none => .error .BadAccess
    | some managed_yt => do
      let (zn, s) ← DeleteManagedType s zn managed_yt
      let s ← s.zvec_set this n zn
      match managed_yt.Tag with
      | .TYPE_STRING => do
        let bytes ← s.getBroString v.string_val
        let (p, s) := s.alloc (.BroString bytes)
        s.zvec_set this n ⟨p⟩
      | .TYPE_ADDR => do
        let bits ← s.getIPAddr v.addr_val
        let (p, s) := s.alloc (.IPAddr bits)
        s.zvec_set this n ⟨p⟩
      | .TYPE_SUBNET => do
        let (bits, len) ← s.getIPPrefix v.subnet_val
        let (p, s) := s.alloc (.IPPrefix bits len)
        s.zvec_set this n ⟨p⟩
      | .TYPE_VECTOR => do
        let (p, s) ← ZAMVector.ShallowCopy s v.vector_val
        let _ ← s.zvec_set this n ⟨p⟩
        .error (.InternalError "bad type tag in ZAM_vector::SetManagedElement")
      | _ => .error (.InternalError "bad type tag in ZAM_vector::SetManagedElement")

/-- The method `resize` of the slot sequence: cut to `n` slots, or extended to
`n` slots with default-constructed cells. -/
def ZAM_vector.resize (zvec : List ZAMValUnion) (n : Nat) : List ZAMValUnion :=
  zvec.take n ++ List.replicate (n - zvec.length) ZAMValUnion.nil

/-- The loop of source lines 303-306: `zvec[i].void_val = nullptr` for every
`i` from `old_size` up to, not including, `new_size`. -/
def ZAM_vector.GrowVector_loop (zvec : List ZAMValUnion) (old_size new_size : Nat) :
    List ZAMValUnion :=
  (List.range' old_size (new_size - old_size)).foldl (fun zv i => zv.set i ⟨nullptr⟩) zvec

/-- Source lines 298-307.  The parameter is a C++ `int`.  `zvec.resize` takes
a `size_t`: a negative `new_size` converts to a size above `max_size()`, and
`resize` throws `std::length_error` before it changes anything. -/
def ZAM_vector.GrowVector (s : State) (this : Ptr) (new_size : Int) : Except Fault State := do
  let z ← s.getZAM_vector this
  let old_size := z.zvec.length
  if new_size < 0 then
    .error .LengthError
  else
    let zvec := ZAM_vector.resize z.zvec new_size.toNat
    let zvec := ZAM_vector.GrowVector_loop zvec old_size new_size.toNat
    return s.write this (.ZAM_vector { z with zvec := zvec })

/-- The loop of source lines 354-360; `ctor` is the cell constructor for the
elements.  The `error` flag handed to it is a local of `Freshen` and is
dropped. -/
def ZAM_vector.Freshen_loop
    (ctor : State → Ptr → BroType → Ptr → Ptr → Bool → Except Fault (ZAMValUnion × Bool × State))
    (yt : BroType) (bindings vv this : Ptr) : List Ptr → State → Except Fault State
  | [], s => .ok s
  | elem :: rest, s =>
    if elem == nullptr then do
      let s ← s.zvec_push_back this ZAMValUnion.nil
      ZAM_vector.Freshen_loop ctor yt bindings vv this rest s
    else do
      let (z, _, s) ← ctor s elem yt bindings vv false
      let s ← s.zvec_push_back this z
      ZAM_vector.Freshen_loop ctor yt bindings vv this rest s

/-- Source lines 342-361, over the cell constructor used for the elements.
`ASSERT` is a macro defined outside ZVal.cc; following the spec a failed
assertion is "a programming-error fault, not recoverable at runtime". -/
def ZAM_vector.Freshen_with
    (ctor : State → Ptr → BroType → Ptr → Ptr → Bool → Except Fault (ZAMValUnion × Bool × State))
    (s : State) (this : Ptr) : Except Fault State := do
  let z ← s.getZAM_vector this
  if z.is_dirty then
    .error .AssertFailure
  else do
    let vobj ← s.getVal z.vv
    let vals ← s.get_val_vec vobj.val
    match vobj.type.YieldType with
    | none => .error .BadAccess
    | some yt =>
      let s := s.write this (.ZAM_vector { z with zvec := [] })
      ZAM_vector.Freshen_loop ctor yt z.bindings z.vv this vals s

/-- The method `ZAM_vector::Freshen()`, elements nesting vectors at most `n`
deep. -/
def ZAM_vector.Freshen (h : Host) (n : Nat) (s : State) (this : Ptr) : Except Fault State :=
  ZAM_vector.Freshen_with (ZAMValUnion.ctor h n) s this

/-- The state and handle `new ZAMVector` ends with when the yield type
resolves to `yt`: the managed yield type is recorded on the shadow vector
exactly when `yt` is non-null and managed, and the handle carries `yt`. -/
def ZAMVector.resolved (s : State) (raw : Ptr) (z : ZAM_vector) (yt : Option BroType) :
    Ptr × State :=
  match yt with
  | some y =>
    if IsManagedType y then
      (s.write raw (.ZAM_vector { z with managed_yt := some y })).alloc
        (.ZAMVector { vec := raw, yield_type := some y })
    else s.alloc (.ZAMVector { vec := raw, yield_type := some y })
  | none => s.alloc (.ZAMVector { vec := raw, yield_type := none })

/-! ## Content of a boxed scalar -/

/-- What a boxed scalar holds, for comparing two boxed values by content: the
payload word of a numeric value, the bytes of a string, the bits of an
address, the bits and length of a subnet. -/
inductive Content
  | scalar (word : Nat)
  | string (bytes : List Nat)
  | addr (bits : Nat)
  | subnet (bits : Nat) (len : Nat)
  deriving DecidableEq, Repr

/-- The content of the boxed value `v` in state `s`; `none` when the value is
not a scalar or its payload points to no object of the right class. -/
def State.content (s : State) (v : Val) : Option Content :=
  match v.type.Tag with
  | .TYPE_BOOL | .TYPE_INT | .TYPE_ENUM | .TYPE_COUNT | .TYPE_COUNTER | .TYPE_PORT
  | .TYPE_DOUBLE | .TYPE_INTERVAL | .TYPE_TIME => some (.scalar v.val)
  | .TYPE_STRING =>
    match s.read v.val with
    | some (.BroString bytes) => some (.string bytes)
    | _ => none
  | .TYPE_ADDR =>
    match s.read v.val with
    | some (.IPAddr bits) => some (.addr bits)
    | _ => none
  | .TYPE_SUBNET =>
    match s.read v.val with
    | some (.IPPrefix bits len) => some (.subnet bits len)
    | _ => none
  | _ => none

/-! ## Relating two states -/

/-- Every object of `s` is still there, unchanged, in `s1`. -/
def State.Extends (s s1 : State) : Prop :=
  ∀ q y, s.read q = some y → s1.read q = some y

/-- The shadow vector at `zv` in `s` mirrors `vv` and is clean. -/
def State.CleanMirror (s : State) (zv vv : Ptr) : Prop :=
  ∃ z, s.read zv = some (.ZAM_vector z) ∧ z.vv = vv ∧ z.is_dirty = false

/-! ## A concrete host and concrete states -/

/-- The type descriptors the example host keeps at addresses 1000, 1001, ... -/
def exampleTypes : List BroType :=
  [.base .TYPE_INT, .base .TYPE_COUNT, .base .TYPE_STRING, .vector (.base .TYPE_INT)]

/-- A host for evaluating the code on concrete inputs: the names of Zeek's
`type_name` table, Zeek's assignment of internal storage kinds to tags
(void 0, int 1, unsigned 2, double 3, string 4, addr 5, subnet 6, other 7,
error 8), a small table of type descriptors, and port values interned from
address 2000 on. -/
def exampleHost : Host where
  type_name := fun t =>
    match t with
    | .TYPE_VOID => "void" | .TYPE_BOOL => "bool" | .TYPE_INT => "int"
    | .TYPE_COUNT => "count" | .TYPE_COUNTER => "counter" | .TYPE_DOUBLE => "double"
    | .TYPE_TIME => "time" | .TYPE_INTERVAL => "interval" | .TYPE_STRING => "string"
    | .TYPE_PATTERN => "pattern" | .TYPE_ENUM => "enum" | .TYPE_TIMER => "timer"
    | .TYPE_PORT => "port" | .TYPE_ADDR => "addr" | .TYPE_SUBNET => "subnet"
    | .TYPE_ANY => "any" | .TYPE_TABLE => "table" | .TYPE_UNION => "union"
    | .TYPE_RECORD => "record" | .TYPE_LIST => "types" | .TYPE_FUNC => "func"
    | .TYPE_FILE => "file" | .TYPE_VECTOR => "vector" | .TYPE_OPAQUE => "opaque"
    | .TYPE_TYPE => "type" | .TYPE_ERROR => "error"
  InternalType := fun t =>
    match t.Tag with
    | .TYPE_VOID => 0
    | .TYPE_BOOL | .TYPE_INT | .TYPE_ENUM => 1
    | .TYPE_COUNT | .TYPE_COUNTER | .TYPE_PORT => 2
    | .TYPE_DOUBLE | .TYPE_TIME | .TYPE_INTERVAL => 3
    | .TYPE_STRING => 4
    | .TYPE_ADDR => 5
    | .TYPE_SUBNET => 6
    | .TYPE_ERROR => 8
    | _ => 7
  TYPE_INTERNAL_OTHER := 7
  typeAddr := fun t => 1000 + exampleTypes.indexOf t
  typeAt := fun p => if p < 1000 then none else exampleTypes[p - 1000]?
  GetPort := fun n => 2000 + n

/-- A state with the boxed string "hi" at address 2. -/
def stringState : State :=
  ⟨[.BroString [104, 105], .Val ⟨.base .TYPE_STRING, 1, 1⟩], []⟩

/-- A state with a boxed record value at address 1. -/
def recordState : State :=
  ⟨[.Val ⟨.base .TYPE_RECORD, 0, 1⟩], []⟩

/-- A state with an empty boxed `vector of string` at address 2. -/
def stringVectorState : State :=
  ⟨[.val_vec [], .Val ⟨.vector (.base .TYPE_STRING), 1, 1⟩], []⟩

/-- A state with the boxed `vector of any` `[<hole>, 5]` at address 3; the
count 5 is the boxed value at address 1. -/
def anyVectorHoleFirst : State :=
  ⟨[.Val ⟨.base .TYPE_COUNT, 5, 1⟩, .val_vec [nullptr, 1],
    .Val ⟨.vector (.base .TYPE_ANY), 2, 1⟩], []⟩

/-- The same vector with the hole second: `[5, <hole>]`. -/
def anyVectorHoleSecond : State :=
  ⟨[.Val ⟨.base .TYPE_COUNT, 5, 1⟩, .val_vec [1, nullptr],
    .Val ⟨.vector (.base .TYPE_ANY), 2, 1⟩], []⟩

/-- A state with the boxed `vector of int` `[1, <hole>]` at address 3 and, at
address 4, a dirty shadow vector mirroring it whose slots are `[1, 2]`. -/
def dirtyState : State :=
  ⟨[.Val ⟨.base .TYPE_INT, 1, 1⟩, .val_vec [1, nullptr],
    .Val ⟨.vector (.base .TYPE_INT), 2, 1⟩,
    .ZAM_vector ⟨[⟨1⟩, ⟨2⟩], 3, true, none, nullptr⟩], []⟩

/-- The state `Spill` makes of `dirtyState`: the old backing storage
released and its element unreferenced, a new backing storage `[1, 2]` at
address 5 with its two boxed integers at 6 and 7, the dirty flag clear. -/
def spilledState : State :=
  ⟨[.Val ⟨.base .TYPE_INT, 1, 0⟩, .freed,
    .Val ⟨.vector (.base .TYPE_INT), 5, 1⟩,
    .ZAM_vector ⟨[⟨1⟩, ⟨2⟩], 3, false, none, nullptr⟩,
    .val_vec [6, 7],
    .Val ⟨.base .TYPE_INT, 1, 1⟩, .Val ⟨.base .TYPE_INT, 2, 1⟩], []⟩

/-- A state whose only object, at address 1, is a shadow vector with the two
slots `[7, 9]` that mirrors nothing. -/
def twoSlotState : State :=
  ⟨[.ZAM_vector ⟨[⟨7⟩, ⟨9⟩], nullptr, false, none, nullptr⟩], []⟩

/-- A state for `SetManagedElement` on strings: the string "a" at address 1,
a shadow vector of managed yield type string at address 2 whose slots are
`[<the string at 1>, <nil>]`, and the string "b" at address 3. -/
def stringSlotsState : State :=
  ⟨[.BroString [97], .ZAM_vector ⟨[⟨1⟩, ⟨nullptr⟩], nullptr, false, some (.base .TYPE_STRING), nullptr⟩,
    .BroString [98]], []⟩

/-- A state for `SetManagedElement` on vectors: an empty shadow vector at
address 1 with a handle at address 2, and at address 3 a shadow vector of
managed yield type `vector of int` with the single nil slot. -/
def vectorSlotsState : State :=
  ⟨[.ZAM_vector ⟨[], nullptr, false, none, nullptr⟩,
    .ZAMVector ⟨1, none⟩,
    .ZAM_vector ⟨[⟨nullptr⟩], nullptr, false, some (.vector (.base .TYPE_INT)), nullptr⟩], []⟩

/-- A state with the boxed `vector of any` `[<hole>]` at address 2 and, at
address 3, a clean shadow vector mirroring it with its one nil slot. -/
def anyHoleShadow : State :=
  ⟨[.val_vec [nullptr], .Val ⟨.vector (.base .TYPE_ANY), 1, 1⟩,
    .ZAM_vector ⟨[⟨nullptr⟩], 2, false, none, nullptr⟩], []⟩

/-- A state with a boxed table value at address 1. -/
def tableState : State :=
  ⟨[.Val ⟨.base .TYPE_TABLE, 0, 1⟩], []⟩

/-- The type that a boxed type value denotes: the descriptor inside the
`TypeType` that is its declared type. -/
def Val.denoted (v : Val) : Option BroType :=
  match v.type with
  | .typetype d => some d
  | _ => none

/-- The descriptors of the types `type(int)` and `type(string)`, which the
host `typeHost` keeps at addresses 1000 and 1001. -/
def typeTable : List BroType :=
  [.typetype (.base .TYPE_INT), .typetype (.base .TYPE_STRING)]

/-- The example host with `typeTable` as its table of type descriptors. -/
def typeHost : Host :=
  { exampleHost with
    typeAddr := fun t => 1000 + typeTable.indexOf t
    typeAt := fun p => if p < 1000 then none else typeTable[p - 1000]? }

/-- A state with a boxed type value denoting `int` at address 1. -/
def typeValState : State :=
  ⟨[.Val ⟨.typetype (.base .TYPE_INT), 0, 1⟩], []⟩

/-- The cells that the loop of `Freshen` and of `to_raw_ZAM_vector` appends,
taken on their own: for the boxed entries in order, the nil cell for a null
entry and otherwise the cell the constructor returns for the entry, each
construction starting in the state the one before it left. -/
def ctor_seq
    (ctor : State → Ptr → BroType → Ptr → Ptr → Bool → Except Fault (ZAMValUnion × Bool × State))
    (yt : BroType) (bindings vec : Ptr) : List Ptr → State → Except Fault (List ZAMValUnion × State)
  | [], s => .ok ([], s)
  | elem :: rest, s =>
    if elem == nullptr then do
      let (cells, s) ← ctor_seq ctor yt bindings vec rest s
      .ok (ZAMValUnion.nil :: cells, s)
    else do
      let (z, _, s) ← ctor s elem yt bindings vec false
      let (cells, s) ← ctor_seq ctor yt bindings vec rest s
      .ok (z :: cells, s)

/-- The entries that the loop of `Spill` appends, taken on their own: for the
slots in order, the null entry for a slot that `IsNil` and otherwise the
boxed value `ToVal` returns for the slot, each conversion starting in the
state the one before it left. -/
def Spill_entries
    (ToVal : State → ZAMValUnion → BroType → Except Fault (Ptr × State))
    (yt : BroType) : List ZAMValUnion → State → Except Fault (List Ptr × State)
  | [], s => .ok ([], s)
  | elem :: rest, s =>
    if elem.IsNil yt then do
      let (ps, s) ← Spill_entries ToVal yt rest s
      .ok (nullptr :: ps, s)
    else do
      let (p, s) ← ToVal s elem yt
      let (ps, s) ← Spill_entries ToVal yt rest s
      .ok (p :: ps, s)

/-- An object without its reference count. -/
def Obj.core : Obj → Obj
  | .Val v => .Val { v with ref_cnt := 0 }
  | .Func ftype _ => .Func ftype 0
  | .BroFile _ => .BroFile 0
  | o => o

/-- Every object of `s` is still there in `s1`, the same but for its
reference count. -/
def State.Keeps (s s1 : State) : Prop :=
  ∀ q y, s.read q = some y → ∃ y1, s1.read q = some y1 ∧ y1.core = y.core

/-- The cell `e` validly holds a value of type `yt` in state `s`, so that
`ToVal` at depth `n` can convert it: nothing is asked of a numeric cell; a
string, address or subnet cell points to such an object; a function or file
cell to a function or file; a list, opaque, pattern, record, table or "any"
cell to a boxed value; a type cell to a type descriptor of the host; a vector
cell to a handle whose shadow vector is clean and mirrors a boxed vector.  No
cell validly holds a value of type error, timer, union or void. -/
def SlotValid (h : Host) (n : Nat) (s : State) (yt : BroType) (e : ZAMValUnion) : Prop :=
  match yt.Tag with
  | .TYPE_BOOL | .TYPE_INT | .TYPE_ENUM | .TYPE_COUNT | .TYPE_COUNTER | .TYPE_PORT
  | .TYPE_DOUBLE | .TYPE_INTERVAL | .TYPE_TIME => True
  | .TYPE_STRING => ∃ bytes, s.read e.string_val = some (.BroString bytes)
  | .TYPE_ADDR => ∃ bits, s.read e.addr_val = some (.IPAddr bits)
  | .TYPE_SUBNET => ∃ bits len, s.read e.subnet_val = some (.IPPrefix bits len)
  | .TYPE_FUNC => ∃ ftype rc, s.read e.func_val = some (.Func ftype rc)
  | .TYPE_FILE => ∃ rc, s.read e.file_val = some (.BroFile rc)
  | .TYPE_LIST | .TYPE_OPAQUE | .TYPE_PATTERN | .TYPE_RECORD | .TYPE_TABLE | .TYPE_ANY =>
    ∃ v, s.read e.word = some (.Val v)
  | .TYPE_TYPE => ∃ d, h.typeAt e.type_val = some d
  | .TYPE_VECTOR =>
    n ≠ 0 ∧ ∃ zv z, s.read e.vector_val = some (.ZAMVector zv)
      ∧ s.read zv.vec = some (.ZAM_vector z) ∧ z.vv ≠ nullptr ∧ z.is_dirty = false
  | .TYPE_ERROR | .TYPE_TIMER | .TYPE_UNION | .TYPE_VOID => False

/-- A boxed vector of integers `[1, <hole>, 3]` at address 4, its backing
storage at address 3, and at address 5 a clean shadow vector mirroring it
that has no slots yet. -/
def intVecState : State :=
  ⟨[.Val ⟨.base .TYPE_INT, 1, 1⟩, .Val ⟨.base .TYPE_INT, 3, 1⟩, .val_vec [1, nullptr, 2],
    .Val ⟨.vector (.base .TYPE_INT), 3, 1⟩,
    .ZAM_vector ⟨[], 4, false, none, nullptr⟩], []⟩

/-- The boxed value at `p` is a well-formed element for the element type
`yt`: it passes the type check of the cell constructor (source lines 77-79)
and its payload is the address of an object of the class its kind reads, a
string, address, subnet, function or file; for a type value the host knows
the descriptor `yt` at a non-null address.  Elements that are vectors
themselves are left out, and no element has type error, timer, union or
void. -/
def ElemValid (h : Host) (s : State) (yt : BroType) (p : Ptr) : Prop :=
  ∃ v, s.read p = some (.Val v)
    ∧ (v.type.Tag != yt.Tag && yt.Tag != .TYPE_ANY
        && (h.InternalType yt == h.TYPE_INTERNAL_OTHER
            || h.InternalType yt != h.InternalType v.type)) = false
    ∧ match yt.Tag with
      | .TYPE_STRING => ∃ bytes, s.read v.val = some (.BroString bytes)
      | .TYPE_ADDR => ∃ bits, s.read v.val = some (.IPAddr bits)
      | .TYPE_SUBNET => ∃ bits len, s.read v.val = some (.IPPrefix bits len)
      | .TYPE_FUNC => ∃ ftype rc, s.read v.val = some (.Func ftype rc)
      | .TYPE_FILE => ∃ rc, s.read v.val = some (.BroFile rc)
      | .TYPE_TYPE => h.typeAddr yt ≠ nullptr ∧ ∃ d, h.typeAt (h.typeAddr yt) = some d
      | .TYPE_VECTOR | .TYPE_ERROR | .TYPE_TIMER | .TYPE_UNION | .TYPE_VOID => False
      | _ => True

/-- The boxed values of a run of `ToVal` over the slots in order, each
conversion starting in the state the one before it left. -/
def ToVal_seq
    (ToVal : State → ZAMValUnion → BroType → Except Fault (Ptr × State))
    (yt : BroType) : List ZAMValUnion → State → Except Fault (List Ptr × State)
  | [], s => .ok ([], s)
  | elem :: rest, s => do
    let (p, s) ← ToVal s elem yt
    let (ps, s) ← ToVal_seq ToVal yt rest s
    .ok (p :: ps, s)

/-- The state of `intVecState` after `Freshen` on the shadow vector at address
5, the assignment of integer 2 to slot 1 and `ModVec`: the slots are
`[1, 2, 3]` and the shadow vector is dirty. -/
def intVecDirty : State :=
  ⟨[.Val ⟨.base .TYPE_INT, 1, 1⟩, .Val ⟨.base .TYPE_INT, 3, 1⟩, .val_vec [1, nullptr, 2],
    .Val ⟨.vector (.base .TYPE_INT), 3, 1⟩,
    .ZAM_vector ⟨[⟨1⟩, ⟨2⟩, ⟨3⟩], 4, true, none, nullptr⟩], []⟩

/-- A state with the boxed `vector of string` `["hi", <hole>]` at address 4,
its backing storage at address 3, and at address 5 a clean shadow vector
mirroring it that has no slots yet. -/
def stringHoleState : State :=
  ⟨[.BroString [104, 105], .Val ⟨.base .TYPE_STRING, 1, 1⟩, .val_vec [2, nullptr],
    .Val ⟨.vector (.base .TYPE_STRING), 3, 1⟩,
    .ZAM_vector ⟨[], 4, false, some (.base .TYPE_STRING), nullptr⟩], []⟩

/-- A state with a shadow vector at address 1 that mirrors nothing, grown to
the two slots `[5, <nil>]`, and its handle at address 2. -/
def grownState : State :=
  ⟨[.ZAM_vector ⟨[⟨5⟩, ZAMValUnion.nil], nullptr, false, none, nullptr⟩,
    .ZAMVector ⟨1, none⟩], []⟩

/-- A state with a dirty shadow vector at address 1 that mirrors nothing and
has the one slot `[5]`, and its handle at address 2. -/
def dirtyOutputState : State :=
  ⟨[.ZAM_vector ⟨[⟨5⟩], nullptr, true, none, nullptr⟩, .ZAMVector ⟨1, none⟩], []⟩

/-- A state with the boxed count 5 at address 1, a shadow vector at address 2
that mirrors nothing and has the slots `[<the value at 1>, <nil>]`, and its
handle at address 3. -/
def anyOutputState : State :=
  ⟨[.Val ⟨.base .TYPE_COUNT, 5, 1⟩,
    .ZAM_vector ⟨[⟨1⟩, ZAMValUnion.nil], nullptr, false, none, nullptr⟩,
    .ZAMVector ⟨2, none⟩], []⟩

/-- One level of `ElemOK`; `inner` is the condition on the entries of an
element that is itself a vector.  Such an element is a boxed value that
passes the type check of the cell constructor and whose type has a yield
type, as the target type has; either the two yield types clash (lines
118-121: the constructor reports it and returns), or the element has a
backing storage whose entries that are not null meet `inner` for the yield
type of the element and, when that yield type is "any", whose entry 0 is not
null (lines 386-387 read it).  Any other element is well-formed as
`ElemValid` says. -/
def ElemOK_step (h : Host) (inner : State → BroType → Ptr → Prop)
    (s : State) (yt : BroType) (p : Ptr) : Prop :=
  if yt.Tag = .TYPE_VECTOR then
    ∃ v my_yt v_yt, s.read p = some (.Val v)
      ∧ (v.type.Tag != yt.Tag && yt.Tag != .TYPE_ANY
          && (h.InternalType yt == h.TYPE_INTERNAL_OTHER
              || h.InternalType yt != h.InternalType v.type)) = false
      ∧ yt.YieldType = some my_yt ∧ v.type.YieldType = some v_yt
      ∧ ((my_yt.Tag != v_yt.Tag && my_yt.Tag != .TYPE_ANY && v_yt.Tag != .TYPE_ANY) = true
        ∨ ∃ elems, s.read v.val = some (.val_vec elems)
            ∧ (∀ q ∈ elems, q ≠ nullptr → inner s v_yt q)
            ∧ (v_yt.Tag = .TYPE_ANY → elems.head? ≠ some nullptr))
  else ElemValid h s yt p

/-- The boxed value at `p` is a well-formed element for the element type
`yt`, vectors nesting at most `n` deep. -/
def ElemOK (h : Host) : Nat → State → BroType → Ptr → Prop
  | 0 => ElemValid h
  | n + 1 => ElemOK_step h (ElemOK h n)

/-- A state with a boxed `vector of vector of int` `[[1], <hole>]` at address
5 (the inner vector at address 3) and, at address 6, a clean shadow vector
mirroring it that has no slots yet. -/
def nestedVecState : State :=
  ⟨[.Val ⟨.base .TYPE_INT, 1, 1⟩, .val_vec [1],
    .Val ⟨.vector (.base .TYPE_INT), 2, 1⟩, .val_vec [3, nullptr],
    .Val ⟨.vector (.vector (.base .TYPE_INT)), 4, 1⟩,
    .ZAM_vector ⟨[], 5, false, none, nullptr⟩], []⟩

/-- What may become of an object while cells are converted: a boxed value
keeps its type; a string, address, subnet or vector handle stays as it is,
a function or file but for its reference count; a shadow vector that mirrors
a boxed vector and is not dirty stays as it is. -/
def Obj.Light (y y1 : Obj) : Prop :=
  match y with
  | .Val v => ∃ v1, y1 = .Val v1 ∧ v1.type = v.type
  | .val_vec _ => True
  | .ZAM_vector z =>
    ∃ z1, y1 = .ZAM_vector z1 ∧ (z.vv ≠ nullptr → z.is_dirty = false → z1 = z)
  | .freed => True
  | _ => y1.core = y.core

/-- Every object of `c` is still there in `c1`: outside the addresses `F` the
same but for its reference count, and at every address as `Obj.Light`
says. -/
def State.Frame (F : List Nat) (c c1 : State) : Prop :=
  ∀ q y, c.read q = some y → ∃ y1, c1.read q = some y1
    ∧ (q ∉ F → y1.core = y.core) ∧ y.Light y1

/-- The handles of the vector cells `e` and `e1` share one shadow vector,
which the conversion of `e` rewrites (it is among the addresses `F`) and
leaves flushed: it mirrors a boxed vector, or mirrors nothing and is not
dirty. -/
def SameShadow (c : State) (t : BroType) (e : ZAMValUnion) (F : List Nat)
    (e1 : ZAMValUnion) : Prop :=
  t.Tag = .TYPE_VECTOR
    ∧ ∃ zv zv1 z, c.read e.vector_val = some (.ZAMVector zv)
      ∧ c.read e1.vector_val = some (.ZAMVector zv1) ∧ zv1.vec = zv.vec
      ∧ c.read zv.vec = some (.ZAM_vector z) ∧ zv.vec ∈ F
      ∧ (z.vv ≠ nullptr ∨ z.is_dirty = false)

/-- The slots of a shadow vector are well-formed for the element type `yt`,
with the addresses each conversion rewrites: a slot that `IsNil` rewrites
nothing, any other slot meets `inner`, and a slot and a later slot either
rewrite no common address or share one shadow vector as `SameShadow` says. -/
def SlotsOK_with (inner : State → BroType → ZAMValUnion → List Nat → Prop)
    (c : State) (yt : BroType) : List ZAMValUnion → List (List Nat) → Prop
  | [], [] => True
  | e :: rest, F :: Fs =>
    (if e.IsNil yt = true then F = [] else inner c yt e F)
      ∧ List.Forall₂ (fun e1 F1 => List.Disjoint F F1 ∨ SameShadow c yt e F e1) rest Fs
      ∧ SlotsOK_with inner c yt rest Fs
  | _, _ => False

/-- The shadow vector `z` at address `this` mirrors a boxed vector that is
there with its backing storage, the entries of the storage are null or boxed
values, and the slots are well-formed for the declared element type; `F`
lists the addresses a flush rewrites: the shadow vector, the boxed vector,
its backing storage, and what the conversions of the slots rewrite, which is
none of these three. -/
def MirrorOK (inner : State → BroType → ZAMValUnion → List Nat → Prop)
    (c : State) (this : Ptr) (z : ZAM_vector) (F : List Nat) : Prop :=
  ∃ vobj yt old Fs, c.read z.vv = some (.Val vobj) ∧ vobj.type.YieldType = some yt
    ∧ c.read vobj.val = some (.val_vec old)
    ∧ (∀ p ∈ old, p = nullptr ∨ ∃ v, c.read p = some (.Val v))
    ∧ SlotsOK_with inner c yt z.zvec Fs
    ∧ this ∉ Fs.flatten ∧ z.vv ∉ Fs.flatten ∧ vobj.val ∉ Fs.flatten
    ∧ F = this :: z.vv :: vobj.val :: Fs.flatten

/-- The shadow vector `z` at address `this`, reached through the handle `zv`
by a cell of type `t`, mirrors nothing, and its slots are well-formed for the
resolved element type; `F` lists the addresses that building the boxed vector
rewrites: the shadow vector and what the conversions of the slots rewrite. -/
def BuildOK (inner : State → BroType → ZAMValUnion → List Nat → Prop)
    (c : State) (t : BroType) (zv : ZAMVector) (z : ZAM_vector) (F : List Nat) : Prop :=
  ∃ yt Fs, t.YieldType = some yt
    ∧ SlotsOK_with inner c (zv.yield_type.getD yt) z.zvec Fs
    ∧ zv.vec ∉ Fs.flatten ∧ F = zv.vec :: Fs.flatten

/-- One level of `CellOK`; `inner` is the condition on the slots of an inner
vector.  A vector cell points to a handle of a shadow vector that either
mirrors a boxed vector and is not dirty, or mirrors one, is dirty and can be
flushed (`MirrorOK`), or mirrors none and can be boxed (`BuildOK`).  Any other
cell is well-formed as `SlotValid` says and its conversion rewrites
nothing. -/
def CellOK_step (h : Host) (inner : State → BroType → ZAMValUnion → List Nat → Prop)
    (c : State) (t : BroType) (e : ZAMValUnion) (F : List Nat) : Prop :=
  if t.Tag = .TYPE_VECTOR then
    ∃ zv z, c.read e.vector_val = some (.ZAMVector zv) ∧ c.read zv.vec = some (.ZAM_vector z)
      ∧ ((z.vv ≠ nullptr ∧ z.is_dirty = false ∧ F = [])
        ∨ (z.vv ≠ nullptr ∧ z.is_dirty = true ∧ MirrorOK inner c zv.vec z F)
        ∨ (z.vv = nullptr ∧ BuildOK inner c t zv z F))
  else SlotValid h 0 c t e ∧ F = []

/-- The cell `e` is well-formed for the type `t` in state `c`, vectors
nesting at most `n` deep, and `F` lists the addresses of the objects that its
conversion rewrites (other than reference counts). -/
def CellOK (h : Host) : Nat → State → BroType → ZAMValUnion → List Nat → Prop
  | 0 => fun c t e F => t.Tag ≠ .TYPE_VECTOR ∧ SlotValid h 0 c t e ∧ F = []
  | n + 1 => CellOK_step h (CellOK h n)

/-- The conversion `T` returns on every cell that meets `inner`, rewrites at
most the addresses listed, returns a pointer that is not null (the interned
port values apart) and is the held pointer for an "any" cell, does not read
a backing storage outside the addresses listed, and leaves every cell that
shares the shadow vector of the cell with nothing left to rewrite. -/
def Converts (T : State → ZAMValUnion → BroType → Except Fault (Ptr × State))
    (inner : State → BroType → ZAMValUnion → List Nat → Prop) : Prop :=
  ∀ c t e F, inner c t e F →
    ∃ p c1, T c e t = .ok (p, c1) ∧ State.Frame F c c1
      ∧ (t.Tag ≠ .TYPE_PORT → p ≠ nullptr) ∧ (t.Tag = .TYPE_ANY → p = e.any_val)
      ∧ (∀ (a : Nat) (X Y : List Ptr), c.read a = some (.val_vec X) → a ∉ F →
          T (c.write a (.val_vec Y)) e t = .ok (p, c1.write a (.val_vec Y)))
      ∧ ∀ e1, SameShadow c t e F e1 → inner c1 t e1 []

/-- The condition `inner` on a cell survives every change of the state that
leaves alone the addresses its conversion rewrites. -/
def Stable (inner : State → BroType → ZAMValUnion → List Nat → Prop) : Prop :=
  ∀ c c1 t e F G, inner c t e F → State.Frame G c c1 → (∀ q ∈ F, q ∉ G) → inner c1 t e F

/-- The addresses a conversion rewrites hold objects. -/
def Allocated (inner : State → BroType → ZAMValUnion → List Nat → Prop) : Prop :=
  ∀ c t e F, inner c t e F → ∀ q ∈ F, c.read q ≠ none

/-- The backing storage the loop of `ToVector` leaves: starting from the
storage `L` and the index `i`, the pointer of every slot that is not nil is
assigned at the index of the slot, the storage being extended with null
entries up to that index first. -/
def VectorVal.stored (yt : BroType) : Nat → List ZAMValUnion → List Ptr → List Ptr → List Ptr
  | i, e :: rest, p :: ps, L =>
    if e.IsNil yt then VectorVal.stored yt (i + 1) rest ps L
    else VectorVal.stored yt (i + 1) rest ps
      ((L ++ List.replicate (i + 1 - L.length) nullptr).set i p)
  | _, _, _, L => L

/-- A state with a dirty shadow vector at address 5 that mirrors the boxed
`vector of vector of int` at address 4 (backing storage at address 3, no
entries) and has two slots, both the handle at address 2 of one shadow vector
at address 1, which has the one slot `[7]` and mirrors nothing. -/
def nestedDirtyState : State :=
  ⟨[.ZAM_vector ⟨[⟨7⟩], nullptr, false, none, nullptr⟩, .ZAMVector ⟨1, none⟩, .val_vec [],
    .Val ⟨.vector (.vector (.base .TYPE_INT)), 3, 1⟩,
    .ZAM_vector ⟨[⟨2⟩, ⟨2⟩], 4, true, none, nullptr⟩], []⟩

/-- A state with a shadow vector at address 6 that mirrors nothing, its
handle at address 7, and two slots, both the handle at address 5 of one dirty
shadow vector at address 4, which has the one slot `[9]` and mirrors the
boxed `vector of int` at address 3 (backing storage at address 2, holding the
boxed integer 4 of address 1). -/
def nestedOutputState : State :=
  ⟨[.Val ⟨.base .TYPE_INT, 4, 1⟩, .val_vec [1], .Val ⟨.vector (.base .TYPE_INT), 2, 1⟩,
    .ZAM_vector ⟨[⟨9⟩], 3, true, none, nullptr⟩, .ZAMVector ⟨4, none⟩,
    .ZAM_vector ⟨[⟨5⟩, ⟨5⟩], nullptr, false, none, nullptr⟩, .ZAMVector ⟨6, none⟩], []⟩

/-! ## Classifier and nil test: what the code computes -/

/-- The classifier looks at the tag alone: it answers true exactly on the four
tags that `DeleteManagedType` releases. -/
theorem IsManagedType_iff_tag (t : BroType) :
    IsManagedType t = true ↔
      (t.Tag = .TYPE_ADDR ∨ t.Tag = .TYPE_SUBNET ∨ t.Tag = .TYPE_STRING
        ∨ t.Tag = .TYPE_VECTOR) := by
  unfold IsManagedType IsAny
  cases h : t.Tag <;> simp

/-- Releasing through `delete` never takes the fatal path. -/
theorem State.delete_ne_InternalError (s : State) (p : Ptr) (msg : String) :
    s.delete p ≠ .error (.InternalError msg) := by
  unfold State.delete
  split
  · simp
  · split <;> simp

/-- C1 (code defect).  The claim wants `IsManagedType` false on a vector whose
element type is "any".  Line 38 tests the tag of the vector type itself with
`IsAny`, which is never `TYPE_ANY` there, so the code answers true on
`vector of any`, although `IsAnyVec` recognises that type. -/
theorem C1_IsManagedType_vector_of_any :
    IsManagedType (.vector (.base .TYPE_ANY)) = true
      ∧ IsAnyVec (.vector (.base .TYPE_ANY)) = some true
      ∧ ∀ yt : BroType, IsManagedType (.vector yt) = true := by
  refine ⟨by decide, by decide, ?_⟩
  intro yt
  simp [IsManagedType, IsAny, BroType.Tag]

/-- C2 (code defect).  The claim counts the vector alternative among the
pointer alternatives that are nil when null.  `IsNil` has no case for
`TYPE_VECTOR`: for every vector type the cell holding the null pointer, like
every other cell, is reported not nil. -/
theorem C2_IsNil_vector_null_is_false :
    ZAMValUnion.IsNil ⟨nullptr⟩ (.vector (.base .TYPE_INT)) = false
      ∧ (∀ (z : ZAMValUnion) (yt : BroType), z.IsNil (.vector yt) = false)
      ∧ ∀ (z : ZAMValUnion) (t : BroType), t.Tag ≠ .TYPE_VECTOR →
          (z.IsNil t = true ↔
            (t.Tag ∈ [TypeTag.TYPE_STRING, .TYPE_ADDR, .TYPE_SUBNET, .TYPE_FUNC, .TYPE_FILE,
                .TYPE_LIST, .TYPE_OPAQUE, .TYPE_PATTERN, .TYPE_RECORD, .TYPE_TABLE,
                .TYPE_TYPE, .TYPE_ANY]
              ∧ z.word = nullptr)) := by
  refine ⟨by decide, ?_, ?_⟩
  · intro z yt
    simp [ZAMValUnion.IsNil, BroType.Tag]
  · intro z t ht
    unfold ZAMValUnion.IsNil
    cases h : t.Tag <;> simp_all

/-- C3 (code defect).  For the managed type `vector of int`,
`DeleteManagedType` completes on the cell holding the null pointer and leaves
the null pointer in it, yet `IsNil` on the resulting cell answers false; the
same holds whenever `DeleteManagedType` completes on a vector type.  On an
address, subnet or string type the cell is nil once `DeleteManagedType` has
completed, as the claim says. -/
theorem C3_DeleteManagedType_vector_not_nil :
    IsManagedType (.vector (.base .TYPE_INT)) = true
      ∧ DeleteManagedType ⟨[], []⟩ ⟨nullptr⟩ (.vector (.base .TYPE_INT))
          = .ok (⟨nullptr⟩, ⟨[], []⟩)
      ∧ ZAMValUnion.IsNil ⟨nullptr⟩ (.vector (.base .TYPE_INT)) = false
      ∧ (∀ (s s1 : State) (v v1 : ZAMValUnion) (yt : BroType),
          DeleteManagedType s v (.vector yt) = .ok (v1, s1) → v1.IsNil (.vector yt) = false)
      ∧ ∀ (s s1 : State) (v v1 : ZAMValUnion) (t : BroType),
          (t.Tag = .TYPE_ADDR ∨ t.Tag = .TYPE_SUBNET ∨ t.Tag = .TYPE_STRING) →
          DeleteManagedType s v t = .ok (v1, s1) → v1.IsNil t = true := by
  refine ⟨by decide, by decide, by decide, ?_, ?_⟩
  · intro s s1 v v1 yt _
    simp [ZAMValUnion.IsNil, BroType.Tag]
  · intro s s1 v v1 t ht hd
    unfold DeleteManagedType at hd
    rcases ht with ht | ht | ht <;>
      · simp only [ht] at hd
        cases hdel : s.delete v.word with
        | error e =>
          simp [hdel, bind, Except.bind] at hd
        | ok s2 =>
          simp [hdel, bind, Except.bind, pure, Except.pure] at hd
          rw [← hd.1]
          simp [ZAMValUnion.IsNil, ht]

/-- C4.  `DeleteManagedType(cell, t)` ends in the fatal report "type
inconsistency in DeleteManagedType" exactly when `IsManagedType(t)` is false:
for every state, cell and type. -/
theorem C4_DeleteManagedType_fatal_iff_not_managed
    (s : State) (v : ZAMValUnion) (t : BroType) :
    DeleteManagedType s v t
        = .error (.InternalError "type inconsistency in DeleteManagedType")
      ↔ IsManagedType t = false := by
  have hd : ∀ p : Ptr,
      (do let s1 ← s.delete p; pure ((⟨nullptr⟩ : ZAMValUnion), s1) :
          Except Fault (ZAMValUnion × State))
        ≠ .error (.InternalError "type inconsistency in DeleteManagedType") := by
    intro p
    have h1 := State.delete_ne_InternalError s p "type inconsistency in DeleteManagedType"
    cases h2 : s.delete p with
    | error e =>
      rw [h2] at h1
      intro h3
      apply h1
      simpa [bind, Except.bind] using h3
    | ok s1 => simp [bind, Except.bind, pure, Except.pure]
  unfold DeleteManagedType IsManagedType IsAny
  cases h : t.Tag <;> simp <;> exact hd _

/-- C7.  Constructing a cell from the null boxed value, for every target
type, bindings, source context, incoming error flag and depth: the
computation returns (no fatal path), the recoverable sink has received
"uninitialized value in compiled code" with the source context and nothing
else new, the caller's error flag is set, and the cell holds integer zero. -/
theorem C7_ctor_null_input (h : Host) (n : Nat) (s : State) (t : BroType)
    (bindings o : Ptr) (error : Bool) :
    ZAMValUnion.ctor h n s nullptr t bindings o error
      = .ok (⟨0⟩, true,
          { s with log := s.log ++ [("uninitialized value in compiled code", o)] })
      ∧ (⟨0⟩ : ZAMValUnion).int_val = 0 := by
  constructor
  · cases n <;> simp [ZAMValUnion.ctor, ZAMValUnion.ctor_step, ZAM_run_time_error]
  · rfl

/-! ## Store lemmas -/

@[simp] theorem Except_ok_bind {ε α β : Type} (x : α) (f : α → Except ε β) :
    (Except.ok x >>= f) = f x := rfl

@[simp] theorem Except_error_bind {ε α β : Type} (e : ε) (f : α → Except ε β) :
    ((Except.error e : Except ε α) >>= f) = Except.error e := rfl

theorem Except_bind_eq_ok {ε α β : Type} {x : Except ε α} {f : α → Except ε β} {r : β}
    (h : (x >>= f) = Except.ok r) : ∃ a, x = Except.ok a ∧ f a = Except.ok r := by
  cases x with
  | error e => exact Except.noConfusion h
  | ok a => exact ⟨a, rfl, h⟩

@[simp] theorem Except_pure {ε α : Type} (x : α) : (pure x : Except ε α) = Except.ok x := rfl

@[simp] theorem BroType.Tag_base (tag : TypeTag) : (BroType.base tag).Tag = tag := rfl

@[simp] theorem BroType.Tag_vector (yt : BroType) : (BroType.vector yt).Tag = .TYPE_VECTOR := rfl

@[simp] theorem BroType.Tag_typetype (d : BroType) : (BroType.typetype d).Tag = .TYPE_TYPE := rfl

@[simp] theorem BroType.YieldType_vector (yt : BroType) :
    (BroType.vector yt).YieldType = some yt := rfl


theorem State.read_null (s : State) : s.read nullptr = none := by
  simp [State.read]

theorem State.read_some_ne_null {s : State} {p : Nat} {x : Obj} (h : s.read p = some x) :
    p ≠ 0 := by
  intro hp
  rw [hp, State.read_null] at h
  exact Option.noConfusion h

theorem State.read_some_le {s : State} {p : Nat} {x : Obj} (h : s.read p = some x) :
    p ≤ s.heap.length := by
  unfold State.read at h
  split at h
  · exact Option.noConfusion h
  · rename_i hp
    have hp0 : p ≠ 0 := hp
    obtain ⟨hlt, _⟩ := List.getElem?_eq_some_iff.mp h
    omega

theorem State.alloc_fst (s : State) (x : Obj) : (s.alloc x).1 = s.heap.length + 1 := rfl

theorem State.alloc_log (s : State) (x : Obj) : (s.alloc x).2.log = s.log := rfl

theorem State.alloc_length (s : State) (x : Obj) :
    (s.alloc x).2.heap.length = s.heap.length + 1 := by
  simp [State.alloc]

theorem State.read_alloc_new (s : State) (x : Obj) :
    (s.alloc x).2.read (s.heap.length + 1) = some x := by
  simp [State.read, State.alloc]

theorem State.read_alloc_old {s : State} {p : Nat} {y : Obj} (x : Obj)
    (h : s.read p = some y) : (s.alloc x).2.read p = some y := by
  have hle := State.read_some_le h
  have hne : p ≠ 0 := State.read_some_ne_null h
  unfold State.read at h ⊢
  simp only [hne, if_false] at h ⊢
  simp only [State.alloc]
  rw [List.getElem?_append_left (by omega)]
  exact h

theorem State.read_alloc_self (s : State) (x : Obj) :
    (s.alloc x).2.read (s.alloc x).1 = some x :=
  State.read_alloc_new s x

/-- What `new` guarantees: the new address holds the object, every object
that was there is still there, and the log is untouched. -/
theorem State.alloc_spec (s : State) (x : Obj) :
    ∃ p s1, s.alloc x = (p, s1) ∧ s1.read p = some x
      ∧ (∀ q y, s.read q = some y → s1.read q = some y) ∧ s1.log = s.log :=
  ⟨_, _, rfl, State.read_alloc_self s x, fun _ _ hq => State.read_alloc_old x hq, rfl⟩

theorem State.read_write_self {s : State} {p : Nat} {y : Obj} (x : Obj)
    (h : s.read p = some y) : (s.write p x).read p = some x := by
  have hle := State.read_some_le h
  have hne : p ≠ 0 := State.read_some_ne_null h
  unfold State.read State.write
  simp only [hne, if_false]
  rw [List.getElem?_set_self (by omega)]

theorem State.read_write_other (s : State) {p q : Nat} (x : Obj) (h : q ≠ p) :
    (s.write p x).read q = s.read q := by
  unfold State.read State.write
  by_cases hp : p = 0
  · simp [hp]
  · by_cases hq : q = 0
    · simp [hq]
    · simp only [hp, hq, if_false]
      rw [List.getElem?_set_ne (by omega)]

theorem State.write_log (s : State) (p : Nat) (x : Obj) : (s.write p x).log = s.log := by
  unfold State.write
  split <;> rfl

theorem State.getVal_ok_iff {s : State} {p : Ptr} {v : Val} :
    s.getVal p = .ok v ↔ s.read p = some (.Val v) := by
  unfold State.getVal
  split
  · rename_i w hw
    rw [hw]
    simp
  · rename_i hw
    constructor
    · intro h
      exact Except.noConfusion h
    · intro h
      exact absurd h (hw v)

theorem State.getVal_ne_null {s : State} {p : Nat} {v : Val} (h : s.getVal p = .ok v) :
    p ≠ 0 :=
  State.read_some_ne_null (State.getVal_ok_iff.mp h)

theorem State.alloc_eq_ne_null {s s1 : State} {x : Obj} {p : Nat}
    (h : s.alloc x = (p, s1)) : p ≠ 0 := by
  have : p = s.heap.length + 1 := by
    have h1 := congrArg Prod.fst h
    exact h1.symm
  omega

/-- How `new ZAMVector(raw)` ends when it returns: the handle is allocated
last, in the state it was given or in that state with the managed yield type
recorded on the shadow vector. -/
theorem ZAMVector.ctor_shape {s s1 : State} {raw p : Ptr}
    (h : ZAMVector.ctor s raw = .ok (p, s1)) :
    ∃ s2 yt, (s2 = s ∨ ∃ y, ZAM_vector.SetManagedYieldType s raw y = .ok s2)
      ∧ s2.alloc (.ZAMVector { vec := raw, yield_type := yt }) = (p, s1) := by
  unfold ZAMVector.ctor at h
  cases hz : s.getZAM_vector raw with
  | error e => simp [hz] at h
  | ok zobj =>
    simp only [hz, Except_ok_bind] at h
    split at h
    · simp only [Except.ok.injEq] at h
      exact ⟨s, _, Or.inl rfl, h⟩
    · cases hvv : s.getVal zobj.vv with
      | error e => simp [hvv] at h
      | ok vobj =>
        simp only [hvv, Except_ok_bind] at h
        split at h
        · simp at h
        · rename_i yt0 _
          cases hy : (if (yt0.Tag == TypeTag.TYPE_ANY) = true then
              if zobj.zvec.length > 0 then do
                let elem0 ← VectorVal.Lookup s zobj.vv 0
                let e0 ← s.getVal elem0
                pure (some e0.type)
              else pure none
            else pure (some yt0) : Except Fault (Option BroType)) with
          | error e =>
            rw [hy] at h
            simp at h
          | ok yt =>
            rw [hy] at h
            simp only [Except_ok_bind] at h
            cases yt with
            | none =>
              simp only [Except_pure, Except_ok_bind, Except.ok.injEq] at h
              exact ⟨s, _, Or.inl rfl, h⟩
            | some y =>
              simp only at h
              split at h
              · cases hm : ZAM_vector.SetManagedYieldType s raw y with
                | error e => simp [hm] at h
                | ok s2 =>
                  simp only [hm, Except_ok_bind, Except.ok.injEq] at h
                  exact ⟨s2, _, Or.inr ⟨y, hm⟩, h⟩
              · simp only [Except_pure, Except_ok_bind, Except.ok.injEq] at h
                exact ⟨s, _, Or.inl rfl, h⟩

/-- The handle made by `new ZAMVector` is never null. -/
theorem ZAMVector.ctor_ne_null {s s1 : State} {raw p : Ptr}
    (h : ZAMVector.ctor s raw = .ok (p, s1)) : p ≠ nullptr := by
  obtain ⟨s2, yt, -, ha⟩ := ZAMVector.ctor_shape h
  exact State.alloc_eq_ne_null ha

/-! ## Round trips -/

/-- C5.  Scalar round trip.  Let `v` be a boxed value whose type is int,
count, double, string, address or subnet and which holds a content of that
type.  Constructing a cell from `v` against the type of `v` returns, without
raising the error flag; `ToVal` on that cell with the same type returns a
boxed value of the same type tag whose content equals the content of `v`; and
nothing is reported to the recoverable sink.  This holds at every depth. -/
theorem C5_scalar_round_trip (h : Host) (n m : Nat) (s : State) (v : Ptr) (vobj : Val)
    (bindings o : Ptr) (error : Bool)
    (hv : s.getVal v = .ok vobj)
    (hk : vobj.type.Tag ∈ [TypeTag.TYPE_INT, .TYPE_COUNT, .TYPE_DOUBLE, .TYPE_STRING,
      .TYPE_ADDR, .TYPE_SUBNET])
    (hc : (s.content vobj).isSome = true) :
    ∃ z s1 r s2 robj,
      ZAMValUnion.ctor h n s v vobj.type bindings o error = .ok (z, error, s1)
      ∧ ZAMValUnion.ToVal h m s1 z vobj.type = .ok (r, s2)
      ∧ s2.getVal r = .ok robj
      ∧ robj.type.Tag = vobj.type.Tag
      ∧ s2.content robj = s.content vobj
      ∧ s2.log = s.log := by
  have hne : v ≠ 0 := State.getVal_ne_null hv
  have hctor : ∀ F, ZAMValUnion.ctor h n s v vobj.type bindings o error
      = ZAMValUnion.ctor_step h F s v vobj.type bindings o error := by
    intro F
    cases n <;>
      simp only [ZAMValUnion.ctor, ZAMValUnion.ctor_step] <;>
      simp only [List.mem_cons, List.mem_singleton, List.not_mem_nil, or_false] at hk <;>
      rcases hk with hk | hk | hk | hk | hk | hk <;> simp [hne, hv, hk]
  have htoval : ∀ G s1 z, ZAMValUnion.ToVal h m s1 z vobj.type
      = ZAMValUnion.ToVal_step h G s1 z vobj.type := by
    intro G s1 z
    cases m <;>
      simp only [ZAMValUnion.ToVal, ZAMValUnion.ToVal_step] <;>
      simp only [List.mem_cons, List.mem_singleton, List.not_mem_nil, or_false] at hk <;>
      rcases hk with hk | hk | hk | hk | hk | hk <;> simp [hk]
  rw [hctor (fun _ _ _ _ => .error .OutOfFuel)]
  simp only [htoval (fun _ _ _ => .error .OutOfFuel)]
  simp only [List.mem_cons, List.mem_singleton, List.not_mem_nil, or_false] at hk
  rcases hk with hk | hk | hk | hk | hk | hk
  · obtain ⟨p1, s1, ha1, hr1, -, hlog1⟩ := State.alloc_spec s (.Val ⟨.base .TYPE_INT, vobj.val, 1⟩)
    refine ⟨⟨vobj.val⟩, s, p1, s1, ⟨.base .TYPE_INT, vobj.val, 1⟩, ?_, ?_,
      State.getVal_ok_iff.mpr hr1, by simp [hk], by simp [State.content, hk], hlog1⟩
    · simp [ZAMValUnion.ctor_step, hne, hv, hk]
    · simp [ZAMValUnion.ToVal_step, hk, State.new_Val, ha1]
  · obtain ⟨p1, s1, ha1, hr1, -, hlog1⟩ := State.alloc_spec s (.Val ⟨.base .TYPE_COUNT, vobj.val, 1⟩)
    refine ⟨⟨vobj.val⟩, s, p1, s1, ⟨.base .TYPE_COUNT, vobj.val, 1⟩, ?_, ?_,
      State.getVal_ok_iff.mpr hr1, by simp [hk], by simp [State.content, hk], hlog1⟩
    · simp [ZAMValUnion.ctor_step, hne, hv, hk]
    · simp [ZAMValUnion.ToVal_step, hk, State.new_Val, ha1]
  · obtain ⟨p1, s1, ha1, hr1, -, hlog1⟩ := State.alloc_spec s (.Val ⟨.base .TYPE_DOUBLE, vobj.val, 1⟩)
    refine ⟨⟨vobj.val⟩, s, p1, s1, ⟨.base .TYPE_DOUBLE, vobj.val, 1⟩, ?_, ?_,
      State.getVal_ok_iff.mpr hr1, by simp [hk], by simp [State.content, hk], hlog1⟩
    · simp [ZAMValUnion.ctor_step, hne, hv, hk]
    · simp [ZAMValUnion.ToVal_step, hk, State.new_Val, ha1]
  · have hb : ∃ bytes, s.read vobj.val = some (.BroString bytes) := by
      simp only [State.content, hk] at hc
      split at hc
      · exact ⟨_, by assumption⟩
      · simp at hc
    obtain ⟨bytes, hb⟩ := hb
    obtain ⟨p1, s1, ha1, hr1, -, hlog1⟩ := State.alloc_spec s (.BroString bytes)
    obtain ⟨p2, s2, ha2, hr2, -, hlog2⟩ := State.alloc_spec s1 (.BroString bytes)
    obtain ⟨p3, s3, ha3, hr3, hold3, hlog3⟩ :=
      State.alloc_spec s2 (.Val ⟨.base .TYPE_STRING, p2, 1⟩)
    refine ⟨⟨p1⟩, s1, p3, s3, ⟨.base .TYPE_STRING, p2, 1⟩, ?_, ?_,
      State.getVal_ok_iff.mpr hr3, by simp [hk], ?_, by rw [hlog3, hlog2, hlog1]⟩
    · simp [ZAMValUnion.ctor_step, hne, hv, hk, State.getBroString, hb, ha1]
    · simp [ZAMValUnion.ToVal_step, hk, State.getBroString, hr1, ha2, State.new_Val, ha3]
    · simp [State.content, hk, hb, hold3 _ _ hr2]
  · have hb : ∃ bits, s.read vobj.val = some (.IPAddr bits) := by
      simp only [State.content, hk] at hc
      split at hc
      · exact ⟨_, by assumption⟩
      · simp at hc
    obtain ⟨bits, hb⟩ := hb
    obtain ⟨p1, s1, ha1, hr1, -, hlog1⟩ := State.alloc_spec s (.IPAddr bits)
    obtain ⟨p2, s2, ha2, hr2, -, hlog2⟩ := State.alloc_spec s1 (.IPAddr bits)
    obtain ⟨p3, s3, ha3, hr3, hold3, hlog3⟩ :=
      State.alloc_spec s2 (.Val ⟨.base .TYPE_ADDR, p2, 1⟩)
    refine ⟨⟨p1⟩, s1, p3, s3, ⟨.base .TYPE_ADDR, p2, 1⟩, ?_, ?_,
      State.getVal_ok_iff.mpr hr3, by simp [hk], ?_, by rw [hlog3, hlog2, hlog1]⟩
    · simp [ZAMValUnion.ctor_step, hne, hv, hk, State.getIPAddr, hb, ha1]
    · simp [ZAMValUnion.ToVal_step, hk, State.getIPAddr, hr1, ha2, State.new_Val, ha3]
    · simp [State.content, hk, hb, hold3 _ _ hr2]
  · have hb : ∃ bits len, s.read vobj.val = some (.IPPrefix bits len) := by
      simp only [State.content, hk] at hc
      split at hc
      · exact ⟨_, _, by assumption⟩
      · simp at hc
    obtain ⟨bits, len, hb⟩ := hb
    obtain ⟨p1, s1, ha1, hr1, -, hlog1⟩ := State.alloc_spec s (.IPPrefix bits len)
    obtain ⟨p2, s2, ha2, hr2, -, hlog2⟩ := State.alloc_spec s1 (.IPPrefix bits len)
    obtain ⟨p3, s3, ha3, hr3, hold3, hlog3⟩ :=
      State.alloc_spec s2 (.Val ⟨.base .TYPE_SUBNET, p2, 1⟩)
    refine ⟨⟨p1⟩, s1, p3, s3, ⟨.base .TYPE_SUBNET, p2, 1⟩, ?_, ?_,
      State.getVal_ok_iff.mpr hr3, by simp [hk], ?_, by rw [hlog3, hlog2, hlog1]⟩
    · simp [ZAMValUnion.ctor_step, hne, hv, hk, State.getIPPrefix, hb, ha1]
    · simp [ZAMValUnion.ToVal_step, hk, State.getIPPrefix, hr1, ha2, State.new_Val, ha3]
    · simp [State.content, hk, hb, hold3 _ _ hr2]

/-- C6.  Shared-kind round trip.  Let `v` be a boxed value and `t` a target
type of kind "any", list, ("opaque"), record, table, pattern, function or
file, `v` being of that same kind unless the target is "any" (and, for
function and file, holding a function or file object).  Constructing a cell
from `v` returns without touching the state or the error flag, and `ToVal`
with the same type returns.  For "any", list, opaque, record, table and
pattern the result is the address `v` itself, the only change to the state
being one more reference on `v`.  For function and file the result is a boxed
value whose payload is the very function or file object that `v` holds. -/
theorem C6_shared_round_trip (h : Host) (n m : Nat) (s : State) (v : Ptr) (vobj : Val)
    (t : BroType) (bindings o : Ptr) (error : Bool)
    (hv : s.getVal v = .ok vobj)
    (hk : t.Tag ∈ [TypeTag.TYPE_ANY, .TYPE_LIST, .TYPE_OPAQUE, .TYPE_RECORD, .TYPE_TABLE,
      .TYPE_PATTERN, .TYPE_FUNC, .TYPE_FILE])
    (ht : vobj.type.Tag = t.Tag ∨ t.Tag = .TYPE_ANY)
    (hfunc : t.Tag = .TYPE_FUNC → ∃ ft rc, s.read vobj.val = some (.Func ft rc))
    (hfile : t.Tag = .TYPE_FILE → ∃ rc, s.read vobj.val = some (.BroFile rc)) :
    ∃ z r s2,
      ZAMValUnion.ctor h n s v t bindings o error = .ok (z, error, s)
      ∧ ZAMValUnion.ToVal h m s z t = .ok (r, s2)
      ∧ (t.Tag ∈ [TypeTag.TYPE_ANY, .TYPE_LIST, .TYPE_OPAQUE, .TYPE_RECORD, .TYPE_TABLE,
            .TYPE_PATTERN] →
          r = v ∧ s2 = s.write v (.Val { vobj with ref_cnt := vobj.ref_cnt + 1 }))
      ∧ (t.Tag ∈ [TypeTag.TYPE_FUNC, .TYPE_FILE] →
          ∃ robj, s2.getVal r = .ok robj ∧ robj.val = vobj.val) := by
  have hne : v ≠ 0 := State.getVal_ne_null hv
  have hrv := State.getVal_ok_iff.mp hv
  simp only [List.mem_cons, List.mem_singleton, List.not_mem_nil, or_false] at hk
  have hctor : ∀ F, ZAMValUnion.ctor h n s v t bindings o error
      = ZAMValUnion.ctor_step h F s v t bindings o error := by
    intro F
    cases n <;> simp only [ZAMValUnion.ctor, ZAMValUnion.ctor_step] <;>
      rcases hk with hk | hk | hk | hk | hk | hk | hk | hk <;> simp [hne, hv, hk]
  have htoval : ∀ G s1 z, ZAMValUnion.ToVal h m s1 z t
      = ZAMValUnion.ToVal_step h G s1 z t := by
    intro G s1 z
    cases m <;> simp only [ZAMValUnion.ToVal, ZAMValUnion.ToVal_step] <;>
      rcases hk with hk | hk | hk | hk | hk | hk | hk | hk <;> simp [hk]
  rw [hctor (fun _ _ _ _ => .error .OutOfFuel)]
  simp only [htoval (fun _ _ _ => .error .OutOfFuel)]
  rcases hk with hk | hk | hk | hk | hk | hk | hk | hk
  · refine ⟨⟨v⟩, v, s.write v (.Val { vobj with ref_cnt := vobj.ref_cnt + 1 }), ?_, ?_,
      fun _ => ⟨rfl, rfl⟩, ?_⟩
    · simp [ZAMValUnion.ctor_step, hne, hv, hk]
    · simp [ZAMValUnion.ToVal_step, hk, State.Ref, hrv, NewRef, hne]
    · simp [hk]
  · have hvt : vobj.type.Tag = .TYPE_LIST := by
      rcases ht with ht | ht <;> simp_all
    refine ⟨⟨v⟩, v, s.write v (.Val { vobj with ref_cnt := vobj.ref_cnt + 1 }), ?_, ?_,
      fun _ => ⟨rfl, rfl⟩, ?_⟩
    · simp [ZAMValUnion.ctor_step, hne, hv, hk, hvt]
    · simp [ZAMValUnion.ToVal_step, hk, State.Ref, hrv]
    · simp [hk]
  · have hvt : vobj.type.Tag = .TYPE_OPAQUE := by
      rcases ht with ht | ht <;> simp_all
    refine ⟨⟨v⟩, v, s.write v (.Val { vobj with ref_cnt := vobj.ref_cnt + 1 }), ?_, ?_,
      fun _ => ⟨rfl, rfl⟩, ?_⟩
    · simp [ZAMValUnion.ctor_step, hne, hv, hk, hvt]
    · simp [ZAMValUnion.ToVal_step, hk, State.Ref, hrv]
    · simp [hk]
  · have hvt : vobj.type.Tag = .TYPE_RECORD := by
      rcases ht with ht | ht <;> simp_all
    refine ⟨⟨v⟩, v, s.write v (.Val { vobj with ref_cnt := vobj.ref_cnt + 1 }), ?_, ?_,
      fun _ => ⟨rfl, rfl⟩, ?_⟩
    · simp [ZAMValUnion.ctor_step, hne, hv, hk, hvt]
    · simp [ZAMValUnion.ToVal_step, hk, State.Ref, hrv]
    · simp [hk]
  · have hvt : vobj.type.Tag = .TYPE_TABLE := by
      rcases ht with ht | ht <;> simp_all
    refine ⟨⟨v⟩, v, s.write v (.Val { vobj with ref_cnt := vobj.ref_cnt + 1 }), ?_, ?_,
      fun _ => ⟨rfl, rfl⟩, ?_⟩
    · simp [ZAMValUnion.ctor_step, hne, hv, hk, hvt]
    · simp [ZAMValUnion.ToVal_step, hk, State.Ref, hrv]
    · simp [hk]
  · have hvt : vobj.type.Tag = .TYPE_PATTERN := by
      rcases ht with ht | ht <;> simp_all
    refine ⟨⟨v⟩, v, s.write v (.Val { vobj with ref_cnt := vobj.ref_cnt + 1 }), ?_, ?_,
      fun _ => ⟨rfl, rfl⟩, ?_⟩
    · simp [ZAMValUnion.ctor_step, hne, hv, hk, hvt]
    · simp [ZAMValUnion.ToVal_step, hk, State.Ref, hrv]
    · simp [hk]
  · have hvt : vobj.type.Tag = .TYPE_FUNC := by
      rcases ht with ht | ht <;> simp_all
    obtain ⟨ft, rc, hf⟩ := hfunc hk
    have hr1 := State.read_write_self (.Func ft (rc + 1)) hf
    obtain ⟨p1, s1, ha1, hr2, -, -⟩ :=
      State.alloc_spec (s.write vobj.val (.Func ft (rc + 1))) (.Val ⟨ft, vobj.val, 1⟩)
    refine ⟨⟨vobj.val⟩, p1, s1, ?_, ?_, ?_, fun _ => ⟨_, State.getVal_ok_iff.mpr hr2, rfl⟩⟩
    · simp [ZAMValUnion.ctor_step, hne, hv, hk, hvt]
    · simp [ZAMValUnion.ToVal_step, hk, State.Ref, hf, hr1, State.new_Val, ha1]
    · simp [hk]
  · have hvt : vobj.type.Tag = .TYPE_FILE := by
      rcases ht with ht | ht <;> simp_all
    obtain ⟨rc, hf⟩ := hfile hk
    have hr1 := State.read_write_self (.BroFile (rc + 1)) hf
    obtain ⟨p1, s1, ha1, hr2, -, -⟩ :=
      State.alloc_spec (s.write vobj.val (.BroFile (rc + 1))) (.Val ⟨.base .TYPE_FILE, vobj.val, 1⟩)
    refine ⟨⟨vobj.val⟩, p1, s1, ?_, ?_, ?_, fun _ => ⟨_, State.getVal_ok_iff.mpr hr2, rfl⟩⟩
    · simp [ZAMValUnion.ctor_step, hne, hv, hk, hvt]
    · simp [ZAMValUnion.ToVal_step, hk, State.Ref, hf, hr1, State.new_Val, ha1]
    · simp [hk]

/-! ## Vector type clash -/

/-- C8.  Constructing a cell with target type `vector of ty` from a boxed
vector whose declared type is `vector of uy`; `T` and `U` are the tags of
`ty` and `uy`.  When `T` differs from `U` and neither is "any", the
constructor returns the cell with the null vector payload, raises the error
flag and hands the sink "vector type clash: T vs. U" with the source context.
In every other case the constructor is `to_ZAM_vector` on the source vector
with tracking on: it faults where that faults, and otherwise returns the
handle produced there (never null) in the cell, with the state produced
there and the error flag as the caller passed it.  Hence, starting from a
clear flag, the flag is raised exactly in the clash case, and the vector
payload is null exactly in the clash case. -/
theorem C8_vector_type_clash (h : Host) (n : Nat) (s : State) (v : Ptr) (vobj : Val)
    (ty uy : BroType) (bindings o : Ptr) (error : Bool)
    (hv : s.getVal v = .ok vobj) (hvt : vobj.type = .vector uy) :
    ((ty.Tag ≠ uy.Tag ∧ ty.Tag ≠ .TYPE_ANY ∧ uy.Tag ≠ .TYPE_ANY) →
        ZAMValUnion.ctor h n s v (.vector ty) bindings o error
          = .ok (⟨nullptr⟩, true,
              { s with log := s.log ++
                [("vector type clash: " ++ h.type_name ty.Tag ++ " vs. "
                    ++ h.type_name uy.Tag, o)] }))
    ∧ (¬ (ty.Tag ≠ uy.Tag ∧ ty.Tag ≠ .TYPE_ANY ∧ uy.Tag ≠ .TYPE_ANY) →
        ZAMValUnion.ctor h (n + 1) s v (.vector ty) bindings o error
          = (to_ZAM_vector h n s v bindings true >>= fun r => .ok (⟨r.1⟩, error, r.2)))
    ∧ (∀ p s1, to_ZAM_vector h n s v bindings true = .ok (p, s1) → p ≠ nullptr)
    ∧ (∀ z e s1, ZAMValUnion.ctor h (n + 1) s v (.vector ty) bindings o false = .ok (z, e, s1) →
        ((e = true ↔ (ty.Tag ≠ uy.Tag ∧ ty.Tag ≠ .TYPE_ANY ∧ uy.Tag ≠ .TYPE_ANY))
          ∧ (z.vector_val = nullptr ↔
              (ty.Tag ≠ uy.Tag ∧ ty.Tag ≠ .TYPE_ANY ∧ uy.Tag ≠ .TYPE_ANY)))) := by
  have hne : v ≠ 0 := State.getVal_ne_null hv
  have hclash : ∀ k err, (ty.Tag ≠ uy.Tag ∧ ty.Tag ≠ .TYPE_ANY ∧ uy.Tag ≠ .TYPE_ANY) →
      ZAMValUnion.ctor h k s v (.vector ty) bindings o err
        = .ok (⟨nullptr⟩, true,
            { s with log := s.log ++
              [("vector type clash: " ++ h.type_name ty.Tag ++ " vs. "
                  ++ h.type_name uy.Tag, o)] }) := by
    intro k err hc
    cases k <;>
      simp [ZAMValUnion.ctor, ZAMValUnion.ctor_step, hne, hv, hvt, hc, ZAM_run_time_error]
  have hwrap : ∀ err, ¬ (ty.Tag ≠ uy.Tag ∧ ty.Tag ≠ .TYPE_ANY ∧ uy.Tag ≠ .TYPE_ANY) →
      ZAMValUnion.ctor h (n + 1) s v (.vector ty) bindings o err
        = (to_ZAM_vector h n s v bindings true >>= fun r => .ok (⟨r.1⟩, err, r.2)) := by
    intro err hc
    simp only [ZAMValUnion.ctor, ZAMValUnion.ctor_step, to_ZAM_vector]
    simp [hne, hv, hvt]
    intro h1 h2 h3
    exact absurd ⟨h1, h2, h3⟩ hc
  have hnn : ∀ p s1, to_ZAM_vector h n s v bindings true = .ok (p, s1) → p ≠ nullptr := by
    intro p s1 hp
    simp [to_ZAM_vector, to_ZAM_vector_with] at hp
    cases hr : to_raw_ZAM_vector_with (ZAMValUnion.ctor h n) s v bindings with
    | error e => simp [hr] at hp
    | ok r =>
      simp [hr] at hp
      exact ZAMVector.ctor_ne_null hp
  refine ⟨hclash n error, hwrap error, hnn, ?_⟩
  intro z e s1 hz
  by_cases hc : ty.Tag ≠ uy.Tag ∧ ty.Tag ≠ .TYPE_ANY ∧ uy.Tag ≠ .TYPE_ANY
  · rw [hclash (n + 1) false hc] at hz
    simp only [Except.ok.injEq, Prod.mk.injEq] at hz
    obtain ⟨hz1, hz2, -⟩ := hz
    subst hz1
    subst hz2
    simp [hc]
  · rw [hwrap false hc] at hz
    cases hr : to_ZAM_vector h n s v bindings true with
    | error e1 => simp [hr] at hz
    | ok r =>
      simp [hr] at hz
      obtain ⟨hz1, hz2, -⟩ := hz
      have := hnn r.1 r.2 hr
      subst hz1
      subst hz2
      simp only [iff_false_intro hc, iff_false]
      exact ⟨by simp, this⟩

/-! ## Spill -/

theorem State.getZAM_vector_ok_iff {s : State} {p : Ptr} {z : ZAM_vector} :
    s.getZAM_vector p = .ok z ↔ s.read p = some (.ZAM_vector z) := by
  unfold State.getZAM_vector
  split
  · rename_i w hw
    rw [hw]
    simp
  · rename_i hw
    constructor
    · intro h
      exact Except.noConfusion h
    · intro h
      exact absurd h (hw z)

/-- C10.  Spill idempotence.  Whenever `Spill` completes on a shadow vector,
at whatever depth, the shadow vector afterwards has its dirty flag clear or
mirrors no boxed vector, and a second `Spill` right after it, at whatever
depth, completes and leaves the whole state as the first one left it: the
slots, the dirty flag, the mirrored boxed vector and its backing storage. -/
theorem C10_Spill_idempotent (h : Host) (n m : Nat) (s s1 : State) (this : Ptr)
    (hs : ZAM_vector.Spill h n s this = .ok s1) :
    (∃ z, s1.getZAM_vector this = .ok z ∧ (z.is_dirty = false ∨ z.vv = nullptr))
      ∧ ZAM_vector.Spill h m s1 this = .ok s1 := by
  have key : ∃ z, s1.getZAM_vector this = .ok z ∧ (z.vv == nullptr || ! z.is_dirty) = true := by
    unfold ZAM_vector.Spill ZAM_vector.Spill_with at hs
    obtain ⟨z, hz, hs⟩ := Except_bind_eq_ok hs
    split at hs
    · rename_i hcond
      simp only [Except.ok.injEq] at hs
      subst hs
      exact ⟨z, hz, hcond⟩
    · obtain ⟨vobj, -, hs⟩ := Except_bind_eq_ok hs
      split at hs
      · exact Except.noConfusion hs
      · simp only at hs
        obtain ⟨s2, -, hs⟩ := Except_bind_eq_ok hs
        obtain ⟨vobj2, -, hs⟩ := Except_bind_eq_ok hs
        obtain ⟨vvv, -, hs⟩ := Except_bind_eq_ok hs
        obtain ⟨s3, -, hs⟩ := Except_bind_eq_ok hs
        obtain ⟨s4, -, hs⟩ := Except_bind_eq_ok hs
        obtain ⟨vobj3, -, hs⟩ := Except_bind_eq_ok hs
        obtain ⟨z2, hz2, hs⟩ := Except_bind_eq_ok hs
        simp only [Except.ok.injEq] at hs
        subst hs
        refine ⟨{ z2 with is_dirty := false }, ?_, by simp⟩
        exact State.getZAM_vector_ok_iff.mpr
          (State.read_write_self _ (State.getZAM_vector_ok_iff.mp hz2))
  obtain ⟨z, hz, hcond⟩ := key
  refine ⟨⟨z, hz, ?_⟩, ?_⟩
  · simp only [Bool.or_eq_true, beq_iff_eq, Bool.not_eq_true'] at hcond
    rcases hcond with hc | hc
    · exact Or.inr hc
    · exact Or.inl hc
  · unfold ZAM_vector.Spill ZAM_vector.Spill_with
    simp only [hz, Except_ok_bind]
    rw [if_pos hcond]

/-! ## Wrapping a boxed vector leaves the store in place -/

theorem State.Extends.refl (s : State) : s.Extends s := fun _ _ hq => hq

theorem State.Extends.trans {s s1 s2 : State} (h1 : s.Extends s1) (h2 : s1.Extends s2) :
    s.Extends s2 := fun q y hq => h2 q y (h1 q y hq)

theorem State.Extends.alloc (s : State) (x : Obj) : s.Extends (s.alloc x).2 :=
  fun _ _ hq => State.read_alloc_old x hq

theorem State.read_report (s : State) (l : List (String × Ptr)) (q : Ptr) :
    State.read { s with log := l } q = s.read q := rfl

theorem State.read_alloc_fresh_none (s : State) (x : Obj) : s.read (s.alloc x).1 = none := by
  simp [State.read, State.alloc]

/-- Appending a slot to the shadow vector at `zv` changes nothing else and
keeps what the shadow vector mirrors and its dirty flag. -/
theorem State.zvec_push_back_spec {s s1 : State} {zv : Ptr} {e : ZAMValUnion}
    (h : s.zvec_push_back zv e = .ok s1) :
    (∀ q y, q ≠ zv → s.read q = some y → s1.read q = some y)
      ∧ ∀ vv, s.CleanMirror zv vv → s1.CleanMirror zv vv := by
  unfold State.zvec_push_back at h
  split at h
  · rename_i z hz
    simp only [Except.ok.injEq] at h
    subst h
    refine ⟨fun q y hq hr => ?_, fun vv hm => ?_⟩
    · rw [State.read_write_other _ _ hq]
      exact hr
    · obtain ⟨z0, hz0, hvv, hd⟩ := hm
      rw [hz] at hz0
      cases hz0
      exact ⟨_, State.read_write_self _ hz, hvv, hd⟩
  · exact Except.noConfusion h

/-- The element loop of `to_raw_ZAM_vector`, for an element constructor that
leaves existing objects in place. -/
theorem to_raw_ZAM_vector_loop_spec
    (ctor : State → Ptr → BroType → Ptr → Ptr → Bool → Except Fault (ZAMValUnion × Bool × State))
    (hC : ∀ s v t b o e z e1 s1, ctor s v t b o e = .ok (z, e1, s1) → s.Extends s1)
    (yt : BroType) (bindings vec zv : Ptr) (elems : List Ptr) :
    ∀ (s s1 : State), to_raw_ZAM_vector_loop ctor yt bindings vec zv elems s = .ok s1 →
      (∀ q y, q ≠ zv → s.read q = some y → s1.read q = some y)
        ∧ ∀ vv, s.CleanMirror zv vv → s1.CleanMirror zv vv := by
  induction elems with
  | nil =>
    intro s s1 h
    simp only [to_raw_ZAM_vector_loop, Except.ok.injEq] at h
    subst h
    exact ⟨fun _ _ _ hr => hr, fun _ hm => hm⟩
  | cons elem rest ih =>
    intro s s1 h
    simp only [to_raw_ZAM_vector_loop] at h
    split at h
    · obtain ⟨s2, hp, h⟩ := Except_bind_eq_ok h
      obtain ⟨hp1, hp2⟩ := State.zvec_push_back_spec hp
      obtain ⟨ih1, ih2⟩ := ih s2 s1 h
      exact ⟨fun q y hq hr => ih1 q y hq (hp1 q y hq hr), fun vv hm => ih2 vv (hp2 vv hm)⟩
    · obtain ⟨r, hc, h⟩ := Except_bind_eq_ok h
      obtain ⟨z, e1, s2⟩ := r
      have hext := hC _ _ _ _ _ _ _ _ _ hc
      simp only at h
      obtain ⟨s3, hp, h⟩ := Except_bind_eq_ok h
      obtain ⟨hp1, hp2⟩ := State.zvec_push_back_spec hp
      obtain ⟨ih1, ih2⟩ := ih s3 s1 h
      refine ⟨fun q y hq hr => ih1 q y hq (hp1 q y hq (hext q y hr)), fun vv hm => ?_⟩
      apply ih2 vv
      apply hp2 vv
      obtain ⟨z0, hz0, hvv, hd⟩ := hm
      exact ⟨z0, hext _ _ hz0, hvv, hd⟩

/-- After `to_raw_ZAM_vector` every earlier object is in place and the new
shadow vector mirrors the boxed vector and is clean. -/
theorem to_raw_ZAM_vector_with_spec
    (ctor : State → Ptr → BroType → Ptr → Ptr → Bool → Except Fault (ZAMValUnion × Bool × State))
    (hC : ∀ s v t b o e z e1 s1, ctor s v t b o e = .ok (z, e1, s1) → s.Extends s1)
    {s s1 : State} {vec bindings zv : Ptr}
    (h : to_raw_ZAM_vector_with ctor s vec bindings = .ok (zv, s1)) :
    s.Extends s1 ∧ s1.CleanMirror zv vec ∧ vec ≠ nullptr ∧ s.read zv = none := by
  unfold to_raw_ZAM_vector_with at h
  obtain ⟨vobj, hv, h⟩ := Except_bind_eq_ok h
  obtain ⟨vv, -, h⟩ := Except_bind_eq_ok h
  split at h
  · exact Except.noConfusion h
  · rename_i yt _
    simp only at h
    obtain ⟨s2, hl, h⟩ := Except_bind_eq_ok h
    simp only [Except.ok.injEq, Prod.mk.injEq] at h
    obtain ⟨hzv, hs⟩ := h
    subst hs
    obtain ⟨l1, l2⟩ := to_raw_ZAM_vector_loop_spec ctor hC _ _ _ _ _ _ _ hl
    refine ⟨fun q y hr => ?_, ?_, State.getVal_ne_null hv, ?_⟩
    · apply l1 q y
      · intro hq
        rw [hq, State.read_alloc_fresh_none] at hr
        exact Option.noConfusion hr
      · exact State.read_alloc_old _ hr
    · rw [← hzv]
      apply l2
      exact ⟨_, State.read_alloc_self _ _, rfl, rfl⟩
    · rw [← hzv]
      exact State.read_alloc_fresh_none _ _

/-- Recording the managed yield type on the shadow vector at `zv` changes
nothing else and keeps what the shadow vector mirrors and its dirty flag. -/
theorem ZAM_vector.SetManagedYieldType_spec {s s1 : State} {zv : Ptr} {y : BroType}
    (h : ZAM_vector.SetManagedYieldType s zv y = .ok s1) :
    (∀ q x, q ≠ zv → s.read q = some x → s1.read q = some x)
      ∧ ∀ vv, s.CleanMirror zv vv → s1.CleanMirror zv vv := by
  unfold ZAM_vector.SetManagedYieldType at h
  obtain ⟨z, hz, h⟩ := Except_bind_eq_ok h
  have hz := State.getZAM_vector_ok_iff.mp hz
  simp only [Except_pure, Except.ok.injEq] at h
  subst h
  refine ⟨fun q x hq hr => ?_, fun vv hm => ?_⟩
  · rw [State.read_write_other _ _ hq]
    exact hr
  · obtain ⟨z0, hz0, hvv, hd⟩ := hm
    rw [hz] at hz0
    cases hz0
    exact ⟨_, State.read_write_self _ hz, hvv, hd⟩

/-- After `new ZAMVector(raw)`: every object other than the shadow vector is
in place, the shadow vector still mirrors what it mirrored and is still
clean, and the new handle shares the shadow vector `raw`. -/
theorem ZAMVector.ctor_spec {s s1 : State} {raw p : Ptr}
    (h : ZAMVector.ctor s raw = .ok (p, s1)) :
    (∀ q x, q ≠ raw → s.read q = some x → s1.read q = some x)
      ∧ (∀ vv, s.CleanMirror raw vv → s1.CleanMirror raw vv)
      ∧ ∃ zv, s1.read p = some (.ZAMVector zv) ∧ zv.vec = raw := by
  obtain ⟨s2, yt, hs2, ha⟩ := ZAMVector.ctor_shape h
  have hp : p = (s2.alloc (.ZAMVector { vec := raw, yield_type := yt })).1 := by rw [ha]
  have hs1 : s1 = (s2.alloc (.ZAMVector { vec := raw, yield_type := yt })).2 := by rw [ha]
  have hstep : (∀ q x, q ≠ raw → s.read q = some x → s2.read q = some x)
      ∧ (∀ vv, s.CleanMirror raw vv → s2.CleanMirror raw vv) := by
    rcases hs2 with hs2 | ⟨y, hs2⟩
    · subst hs2
      exact ⟨fun _ _ _ hr => hr, fun _ hm => hm⟩
    · exact ZAM_vector.SetManagedYieldType_spec hs2
  refine ⟨fun q x hq hr => ?_, fun vv hm => ?_,
    ⟨{ vec := raw, yield_type := yt }, ?_, rfl⟩⟩
  · rw [hs1]
    exact State.read_alloc_old _ (hstep.1 q x hq hr)
  · obtain ⟨z, hz, hvv, hd⟩ := hstep.2 vv hm
    rw [hs1]
    exact ⟨z, State.read_alloc_old _ hz, hvv, hd⟩
  · rw [hs1, hp]
    exact State.read_alloc_self _ _

/-- After `to_ZAM_vector` every earlier object is in place, and the new
handle shares a shadow vector that mirrors the boxed vector and is clean. -/
theorem to_ZAM_vector_with_spec
    (ctor : State → Ptr → BroType → Ptr → Ptr → Bool → Except Fault (ZAMValUnion × Bool × State))
    (hC : ∀ s v t b o e z e1 s1, ctor s v t b o e = .ok (z, e1, s1) → s.Extends s1)
    {s s1 : State} {vec bindings p : Ptr} {track_val : Bool}
    (h : to_ZAM_vector_with ctor s vec bindings track_val = .ok (p, s1)) :
    s.Extends s1 ∧ vec ≠ nullptr
      ∧ ∃ zv, s1.read p = some (.ZAMVector zv) ∧ s1.CleanMirror zv.vec vec := by
  unfold to_ZAM_vector_with at h
  obtain ⟨r, hr, h⟩ := Except_bind_eq_ok h
  obtain ⟨raw, s2⟩ := r
  simp only at h
  obtain ⟨hext, hm, hne, hfresh⟩ := to_raw_ZAM_vector_with_spec ctor hC hr
  obtain ⟨c1, c2, zv, c3, c4⟩ := ZAMVector.ctor_spec h
  refine ⟨fun q y hq => ?_, hne, zv, c3, ?_⟩
  · apply c1 q y
    · intro hqr
      rw [hqr, hfresh] at hq
      exact Option.noConfusion hq
    · exact hext q y hq
  · rw [c4]
    exact c2 vec hm

/-- One level of the cell constructor leaves existing objects in place when
the vector wrapper it calls does. -/
theorem ZAMValUnion.ctor_step_extends (h : Host)
    (F : State → Ptr → Ptr → Bool → Except Fault (Ptr × State))
    (hF : ∀ s v b tr p s1, F s v b tr = .ok (p, s1) → s.Extends s1)
    (s : State) (v : Ptr) (t : BroType) (bindings o : Ptr) (e : Bool)
    (z : ZAMValUnion) (e1 : Bool) (s1 : State)
    (hr : ZAMValUnion.ctor_step h F s v t bindings o e = .ok (z, e1, s1)) :
    s.Extends s1 := by
  unfold ZAMValUnion.ctor_step at hr
  split at hr
  · simp only [ZAM_run_time_error, Except.ok.injEq, Prod.mk.injEq] at hr
    obtain ⟨-, -, rfl⟩ := hr
    exact fun q y hq => hq
  · obtain ⟨vobj, hv, hr⟩ := Except_bind_eq_ok hr
    simp only at hr
    split at hr
    · exact Except.noConfusion hr
    · split at hr
      all_goals first
        | exact Except.noConfusion hr
        | (simp only [Except.ok.injEq, Prod.mk.injEq] at hr
           obtain ⟨-, -, rfl⟩ := hr
           exact State.Extends.refl _)
        | (obtain ⟨a, -, hr⟩ := Except_bind_eq_ok hr
           simp only [Except.ok.injEq, Prod.mk.injEq] at hr
           obtain ⟨-, -, rfl⟩ := hr
           exact State.Extends.alloc _ _)
        | (split at hr
           · split at hr
             · simp only [ZAM_run_time_error, Except.ok.injEq, Prod.mk.injEq] at hr
               obtain ⟨-, -, rfl⟩ := hr
               exact fun q y hq => hq
             · obtain ⟨a, ha, hr⟩ := Except_bind_eq_ok hr
               simp only [Except.ok.injEq, Prod.mk.injEq] at hr
               obtain ⟨-, -, rfl⟩ := hr
               exact hF _ _ _ _ _ _ ha
           · exact Except.noConfusion hr)

/-- The cell constructor leaves every existing object in place, at every
depth: it only allocates. -/
theorem ZAMValUnion.ctor_extends (h : Host) (n : Nat) :
    ∀ (s : State) (v : Ptr) (t : BroType) (bindings o : Ptr) (e : Bool)
      (z : ZAMValUnion) (e1 : Bool) (s1 : State),
      ZAMValUnion.ctor h n s v t bindings o e = .ok (z, e1, s1) → s.Extends s1 := by
  induction n with
  | zero =>
    intro s v t bindings o e z e1 s1 hr
    exact ZAMValUnion.ctor_step_extends h _
      (fun _ _ _ _ _ _ hf => Except.noConfusion hf) s v t bindings o e z e1 s1 hr
  | succ n ih =>
    intro s v t bindings o e z e1 s1 hr
    exact ZAMValUnion.ctor_step_extends h _
      (fun _ _ _ _ _ _ hf => (to_ZAM_vector_with_spec _ ih hf).1) s v t bindings o e z e1 s1 hr

/-- Wrapping a boxed vector and converting the handle straight back, when the
wrap returns: `ToVector` returns the boxed vector that was wrapped, the very
same object, and changes nothing; the wrap itself changed no object that
existed before it, so the backing storage of the vector is as it was. -/
theorem to_ZAM_vector_ToVector (h : Host) (n m : Nat) (s s1 : State)
    (vec bindings p : Ptr) (track_val : Bool) (t : BroType)
    (hw : to_ZAM_vector h n s vec bindings track_val = .ok (p, s1)) :
    ZAMValUnion.ToVector h m s1 ⟨p⟩ t = .ok (vec, s1) ∧ s.Extends s1 := by
  obtain ⟨hext, hne, zv, hzv, z, hz, hvv, hd⟩ :=
    to_ZAM_vector_with_spec _ (ZAMValUnion.ctor_extends h n) hw
  refine ⟨?_, hext⟩
  simp [ZAMValUnion.ToVector, ZAMValUnion.ToVector_with, State.getZAMVector, hzv,
    ZAM_vector.Spill_with, State.getZAM_vector, hz, hvv, hd]
  intro hcon
  exact absurd hcon hne


/-! ## Vector round trip -/

/-- C9 (code defect).  The boxed `vector of any` `[<hole>, 5]` is a boxed
vector with a hole.  Wrapping it with `to_ZAM_vector` does not return: the
handle constructor reads the type of element 0 through the null pointer
(lines 386-387), at every depth and for every host, bindings and tracking
choice, so no `ToVector` can follow.  With the hole second, `[5, <hole>]`,
the wrap returns and `ToVector` gives back the boxed vector at address 3
itself, in an unchanged state.  And in general, whenever the wrap returns,
`ToVector` on the new handle returns the wrapped boxed vector itself and
changes nothing, the wrap having left every earlier object as it was: the
round trip fails only where the wrap does not return. -/
theorem C9_to_ZAM_vector_any_hole_at_zero :
    (∀ (h : Host) (n : Nat) (bindings : Ptr) (track_val : Bool),
        to_ZAM_vector h n anyVectorHoleFirst 3 bindings track_val = .error .BadAccess)
      ∧ (to_ZAM_vector exampleHost 0 anyVectorHoleSecond 3 nullptr true >>= fun r =>
            ZAMValUnion.ToVector exampleHost 0 r.2 ⟨r.1⟩ (.vector (.base .TYPE_ANY)) >>=
              fun r2 => pure (r2.1, r2.2 == r.2, r2.2.read 2))
          = .ok (3, true, some (.val_vec [1, nullptr]))
      ∧ ∀ (h : Host) (n m : Nat) (s s1 : State) (vec bindings p : Ptr) (track_val : Bool)
          (t : BroType), to_ZAM_vector h n s vec bindings track_val = .ok (p, s1) →
            ZAMValUnion.ToVector h m s1 ⟨p⟩ t = .ok (vec, s1) ∧ s.Extends s1 := by
  refine ⟨?_, by decide, ?_⟩
  · intro h n bindings track_val
    cases n <;> cases track_val <;> rfl
  · intro h n m s s1 vec bindings p track_val t hw
    exact to_ZAM_vector_ToVector h n m s s1 vec bindings p track_val t hw

/-! ## Evaluations at concrete inputs -/

/-- C5 at the boxed string "hi". -/
theorem C5_scalar_round_trip_witness :
    stringState.getVal 2 = .ok ⟨.base .TYPE_STRING, 1, 1⟩
      ∧ ∃ z s1 r s2 robj,
          ZAMValUnion.ctor exampleHost 0 stringState 2 (.base .TYPE_STRING) 0 0 false
            = .ok (z, false, s1)
          ∧ ZAMValUnion.ToVal exampleHost 0 s1 z (.base .TYPE_STRING) = .ok (r, s2)
          ∧ s2.getVal r = .ok robj
          ∧ robj.type.Tag = .TYPE_STRING
          ∧ s2.content robj = stringState.content ⟨.base .TYPE_STRING, 1, 1⟩
          ∧ s2.log = stringState.log :=
  ⟨by decide,
    C5_scalar_round_trip exampleHost 0 0 stringState 2 ⟨.base .TYPE_STRING, 1, 1⟩ 0 0 false
      (by decide) (by decide) (by decide)⟩

/-- C6 at a boxed record value and the record type. -/
theorem C6_shared_round_trip_witness :
    recordState.getVal 1 = .ok ⟨.base .TYPE_RECORD, 0, 1⟩
      ∧ ∃ z r s2,
          ZAMValUnion.ctor exampleHost 0 recordState 1 (.base .TYPE_RECORD) 0 0 false
            = .ok (z, false, recordState)
          ∧ ZAMValUnion.ToVal exampleHost 0 recordState z (.base .TYPE_RECORD) = .ok (r, s2)
          ∧ (TypeTag.TYPE_RECORD ∈ [TypeTag.TYPE_ANY, .TYPE_LIST, .TYPE_OPAQUE, .TYPE_RECORD,
                .TYPE_TABLE, .TYPE_PATTERN] →
              r = 1 ∧ s2 = recordState.write 1 (.Val ⟨.base .TYPE_RECORD, 0, 2⟩))
          ∧ (TypeTag.TYPE_RECORD ∈ [TypeTag.TYPE_FUNC, .TYPE_FILE] →
              ∃ robj, s2.getVal r = .ok robj ∧ robj.val = 0) :=
  ⟨by decide,
    C6_shared_round_trip exampleHost 0 0 recordState 1 ⟨.base .TYPE_RECORD, 0, 1⟩
      (.base .TYPE_RECORD) 0 0 false (by decide) (by decide) (by decide)
      (fun hf => absurd hf (by decide)) (fun hf => absurd hf (by decide))⟩

/-- C8 at an empty boxed `vector of string`: against `vector of int` the
types clash, against `vector of string` the vector is wrapped. -/
theorem C8_vector_type_clash_witness :
    stringVectorState.getVal 2 = .ok ⟨.vector (.base .TYPE_STRING), 1, 1⟩
      ∧ ZAMValUnion.ctor exampleHost 0 stringVectorState 2 (.vector (.base .TYPE_INT)) 0 7 false
          = .ok (⟨nullptr⟩, true,
              { stringVectorState with log := [("vector type clash: int vs. string", 7)] })
      ∧ ZAMValUnion.ctor exampleHost 1 stringVectorState 2 (.vector (.base .TYPE_STRING)) 0 7
            false
          = (to_ZAM_vector exampleHost 0 stringVectorState 2 0 true >>= fun r =>
              .ok (⟨r.1⟩, false, r.2)) :=
  ⟨by decide,
    (C8_vector_type_clash exampleHost 0 stringVectorState 2 ⟨.vector (.base .TYPE_STRING), 1, 1⟩
      (.base .TYPE_INT) (.base .TYPE_STRING) 0 7 false (by decide) rfl).1 (by decide),
    (C8_vector_type_clash exampleHost 0 stringVectorState 2 ⟨.vector (.base .TYPE_STRING), 1, 1⟩
      (.base .TYPE_STRING) (.base .TYPE_STRING) 0 7 false (by decide) rfl).2.1 (by decide)⟩

/-- C10 at a dirty shadow vector with slots `[1, 2]` over the boxed vector
`[1, <hole>]`. -/
theorem C10_Spill_idempotent_witness :
    ZAM_vector.Spill exampleHost 0 dirtyState 4 = .ok spilledState
      ∧ (∃ z, spilledState.getZAM_vector 4 = .ok z ∧ (z.is_dirty = false ∨ z.vv = nullptr))
      ∧ ZAM_vector.Spill exampleHost 0 spilledState 4 = .ok spilledState :=
  ⟨by decide, C10_Spill_idempotent exampleHost 0 0 dirtyState spilledState 4 (by decide)⟩

/-! ## GrowVector -/

theorem List_set_same {α : Type} {l : List α} {i : Nat} {a : α} (h : l[i]? = some a) :
    l.set i a = l := by
  apply List.ext_getElem?
  intro j
  by_cases hij : i = j
  · subst hij
    obtain ⟨hlt, _⟩ := List.getElem?_eq_some_iff.mp h
    rw [List.getElem?_set_self hlt, h]
  · rw [List.getElem?_set_ne hij]

theorem ZAM_vector.GrowVector_loop_fixed (k : Nat) :
    ∀ (old_size : Nat) (zvec : List ZAMValUnion),
      (∀ i, old_size ≤ i → i < zvec.length → zvec[i]? = some ⟨nullptr⟩) →
      (List.range' old_size k).foldl (fun zv i => zv.set i ⟨nullptr⟩) zvec = zvec := by
  induction k with
  | zero => intro old_size zvec _; rfl
  | succ k ih =>
    intro old_size zvec hz
    simp only [List.range'_succ, List.foldl_cons]
    have hset : zvec.set old_size ⟨nullptr⟩ = zvec := by
      by_cases hlt : old_size < zvec.length
      · exact List_set_same (hz old_size (Nat.le_refl _) hlt)
      · exact List.set_eq_of_length_le (by omega)
    rw [hset]
    exact ih (old_size + 1) zvec (fun i hi hl => hz i (by omega) hl)

/-- What `GrowVector` leaves in the slots for a size that is not negative:
the slots cut to `new_size` and then extended to `new_size` with null
payloads. -/
theorem ZAM_vector.GrowVector_eq (s : State) (this : Ptr) (z : ZAM_vector) (new_size : Nat)
    (hz : s.getZAM_vector this = .ok z) :
    ZAM_vector.GrowVector s this new_size
      = .ok (s.write this (.ZAM_vector
          { z with zvec := z.zvec.take new_size
              ++ List.replicate (new_size - z.zvec.length) ⟨nullptr⟩ })) := by
  unfold ZAM_vector.GrowVector
  have hnn : ¬ ((new_size : Int) < 0) := by omega
  simp only [hz, Except_ok_bind, Except_pure, hnn, if_false, Int.toNat_ofNat]
  have hfix : ZAM_vector.GrowVector_loop (ZAM_vector.resize z.zvec new_size) z.zvec.length
      new_size = ZAM_vector.resize z.zvec new_size := by
    unfold ZAM_vector.GrowVector_loop
    apply ZAM_vector.GrowVector_loop_fixed
    intro i hi hl
    unfold ZAM_vector.resize at hl ⊢
    simp only [List.length_append, List.length_take, List.length_replicate] at hl
    rw [List.getElem?_append_right (by simp only [List.length_take]; omega)]
    simp only [List.length_take]
    rw [List.getElem?_replicate]
    have : i - min new_size z.zvec.length < new_size - z.zvec.length := by omega
    simp [this, ZAMValUnion.nil]
  rw [hfix]
  rfl

/-- C14.  GrowVector growth.  For a shadow vector with `N` slots and every
`M > N`, `GrowVector(M)` returns and leaves exactly `M` slots: the first `N`
are the slots that were there, in place, and each of the slots `N .. M-1`
holds the null (zero) payload.  Nothing else of the shadow vector changes. -/
theorem C14_GrowVector_growth (s : State) (this : Ptr) (z : ZAM_vector) (M : Nat)
    (hz : s.getZAM_vector this = .ok z) (hM : M > z.zvec.length) :
    ∃ s1 z1, ZAM_vector.GrowVector s this M = .ok s1
      ∧ s1.getZAM_vector this = .ok z1
      ∧ z1.zvec.length = M
      ∧ (∀ i, i < z.zvec.length → z1.zvec[i]? = z.zvec[i]?)
      ∧ (∀ i, z.zvec.length ≤ i → i < M → z1.zvec[i]? = some ⟨nullptr⟩)
      ∧ z1 = { z with zvec := z1.zvec } := by
  refine ⟨_, _, ZAM_vector.GrowVector_eq s this z M hz,
    State.getZAM_vector_ok_iff.mpr
      (State.read_write_self _ (State.getZAM_vector_ok_iff.mp hz)), ?_, ?_, ?_, rfl⟩
  · simp only [List.length_append, List.length_take, List.length_replicate]
    omega
  · intro i hi
    rw [List.take_of_length_le (by omega), List.getElem?_append_left hi]
  · intro i hi hiM
    rw [List.take_of_length_le (by omega), List.getElem?_append_right hi,
      List.getElem?_replicate]
    have : i - z.zvec.length < M - z.zvec.length := by omega
    simp [this]

/-- C15 (as amended).  `GrowVector(newSize)` on a shadow vector with `N`
slots, for every `int` value of `newSize`.  For a negative `newSize` the call
does not return: `resize` throws `std::length_error`.  For every other
`newSize` it returns and leaves exactly `newSize` slots: for `newSize ≥ N`
the vector has at least `N` slots and its first `N` slots are unchanged, and
for `newSize < N` the slots are cut to the first `newSize`, which are
unchanged. -/
theorem C15_GrowVector_resizes (s : State) (this : Ptr) (z : ZAM_vector) (newSize : Int)
    (hz : s.getZAM_vector this = .ok z) :
    (newSize < 0 → ZAM_vector.GrowVector s this newSize = .error .LengthError)
    ∧ (0 ≤ newSize →
      ∃ s1 z1, ZAM_vector.GrowVector s this newSize = .ok s1
        ∧ s1.getZAM_vector this = .ok z1
        ∧ (z1.zvec.length : Int) = newSize
        ∧ (∀ i : Nat, i < z.zvec.length → (i : Int) < newSize → z1.zvec[i]? = z.zvec[i]?)
        ∧ ((z.zvec.length : Int) ≤ newSize →
            z.zvec.length ≤ z1.zvec.length
              ∧ ∀ i : Nat, i < z.zvec.length → z1.zvec[i]? = z.zvec[i]?)
        ∧ (newSize < (z.zvec.length : Int) → z1.zvec = z.zvec.take newSize.toNat)) := by
  constructor
  · intro hneg
    unfold ZAM_vector.GrowVector
    simp only [hz, Except_ok_bind, hneg, if_true]
  · intro hnn
    obtain ⟨k, rfl⟩ := Int.eq_ofNat_of_zero_le hnn
    refine ⟨_, _, ZAM_vector.GrowVector_eq s this z k hz,
      State.getZAM_vector_ok_iff.mpr
        (State.read_write_self _ (State.getZAM_vector_ok_iff.mp hz)), ?_, ?_, ?_, ?_⟩
    · simp only [List.length_append, List.length_take, List.length_replicate]
      omega
    · intro i hi hin
      rw [List.getElem?_append_left (by simp only [List.length_take]; omega),
        List.getElem?_take_of_lt (by omega)]
    · intro hle
      have hle1 : z.zvec.length ≤ k := by omega
      refine ⟨?_, fun i hi => ?_⟩
      · simp only [List.length_append, List.length_take, List.length_replicate]
        omega
      · rw [List.take_of_length_le hle1, List.getElem?_append_left hi]
    · intro hlt
      have h0 : k - z.zvec.length = 0 := by omega
      simp [h0]

/-- C15 (counterexample).  `GrowVector(1)` on the shadow vector with the two
slots `[7, 9]` returns and leaves the single slot `[7]`: fewer slots than
before, so "at least N slots and the first N unchanged" does not hold for
every requested size.  `GrowVector(-1)` on the same vector does not return
at all. -/
theorem C15_GrowVector_shrinks :
    ZAM_vector.GrowVector twoSlotState 1 1
        = .ok ⟨[.ZAM_vector ⟨[⟨7⟩], nullptr, false, none, nullptr⟩], []⟩
      ∧ ZAM_vector.GrowVector twoSlotState 1 (-1) = .error .LengthError
      ∧ ¬ (∀ (s s1 : State) (this : Ptr) (z z1 : ZAM_vector) (newSize : Int),
            s.getZAM_vector this = .ok z → ZAM_vector.GrowVector s this newSize = .ok s1 →
            s1.getZAM_vector this = .ok z1 →
            z.zvec.length ≤ z1.zvec.length
              ∧ ∀ i, i < z.zvec.length → z1.zvec[i]? = z.zvec[i]?) := by
  refine ⟨by decide, by decide, ?_⟩
  intro hall
  have h1 := (hall twoSlotState ⟨[.ZAM_vector ⟨[⟨7⟩], nullptr, false, none, nullptr⟩], []⟩ 1
    ⟨[⟨7⟩, ⟨9⟩], nullptr, false, none, nullptr⟩ ⟨[⟨7⟩], nullptr, false, none, nullptr⟩ 1
    (by decide) (by decide) (by decide)).1
  exact absurd h1 (by decide)

/-! ## SetManagedElement -/

/-- C16 (code defect).  On a shadow vector whose managed element type is
`vector of int`, `SetManagedElement` with a valid index and a valid vector
handle ends in the fatal report "bad type tag in
ZAM_vector::SetManagedElement": the `TYPE_VECTOR` case (lines 290-291) has no
`break` and runs on into `default`.  This is so for every state, index and
value once the managed element type is a vector type: the call never
returns.  On a managed element type string the call returns and leaves a
duplicate of the new string in the slot, the other slot and the slot count as
they were. -/
theorem C16_SetManagedElement_vector_is_fatal :
    ZAM_vector.SetManagedElement vectorSlotsState 3 0 ⟨2⟩
        = .error (.InternalError "bad type tag in ZAM_vector::SetManagedElement")
      ∧ (∀ (s s1 : State) (this : Ptr) (n : Nat) (v : ZAMValUnion) (z : ZAM_vector)
          (t : BroType), s.getZAM_vector this = .ok z → z.managed_yt = some t →
          t.Tag = .TYPE_VECTOR → ZAM_vector.SetManagedElement s this n v ≠ .ok s1)
      ∧ ZAM_vector.SetManagedElement stringSlotsState 2 0 ⟨3⟩
          = .ok ⟨[.freed,
              .ZAM_vector ⟨[⟨4⟩, ⟨nullptr⟩], nullptr, false, some (.base .TYPE_STRING), nullptr⟩,
              .BroString [98], .BroString [98]], []⟩ := by
  refine ⟨by decide, ?_, by decide⟩
  intro s s1 this n v z t hz ht htag hok
  unfold ZAM_vector.SetManagedElement at hok
  simp only [hz, Except_ok_bind, ht] at hok
  split at hok
  · exact Except.noConfusion hok
  · obtain ⟨r, -, hok⟩ := Except_bind_eq_ok hok
    obtain ⟨s2, -, hok⟩ := Except_bind_eq_ok hok
    simp only [htag] at hok
    obtain ⟨r2, -, hok⟩ := Except_bind_eq_ok hok
    obtain ⟨s3, -, hok⟩ := Except_bind_eq_ok hok
    exact Except.noConfusion hok

/-! ## Yield type resolution of the vector handle -/

theorem ZAMVector.ctor_no_mirror (s : State) (raw : Ptr) (z : ZAM_vector)
    (hz : s.getZAM_vector raw = .ok z) (hvv : z.vv = nullptr) :
    ZAMVector.ctor s raw = .ok (ZAMVector.resolved s raw z none) := by
  simp [ZAMVector.ctor, hz, hvv, ZAMVector.resolved]

theorem ZAMVector.ctor_declared (s : State) (raw : Ptr) (z : ZAM_vector) (vobj : Val)
    (yt0 : BroType) (hz : s.getZAM_vector raw = .ok z) (hvv : z.vv ≠ nullptr)
    (hv : s.getVal z.vv = .ok vobj) (hy : vobj.type.YieldType = some yt0)
    (hany : yt0.Tag ≠ .TYPE_ANY) :
    ZAMVector.ctor s raw = .ok (ZAMVector.resolved s raw z (some yt0)) := by
  simp only [ZAMVector.ctor, hz, Except_ok_bind, hv, hy, ZAMVector.resolved,
    ZAM_vector.SetManagedYieldType]
  have h1 : (z.vv == nullptr) = false := by simpa using hvv
  have h2 : (yt0.Tag == TypeTag.TYPE_ANY) = false := by simpa using hany
  simp only [h1, h2, Bool.false_eq_true, if_false, Except_pure, Except_ok_bind]
  split <;> rfl

theorem ZAMVector.ctor_any_empty (s : State) (raw : Ptr) (z : ZAM_vector) (vobj : Val)
    (yt0 : BroType) (hz : s.getZAM_vector raw = .ok z) (hvv : z.vv ≠ nullptr)
    (hv : s.getVal z.vv = .ok vobj) (hy : vobj.type.YieldType = some yt0)
    (hany : yt0.Tag = .TYPE_ANY) (hempty : z.zvec = []) :
    ZAMVector.ctor s raw = .ok (ZAMVector.resolved s raw z none) := by
  simp only [ZAMVector.ctor, hz, Except_ok_bind, hv, hy, ZAMVector.resolved]
  have h1 : (z.vv == nullptr) = false := by simpa using hvv
  simp [h1, hany, hempty]

theorem ZAMVector.ctor_any_elem0 (s : State) (raw : Ptr) (z : ZAM_vector) (vobj e0 : Val)
    (yt0 : BroType) (elems : List Ptr) (hz : s.getZAM_vector raw = .ok z)
    (hvv : z.vv ≠ nullptr) (hv : s.getVal z.vv = .ok vobj)
    (hy : vobj.type.YieldType = some yt0) (hany : yt0.Tag = .TYPE_ANY)
    (hne : z.zvec ≠ []) (hs : s.get_val_vec vobj.val = .ok elems)
    (he : s.getVal (elems.getD 0 nullptr) = .ok e0) :
    ZAMVector.ctor s raw = .ok (ZAMVector.resolved s raw z (some e0.type)) := by
  simp only [ZAMVector.ctor, hz, Except_ok_bind, hv, hy, ZAMVector.resolved,
    ZAM_vector.SetManagedYieldType, VectorVal.Lookup, hs]
  have h1 : (z.vv == nullptr) = false := by simpa using hvv
  have h3 : z.zvec.length > 0 := List.length_pos.mpr hne
  simp only [h1, hany, h3, beq_self_eq_true, Bool.false_eq_true, if_false, if_true,
    Except_pure, Except_ok_bind, he]
  split <;> rfl

theorem ZAMVector.ctor_any_hole (s : State) (raw : Ptr) (z : ZAM_vector) (vobj : Val)
    (yt0 : BroType) (elems : List Ptr) (hz : s.getZAM_vector raw = .ok z)
    (hvv : z.vv ≠ nullptr) (hv : s.getVal z.vv = .ok vobj)
    (hy : vobj.type.YieldType = some yt0) (hany : yt0.Tag = .TYPE_ANY)
    (hne : z.zvec ≠ []) (hs : s.get_val_vec vobj.val = .ok elems)
    (he : elems.getD 0 nullptr = nullptr) :
    ZAMVector.ctor s raw = .error .BadAccess := by
  simp only [ZAMVector.ctor, hz, Except_ok_bind, hv, hy, VectorVal.Lookup, hs]
  have h1 : (z.vv == nullptr) = false := by simpa using hvv
  have h3 : z.zvec.length > 0 := List.length_pos.mpr hne
  simp only [h1, hany, h3, beq_self_eq_true, Bool.false_eq_true, if_false, if_true,
    Except_pure, Except_ok_bind, he]
  simp [State.getVal, State.read_null]

/-- C18 (code defect).  Wrapping the clean shadow vector with one nil slot
that mirrors the boxed `vector of any` `[<hole>]`: the shadow has an element,
element 0 of the boxed vector is a hole, and the constructor does not return
but reads the type of element 0 through the null pointer (lines 386-387).
This happens for every shadow with at least one slot over a `vector of any`
whose element 0 is null.  In all other cases the constructor returns as the
claim says: with no mirrored boxed vector the yield type is null; with a
declared element type other than "any" it is that type; with "any" it is
null for an empty shadow and the type of the boxed element 0 when that
element is there; and the managed yield type is recorded on the shadow
exactly when the resolved type is non-null and managed (`resolved`). -/
theorem C18_ZAMVector_ctor_hole_at_zero :
    ZAMVector.ctor anyHoleShadow 3 = .error .BadAccess
      ∧ (∀ (s : State) (raw : Ptr) (z : ZAM_vector) (vobj : Val) (yt0 : BroType)
          (elems : List Ptr), s.getZAM_vector raw = .ok z → z.vv ≠ nullptr →
          s.getVal z.vv = .ok vobj → vobj.type.YieldType = some yt0 → yt0.Tag = .TYPE_ANY →
          z.zvec ≠ [] → s.get_val_vec vobj.val = .ok elems → elems.getD 0 nullptr = nullptr →
          ZAMVector.ctor s raw = .error .BadAccess)
      ∧ (∀ (s : State) (raw : Ptr) (z : ZAM_vector), s.getZAM_vector raw = .ok z →
          z.vv = nullptr → ZAMVector.ctor s raw = .ok (ZAMVector.resolved s raw z none))
      ∧ (∀ (s : State) (raw : Ptr) (z : ZAM_vector) (vobj : Val) (yt0 : BroType),
          s.getZAM_vector raw = .ok z → z.vv ≠ nullptr → s.getVal z.vv = .ok vobj →
          vobj.type.YieldType = some yt0 → yt0.Tag ≠ .TYPE_ANY →
          ZAMVector.ctor s raw = .ok (ZAMVector.resolved s raw z (some yt0)))
      ∧ (∀ (s : State) (raw : Ptr) (z : ZAM_vector) (vobj : Val) (yt0 : BroType),
          s.getZAM_vector raw = .ok z → z.vv ≠ nullptr → s.getVal z.vv = .ok vobj →
          vobj.type.YieldType = some yt0 → yt0.Tag = .TYPE_ANY → z.zvec = [] →
          ZAMVector.ctor s raw = .ok (ZAMVector.resolved s raw z none))
      ∧ (∀ (s : State) (raw : Ptr) (z : ZAM_vector) (vobj e0 : Val) (yt0 : BroType)
          (elems : List Ptr), s.getZAM_vector raw = .ok z → z.vv ≠ nullptr →
          s.getVal z.vv = .ok vobj → vobj.type.YieldType = some yt0 → yt0.Tag = .TYPE_ANY →
          z.zvec ≠ [] → s.get_val_vec vobj.val = .ok elems →
          s.getVal (elems.getD 0 nullptr) = .ok e0 →
          ZAMVector.ctor s raw = .ok (ZAMVector.resolved s raw z (some e0.type))) :=
  ⟨by decide,
    fun s raw z vobj yt0 elems h1 h2 h3 h4 h5 h6 h7 h8 =>
      ZAMVector.ctor_any_hole s raw z vobj yt0 elems h1 h2 h3 h4 h5 h6 h7 h8,
    fun s raw z h1 h2 => ZAMVector.ctor_no_mirror s raw z h1 h2,
    fun s raw z vobj yt0 h1 h2 h3 h4 h5 => ZAMVector.ctor_declared s raw z vobj yt0 h1 h2 h3 h4 h5,
    fun s raw z vobj yt0 h1 h2 h3 h4 h5 h6 =>
      ZAMVector.ctor_any_empty s raw z vobj yt0 h1 h2 h3 h4 h5 h6,
    fun s raw z vobj e0 yt0 elems h1 h2 h3 h4 h5 h6 h7 h8 =>
      ZAMVector.ctor_any_elem0 s raw z vobj e0 yt0 elems h1 h2 h3 h4 h5 h6 h7 h8⟩

/-! ## The type check of the constructor -/

theorem State.getBroString_error {s : State} {p : Ptr} {e : Fault}
    (h : s.getBroString p = .error e) : e = .BadAccess := by
  unfold State.getBroString at h
  split at h
  · exact Except.noConfusion h
  · simp only [Except.error.injEq] at h
    exact h.symm

theorem State.getIPAddr_error {s : State} {p : Ptr} {e : Fault}
    (h : s.getIPAddr p = .error e) : e = .BadAccess := by
  unfold State.getIPAddr at h
  split at h
  · exact Except.noConfusion h
  · simp only [Except.error.injEq] at h
    exact h.symm

theorem State.getIPPrefix_error {s : State} {p : Ptr} {e : Fault}
    (h : s.getIPPrefix p = .error e) : e = .BadAccess := by
  unfold State.getIPPrefix at h
  split at h
  · exact Except.noConfusion h
  · simp only [Except.error.injEq] at h
    exact h.symm


/-- C19 (as amended).  Constructing a cell from a boxed value whose declared
tag differs from the target tag ends in the fatal report "type inconsistency
in ZAMValUnion constructor" if and only if the target tag is not "any" and
either the internal storage kind of the target type is `TYPE_INTERNAL_OTHER`
or it differs from the internal storage kind of the value's type.  So a
mismatch is tolerated exactly when the target is "any" or both types share
one internal storage kind that is not `TYPE_INTERNAL_OTHER`. -/
theorem C19_ctor_type_check (h : Host) (n : Nat) (s : State) (v : Ptr) (vobj : Val)
    (t : BroType) (bindings o : Ptr) (error : Bool)
    (hv : s.getVal v = .ok vobj) (htag : vobj.type.Tag ≠ t.Tag) :
    ZAMValUnion.ctor h n s v t bindings o error
        = .error (.InternalError "type inconsistency in ZAMValUnion constructor")
      ↔ (t.Tag ≠ .TYPE_ANY
          ∧ (h.InternalType t = h.TYPE_INTERNAL_OTHER
              ∨ h.InternalType t ≠ h.InternalType vobj.type)) := by
  have hne : v ≠ 0 := State.getVal_ne_null hv
  have hyt : t.Tag = .TYPE_VECTOR → vobj.type.YieldType = none := by
    intro ht
    cases hvt : vobj.type with
    | base tag => rfl
    | vector yt => rw [hvt, ht] at htag; exact absurd rfl htag
    | typetype d => rfl
  have hstep : ∀ F, (ZAMValUnion.ctor_step h F s v t bindings o error
        = .error (.InternalError "type inconsistency in ZAMValUnion constructor")
      ↔ (t.Tag ≠ .TYPE_ANY
          ∧ (h.InternalType t = h.TYPE_INTERNAL_OTHER
              ∨ h.InternalType t ≠ h.InternalType vobj.type))) := by
    intro F
    unfold ZAMValUnion.ctor_step
    have hv0 : (v == nullptr) = false := by simpa using hne
    simp only [hv0, Bool.false_eq_true, if_false, hv, Except_ok_bind]
    by_cases hc : (t.Tag ≠ .TYPE_ANY
          ∧ (h.InternalType t = h.TYPE_INTERNAL_OTHER
              ∨ h.InternalType t ≠ h.InternalType vobj.type))
    · have hcb : (vobj.type.Tag != t.Tag && t.Tag != TypeTag.TYPE_ANY
          && (h.InternalType t == h.TYPE_INTERNAL_OTHER
              || h.InternalType t != h.InternalType vobj.type)) = true := by
        simp [htag, hc.1]
        rcases hc.2 with h1 | h1
        · exact Or.inl h1
        · exact Or.inr h1
      simp only [hcb, if_true, true_iff]
      exact hc
    · have hcb : (vobj.type.Tag != t.Tag && t.Tag != TypeTag.TYPE_ANY
          && (h.InternalType t == h.TYPE_INTERNAL_OTHER
              || h.InternalType t != h.InternalType vobj.type)) = false := by
        by_contra hcon
        apply hc
        simp only [Bool.not_eq_false, Bool.and_eq_true, bne_iff_ne, ne_eq, Bool.or_eq_true,
          beq_iff_eq] at hcon
        exact ⟨hcon.1.2, hcon.2⟩
      simp only [hcb, Bool.false_eq_true, if_false, iff_false_intro hc, iff_false]
      cases htt : t.Tag <;> simp only [] <;> try (intro hcon; exact Except.noConfusion hcon)
      · simp
      · cases hg : s.getBroString vobj.val <;> simp
        rw [State.getBroString_error hg]
        exact Fault.noConfusion
      · simp
      · cases hg : s.getIPAddr vobj.val <;> simp
        rw [State.getIPAddr_error hg]
        exact Fault.noConfusion
      · cases hg : s.getIPPrefix vobj.val <;> simp
        rw [State.getIPPrefix_error hg]
        exact Fault.noConfusion
      · simp
      · rw [hyt htt]
        cases t.YieldType <;> simp
      · simp
  cases n with
  | zero => exact hstep _
  | succ n => exact hstep _

/-- C19 (counterexample).  With Zeek's internal storage kinds, the types
record and table share one kind (`TYPE_INTERNAL_OTHER`), yet constructing a
cell with target type record from a boxed table ends in the fatal report:
sharing a storage kind does not by itself make the mismatch tolerated. -/
theorem C19_same_kind_other_is_fatal :
    tableState.getVal 1 = .ok ⟨.base .TYPE_TABLE, 0, 1⟩
      ∧ exampleHost.InternalType (.base .TYPE_RECORD)
          = exampleHost.InternalType (.base .TYPE_TABLE)
      ∧ ZAMValUnion.ctor exampleHost 0 tableState 1 (.base .TYPE_RECORD) 0 0 false
          = .error (.InternalError "type inconsistency in ZAMValUnion constructor")
      ∧ ¬ (∀ (h : Host) (n : Nat) (s : State) (v : Ptr) (vobj : Val) (t : BroType)
            (bindings o : Ptr) (error : Bool),
            s.getVal v = .ok vobj → vobj.type.Tag ≠ t.Tag →
            (ZAMValUnion.ctor h n s v t bindings o error
                = .error (.InternalError "type inconsistency in ZAMValUnion constructor")
              ↔ (t.Tag ≠ .TYPE_ANY ∧ h.InternalType t ≠ h.InternalType vobj.type))) := by
  refine ⟨by decide, by decide, by decide, ?_⟩
  intro hall
  have h1 := (hall exampleHost 0 tableState 1 ⟨.base .TYPE_TABLE, 0, 1⟩ (.base .TYPE_RECORD)
    0 0 false (by decide) (by decide)).mp (by decide)
  exact absurd h1.2 (by decide)

/-- C19 at a boxed string and the target type int: the storage kinds differ
and the construction is fatal. -/
theorem C19_ctor_type_check_witness :
    stringState.getVal 2 = .ok ⟨.base .TYPE_STRING, 1, 1⟩
      ∧ (ZAMValUnion.ctor exampleHost 0 stringState 2 (.base .TYPE_INT) 0 0 false
            = .error (.InternalError "type inconsistency in ZAMValUnion constructor")
          ↔ ((BroType.base .TYPE_INT).Tag ≠ .TYPE_ANY
              ∧ (exampleHost.InternalType (.base .TYPE_INT) = exampleHost.TYPE_INTERNAL_OTHER
                  ∨ exampleHost.InternalType (.base .TYPE_INT)
                      ≠ exampleHost.InternalType (.base .TYPE_STRING)))) :=
  ⟨by decide,
    C19_ctor_type_check exampleHost 0 stringState 2 ⟨.base .TYPE_STRING, 1, 1⟩
      (.base .TYPE_INT) 0 0 false (by decide) (by decide)⟩

/-! ## Type values -/

/-- C20 (code defect).  The boxed type value at address 1 denotes `int`.
Constructing a cell from it against the target type `type(int)` and
converting back with `ToVal` returns a boxed type value that denotes
`type(int)`, the target type itself, not `int`: line 150 stores the target
type `t` in the cell, where every other case stores what `v` holds.  In
general, for every boxed value of kind type and target type `t` of kind type
whose descriptor the host can find again, the round trip returns a boxed type
value denoting `t`, whatever `v` denotes. -/
theorem C20_type_round_trip_denotes_target :
    (typeValState.getVal 1 >>= fun v => pure v.denoted) = .ok (some (.base .TYPE_INT))
      ∧ (ZAMValUnion.ctor typeHost 0 typeValState 1 (.typetype (.base .TYPE_INT)) 0 0 false
            >>= fun r => ZAMValUnion.ToVal typeHost 0 r.2.2 r.1 (.typetype (.base .TYPE_INT))
            >>= fun r2 => r2.2.getVal r2.1 >>= fun v => pure v.denoted)
          = .ok (some (.typetype (.base .TYPE_INT)))
      ∧ ∀ (h : Host) (n m : Nat) (s : State) (v : Ptr) (vobj : Val) (t : BroType)
          (bindings o : Ptr) (error : Bool),
          s.getVal v = .ok vobj → vobj.type.Tag = .TYPE_TYPE → t.Tag = .TYPE_TYPE →
          h.typeAt (h.typeAddr t) = some t →
          ∃ r s2 robj,
            ZAMValUnion.ctor h n s v t bindings o error = .ok (⟨h.typeAddr t⟩, error, s)
            ∧ ZAMValUnion.ToVal h m s ⟨h.typeAddr t⟩ t = .ok (r, s2)
            ∧ s2.getVal r = .ok robj ∧ robj.denoted = some t := by
  refine ⟨by decide, by decide, ?_⟩
  intro h n m s v vobj t bindings o error hv hvt ht hhost
  have hne : v ≠ 0 := State.getVal_ne_null hv
  obtain ⟨p1, s1, ha1, hr1, -, -⟩ :=
    State.alloc_spec s (.Val ⟨.typetype t, h.typeAddr t, 1⟩)
  refine ⟨p1, s1, ⟨.typetype t, h.typeAddr t, 1⟩, ?_, ?_, State.getVal_ok_iff.mpr hr1, rfl⟩
  · cases n <;> simp [ZAMValUnion.ctor, ZAMValUnion.ctor_step, hne, hv, ht, hvt]
  · cases m <;> simp [ZAMValUnion.ToVal, ZAMValUnion.ToVal_step, ht, hhost, State.new_Val, ha1]

/-- C14 at the shadow vector with the two slots `[7, 9]`, grown to 4. -/
theorem C14_GrowVector_growth_witness :
    twoSlotState.getZAM_vector 1 = .ok ⟨[⟨7⟩, ⟨9⟩], nullptr, false, none, nullptr⟩
      ∧ ∃ s1 z1, ZAM_vector.GrowVector twoSlotState 1 4 = .ok s1
          ∧ s1.getZAM_vector 1 = .ok z1
          ∧ z1.zvec.length = 4
          ∧ (∀ i, i < 2 → z1.zvec[i]? = ([⟨7⟩, ⟨9⟩] : List ZAMValUnion)[i]?)
          ∧ (∀ i, 2 ≤ i → i < 4 → z1.zvec[i]? = some ⟨nullptr⟩)
          ∧ z1 = { (⟨[⟨7⟩, ⟨9⟩], nullptr, false, none, nullptr⟩ : ZAM_vector) with
                    zvec := z1.zvec } :=
  ⟨by decide,
    C14_GrowVector_growth twoSlotState 1 ⟨[⟨7⟩, ⟨9⟩], nullptr, false, none, nullptr⟩ 4
      (by decide) (by decide)⟩

/-- C15 (as amended) at the shadow vector with the two slots `[7, 9]` and the
requested sizes 1 and -1. -/
theorem C15_GrowVector_resizes_witness :
    twoSlotState.getZAM_vector 1 = .ok ⟨[⟨7⟩, ⟨9⟩], nullptr, false, none, nullptr⟩
      ∧ ZAM_vector.GrowVector twoSlotState 1 (-1) = .error .LengthError
      ∧ ∃ s1 z1, ZAM_vector.GrowVector twoSlotState 1 1 = .ok s1
          ∧ s1.getZAM_vector 1 = .ok z1
          ∧ z1.zvec = [⟨7⟩] :=
  ⟨by decide,
    (C15_GrowVector_resizes twoSlotState 1 ⟨[⟨7⟩, ⟨9⟩], nullptr, false, none, nullptr⟩ (-1)
      (by decide)).1 (by decide),
    by
      obtain ⟨s1, z1, h1, h2, _, _, _, h6⟩ :=
        (C15_GrowVector_resizes twoSlotState 1 ⟨[⟨7⟩, ⟨9⟩], nullptr, false, none, nullptr⟩ 1
          (by decide)).2 (by decide)
      exact ⟨s1, z1, h1, h2, h6 (by decide)⟩⟩

/-! ## Writes commute with what does not read them -/

theorem State.write_length (s : State) (p : Nat) (x : Obj) :
    (s.write p x).heap.length = s.heap.length := by
  unfold State.write
  split <;> simp

theorem State.alloc_write_comm {s : State} {a : Nat} {y : Obj} (o x : Obj)
    (h : s.read a = some y) :
    (s.write a o).alloc x = ((s.alloc x).1, (s.alloc x).2.write a o) := by
  have hle := State.read_some_le h
  have hne : a ≠ 0 := State.read_some_ne_null h
  unfold State.alloc State.write
  simp only [hne, if_false, List.length_set]
  congr 2
  rw [List.set_append_left _ _ (by omega)]

theorem State.write_write_comm (s : State) {p q : Nat} (x y : Obj) (h : p ≠ q) :
    (s.write p x).write q y = (s.write q y).write p x := by
  unfold State.write
  by_cases hp : p = 0
  · simp [hp]
  · by_cases hq : q = 0
    · simp [hq]
    · simp only [hp, hq, if_false]
      congr 1
      exact List.set_comm x y s.heap (by omega)

theorem State.write_write_same (s : State) (p : Nat) (x y : Obj) :
    (s.write p x).write p y = s.write p y := by
  unfold State.write
  by_cases hp : p = 0
  · simp [hp]
  · simp only [hp, if_false]
    congr 1
    exact List.set_set x y s.heap (p - 1)

theorem State.write_report (s : State) (p : Nat) (x : Obj) (l : List (String × Ptr)) :
    ({ s.write p x with log := l } : State) = State.write { s with log := l } p x := by
  unfold State.write
  split <;> rfl

theorem State.write_log_eq (s : State) (p : Nat) (x : Obj) : (s.write p x).log = s.log :=
  State.write_log s p x

theorem State.read_write {c : State} {a : Nat} {y : Obj} (o : Obj) (ha : c.read a = some y)
    (p : Nat) : (c.write a o).read p = if p = a then some o else c.read p := by
  by_cases hp : p = a
  · subst hp
    rw [State.read_write_self o ha]
    simp
  · rw [State.read_write_other _ _ hp]
    simp [hp]

theorem State.getVal_write_shadow {c : State} {a : Nat} {zc : ZAM_vector} (zs : ZAM_vector)
    (ha : c.read a = some (.ZAM_vector zc)) (p : Nat) :
    (c.write a (.ZAM_vector zs)).getVal p = c.getVal p := by
  unfold State.getVal
  rw [State.read_write _ ha]
  by_cases hp : p = a
  · subst hp
    simp [ha]
  · simp [hp]

theorem State.get_val_vec_write_shadow {c : State} {a : Nat} {zc : ZAM_vector}
    (zs : ZAM_vector) (ha : c.read a = some (.ZAM_vector zc)) (p : Nat) :
    (c.write a (.ZAM_vector zs)).get_val_vec p = c.get_val_vec p := by
  unfold State.get_val_vec
  rw [State.read_write _ ha]
  by_cases hp : p = a
  · subst hp
    simp [ha]
  · simp [hp]

theorem State.getBroString_write_shadow {c : State} {a : Nat} {zc : ZAM_vector}
    (zs : ZAM_vector) (ha : c.read a = some (.ZAM_vector zc)) (p : Nat) :
    (c.write a (.ZAM_vector zs)).getBroString p = c.getBroString p := by
  unfold State.getBroString
  rw [State.read_write _ ha]
  by_cases hp : p = a
  · subst hp
    simp [ha]
  · simp [hp]

theorem State.getIPAddr_write_shadow {c : State} {a : Nat} {zc : ZAM_vector}
    (zs : ZAM_vector) (ha : c.read a = some (.ZAM_vector zc)) (p : Nat) :
    (c.write a (.ZAM_vector zs)).getIPAddr p = c.getIPAddr p := by
  unfold State.getIPAddr
  rw [State.read_write _ ha]
  by_cases hp : p = a
  · subst hp
    simp [ha]
  · simp [hp]

theorem State.getIPPrefix_write_shadow {c : State} {a : Nat} {zc : ZAM_vector}
    (zs : ZAM_vector) (ha : c.read a = some (.ZAM_vector zc)) (p : Nat) :
    (c.write a (.ZAM_vector zs)).getIPPrefix p = c.getIPPrefix p := by
  unfold State.getIPPrefix
  rw [State.read_write _ ha]
  by_cases hp : p = a
  · subst hp
    simp [ha]
  · simp [hp]

theorem State.zvec_push_back_write {c : State} {a zv : Nat} (o : Obj) (e : ZAMValUnion)
    (hne : zv ≠ a) :
    (c.write a o).zvec_push_back zv e
      = c.zvec_push_back zv e >>= fun c1 => .ok (c1.write a o) := by
  unfold State.zvec_push_back
  rw [State.read_write_other _ _ hne]
  split
  · simp only [Except_ok_bind]
    rw [State.write_write_comm _ _ _ (Ne.symm hne)]
  · rfl

theorem State.getZAM_vector_write_other (c : State) {a p : Nat} (o : Obj) (hne : p ≠ a) :
    (c.write a o).getZAM_vector p = c.getZAM_vector p := by
  unfold State.getZAM_vector
  rw [State.read_write_other _ _ hne]

theorem ZAM_vector.SetManagedYieldType_write (c : State) {a raw : Nat} (o : Obj) (y : BroType)
    (hne : raw ≠ a) :
    ZAM_vector.SetManagedYieldType (c.write a o) raw y
      = ZAM_vector.SetManagedYieldType c raw y >>= fun c1 => .ok (c1.write a o) := by
  unfold ZAM_vector.SetManagedYieldType
  rw [State.getZAM_vector_write_other _ _ hne]
  cases c.getZAM_vector raw with
  | error e => rfl
  | ok z =>
    simp only [Except_ok_bind, Except_pure]
    rw [State.write_write_comm _ _ _ (Ne.symm hne)]

theorem VectorVal.Lookup_write_shadow {c : State} {a : Nat} {zc : ZAM_vector}
    (zs : ZAM_vector) (ha : c.read a = some (.ZAM_vector zc)) (vv i : Nat) :
    VectorVal.Lookup (c.write a (.ZAM_vector zs)) vv i = VectorVal.Lookup c vv i := by
  unfold VectorVal.Lookup
  rw [State.getVal_write_shadow zs ha]
  simp only [State.get_val_vec_write_shadow zs ha]

theorem ZAMVector.ctor_handle_write_shadow {c : State} {a raw : Nat} {zc : ZAM_vector}
    (zs : ZAM_vector) (ha : c.read a = some (.ZAM_vector zc)) (hne : raw ≠ a) :
    ZAMVector.ctor (c.write a (.ZAM_vector zs)) raw
      = ZAMVector.ctor c raw >>= fun r => .ok (r.1, r.2.write a (.ZAM_vector zs)) := by
  simp only [ZAMVector.ctor, State.getZAM_vector_write_other _ _ hne,
    State.getVal_write_shadow zs ha, VectorVal.Lookup_write_shadow zs ha,
    ZAM_vector.SetManagedYieldType_write _ _ _ hne]
  cases c.getZAM_vector raw with
  | error e => rfl
  | ok zobj =>
    simp only [Except_ok_bind]
    split
    · simp only [Except_ok_bind]
      rw [State.alloc_write_comm _ _ ha]
    · cases c.getVal zobj.vv with
      | error e => rfl
      | ok vobj =>
        simp only [Except_ok_bind]
        split
        · rfl
        · rename_i yt0 _
          cases (if (yt0.Tag == TypeTag.TYPE_ANY) = true then
              if zobj.zvec.length > 0 then do
                let elem0 ← VectorVal.Lookup c zobj.vv 0
                let e0 ← c.getVal elem0
                pure (some e0.type)
              else pure none
            else pure (some yt0) : Except Fault (Option BroType)) with
          | error e => rfl
          | ok yt =>
            simp only [Except_ok_bind]
            cases yt with
            | none =>
              simp only [Except_pure, Except_ok_bind]
              rw [State.alloc_write_comm _ _ ha]
            | some y =>
              simp only
              split
              · cases hm : ZAM_vector.SetManagedYieldType c raw y with
                | error e => rfl
                | ok c2 =>
                  simp only [Except_ok_bind]
                  have ha2 : c2.read a = some (.ZAM_vector zc) :=
                    (ZAM_vector.SetManagedYieldType_spec hm).1 a _ (Ne.symm hne) ha
                  rw [State.alloc_write_comm _ _ ha2]
              · simp only [Except_pure, Except_ok_bind]
                rw [State.alloc_write_comm _ _ ha]

theorem to_raw_ZAM_vector_loop_write_shadow
    (ctor : State → Ptr → BroType → Ptr → Ptr → Bool → Except Fault (ZAMValUnion × Bool × State))
    (hC : ∀ s v t b o e z e1 s1, ctor s v t b o e = .ok (z, e1, s1) → s.Extends s1)
    (hW : ∀ (c : State) (a : Nat) (zc zs : ZAM_vector) v t b o e,
      c.read a = some (.ZAM_vector zc) →
      ctor (c.write a (.ZAM_vector zs)) v t b o e
        = ctor c v t b o e >>= fun r => .ok (r.1, r.2.1, r.2.2.write a (.ZAM_vector zs)))
    (yt : BroType) (bindings vec zv : Ptr) {a : Nat} {zc : ZAM_vector} (zs : ZAM_vector)
    (hne : zv ≠ a) (elems : List Ptr) :
    ∀ (c : State), c.read a = some (.ZAM_vector zc) →
      to_raw_ZAM_vector_loop ctor yt bindings vec zv elems (c.write a (.ZAM_vector zs))
        = to_raw_ZAM_vector_loop ctor yt bindings vec zv elems c
            >>= fun c1 => .ok (c1.write a (.ZAM_vector zs)) := by
  induction elems with
  | nil =>
    intro c _
    rfl
  | cons elem rest ih =>
    intro c ha
    simp only [to_raw_ZAM_vector_loop]
    split
    · rw [State.zvec_push_back_write _ _ hne]
      cases hp : c.zvec_push_back zv ZAMValUnion.nil with
      | error e => rfl
      | ok c1 =>
        simp only [Except_ok_bind]
        exact ih c1 ((State.zvec_push_back_spec hp).1 a _ (Ne.symm hne) ha)
    · rw [hW c a zc zs _ _ _ _ _ ha]
      cases hc : ctor c elem yt bindings vec false with
      | error e => rfl
      | ok r =>
        obtain ⟨z, e1, c1⟩ := r
        have ha1 := hC _ _ _ _ _ _ _ _ _ hc a _ ha
        simp only [Except_ok_bind]
        rw [State.zvec_push_back_write _ _ hne]
        cases hp : c1.zvec_push_back zv z with
        | error e => rfl
        | ok c2 =>
          simp only [Except_ok_bind]
          exact ih c2 ((State.zvec_push_back_spec hp).1 a _ (Ne.symm hne) ha1)

theorem to_ZAM_vector_with_write_shadow
    (ctor : State → Ptr → BroType → Ptr → Ptr → Bool → Except Fault (ZAMValUnion × Bool × State))
    (hC : ∀ s v t b o e z e1 s1, ctor s v t b o e = .ok (z, e1, s1) → s.Extends s1)
    (hW : ∀ (c : State) (a : Nat) (zc zs : ZAM_vector) v t b o e,
      c.read a = some (.ZAM_vector zc) →
      ctor (c.write a (.ZAM_vector zs)) v t b o e
        = ctor c v t b o e >>= fun r => .ok (r.1, r.2.1, r.2.2.write a (.ZAM_vector zs)))
    (c : State) (a : Nat) (zc zs : ZAM_vector) (vec bindings : Ptr) (track_val : Bool)
    (ha : c.read a = some (.ZAM_vector zc)) :
    to_ZAM_vector_with ctor (c.write a (.ZAM_vector zs)) vec bindings track_val
      = to_ZAM_vector_with ctor c vec bindings track_val
          >>= fun r => .ok (r.1, r.2.write a (.ZAM_vector zs)) := by
  simp only [to_ZAM_vector_with, to_raw_ZAM_vector_with, State.getVal_write_shadow zs ha,
    State.get_val_vec_write_shadow zs ha]
  cases c.getVal vec with
  | error e => rfl
  | ok vobj =>
    simp only [Except_ok_bind]
    cases c.get_val_vec vobj.val with
    | error e => rfl
    | ok vv =>
      simp only [Except_ok_bind]
      split
      · rfl
      · rename_i yt _
        rw [State.alloc_write_comm _ _ ha]
        simp only
        have hzv : (c.alloc (.ZAM_vector (ZAM_vector.make vec
            (if (!track_val) = true then nullptr else bindings)
            (if IsManagedType yt = true then some yt else none)))).1 ≠ a := by
          have hle := State.read_some_le ha
          have h2 : c.heap.length + 1 ≠ a := by omega
          exact h2
        have ha0 := State.read_alloc_old (.ZAM_vector (ZAM_vector.make vec
            (if (!track_val) = true then nullptr else bindings)
            (if IsManagedType yt = true then some yt else none))) ha
        rw [to_raw_ZAM_vector_loop_write_shadow ctor hC hW yt _ vec _ zs hzv vv _ ha0]
        cases hl : to_raw_ZAM_vector_loop ctor yt
            (if (!track_val) = true then nullptr else bindings) vec
            (c.alloc (.ZAM_vector (ZAM_vector.make vec
              (if (!track_val) = true then nullptr else bindings)
              (if IsManagedType yt = true then some yt else none)))).1 vv
            (c.alloc (.ZAM_vector (ZAM_vector.make vec
              (if (!track_val) = true then nullptr else bindings)
              (if IsManagedType yt = true then some yt else none)))).2 with
        | error e => rfl
        | ok c1 =>
          simp only [Except_ok_bind]
          have ha1 := (to_raw_ZAM_vector_loop_spec ctor hC _ _ _ _ _ _ _ hl).1 a _
            (Ne.symm hzv) ha0
          rw [ZAMVector.ctor_handle_write_shadow zs ha1 hzv]

theorem ZAMValUnion.ctor_step_write_shadow (h : Host)
    (F : State → Ptr → Ptr → Bool → Except Fault (Ptr × State))
    (hF : ∀ (c : State) (a : Nat) (zc zs : ZAM_vector) vec b tr,
      c.read a = some (.ZAM_vector zc) →
      F (c.write a (.ZAM_vector zs)) vec b tr
        = F c vec b tr >>= fun r => .ok (r.1, r.2.write a (.ZAM_vector zs)))
    (c : State) (a : Nat) (zc zs : ZAM_vector) (v : Ptr) (t : BroType) (bindings o : Ptr)
    (e : Bool) (ha : c.read a = some (.ZAM_vector zc)) :
    ZAMValUnion.ctor_step h F (c.write a (.ZAM_vector zs)) v t bindings o e
      = ZAMValUnion.ctor_step h F c v t bindings o e
          >>= fun r => .ok (r.1, r.2.1, r.2.2.write a (.ZAM_vector zs)) := by
  simp only [ZAMValUnion.ctor_step, State.getVal_write_shadow zs ha,
    State.getBroString_write_shadow zs ha, State.getIPAddr_write_shadow zs ha,
    State.getIPPrefix_write_shadow zs ha, hF c a zc zs _ _ _ ha,
    State.alloc_write_comm _ _ ha, ZAM_run_time_error, State.write_log, State.write_report]
  split
  · rfl
  · cases c.getVal v with
    | error e1 => rfl
    | ok vobj =>
      simp only [Except_ok_bind]
      split
      · rfl
      · cases htag : t.Tag <;> simp only [Except_ok_bind]
        all_goals first
          | rfl
          | (cases c.getBroString vobj.val <;> rfl)
          | (cases c.getIPAddr vobj.val <;> rfl)
          | (cases c.getIPPrefix vobj.val <;> rfl)
          | (split
             · split
               · rfl
               · cases F c v bindings true <;> rfl
             · rfl)

theorem ZAMValUnion.ctor_write_shadow (h : Host) (n : Nat) :
    ∀ (c : State) (a : Nat) (zc zs : ZAM_vector) (v : Ptr) (t : BroType) (bindings o : Ptr)
      (e : Bool), c.read a = some (.ZAM_vector zc) →
      ZAMValUnion.ctor h n (c.write a (.ZAM_vector zs)) v t bindings o e
        = ZAMValUnion.ctor h n c v t bindings o e
            >>= fun r => .ok (r.1, r.2.1, r.2.2.write a (.ZAM_vector zs)) := by
  induction n with
  | zero =>
    intro c a zc zs v t bindings o e ha
    exact ZAMValUnion.ctor_step_write_shadow h _ (fun _ _ _ _ _ _ _ _ => rfl)
      c a zc zs v t bindings o e ha
  | succ n ih =>
    intro c a zc zs v t bindings o e ha
    exact ZAMValUnion.ctor_step_write_shadow h _
      (fun c a zc zs vec b tr ha =>
        to_ZAM_vector_with_write_shadow _ (ZAMValUnion.ctor_extends h n) ih c a zc zs vec b tr ha)
      c a zc zs v t bindings o e ha

/-! ## Keeping objects -/

theorem State.Keeps.same (s : State) : s.Keeps s := fun _ y hq => ⟨y, hq, rfl⟩

theorem State.Keeps.chain {s s1 s2 : State} (h1 : s.Keeps s1) (h2 : s1.Keeps s2) :
    s.Keeps s2 := by
  intro q y hq
  obtain ⟨y1, hq1, hc1⟩ := h1 q y hq
  obtain ⟨y2, hq2, hc2⟩ := h2 q y1 hq1
  exact ⟨y2, hq2, hc2.trans hc1⟩

theorem State.Extends.to_keeps {s s1 : State} (h : s.Extends s1) : s.Keeps s1 :=
  fun q y hq => ⟨y, h q y hq, rfl⟩

theorem State.Keeps.of_alloc (s : State) (x : Obj) : s.Keeps (s.alloc x).2 :=
  (State.Extends.alloc s x).to_keeps

theorem State.Keeps.write {s : State} {p : Nat} {y y1 : Obj} (hp : s.read p = some y)
    (hc : y1.core = y.core) : s.Keeps (s.write p y1) := by
  intro q x hq
  by_cases hqp : q = p
  · subst hqp
    rw [hp] at hq
    cases hq
    exact ⟨y1, State.read_write_self _ hp, hc⟩
  · exact ⟨x, by rw [State.read_write_other _ _ hqp]; exact hq, rfl⟩

theorem core_eq_BroString {y : Obj} {b : List Nat} (h : y.core = (Obj.BroString b).core) :
    y = .BroString b := by
  cases y <;> simp_all [Obj.core]

theorem core_eq_IPAddr {y : Obj} {b : Nat} (h : y.core = (Obj.IPAddr b).core) :
    y = .IPAddr b := by
  cases y <;> simp_all [Obj.core]

theorem core_eq_IPPrefix {y : Obj} {b l : Nat} (h : y.core = (Obj.IPPrefix b l).core) :
    y = .IPPrefix b l := by
  cases y <;> simp_all [Obj.core]

theorem core_eq_val_vec {y : Obj} {b : List Ptr} (h : y.core = (Obj.val_vec b).core) :
    y = .val_vec b := by
  cases y <;> simp_all [Obj.core]

theorem core_eq_ZAM_vector {y : Obj} {z : ZAM_vector}
    (h : y.core = (Obj.ZAM_vector z).core) : y = .ZAM_vector z := by
  cases y <;> simp_all [Obj.core]

theorem core_eq_ZAMVector {y : Obj} {z : ZAMVector}
    (h : y.core = (Obj.ZAMVector z).core) : y = .ZAMVector z := by
  cases y <;> simp_all [Obj.core]

theorem core_eq_Func {y : Obj} {ft : BroType} {rc : Nat}
    (h : y.core = (Obj.Func ft rc).core) : ∃ rc1, y = .Func ft rc1 := by
  cases y <;> simp_all [Obj.core]

theorem core_eq_BroFile {y : Obj} {rc : Nat}
    (h : y.core = (Obj.BroFile rc).core) : ∃ rc1, y = .BroFile rc1 := by
  cases y <;> simp_all [Obj.core]

theorem core_eq_Val {y : Obj} {v : Val}
    (h : y.core = (Obj.Val v).core) : ∃ rc1, y = .Val { v with ref_cnt := rc1 } := by
  cases y with
  | Val w =>
    simp only [Obj.core, Obj.Val.injEq] at h
    refine ⟨w.ref_cnt, ?_⟩
    have h1 := congrArg Val.type h
    have h2 := congrArg Val.val h
    simp only at h1 h2
    cases w
    simp_all
  | _ => simp_all [Obj.core]

/-! ## Freshen -/

theorem State.write_read_same {s : State} {p : Nat} {x : Obj} (h : s.read p = some x) :
    s.write p x = s := by
  have hp := State.read_some_ne_null h
  unfold State.read at h
  unfold State.write
  have hp0 : ¬ (p = nullptr) := hp
  rw [if_neg hp0] at h ⊢
  rw [List_set_same h]

theorem ZAM_vector.Freshen_loop_eq
    (ctor : State → Ptr → BroType → Ptr → Ptr → Bool → Except Fault (ZAMValUnion × Bool × State))
    (yt : BroType) (bindings vv this : Ptr) (elems : List Ptr) :
    ∀ s, ZAM_vector.Freshen_loop ctor yt bindings vv this elems s
      = to_raw_ZAM_vector_loop ctor yt bindings vv this elems s := by
  induction elems with
  | nil => intro s; rfl
  | cons elem rest ih =>
    intro s
    simp only [ZAM_vector.Freshen_loop, to_raw_ZAM_vector_loop, ih]

theorem State.zvec_push_back_written {c : State} {zv : Nat} {zc : ZAM_vector} (Z : ZAM_vector)
    (e : ZAMValUnion) (hz : c.read zv = some (.ZAM_vector zc)) :
    (c.write zv (.ZAM_vector Z)).zvec_push_back zv e
      = .ok (c.write zv (.ZAM_vector { Z with zvec := Z.zvec ++ [e] })) := by
  unfold State.zvec_push_back
  rw [State.read_write_self _ hz]
  simp only [State.write_write_same]

/-- The loop that loads the slots, started on a shadow vector `Z`, appends to
its slots the cells of `ctor_seq`; the cells do not depend on `Z`. -/
theorem to_raw_ZAM_vector_loop_chain
    (ctor : State → Ptr → BroType → Ptr → Ptr → Bool → Except Fault (ZAMValUnion × Bool × State))
    (hC : ∀ s v t b o e z e1 s1, ctor s v t b o e = .ok (z, e1, s1) → s.Extends s1)
    (hW : ∀ (c : State) (a : Nat) (zc zs : ZAM_vector) v t b o e,
      c.read a = some (.ZAM_vector zc) →
      ctor (c.write a (.ZAM_vector zs)) v t b o e
        = ctor c v t b o e >>= fun r => .ok (r.1, r.2.1, r.2.2.write a (.ZAM_vector zs)))
    (yt : BroType) (bindings vec : Ptr) {zv : Nat} (elems : List Ptr) :
    ∀ (c : State) (zc Z : ZAM_vector), c.read zv = some (.ZAM_vector zc) →
      to_raw_ZAM_vector_loop ctor yt bindings vec zv elems (c.write zv (.ZAM_vector Z))
        = ctor_seq ctor yt bindings vec elems c
            >>= fun r => .ok (r.2.write zv (.ZAM_vector { Z with zvec := Z.zvec ++ r.1 })) := by
  induction elems with
  | nil =>
    intro c zc Z _
    simp [to_raw_ZAM_vector_loop, ctor_seq]
  | cons elem rest ih =>
    intro c zc Z hz
    simp only [to_raw_ZAM_vector_loop, ctor_seq]
    split
    · rw [State.zvec_push_back_written Z _ hz]
      simp only [Except_ok_bind]
      rw [ih c zc _ hz]
      cases hr : ctor_seq ctor yt bindings vec rest c with
      | error e => rfl
      | ok r => simp
    · rw [hW c zv zc Z _ _ _ _ _ hz]
      cases hc : ctor c elem yt bindings vec false with
      | error e => rfl
      | ok r =>
        obtain ⟨z, e1, c1⟩ := r
        have hz1 := hC _ _ _ _ _ _ _ _ _ hc zv _ hz
        simp only [Except_ok_bind]
        rw [State.zvec_push_back_written Z _ hz1]
        simp only [Except_ok_bind]
        rw [ih c1 zc _ hz1]
        cases hr : ctor_seq ctor yt bindings vec rest c1 with
        | error e => rfl
        | ok r => simp

/-- What `ctor_seq` returns: one cell per entry, the nil cell for a null
entry and for any other entry the cell the constructor returns for it, in a
state that holds every object of the state it started in. -/
theorem ctor_seq_spec
    (ctor : State → Ptr → BroType → Ptr → Ptr → Bool → Except Fault (ZAMValUnion × Bool × State))
    (hC : ∀ s v t b o e z e1 s1, ctor s v t b o e = .ok (z, e1, s1) → s.Extends s1)
    (yt : BroType) (bindings vec : Ptr) (elems : List Ptr) :
    ∀ (c c1 : State) (cells : List ZAMValUnion),
      ctor_seq ctor yt bindings vec elems c = .ok (cells, c1) →
      c.Extends c1 ∧ cells.length = elems.length
        ∧ (∀ i : Nat, elems[i]? = some nullptr → cells[i]? = some ZAMValUnion.nil)
        ∧ ∀ (i : Nat) (p : Ptr), elems[i]? = some p → p ≠ nullptr →
            ∃ z ci e1 ci1, cells[i]? = some z ∧ c.Extends ci
              ∧ ctor ci p yt bindings vec false = .ok (z, e1, ci1) := by
  induction elems with
  | nil =>
    intro c c1 cells hr
    simp only [ctor_seq, Except.ok.injEq, Prod.mk.injEq] at hr
    obtain ⟨rfl, rfl⟩ := hr
    exact ⟨State.Extends.refl _, rfl, fun i hi => by simp at hi, fun i p hi => by simp at hi⟩
  | cons elem rest ih =>
    intro c c1 cells hr
    simp only [ctor_seq] at hr
    split at hr
    · rename_i h0
      obtain ⟨r, hr1, hr2⟩ := Except_bind_eq_ok hr
      obtain ⟨cs, c2⟩ := r
      simp only [Except.ok.injEq, Prod.mk.injEq] at hr2
      obtain ⟨rfl, rfl⟩ := hr2
      obtain ⟨hE, hl, hn, hv⟩ := ih _ _ _ hr1
      refine ⟨hE, by simp [hl], ?_, ?_⟩
      · intro i hi
        cases i with
        | zero => simp
        | succ j =>
          rw [List.getElem?_cons_succ] at hi ⊢
          exact hn j hi
      · intro i p hi hp
        cases i with
        | zero =>
          simp only [List.getElem?_cons_zero, Option.some.injEq] at hi
          subst hi
          exact absurd (by simpa using h0) hp
        | succ j =>
          rw [List.getElem?_cons_succ] at hi ⊢
          exact hv j p hi hp
    · rename_i hne
      obtain ⟨r0, hr0, hr⟩ := Except_bind_eq_ok hr
      obtain ⟨z, e1, c0⟩ := r0
      obtain ⟨r, hr1, hr2⟩ := Except_bind_eq_ok hr
      obtain ⟨cs, c2⟩ := r
      simp only [Except.ok.injEq, Prod.mk.injEq] at hr2
      obtain ⟨rfl, rfl⟩ := hr2
      obtain ⟨hE, hl, hn, hv⟩ := ih _ _ _ hr1
      have hE0 := hC _ _ _ _ _ _ _ _ _ hr0
      refine ⟨hE0.trans hE, by simp [hl], ?_, ?_⟩
      · intro i hi
        cases i with
        | zero =>
          simp only [List.getElem?_cons_zero, Option.some.injEq] at hi
          exact absurd (by simp [hi]) hne
        | succ j =>
          rw [List.getElem?_cons_succ] at hi ⊢
          exact hn j hi
      · intro i p hi hp
        cases i with
        | zero =>
          simp only [List.getElem?_cons_zero, Option.some.injEq] at hi
          subst hi
          exact ⟨z, c, e1, c0, by simp, State.Extends.refl _, hr0⟩
        | succ j =>
          rw [List.getElem?_cons_succ] at hi
          obtain ⟨z1, ci, e2, ci1, h1, h2, h3⟩ := hv j p hi hp
          exact ⟨z1, ci, e2, ci1, by rw [List.getElem?_cons_succ]; exact h1, hE0.trans h2, h3⟩

/-! ## Well-formed cells and elements -/

theorem SlotValid.keeps {h : Host} {n : Nat} {s s1 : State} {yt : BroType} {e : ZAMValUnion}
    (hk : s.Keeps s1) (hv : SlotValid h n s yt e) : SlotValid h n s1 yt e := by
  unfold SlotValid at hv ⊢
  cases htag : yt.Tag <;> simp only [htag] at hv ⊢
  case TYPE_STRING =>
    obtain ⟨b, hb⟩ := hv
    obtain ⟨y, hy, hc⟩ := hk _ _ hb
    exact ⟨b, by rw [hy, core_eq_BroString hc]⟩
  case TYPE_ADDR =>
    obtain ⟨b, hb⟩ := hv
    obtain ⟨y, hy, hc⟩ := hk _ _ hb
    exact ⟨b, by rw [hy, core_eq_IPAddr hc]⟩
  case TYPE_SUBNET =>
    obtain ⟨b, l, hb⟩ := hv
    obtain ⟨y, hy, hc⟩ := hk _ _ hb
    exact ⟨b, l, by rw [hy, core_eq_IPPrefix hc]⟩
  case TYPE_FUNC =>
    obtain ⟨ft, rc, hb⟩ := hv
    obtain ⟨y, hy, hc⟩ := hk _ _ hb
    obtain ⟨rc1, rfl⟩ := core_eq_Func hc
    exact ⟨ft, rc1, hy⟩
  case TYPE_FILE =>
    obtain ⟨rc, hb⟩ := hv
    obtain ⟨y, hy, hc⟩ := hk _ _ hb
    obtain ⟨rc1, rfl⟩ := core_eq_BroFile hc
    exact ⟨rc1, hy⟩
  case TYPE_VECTOR =>
    obtain ⟨hn, zv, z, h1, h2, h3, h4⟩ := hv
    obtain ⟨y1, hy1, hc1⟩ := hk _ _ h1
    obtain ⟨y2, hy2, hc2⟩ := hk _ _ h2
    exact ⟨hn, zv, z, by rw [hy1, core_eq_ZAMVector hc1], by rw [hy2, core_eq_ZAM_vector hc2],
      h3, h4⟩
  all_goals first
    | exact hv
    | (obtain ⟨v, hb⟩ := hv
       obtain ⟨y, hy, hc⟩ := hk _ _ hb
       obtain ⟨rc1, rfl⟩ := core_eq_Val hc
       exact ⟨_, hy⟩)

theorem ElemValid.extends {h : Host} {s s1 : State} {yt : BroType} {p : Ptr}
    (hE : s.Extends s1) (hv : ElemValid h s yt p) : ElemValid h s1 yt p := by
  obtain ⟨v, hp, hc, hk⟩ := hv
  refine ⟨v, hE _ _ hp, hc, ?_⟩
  cases htag : yt.Tag <;> simp only [htag] at hk ⊢
  case TYPE_STRING => obtain ⟨b, hb⟩ := hk; exact ⟨b, hE _ _ hb⟩
  case TYPE_ADDR => obtain ⟨b, hb⟩ := hk; exact ⟨b, hE _ _ hb⟩
  case TYPE_SUBNET => obtain ⟨b, l, hb⟩ := hk; exact ⟨b, l, hE _ _ hb⟩
  case TYPE_FUNC => obtain ⟨b, l, hb⟩ := hk; exact ⟨b, l, hE _ _ hb⟩
  case TYPE_FILE => obtain ⟨b, hb⟩ := hk; exact ⟨b, hE _ _ hb⟩
  all_goals exact hk

theorem ZAMValUnion.ctor_step_valid (h : Host)
    (G : State → Ptr → Ptr → Bool → Except Fault (Ptr × State)) (m : Nat)
    {s : State} {p : Ptr} {yt : BroType} (b o : Ptr) (e : Bool) (hv : ElemValid h s yt p) :
    ∃ z s1, ZAMValUnion.ctor_step h G s p yt b o e = .ok (z, e, s1) ∧ s.Extends s1
      ∧ s1.log = s.log ∧ z.IsNil yt = false ∧ SlotValid h m s1 yt z := by
  obtain ⟨v, hp, hc, hk⟩ := hv
  have hp0 : (p == nullptr) = false := by
    have := State.read_some_ne_null hp
    simpa using this
  have hg : s.getVal p = .ok v := State.getVal_ok_iff.mpr hp
  unfold ZAMValUnion.ctor_step
  simp only [hp0, Bool.false_eq_true, if_false, hg, Except_ok_bind, hc]
  unfold SlotValid ZAMValUnion.IsNil
  cases htag : yt.Tag <;> simp only [htag] at hk ⊢
  case TYPE_STRING =>
    obtain ⟨bytes, hb⟩ := hk
    simp only [State.getBroString, hb, Except_ok_bind]
    exact ⟨_, _, rfl, State.Extends.alloc _ _, rfl, by simp [State.alloc], _,
      State.read_alloc_new _ _⟩
  case TYPE_ADDR =>
    obtain ⟨bytes, hb⟩ := hk
    simp only [State.getIPAddr, hb, Except_ok_bind]
    exact ⟨_, _, rfl, State.Extends.alloc _ _, rfl, by simp [State.alloc], _,
      State.read_alloc_new _ _⟩
  case TYPE_SUBNET =>
    obtain ⟨bytes, len, hb⟩ := hk
    simp only [State.getIPPrefix, hb, Except_ok_bind]
    exact ⟨_, _, rfl, State.Extends.alloc _ _, rfl, by simp [State.alloc], _, _,
      State.read_alloc_new _ _⟩
  case TYPE_FUNC =>
    obtain ⟨ft, rc, hb⟩ := hk
    have := State.read_some_ne_null hb
    exact ⟨_, _, rfl, State.Extends.refl _, rfl, by simpa using this, ft, rc, hb⟩
  case TYPE_FILE =>
    obtain ⟨rc, hb⟩ := hk
    have := State.read_some_ne_null hb
    exact ⟨_, _, rfl, State.Extends.refl _, rfl, by simpa using this, rc, hb⟩
  case TYPE_TYPE =>
    obtain ⟨h0, d, hd⟩ := hk
    exact ⟨_, _, rfl, State.Extends.refl _, rfl, by simpa using h0, d, hd⟩
  all_goals first
    | exact ⟨_, _, rfl, State.Extends.refl _, rfl, trivial, trivial⟩
    | exact ⟨_, _, rfl, State.Extends.refl _, rfl, hp0, v, hp⟩

theorem ZAMValUnion.ctor_valid (h : Host) (n m : Nat)
    {s : State} {p : Ptr} {yt : BroType} (b o : Ptr) (e : Bool) (hv : ElemValid h s yt p) :
    ∃ z s1, ZAMValUnion.ctor h n s p yt b o e = .ok (z, e, s1) ∧ s.Extends s1
      ∧ s1.log = s.log ∧ z.IsNil yt = false ∧ SlotValid h m s1 yt z := by
  cases n with
  | zero => exact ZAMValUnion.ctor_step_valid h _ m b o e hv
  | succ k => exact ZAMValUnion.ctor_step_valid h _ m b o e hv

/-- The cells of `ctor_seq` for well-formed elements: the run returns, and
entry by entry a null entry gives the nil cell and any other entry a
well-formed cell that is not nil. -/
theorem ctor_seq_valid (h : Host) (n m : Nat) (yt : BroType) (b vec : Ptr) (elems : List Ptr) :
    ∀ (c : State), (∀ p ∈ elems, p ≠ nullptr → ElemValid h c yt p) →
      ∃ cells c1, ctor_seq (ZAMValUnion.ctor h n) yt b vec elems c = .ok (cells, c1)
        ∧ c.Extends c1 ∧ c1.log = c.log
        ∧ List.Forall₂ (fun p z => (p = nullptr → z = ZAMValUnion.nil)
            ∧ (p ≠ nullptr → z.IsNil yt = false ∧ SlotValid h m c1 yt z)) elems cells := by
  induction elems with
  | nil =>
    intro c _
    exact ⟨[], c, rfl, State.Extends.refl _, rfl, List.Forall₂.nil⟩
  | cons elem rest ih =>
    intro c hv
    simp only [ctor_seq]
    by_cases h0 : elem = nullptr
    · obtain ⟨cells, c1, hr, hE, hl, hF⟩ := ih c (fun p hp => hv p (List.mem_cons_of_mem _ hp))
      refine ⟨ZAMValUnion.nil :: cells, c1, ?_, hE, hl, ?_⟩
      · simp [h0, hr]
      · exact List.Forall₂.cons ⟨fun _ => rfl, fun hne => absurd h0 hne⟩ hF
    · obtain ⟨z, c0, hz, hE0, hl0, hnil, hsv⟩ :=
        ZAMValUnion.ctor_valid h n m b vec false (hv elem (List.mem_cons_self _ _) h0)
      obtain ⟨cells, c1, hr, hE, hl, hF⟩ :=
        ih c0 (fun p hp hne => (hv p (List.mem_cons_of_mem _ hp) hne).extends hE0)
      refine ⟨z :: cells, c1, ?_, hE0.trans hE, hl.trans hl0, ?_⟩
      · have h0b : (elem == nullptr) = false := by simpa using h0
        simp [h0b, hz, hr]
      · exact List.Forall₂.cons ⟨fun he => absurd he h0, fun _ => ⟨hnil, hsv.keeps hE.to_keeps⟩⟩ hF

theorem ZAM_vector.Freshen_eq (h : Host) (n : Nat) (s : State) (this : Ptr) (z : ZAM_vector)
    (vobj : Val) (vals : List Ptr) (yt : BroType)
    (hz : s.read this = some (.ZAM_vector z)) (hd : z.is_dirty = false)
    (hv : s.read z.vv = some (.Val vobj)) (hvals : s.read vobj.val = some (.val_vec vals))
    (hy : vobj.type.YieldType = some yt) :
    ZAM_vector.Freshen h n s this
      = ctor_seq (ZAMValUnion.ctor h n) yt z.bindings z.vv vals s
          >>= fun r => .ok (r.2.write this (.ZAM_vector { z with zvec := r.1 })) := by
  unfold ZAM_vector.Freshen ZAM_vector.Freshen_with
  simp only [State.getZAM_vector, State.getVal, State.get_val_vec, hz, hv, hvals, hy, hd,
    Except_ok_bind, Bool.false_eq_true, if_false]
  rw [ZAM_vector.Freshen_loop_eq,
    to_raw_ZAM_vector_loop_chain _ (ZAMValUnion.ctor_extends h n)
      (fun c a zc zs v t b o e ha => ZAMValUnion.ctor_write_shadow h n c a zc zs v t b o e ha)
      yt z.bindings z.vv vals s z _ hz]
  simp

/-! ## Converting well-formed cells -/

theorem State.Keeps.read_val_vec {s s1 : State} {p : Nat} {X : List Ptr} (hk : s.Keeps s1)
    (hp : s.read p = some (.val_vec X)) : s1.read p = some (.val_vec X) := by
  obtain ⟨y, hy, hc⟩ := hk _ _ hp
  rw [hy, core_eq_val_vec hc]

theorem State.Keeps.read_ZAM_vector {s s1 : State} {p : Nat} {z : ZAM_vector} (hk : s.Keeps s1)
    (hp : s.read p = some (.ZAM_vector z)) : s1.read p = some (.ZAM_vector z) := by
  obtain ⟨y, hy, hc⟩ := hk _ _ hp
  rw [hy, core_eq_ZAM_vector hc]

theorem State.Keeps.read_ZAMVector {s s1 : State} {p : Nat} {z : ZAMVector} (hk : s.Keeps s1)
    (hp : s.read p = some (.ZAMVector z)) : s1.read p = some (.ZAMVector z) := by
  obtain ⟨y, hy, hc⟩ := hk _ _ hp
  rw [hy, core_eq_ZAMVector hc]

theorem State.Keeps.read_Val {s s1 : State} {p : Nat} {v : Val} (hk : s.Keeps s1)
    (hp : s.read p = some (.Val v)) :
    ∃ rc, s1.read p = some (.Val { v with ref_cnt := rc }) := by
  obtain ⟨y, hy, hc⟩ := hk _ _ hp
  obtain ⟨rc, rfl⟩ := core_eq_Val hc
  exact ⟨rc, hy⟩

/-- Reference counting a boxed value, function or file in a state in which a
backing storage has been overwritten. -/
theorem State.Ref_write_storage {s : State} {a w : Nat} {X : List Ptr}
    (Y : List Ptr) (ha : s.read a = some (.val_vec X)) (hw : w ≠ a) :
    (s.write a (.val_vec Y)).Ref w = s.Ref w >>= fun s1 => .ok (s1.write a (.val_vec Y)) := by
  unfold State.Ref
  rw [State.read_write_other _ _ hw]
  cases hr : s.read w with
  | none => rfl
  | some y =>
    cases y <;> first
      | rfl
      | simp only [Except_ok_bind, State.write_write_comm _ _ _ (Ne.symm hw)]

theorem ZAMValUnion.ToVal_step_valid (h : Host) (n : Nat)
    (G : State → ZAMValUnion → BroType → Except Fault (Ptr × State))
    (hG : n ≠ 0 → G = ZAMValUnion.ToVector_with (ZAMValUnion.ToVal h (n - 1)))
    {s : State} {yt : BroType} {e : ZAMValUnion} (hv : SlotValid h n s yt e) :
    ∃ p s1, ZAMValUnion.ToVal_step h G s e yt = .ok (p, s1) ∧ s.Keeps s1
      ∧ (yt.Tag ≠ .TYPE_PORT → p ≠ nullptr)
      ∧ (yt.Tag = .TYPE_ANY → p = e.any_val)
      ∧ ∀ (a : Nat) (X Y : List Ptr), s.read a = some (.val_vec X) →
          ZAMValUnion.ToVal_step h G (s.write a (.val_vec Y)) e yt
            = .ok (p, s1.write a (.val_vec Y)) := by
  unfold SlotValid at hv
  unfold ZAMValUnion.ToVal_step
  cases htag : yt.Tag <;> simp only [htag] at hv ⊢
  case TYPE_PORT =>
    refine ⟨_, _, rfl, State.Keeps.same _, ?_, ?_, ?_⟩
    · intro hf
      exact absurd rfl hf
    · intro hf
      cases hf
    · intro a X Y ha
      rfl
  case TYPE_STRING =>
    obtain ⟨bytes, hb⟩ := hv
    have hwa : ∀ a X, s.read a = some (.val_vec X) → e.string_val ≠ a := by
      intro a X ha he
      rw [he, ha] at hb
      cases hb
    simp only [State.getBroString, hb, Except_ok_bind]
    refine ⟨_, _, rfl, (State.Keeps.of_alloc _ _).chain (State.Keeps.of_alloc _ _), ?_, ?_, ?_⟩
    · intro _
      simp [State.new_Val, State.alloc]
    · intro hf
      cases hf
    · intro a X Y ha
      simp only [State.read_write_other _ _ (hwa a X ha), hb, Except_ok_bind, State.new_Val,
        State.alloc_write_comm _ _ ha, State.alloc_write_comm _ _ (State.read_alloc_old _ ha)]
      rfl
  case TYPE_ADDR =>
    obtain ⟨bytes, hb⟩ := hv
    have hwa : ∀ a X, s.read a = some (.val_vec X) → e.addr_val ≠ a := by
      intro a X ha he
      rw [he, ha] at hb
      cases hb
    simp only [State.getIPAddr, hb, Except_ok_bind]
    refine ⟨_, _, rfl, (State.Keeps.of_alloc _ _).chain (State.Keeps.of_alloc _ _), ?_, ?_, ?_⟩
    · intro _
      simp [State.new_Val, State.alloc]
    · intro hf
      cases hf
    · intro a X Y ha
      simp only [State.read_write_other _ _ (hwa a X ha), hb, Except_ok_bind, State.new_Val,
        State.alloc_write_comm _ _ ha, State.alloc_write_comm _ _ (State.read_alloc_old _ ha)]
      rfl
  case TYPE_SUBNET =>
    obtain ⟨bytes, len, hb⟩ := hv
    have hwa : ∀ a X, s.read a = some (.val_vec X) → e.subnet_val ≠ a := by
      intro a X ha he
      rw [he, ha] at hb
      cases hb
    simp only [State.getIPPrefix, hb, Except_ok_bind]
    refine ⟨_, _, rfl, (State.Keeps.of_alloc _ _).chain (State.Keeps.of_alloc _ _), ?_, ?_, ?_⟩
    · intro _
      simp [State.new_Val, State.alloc]
    · intro hf
      cases hf
    · intro a X Y ha
      simp only [State.read_write_other _ _ (hwa a X ha), hb, Except_ok_bind, State.new_Val,
        State.alloc_write_comm _ _ ha, State.alloc_write_comm _ _ (State.read_alloc_old _ ha)]
      rfl
  case TYPE_TYPE =>
    obtain ⟨d, hd⟩ := hv
    simp only [hd]
    refine ⟨_, _, rfl, State.Keeps.of_alloc _ _, ?_, ?_, ?_⟩
    · intro _
      simp [State.new_Val, State.alloc]
    · intro hf
      cases hf
    · intro a X Y ha
      simp only [State.new_Val, State.alloc_write_comm _ _ ha]
      rfl
  case TYPE_FUNC =>
    obtain ⟨ft, rc, hb⟩ := hv
    have hwa : ∀ a X, s.read a = some (.val_vec X) → e.func_val ≠ a := by
      intro a X ha he
      rw [he, ha] at hb
      cases hb
    have hR : s.Ref e.func_val = .ok (s.write e.func_val (.Func ft (rc + 1))) := by
      unfold State.Ref
      rw [hb]
    have hb1 := State.read_write_self (.Func ft (rc + 1)) hb
    simp only [hR, Except_ok_bind, hb1]
    have hk : s.Keeps (s.write e.word (.Func ft (rc + 1))) := State.Keeps.write hb rfl
    refine ⟨_, _, rfl, hk.chain (State.Keeps.of_alloc _ _), ?_, ?_, ?_⟩
    · intro _
      simp [State.new_Val, State.alloc]
    · intro hf
      cases hf
    · intro a X Y ha
      have hne := hwa a X ha
      have ha1 : (s.write e.func_val (.Func ft (rc + 1))).read a = some (.val_vec X) := by
        rw [State.read_write_other _ _ (Ne.symm hne)]
        exact ha
      simp only [State.Ref_write_storage Y ha hne, hR, Except_ok_bind,
        State.read_write_other _ _ hne, hb1, State.new_Val, State.alloc_write_comm _ _ ha1]
      rfl
  case TYPE_FILE =>
    obtain ⟨rc, hb⟩ := hv
    have hwa : ∀ a X, s.read a = some (.val_vec X) → e.file_val ≠ a := by
      intro a X ha he
      rw [he, ha] at hb
      cases hb
    have hR : s.Ref e.file_val = .ok (s.write e.file_val (.BroFile (rc + 1))) := by
      unfold State.Ref
      rw [hb]
    have hb1 := State.read_write_self (.BroFile (rc + 1)) hb
    simp only [hR, Except_ok_bind, hb1]
    have hk : s.Keeps (s.write e.word (.BroFile (rc + 1))) := State.Keeps.write hb rfl
    refine ⟨_, _, rfl, hk.chain (State.Keeps.of_alloc _ _), ?_, ?_, ?_⟩
    · intro _
      simp [State.new_Val, State.alloc]
    · intro hf
      cases hf
    · intro a X Y ha
      have hne := hwa a X ha
      have ha1 : (s.write e.file_val (.BroFile (rc + 1))).read a = some (.val_vec X) := by
        rw [State.read_write_other _ _ (Ne.symm hne)]
        exact ha
      simp only [State.Ref_write_storage Y ha hne, hR, Except_ok_bind,
        State.read_write_other _ _ hne, hb1, State.new_Val, State.alloc_write_comm _ _ ha1]
      rfl
  case TYPE_VECTOR =>
    obtain ⟨hn, zv, z, h1, h2, h3, h4⟩ := hv
    have h3b : (z.vv == nullptr) = false := by simpa using h3
    have h3c : (z.vv != nullptr) = true := by simpa using h3
    rw [hG hn]
    have key : ∀ c : State, c.read e.vector_val = some (.ZAMVector zv) →
        c.read zv.vec = some (.ZAM_vector z) →
        ZAMValUnion.ToVector_with (ZAMValUnion.ToVal h (n - 1)) c e yt = .ok (z.vv, c) := by
      intro c hc1 hc2
      unfold ZAMValUnion.ToVector_with ZAM_vector.Spill_with
      simp only [State.getZAMVector, hc1, Except_ok_bind, State.getZAM_vector, hc2, h3b, h4,
        Bool.not_false, Bool.or_true, if_true, h3c]
    refine ⟨_, _, key s h1 h2, State.Keeps.same _, fun _ => h3, ?_, ?_⟩
    · intro hf
      cases hf
    · intro a X Y ha
      apply key
      · rw [State.read_write_other _ _ (by intro he; rw [he, ha] at h1; cases h1)]
        exact h1
      · rw [State.read_write_other _ _ (by intro he; rw [he, ha] at h2; cases h2)]
        exact h2
  case TYPE_ANY =>
    obtain ⟨v, hb⟩ := hv
    have hwa : ∀ a X, s.read a = some (.val_vec X) → e.word ≠ a := by
      intro a X ha he
      rw [he, ha] at hb
      cases hb
    have h0 : (e.word == nullptr) = false := by simpa using State.read_some_ne_null hb
    have hR : s.Ref e.word = .ok (s.write e.word (.Val { v with ref_cnt := v.ref_cnt + 1 })) := by
      unfold State.Ref
      rw [hb]
    simp only [NewRef, ZAMValUnion.any_val, h0, Bool.false_eq_true, if_false, hR, Except_ok_bind]
    have hk : s.Keeps (s.write e.word (.Val { v with ref_cnt := v.ref_cnt + 1 })) :=
      State.Keeps.write hb rfl
    refine ⟨_, _, rfl, hk, fun _ => State.read_some_ne_null hb, ?_, ?_⟩
    · intro _
      rfl
    · intro a X Y ha
      simp only [State.Ref_write_storage Y ha (hwa a X ha), hR, Except_ok_bind]
  all_goals first
    | (obtain ⟨v, hb⟩ := hv
       have hwa : ∀ a X, s.read a = some (.val_vec X) → e.word ≠ a := by
         intro a X ha he
         rw [he, ha] at hb
         cases hb
       have hR : s.Ref e.word
           = .ok (s.write e.word (.Val { v with ref_cnt := v.ref_cnt + 1 })) := by
         unfold State.Ref
         rw [hb]
       simp only [ZAMValUnion.list_val, ZAMValUnion.opaque_val, ZAMValUnion.re_val,
         ZAMValUnion.record_val, ZAMValUnion.table_val, hR, Except_ok_bind]
       have hk : s.Keeps (s.write e.word (.Val { v with ref_cnt := v.ref_cnt + 1 })) :=
         State.Keeps.write hb rfl
       refine ⟨_, _, rfl, hk, fun _ => State.read_some_ne_null hb, ?_, ?_⟩
       · intro hf
         cases hf
       · intro a X Y ha
         simp only [State.Ref_write_storage Y ha (hwa a X ha), hR, Except_ok_bind])
    | skip
  all_goals
    refine ⟨_, _, rfl, State.Keeps.of_alloc _ _, ?_, ?_, ?_⟩
    · intro _
      simp [State.new_Val, State.alloc]
    · intro hf
      cases hf
    · intro a X Y ha
      simp only [State.new_Val, State.alloc_write_comm _ _ ha]
      rfl

/-- A well-formed cell converts: `ToVal` returns, every object is kept but for
reference counts, the result is not null (the interned port values apart) and
is the held pointer itself for an "any" cell, and a backing storage written
before the conversion could as well be written after it. -/
theorem ZAMValUnion.ToVal_valid (h : Host) (n : Nat)
    {s : State} {yt : BroType} {e : ZAMValUnion} (hv : SlotValid h n s yt e) :
    ∃ p s1, ZAMValUnion.ToVal h n s e yt = .ok (p, s1) ∧ s.Keeps s1
      ∧ (yt.Tag ≠ .TYPE_PORT → p ≠ nullptr)
      ∧ (yt.Tag = .TYPE_ANY → p = e.any_val)
      ∧ ∀ (a : Nat) (X Y : List Ptr), s.read a = some (.val_vec X) →
          ZAMValUnion.ToVal h n (s.write a (.val_vec Y)) e yt
            = .ok (p, s1.write a (.val_vec Y)) := by
  cases n with
  | zero => exact ZAMValUnion.ToVal_step_valid h 0 _ (fun hf => absurd rfl hf) hv
  | succ k => exact ZAMValUnion.ToVal_step_valid h (k + 1) _ (fun _ => rfl) hv

theorem State.val_vec_push_back_written {c : State} {a : Nat} {X : List Ptr} (Y : List Ptr)
    (p : Ptr) (ha : c.read a = some (.val_vec X)) :
    (c.write a (.val_vec Y)).val_vec_push_back a p = .ok (c.write a (.val_vec (Y ++ [p]))) := by
  unfold State.val_vec_push_back
  rw [State.read_write_self _ ha]
  simp only [State.write_write_same]

/-- The pointers of `Spill_entries` for well-formed slots: the run returns,
keeps every object but for reference counts, and gives one pointer per slot,
null for a slot that `IsNil` and otherwise what `ToVal` returns. -/
theorem Spill_entries_valid (h : Host) (n : Nat) (yt : BroType) (slots : List ZAMValUnion) :
    ∀ (c : State), (∀ e ∈ slots, e.IsNil yt = false → SlotValid h n c yt e) →
      ∃ ps c1, Spill_entries (ZAMValUnion.ToVal h n) yt slots c = .ok (ps, c1) ∧ c.Keeps c1
        ∧ List.Forall₂ (fun e p => (e.IsNil yt = true → p = nullptr)
            ∧ (e.IsNil yt = false → (yt.Tag ≠ .TYPE_PORT → p ≠ nullptr)
                ∧ (yt.Tag = .TYPE_ANY → p = e.any_val))) slots ps := by
  induction slots with
  | nil =>
    intro c _
    exact ⟨[], c, rfl, State.Keeps.same _, List.Forall₂.nil⟩
  | cons e rest ih =>
    intro c hv
    simp only [Spill_entries]
    cases hnil : e.IsNil yt with
    | true =>
      obtain ⟨ps, c1, hr, hk, hF⟩ := ih c (fun x hx => hv x (List.mem_cons_of_mem _ hx))
      refine ⟨nullptr :: ps, c1, by simp [hr], hk, ?_⟩
      exact List.Forall₂.cons ⟨fun _ => rfl, fun hf => Bool.noConfusion (hnil.symm.trans hf)⟩ hF
    | false =>
      obtain ⟨p, c0, hp, hk0, hp0, hpa, _⟩ :=
        ZAMValUnion.ToVal_valid h n (hv e (List.mem_cons_self _ _) hnil)
      obtain ⟨ps, c1, hr, hk, hF⟩ :=
        ih c0 (fun x hx hx0 => (hv x (List.mem_cons_of_mem _ hx) hx0).keeps hk0)
      refine ⟨p :: ps, c1, by simp [hp, hr], hk0.chain hk, ?_⟩
      exact List.Forall₂.cons ⟨fun hf => Bool.noConfusion (hnil.symm.trans hf), fun _ => ⟨hp0, hpa⟩⟩ hF

/-- The loop of `Spill` over well-formed slots appends to the new storage the
pointers of `Spill_entries`, which do not depend on the storage. -/
theorem ZAM_vector.Spill_loop_chain (h : Host) (n : Nat) (yt : BroType) {a : Nat}
    (slots : List ZAMValUnion) :
    ∀ (c : State) (X : List Ptr), c.read a = some (.val_vec X) →
      (∀ e ∈ slots, e.IsNil yt = false → SlotValid h n c yt e) →
      ∃ ps c1, Spill_entries (ZAMValUnion.ToVal h n) yt slots c = .ok (ps, c1)
        ∧ ∀ Y, ZAM_vector.Spill_loop (ZAMValUnion.ToVal h n) yt a slots (c.write a (.val_vec Y))
            = .ok (c1.write a (.val_vec (Y ++ ps))) := by
  induction slots with
  | nil =>
    intro c X _ _
    exact ⟨[], c, rfl, fun Y => by simp [ZAM_vector.Spill_loop]⟩
  | cons e rest ih =>
    intro c X ha hv
    simp only [Spill_entries, ZAM_vector.Spill_loop]
    cases hnil : e.IsNil yt with
    | true =>
      obtain ⟨ps, c1, hr, hl⟩ := ih c X ha (fun x hx => hv x (List.mem_cons_of_mem _ hx))
      refine ⟨nullptr :: ps, c1, by simp [hr], ?_⟩
      intro Y
      simp only [if_true, State.val_vec_push_back_written Y _ ha, Except_ok_bind, hl]
      simp
    | false =>
      obtain ⟨p, c0, hp, hk0, _, _, hw⟩ :=
        ZAMValUnion.ToVal_valid h n (hv e (List.mem_cons_self _ _) hnil)
      have ha0 := hk0.read_val_vec ha
      obtain ⟨ps, c1, hr, hl⟩ :=
        ih c0 X ha0 (fun x hx hx0 => (hv x (List.mem_cons_of_mem _ hx) hx0).keeps hk0)
      refine ⟨p :: ps, c1, by simp [hp, hr], ?_⟩
      intro Y
      simp only [Bool.false_eq_true, if_false, hw a X Y ha, Except_ok_bind,
        State.val_vec_push_back_written Y _ ha0, hl]
      simp

theorem Spill_entries_eq_ToVal_seq
    (ToVal : State → ZAMValUnion → BroType → Except Fault (Ptr × State))
    (yt : BroType) (slots : List ZAMValUnion) (hnil : ∀ e ∈ slots, e.IsNil yt = false) :
    ∀ c, Spill_entries ToVal yt slots c = ToVal_seq ToVal yt slots c := by
  induction slots with
  | nil => intro c; rfl
  | cons e rest ih =>
    intro c
    simp only [Spill_entries, ToVal_seq, hnil e (List.mem_cons_self _ _), Bool.false_eq_true,
      if_false]
    cases ToVal c e yt with
    | error x => rfl
    | ok r => simp only [Except_ok_bind, ih (fun x hx => hnil x (List.mem_cons_of_mem _ hx))]

/-- Releasing the references of the old entries, each null or a boxed value:
the loop returns and keeps every object but for reference counts. -/
theorem ZAM_vector.Spill_unref_valid (old : List Ptr) :
    ∀ (c : State), (∀ p ∈ old, p = nullptr ∨ ∃ v, c.read p = some (.Val v)) →
      ∃ c1, ZAM_vector.Spill_unref old c = .ok c1 ∧ c.Keeps c1 := by
  induction old with
  | nil =>
    intro c _
    exact ⟨c, rfl, State.Keeps.same _⟩
  | cons p rest ih =>
    intro c hv
    simp only [ZAM_vector.Spill_unref]
    have hstep : ∃ c0, c.Unref p = .ok c0 ∧ c.Keeps c0 := by
      unfold State.Unref
      rcases hv p (List.mem_cons_self _ _) with h0 | ⟨v, hp⟩
      · exact ⟨c, by simp [h0], State.Keeps.same _⟩
      · have hne : ¬ (p = nullptr) := State.read_some_ne_null hp
        rw [if_neg hne, hp]
        exact ⟨_, rfl, State.Keeps.write hp rfl⟩
    obtain ⟨c0, hu, hk0⟩ := hstep
    have hv0 : ∀ q ∈ rest, q = nullptr ∨ ∃ v, c0.read q = some (.Val v) := by
      intro q hq
      rcases hv q (List.mem_cons_of_mem _ hq) with h0 | ⟨v, hp⟩
      · exact Or.inl h0
      · obtain ⟨rc, hrc⟩ := hk0.read_Val hp
        exact Or.inr ⟨_, hrc⟩
    obtain ⟨c1, hr, hk⟩ := ih c0 hv0
    exact ⟨c1, by simp [hu, hr], hk0.chain hk⟩

/-- `Spill` on a dirty shadow vector that mirrors a boxed vector, all of
whose slots that are not nil are well-formed: it returns; the new backing
storage, at the first fresh address, holds the pointers of `Spill_entries`,
one per slot; the boxed vector now has this storage and its type as before,
and the old storage is released; the shadow vector is as before but for the
dirty flag, which is unset. -/
theorem ZAM_vector.Spill_total (h : Host) (n : Nat) (s : State) (this : Ptr) (z : ZAM_vector)
    (vobj : Val) (yt : BroType) (old : List Ptr)
    (hz : s.read this = some (.ZAM_vector z)) (hd : z.is_dirty = true)
    (hv : s.read z.vv = some (.Val vobj)) (hy : vobj.type.YieldType = some yt)
    (hold : s.read vobj.val = some (.val_vec old))
    (hrefs : ∀ p ∈ old, p = nullptr ∨ ∃ v, s.read p = some (.Val v))
    (hvalid : ∀ e ∈ z.zvec, e.IsNil yt = false → SlotValid h n s yt e) :
    ∃ ps c1 s1 rc,
      Spill_entries (ZAMValUnion.ToVal h n) yt z.zvec (s.alloc (.val_vec [])).2 = .ok (ps, c1)
      ∧ ZAM_vector.Spill h n s this = .ok s1
      ∧ s1.read this = some (.ZAM_vector { z with is_dirty := false })
      ∧ s1.read z.vv
          = some (.Val { type := vobj.type, val := s.heap.length + 1, ref_cnt := rc })
      ∧ s1.read (s.heap.length + 1) = some (.val_vec ps)
      ∧ s1.read vobj.val = some .freed
      ∧ List.Forall₂ (fun e p => (e.IsNil yt = true → p = nullptr)
            ∧ (e.IsNil yt = false → (yt.Tag ≠ .TYPE_PORT → p ≠ nullptr)
                ∧ (yt.Tag = .TYPE_ANY → p = e.any_val))) z.zvec ps := by
  have ha0 : (s.alloc (.val_vec [])).2.read (s.heap.length + 1) = some (.val_vec []) :=
    State.read_alloc_new s _
  have hs0 := State.write_read_same ha0
  have hk0 : s.Keeps (s.alloc (.val_vec [])).2 := State.Keeps.of_alloc _ _
  have hvalid0 : ∀ e ∈ z.zvec, e.IsNil yt = false →
      SlotValid h n (s.alloc (.val_vec [])).2 yt e :=
    fun e he h0 => (hvalid e he h0).keeps hk0
  obtain ⟨ps, c1, hr, hl⟩ := ZAM_vector.Spill_loop_chain h n yt z.zvec _ [] ha0 hvalid0
  obtain ⟨ps1, c11, hr1, hk1, hF⟩ := Spill_entries_valid h n yt z.zvec _ hvalid0
  rw [hr] at hr1
  simp only [Except.ok.injEq, Prod.mk.injEq] at hr1
  obtain ⟨rfl, rfl⟩ := hr1
  have hloop := hl []
  rw [hs0] at hloop
  simp only [List.nil_append] at hloop
  have hk := hk0.chain hk1
  -- the addresses involved are pairwise distinct
  have ha_none : s.read (s.heap.length + 1) = none := State.read_alloc_fresh_none s (.val_vec [])
  have hne_vv : z.vv ≠ s.heap.length + 1 := by
    intro he
    rw [he, ha_none] at hv
    cases hv
  have hne_old : vobj.val ≠ s.heap.length + 1 := by
    intro he
    rw [he, ha_none] at hold
    cases hold
  have hne_this : this ≠ s.heap.length + 1 := by
    intro he
    rw [he, ha_none] at hz
    cases hz
  have hne1 : this ≠ z.vv := by
    intro he
    rw [he, hv] at hz
    cases hz
  have hne2 : this ≠ vobj.val := by
    intro he
    rw [he, hold] at hz
    cases hz
  have hne3 : z.vv ≠ vobj.val := by
    intro he
    rw [he, hold] at hv
    cases hv
  have hvv0 : (z.vv == nullptr) = false := by simpa using State.read_some_ne_null hv
  -- after the loop
  obtain ⟨rc1, h_vv1⟩ := hk.read_Val hv
  have h_this1 := hk.read_ZAM_vector hz
  have h_old1 := hk.read_val_vec hold
  have ha1 := hk1.read_val_vec ha0
  have h_vv2 : (c1.write (s.heap.length + 1) (.val_vec ps)).read z.vv
      = some (.Val { vobj with ref_cnt := rc1 }) := by
    rw [State.read_write_other _ _ hne_vv]
    exact h_vv1
  have h_this2 : (c1.write (s.heap.length + 1) (.val_vec ps)).read this
      = some (.ZAM_vector z) := by
    rw [State.read_write_other _ _ hne_this]
    exact h_this1
  have h_old2 : (c1.write (s.heap.length + 1) (.val_vec ps)).read vobj.val
      = some (.val_vec old) := by
    rw [State.read_write_other _ _ hne_old]
    exact h_old1
  have h_a2 : (c1.write (s.heap.length + 1) (.val_vec ps)).read (s.heap.length + 1)
      = some (.val_vec ps) := State.read_write_self _ ha1
  have hrefs2 : ∀ p ∈ old, p = nullptr
      ∨ ∃ v, (c1.write (s.heap.length + 1) (.val_vec ps)).read p = some (.Val v) := by
    intro p hp
    rcases hrefs p hp with h0 | ⟨v, hpv⟩
    · exact Or.inl h0
    · obtain ⟨rc, hrc⟩ := hk.read_Val hpv
      have hpa : p ≠ s.heap.length + 1 := by
        intro he
        rw [he, ha_none] at hpv
        cases hpv
      exact Or.inr ⟨_, by rw [State.read_write_other _ _ hpa]; exact hrc⟩
  obtain ⟨c3, hu, hk3⟩ := ZAM_vector.Spill_unref_valid old _ hrefs2
  obtain ⟨rc3, h_vv3⟩ := hk3.read_Val h_vv2
  have h_this3 := hk3.read_ZAM_vector h_this2
  have h_old3 := hk3.read_val_vec h_old2
  have h_a3 := hk3.read_val_vec h_a2
  have hdel : c3.delete vobj.val = .ok (c3.write vobj.val .freed) := by
    unfold State.delete
    have h0 : ¬ (vobj.val = nullptr) := State.read_some_ne_null hold
    rw [if_neg h0, h_old3]
  have h_vv4 : (c3.write vobj.val .freed).read z.vv
      = some (.Val { type := vobj.type, val := vobj.val, ref_cnt := rc3 }) := by
    rw [State.read_write_other _ _ hne3]
    exact h_vv3
  have h_this4 : (c3.write vobj.val .freed).read this = some (.ZAM_vector z) := by
    rw [State.read_write_other _ _ hne2]
    exact h_this3
  have h_a4 : (c3.write vobj.val .freed).read (s.heap.length + 1) = some (.val_vec ps) := by
    rw [State.read_write_other _ _ (Ne.symm hne_old)]
    exact h_a3
  have h_old4 : (c3.write vobj.val .freed).read vobj.val = some .freed :=
    State.read_write_self _ h_old3
  have h_this5 : ((c3.write vobj.val .freed).write z.vv
      (.Val { type := vobj.type, val := s.heap.length + 1, ref_cnt := rc3 })).read this
        = some (.ZAM_vector z) := by
    rw [State.read_write_other _ _ hne1]
    exact h_this4
  refine ⟨ps, c1, _, rc3, hr, ?_, State.read_write_self _ h_this5, ?_, ?_, ?_, hF⟩
  · unfold ZAM_vector.Spill ZAM_vector.Spill_with
    simp only [State.getZAM_vector, hz, Except_ok_bind, hvv0, hd, Bool.not_true, Bool.or_false,
      Bool.false_eq_true, if_false, State.getVal, hv, hy]
    simp only [State.alloc_fst, hloop, Except_ok_bind, h_vv2, State.get_val_vec, h_old2, hu,
      hdel, h_vv4, h_this5]
  · rw [State.read_write_other _ _ (Ne.symm hne1)]
    exact State.read_write_self _ h_vv4
  · rw [State.read_write_other _ _ (Ne.symm hne_this),
      State.read_write_other _ _ (Ne.symm hne_vv)]
    exact h_a4
  · rw [State.read_write_other _ _ (Ne.symm hne2),
      State.read_write_other _ _ (Ne.symm hne3)]
    exact h_old4

/-! ## Holes through a load and a flush -/

theorem SlotValid.write_shadow {h : Host} {n : Nat} {c : State} {a : Nat} {zc : ZAM_vector}
    {yt : BroType} {e : ZAMValUnion} (zs : ZAM_vector)
    (hc : c.read a = some (.ZAM_vector zc)) (hnv : yt.Tag ≠ .TYPE_VECTOR)
    (hv : SlotValid h n c yt e) : SlotValid h n (c.write a (.ZAM_vector zs)) yt e := by
  have key : ∀ (q : Nat) (y : Obj), c.read q = some y → (∀ z1, y ≠ .ZAM_vector z1) →
      (c.write a (.ZAM_vector zs)).read q = some y := by
    intro q y hq hy
    rw [State.read_write_other _ _ (by intro he; rw [he, hc] at hq; cases hq; exact hy _ rfl)]
    exact hq
  unfold SlotValid at hv ⊢
  cases htag : yt.Tag <;> simp only [htag] at hv ⊢
  case TYPE_VECTOR => exact absurd htag hnv
  case TYPE_STRING => obtain ⟨b, hb⟩ := hv; exact ⟨b, key _ _ hb (fun _ hf => by cases hf)⟩
  case TYPE_ADDR => obtain ⟨b, hb⟩ := hv; exact ⟨b, key _ _ hb (fun _ hf => by cases hf)⟩
  case TYPE_SUBNET =>
    obtain ⟨b, l, hb⟩ := hv; exact ⟨b, l, key _ _ hb (fun _ hf => by cases hf)⟩
  case TYPE_FUNC =>
    obtain ⟨b, l, hb⟩ := hv; exact ⟨b, l, key _ _ hb (fun _ hf => by cases hf)⟩
  case TYPE_FILE => obtain ⟨b, hb⟩ := hv; exact ⟨b, key _ _ hb (fun _ hf => by cases hf)⟩
  all_goals first
    | exact hv
    | (obtain ⟨b, hb⟩ := hv; exact ⟨b, key _ _ hb (fun _ hf => by cases hf)⟩)

theorem to_raw_ZAM_vector_eq (h : Host) (n : Nat) (s : State) (vec bindings : Ptr)
    (vobj : Val) (vals : List Ptr) (yt : BroType)
    (hv : s.read vec = some (.Val vobj)) (hvals : s.read vobj.val = some (.val_vec vals))
    (hy : vobj.type.YieldType = some yt) :
    to_raw_ZAM_vector h n s vec bindings
      = ctor_seq (ZAMValUnion.ctor h n) yt bindings vec vals
            (s.alloc (.ZAM_vector (ZAM_vector.make vec bindings
              (if IsManagedType yt then some yt else none)))).2
          >>= fun r => .ok (s.heap.length + 1, r.2.write (s.heap.length + 1)
            (.ZAM_vector { ZAM_vector.make vec bindings
              (if IsManagedType yt then some yt else none) with zvec := r.1 })) := by
  unfold to_raw_ZAM_vector to_raw_ZAM_vector_with
  simp only [State.getVal, State.get_val_vec, hv, hvals, hy, Except_ok_bind]
  have h0 := State.read_alloc_new s (.ZAM_vector (ZAM_vector.make vec bindings
    (if IsManagedType yt then some yt else none)))
  have hs0 := State.write_read_same h0
  have hl := to_raw_ZAM_vector_loop_chain _ (ZAMValUnion.ctor_extends h n)
      (fun c a zc zs v t b o e ha => ZAMValUnion.ctor_write_shadow h n c a zc zs v t b o e ha)
      yt bindings vec vals _ _ (ZAM_vector.make vec bindings
        (if IsManagedType yt then some yt else none)) h0
  rw [hs0] at hl
  simp only [State.alloc_fst, hl]
  cases ctor_seq (ZAMValUnion.ctor h n) yt bindings vec vals
      (s.alloc (.ZAM_vector (ZAM_vector.make vec bindings
        (if IsManagedType yt then some yt else none)))).2 with
  | error e => rfl
  | ok r => simp [ZAM_vector.make]

theorem null_iff_of_forall2 {l1 l2 : List Ptr}
    (hF : List.Forall₂ (fun p q => q = nullptr ↔ p = nullptr) l1 l2) :
    l2.length = l1.length ∧ ∀ i : Nat, l2[i]? = some nullptr ↔ l1[i]? = some nullptr := by
  induction hF with
  | nil => exact ⟨rfl, fun i => by simp⟩
  | cons hab _ ih =>
    refine ⟨by simp [ih.1], ?_⟩
    intro i
    cases i with
    | zero => simp [hab]
    | succ j =>
      rw [List.getElem?_cons_succ, List.getElem?_cons_succ]
      exact ih.2 j

theorem forall2_mem_right {α β : Type} {R : α → β → Prop} {l1 : List α} {l2 : List β}
    (hF : List.Forall₂ R l1 l2) : ∀ b ∈ l2, ∃ a ∈ l1, R a b := by
  induction hF with
  | nil => intro b hb; cases hb
  | cons hab _ ih =>
    intro b hb
    rcases List.mem_cons.mp hb with rfl | hb1
    · exact ⟨_, List.mem_cons_self _ _, hab⟩
    · obtain ⟨a, ha, hr⟩ := ih b hb1
      exact ⟨a, List.mem_cons_of_mem _ ha, hr⟩

theorem forall2_compose {α β γ : Type} {R : α → β → Prop} {S : β → γ → Prop}
    {T : α → γ → Prop} (hT : ∀ a b c, R a b → S b c → T a c) {l1 : List α} {l2 : List β}
    (hF : List.Forall₂ R l1 l2) : ∀ {l3 : List γ}, List.Forall₂ S l2 l3 → List.Forall₂ T l1 l3 := by
  induction hF with
  | nil =>
    intro l3 hG
    cases hG
    exact List.Forall₂.nil
  | cons hab _ ih =>
    intro l3 hG
    cases hG with
    | cons hbc hG1 => exact List.Forall₂.cons (hT _ _ _ hab hbc) (ih hG1)

/-- The element types whose cells have a nil state. -/
theorem pointer_kind_facts {yt : BroType}
    (hk : yt.Tag ∈ [TypeTag.TYPE_STRING, .TYPE_ADDR, .TYPE_SUBNET, .TYPE_FUNC, .TYPE_FILE,
      .TYPE_LIST, .TYPE_OPAQUE, .TYPE_PATTERN, .TYPE_RECORD, .TYPE_TABLE, .TYPE_TYPE, .TYPE_ANY]) :
    ZAMValUnion.nil.IsNil yt = true ∧ yt.Tag ≠ .TYPE_PORT ∧ yt.Tag ≠ .TYPE_VECTOR := by
  simp only [List.mem_cons, List.mem_singleton, List.not_mem_nil, or_false] at hk
  unfold ZAMValUnion.IsNil
  rcases hk with hk | hk | hk | hk | hk | hk | hk | hk | hk | hk | hk | hk <;>
    simp [hk, ZAMValUnion.nil]

/-- Marking a freshly loaded shadow vector dirty and flushing it: the boxed
vector gets a backing storage with a null entry exactly where the loaded
entries were null. -/
theorem ZAM_vector.Spill_after_load (h : Host) (m : Nat) (c : State) (this vv : Ptr)
    (zc Z : ZAM_vector) (vobj : Val) (yt : BroType) (elems : List Ptr)
    (hk : yt.Tag ∈ [TypeTag.TYPE_STRING, .TYPE_ADDR, .TYPE_SUBNET, .TYPE_FUNC, .TYPE_FILE,
      .TYPE_LIST, .TYPE_OPAQUE, .TYPE_PATTERN, .TYPE_RECORD, .TYPE_TABLE, .TYPE_TYPE, .TYPE_ANY])
    (hthis : c.read this = some (.ZAM_vector zc)) (hZ : Z.vv = vv)
    (hv : c.read vv = some (.Val vobj)) (hy : vobj.type.YieldType = some yt)
    (helems : c.read vobj.val = some (.val_vec elems))
    (hrefs : ∀ p ∈ elems, p = nullptr ∨ ∃ v, c.read p = some (.Val v))
    (hF : List.Forall₂ (fun p z => (p = nullptr → z = ZAMValUnion.nil)
      ∧ (p ≠ nullptr → z.IsNil yt = false ∧ SlotValid h m c yt z)) elems Z.zvec) :
    ∃ s2 s3 v3 ps, ZAM_vector.ModVec (c.write this (.ZAM_vector Z)) this = .ok s2
      ∧ ZAM_vector.Spill h m s2 this = .ok s3
      ∧ s3.read vv = some (.Val v3) ∧ v3.type = vobj.type
      ∧ s3.read v3.val = some (.val_vec ps) ∧ ps.length = elems.length
      ∧ ∀ i : Nat, ps[i]? = some nullptr ↔ elems[i]? = some nullptr := by
  obtain ⟨hnil, hport, hvec⟩ := pointer_kind_facts hk
  subst hZ
  have hne1 : Z.vv ≠ this := by
    intro he
    rw [he, hthis] at hv
    cases hv
  have hne2 : vobj.val ≠ this := by
    intro he
    rw [he, hthis] at helems
    cases helems
  have hmod : ZAM_vector.ModVec (c.write this (.ZAM_vector Z)) this
      = .ok (c.write this (.ZAM_vector { Z with is_dirty := true })) := by
    unfold ZAM_vector.ModVec
    simp only [State.getZAM_vector, State.read_write_self _ hthis, Except_ok_bind,
      State.write_write_same, pure, Except.pure]
  have h_this2 : (c.write this (.ZAM_vector { Z with is_dirty := true })).read this
      = some (.ZAM_vector { Z with is_dirty := true }) := State.read_write_self _ hthis
  have h_vv2 : (c.write this (.ZAM_vector { Z with is_dirty := true })).read Z.vv
      = some (.Val vobj) := by
    rw [State.read_write_other _ _ hne1]
    exact hv
  have h_old2 : (c.write this (.ZAM_vector { Z with is_dirty := true })).read vobj.val
      = some (.val_vec elems) := by
    rw [State.read_write_other _ _ hne2]
    exact helems
  have hrefs2 : ∀ p ∈ elems, p = nullptr
      ∨ ∃ v, (c.write this (.ZAM_vector { Z with is_dirty := true })).read p
          = some (.Val v) := by
    intro p hp
    rcases hrefs p hp with h0 | ⟨v, hpv⟩
    · exact Or.inl h0
    · refine Or.inr ⟨v, ?_⟩
      rw [State.read_write_other _ _ (by intro he; rw [he, hthis] at hpv; cases hpv)]
      exact hpv
  have hvalid2 : ∀ e ∈ Z.zvec, e.IsNil yt = false →
      SlotValid h m (c.write this (.ZAM_vector { Z with is_dirty := true })) yt e := by
    intro e he he0
    obtain ⟨p, _, hp1, hp2⟩ := forall2_mem_right hF e he
    by_cases hp0 : p = nullptr
    · rw [hp1 hp0, hnil] at he0
      cases he0
    · exact (hp2 hp0).2.write_shadow _ hthis hvec
  obtain ⟨ps, c1, s3, rc, _, hs, _, h3, h4, _, hQ⟩ :=
    ZAM_vector.Spill_total h m _ this { Z with is_dirty := true } vobj yt elems h_this2 rfl
      h_vv2 hy h_old2 hrefs2 hvalid2
  have hcomp : List.Forall₂ (fun p q => q = nullptr ↔ p = nullptr) elems ps := by
    refine forall2_compose ?_ hF hQ
    intro p e q hpe heq
    by_cases hp0 : p = nullptr
    · have he := hpe.1 hp0
      have hq := heq.1 (by rw [he]; exact hnil)
      exact ⟨fun _ => hp0, fun _ => hq⟩
    · have hq := (heq.2 (hpe.2 hp0).1).1 hport
      exact ⟨fun hf => absurd hf hq, fun hf => absurd hf hp0⟩
  obtain ⟨hl, hi⟩ := null_iff_of_forall2 hcomp
  exact ⟨_, s3, _, ps, hmod, hs, h3, rfl, h4, hl, hi⟩

/-- C12, as amended: holes survive a load and a flush for the element types
whose cells have a nil state - string, address, subnet, function, file, list,
opaque, pattern, record, table, type and "any".  For every boxed vector of
such an element type whose entries that are not null are well-formed
elements: loading a clean shadow vector that mirrors it with `Freshen`, or a
new shadow vector with `to_raw_ZAM_vector`, then marking the shadow vector
dirty with `ModVec` without changing a slot, then calling `Spill`, all
return, and the boxed vector is left with a backing storage of the same
length whose null entries are at exactly the indices that were null
before. -/
theorem C12_Spill_preserves_pointer_holes (h : Host) (n m : Nat) (s : State) (vv : Ptr)
    (vobj : Val) (yt : BroType) (elems : List Ptr)
    (hk : yt.Tag ∈ [TypeTag.TYPE_STRING, .TYPE_ADDR, .TYPE_SUBNET, .TYPE_FUNC, .TYPE_FILE,
      .TYPE_LIST, .TYPE_OPAQUE, .TYPE_PATTERN, .TYPE_RECORD, .TYPE_TABLE, .TYPE_TYPE, .TYPE_ANY])
    (hv : s.read vv = some (.Val vobj)) (hy : vobj.type.YieldType = some yt)
    (helems : s.read vobj.val = some (.val_vec elems))
    (hvalid : ∀ p ∈ elems, p ≠ nullptr → ElemValid h s yt p) :
    (∀ (this : Ptr) (z : ZAM_vector), s.read this = some (.ZAM_vector z) → z.vv = vv →
      z.is_dirty = false →
      ∃ s1 s2 s3 v3 ps, ZAM_vector.Freshen h n s this = .ok s1
        ∧ ZAM_vector.ModVec s1 this = .ok s2 ∧ ZAM_vector.Spill h m s2 this = .ok s3
        ∧ s3.read vv = some (.Val v3) ∧ v3.type = vobj.type
        ∧ s3.read v3.val = some (.val_vec ps) ∧ ps.length = elems.length
        ∧ ∀ i : Nat, ps[i]? = some nullptr ↔ elems[i]? = some nullptr)
    ∧ (∀ bindings : Ptr,
      ∃ zv s1 s2 s3 v3 ps, to_raw_ZAM_vector h n s vv bindings = .ok (zv, s1)
        ∧ ZAM_vector.ModVec s1 zv = .ok s2 ∧ ZAM_vector.Spill h m s2 zv = .ok s3
        ∧ s3.read vv = some (.Val v3) ∧ v3.type = vobj.type
        ∧ s3.read v3.val = some (.val_vec ps) ∧ ps.length = elems.length
        ∧ ∀ i : Nat, ps[i]? = some nullptr ↔ elems[i]? = some nullptr) := by
  have hrefs : ∀ c : State, s.Extends c →
      ∀ p ∈ elems, p = nullptr ∨ ∃ v, c.read p = some (.Val v) := by
    intro c hE p hp
    by_cases hp0 : p = nullptr
    · exact Or.inl hp0
    · obtain ⟨v, hpv, _⟩ := hvalid p hp hp0
      exact Or.inr ⟨v, hE _ _ hpv⟩
  constructor
  · intro this z hz hzv hd
    subst hzv
    obtain ⟨cells, c1, hr, hE, _, hF⟩ := ctor_seq_valid h n m yt z.bindings z.vv elems s hvalid
    have hfr : ZAM_vector.Freshen h n s this
        = .ok (c1.write this (.ZAM_vector { z with zvec := cells })) := by
      rw [ZAM_vector.Freshen_eq h n s this z vobj elems yt hz hd hv helems hy, hr]
      rfl
    obtain ⟨s2, s3, v3, ps, h1, h2, h3, h4, h5, h6, h7⟩ :=
      ZAM_vector.Spill_after_load h m c1 this z.vv z { z with zvec := cells } vobj yt elems hk
        (hE _ _ hz) rfl (hE _ _ hv) hy (hE _ _ helems) (hrefs c1 hE) hF
    exact ⟨_, s2, s3, v3, ps, hfr, h1, h2, h3, h4, h5, h6, h7⟩
  · intro bindings
    have hE0 := State.Extends.alloc s (.ZAM_vector (ZAM_vector.make vv bindings
      (if IsManagedType yt then some yt else none)))
    obtain ⟨cells, c1, hr, hE, _, hF⟩ := ctor_seq_valid h n m yt bindings vv elems _
      (fun p hp hp0 => (hvalid p hp hp0).extends hE0)
    have hraw := to_raw_ZAM_vector_eq h n s vv bindings vobj elems yt hv helems hy
    rw [hr] at hraw
    have hE1 := hE0.trans hE
    obtain ⟨s2, s3, v3, ps, h1, h2, h3, h4, h5, h6, h7⟩ :=
      ZAM_vector.Spill_after_load h m c1 (s.heap.length + 1) vv _
        { ZAM_vector.make vv bindings (if IsManagedType yt then some yt else none)
            with zvec := cells } vobj yt elems hk
        (hE _ _ (State.read_alloc_new s _)) rfl (hE1 _ _ hv) hy (hE1 _ _ helems)
        (hrefs c1 hE1) hF
    exact ⟨_, _, s2, s3, v3, ps, hraw, h1, h2, h3, h4, h5, h6, h7⟩

/-- C12 fails for a numeric element type.  The boxed integer vector
`[1, <hole>, 3]` has a null entry at index 1; after `Freshen`, `ModVec` with
no slot changed, and `Spill`, the backing storage is `[7, 8, 9]` with a
boxed integer zero at index 1 in the place of the hole. -/
theorem C12_numeric_hole_is_filled :
    intVecState.read 4 = some (.Val ⟨.vector (.base .TYPE_INT), 3, 1⟩)
    ∧ intVecState.read 3 = some (.val_vec [1, nullptr, 2])
    ∧ ∃ s3 ps, (do
          let s1 ← ZAM_vector.Freshen exampleHost 0 intVecState 5
          let s2 ← ZAM_vector.ModVec s1 5
          ZAM_vector.Spill exampleHost 0 s2 5) = .ok s3
        ∧ s3.read 4 = some (.Val ⟨.vector (.base .TYPE_INT), 6, 1⟩)
        ∧ s3.read 6 = some (.val_vec ps)
        ∧ ¬ (∀ i : Nat, ps[i]? = some nullptr ↔ [1, nullptr, 2][i]? = some nullptr)
        ∧ ps[1]? = some 8
        ∧ s3.read 8 = some (.Val ⟨.base .TYPE_INT, 0, 1⟩) := by
  refine ⟨by decide, by decide,
    ⟨[.Val ⟨.base .TYPE_INT, 1, 0⟩, .Val ⟨.base .TYPE_INT, 3, 0⟩, .freed,
        .Val ⟨.vector (.base .TYPE_INT), 6, 1⟩,
        .ZAM_vector ⟨[⟨1⟩, ⟨0⟩, ⟨3⟩], 4, false, none, nullptr⟩,
        .val_vec [7, 8, 9], .Val ⟨.base .TYPE_INT, 1, 1⟩, .Val ⟨.base .TYPE_INT, 0, 1⟩,
        .Val ⟨.base .TYPE_INT, 3, 1⟩], []⟩,
    [7, 8, 9], by decide, by decide, by decide, ?_, by decide, by decide⟩
  intro hall
  have h1 := (hall 1).mpr (by decide)
  revert h1
  decide

/-- C12 as amended, at the boxed string vector `["hi", <hole>]` and the clean
shadow vector at address 5 that mirrors it. -/
theorem C12_Spill_preserves_pointer_holes_witness :
    ∃ s1 s2 s3 v3 ps, ZAM_vector.Freshen exampleHost 0 stringHoleState 5 = .ok s1
      ∧ ZAM_vector.ModVec s1 5 = .ok s2 ∧ ZAM_vector.Spill exampleHost 0 s2 5 = .ok s3
      ∧ s3.read 4 = some (.Val v3) ∧ v3.type = .vector (.base .TYPE_STRING)
      ∧ s3.read v3.val = some (.val_vec ps) ∧ ps.length = [2, nullptr].length
      ∧ ∀ i : Nat, ps[i]? = some nullptr ↔ [2, nullptr][i]? = some nullptr :=
  (C12_Spill_preserves_pointer_holes exampleHost 0 0 stringHoleState 4
    ⟨.vector (.base .TYPE_STRING), 3, 1⟩ (.base .TYPE_STRING) [2, nullptr]
    (by decide) (by decide) rfl (by decide)
    (by
      intro p hp hp0
      simp only [List.mem_cons, List.mem_singleton, List.not_mem_nil, or_false] at hp
      rcases hp with rfl | rfl
      · exact ⟨⟨.base .TYPE_STRING, 1, 1⟩, by decide, by decide, [104, 105], by decide⟩
      · exact absurd rfl hp0)).1 5 ⟨[], 4, false, some (.base .TYPE_STRING), nullptr⟩
    (by decide) rfl rfl

/-! ## Materialising a boxed vector -/

theorem assign_length (Y : List Ptr) (i : Nat) (p : Ptr) (hY : Y.length ≤ i) :
    ((Y ++ List.replicate (i + 1 - Y.length) nullptr).set i p).length = i + 1 := by
  simp only [List.length_set, List.length_append, List.length_replicate]
  omega

theorem assign_getD (Y : List Ptr) (i : Nat) (p : Ptr) (hY : Y.length ≤ i) (j : Nat) :
    ((Y ++ List.replicate (i + 1 - Y.length) nullptr).set i p).getD j nullptr
      = if j < i then Y.getD j nullptr else if j = i then p else nullptr := by
  simp only [List.getD_eq_getElem?_getD, List.getElem?_set, List.getElem?_append,
    List.getElem?_replicate, List.length_append, List.length_replicate]
  by_cases h1 : j < i
  · have h2 : ¬ (i = j) := by omega
    simp only [h1, h2, if_true, if_false]
    by_cases h3 : j < Y.length
    · simp [h3]
    · have h4 : Y[j]? = none := List.getElem?_eq_none (by omega)
      simp only [h3, if_false, h4]
      split <;> rfl
  · by_cases h2 : j = i
    · subst h2
      have h3 : j < Y.length + (j + 1 - Y.length) := by omega
      simp [h3]
    · have h3 : ¬ (i = j) := fun h => h2 h.symm
      have h4 : ¬ (j < Y.length) := by omega
      have h5 : ¬ (j - Y.length < i + 1 - Y.length) := by omega
      simp [h1, h2, h3, h4, h5]

theorem VectorVal.Assign_written {c : State} {v a : Nat} {vv : Val} {X : List Ptr}
    (Y : List Ptr) (i : Nat) (p : Ptr)
    (hv : c.read v = some (.Val vv)) (hval : vv.val = a) (ha : c.read a = some (.val_vec X)) :
    VectorVal.Assign (c.write a (.val_vec Y)) v i p
      = .ok (c.write a (.val_vec ((Y ++ List.replicate (i + 1 - Y.length) nullptr).set i p))) := by
  have hva : v ≠ a := by
    intro he
    rw [he, ha] at hv
    cases hv
  unfold VectorVal.Assign
  simp only [State.getVal, State.read_write_other _ _ hva, hv, Except_ok_bind, hval,
    State.get_val_vec, State.read_write_self _ ha, State.write_write_same, pure, Except.pure]

theorem ZAMValUnion.ToVal_any (h : Host) (n : Nat) (s : State) (e : ZAMValUnion) (yt : BroType)
    (hany : yt.Tag = .TYPE_ANY) :
    ZAMValUnion.ToVal h n s e yt = (do
      let s ← NewRef s e.any_val
      pure (e.any_val, s)) := by
  cases n <;> simp only [ZAMValUnion.ToVal, ZAMValUnion.ToVal_step, hany] <;> rfl

theorem VectorVal.Lookup_eq {s : State} {v : Nat} {vv : Val} {L : List Ptr} (i : Nat)
    (hv : s.read v = some (.Val vv)) (hL : s.read vv.val = some (.val_vec L)) :
    VectorVal.Lookup s v i = .ok (L.getD i nullptr) := by
  unfold VectorVal.Lookup
  simp only [State.getVal, hv, Except_ok_bind, State.get_val_vec, hL, pure, Except.pure]

/-- `ToVector` on a cell whose handle has a shadow vector that mirrors a
boxed vector and is not dirty: the mirrored vector is returned and nothing
changes. -/
theorem ZAMValUnion.ToVector_cached (h : Host) (n : Nat) (s : State) (cell : ZAMValUnion)
    (t : BroType) (zv : ZAMVector) (z : ZAM_vector)
    (h1 : s.read cell.vector_val = some (.ZAMVector zv))
    (h2 : s.read zv.vec = some (.ZAM_vector z)) (h3 : z.vv ≠ nullptr)
    (h4 : z.is_dirty = false) :
    ZAMValUnion.ToVector h n s cell t = .ok (z.vv, s) := by
  have h3b : (z.vv == nullptr) = false := by simpa using h3
  have h3c : (z.vv != nullptr) = true := by simpa using h3
  unfold ZAMValUnion.ToVector ZAMValUnion.ToVector_with ZAM_vector.Spill_with
  simp only [State.getZAMVector, h1, Except_ok_bind, State.getZAM_vector, h2, h3b, h4,
    Bool.not_false, Bool.or_true, if_true, h3c]

/-- C17 fails in two places.  On the shadow vector `[5, <nil>]` of integers
that mirrors nothing, `ToVector` builds the boxed vector at address 4 whose
entry 1 is not a hole but the boxed integer zero at address 6, although slot
1 is the nil cell.  On the dirty shadow vector `[5]` that mirrors nothing, a
second `ToVector` returns the same address 4 but has rebuilt the vector: the
backing storage at address 3 is released and a new one at address 6 holds a
newly boxed element. -/
theorem C17_ToVector_boxes_nil_and_rebuilds :
    (∃ s1, ZAMValUnion.ToVector exampleHost 0 grownState ⟨2⟩ (.vector (.base .TYPE_INT))
        = .ok (4, s1)
      ∧ s1.read 1
          = some (.ZAM_vector ⟨[⟨5⟩, ZAMValUnion.nil], 4, false, none, nullptr⟩)
      ∧ VectorVal.Lookup s1 4 1 = .ok 6
      ∧ s1.read 6 = some (.Val ⟨.base .TYPE_INT, 0, 1⟩))
    ∧ (∃ s1 s2, ZAMValUnion.ToVector exampleHost 0 dirtyOutputState ⟨2⟩
          (.vector (.base .TYPE_INT)) = .ok (4, s1)
      ∧ ZAMValUnion.ToVector exampleHost 0 s1 ⟨2⟩ (.vector (.base .TYPE_INT)) = .ok (4, s2)
      ∧ s1.read 4 = some (.Val ⟨.vector (.base .TYPE_INT), 3, 1⟩)
      ∧ s1.read 3 = some (.val_vec [5])
      ∧ s2.read 4 = some (.Val ⟨.vector (.base .TYPE_INT), 6, 1⟩)
      ∧ s2.read 3 = some .freed
      ∧ s2.read 6 = some (.val_vec [7])
      ∧ s2 ≠ s1) := by
  constructor
  · exact ⟨⟨[.ZAM_vector ⟨[⟨5⟩, ZAMValUnion.nil], 4, false, none, nullptr⟩,
        .ZAMVector ⟨1, none⟩, .val_vec [5, 6], .Val ⟨.vector (.base .TYPE_INT), 3, 1⟩,
        .Val ⟨.base .TYPE_INT, 5, 1⟩, .Val ⟨.base .TYPE_INT, 0, 1⟩], []⟩,
      by decide, by decide, by decide, by decide⟩
  · exact ⟨⟨[.ZAM_vector ⟨[⟨5⟩], 4, true, none, nullptr⟩, .ZAMVector ⟨1, none⟩, .val_vec [5],
        .Val ⟨.vector (.base .TYPE_INT), 3, 1⟩, .Val ⟨.base .TYPE_INT, 5, 1⟩], []⟩,
      ⟨[.ZAM_vector ⟨[⟨5⟩], 4, false, none, nullptr⟩, .ZAMVector ⟨1, none⟩, .freed,
        .Val ⟨.vector (.base .TYPE_INT), 6, 1⟩, .Val ⟨.base .TYPE_INT, 5, 0⟩, .val_vec [7],
        .Val ⟨.base .TYPE_INT, 5, 1⟩], []⟩,
      by decide, by decide, by decide, by decide, by decide, by decide, by decide, by decide⟩

/-! ## Freshen on nested vectors -/

theorem ElemOK.of_extends (h : Host) (n : Nat) :
    ∀ {s s1 : State} {yt : BroType} {p : Ptr}, s.Extends s1 → ElemOK h n s yt p →
      ElemOK h n s1 yt p := by
  induction n with
  | zero =>
    intro s s1 yt p hE hv
    exact ElemValid.extends hE hv
  | succ k ih =>
    intro s s1 yt p hE hv
    simp only [ElemOK, ElemOK_step] at hv ⊢
    split at hv
    · rename_i htag
      rw [if_pos htag]
      obtain ⟨v, my_yt, v_yt, hp, hc, h1, h2, h3⟩ := hv
      refine ⟨v, my_yt, v_yt, hE _ _ hp, hc, h1, h2, ?_⟩
      rcases h3 with h3 | ⟨elems, he, hin, h0⟩
      · exact Or.inl h3
      · exact Or.inr ⟨elems, hE _ _ he, fun q hq hq0 => ih hE (hin q hq hq0), h0⟩
    · rename_i htag
      rw [if_neg htag]
      exact ElemValid.extends hE hv

theorem ElemOK.is_boxed (h : Host) (n : Nat) {s : State} {yt : BroType} {p : Ptr}
    (hv : ElemOK h n s yt p) : ∃ v, s.read p = some (.Val v) := by
  cases n with
  | zero =>
    obtain ⟨v, hp, _⟩ := hv
    exact ⟨v, hp⟩
  | succ k =>
    simp only [ElemOK, ElemOK_step] at hv
    split at hv
    · obtain ⟨v, _, _, hp, _⟩ := hv
      exact ⟨v, hp⟩
    · obtain ⟨v, hp, _⟩ := hv
      exact ⟨v, hp⟩

theorem ctor_seq_returns
    (ctor : State → Ptr → BroType → Ptr → Ptr → Bool → Except Fault (ZAMValUnion × Bool × State))
    (hC : ∀ s v t b o e z e1 s1, ctor s v t b o e = .ok (z, e1, s1) → s.Extends s1)
    (ok : State → BroType → Ptr → Prop)
    (hE : ∀ {s s1 : State} {yt : BroType} {p : Ptr}, s.Extends s1 → ok s yt p → ok s1 yt p)
    (hR : ∀ s p yt b o e, ok s yt p → ∃ z e1 s1, ctor s p yt b o e = .ok (z, e1, s1))
    (yt : BroType) (b vec : Ptr) (elems : List Ptr) :
    ∀ (c : State), (∀ q ∈ elems, q ≠ nullptr → ok c yt q) →
      ∃ cells c1, ctor_seq ctor yt b vec elems c = .ok (cells, c1) := by
  induction elems with
  | nil =>
    intro c _
    exact ⟨[], c, rfl⟩
  | cons elem rest ih =>
    intro c hv
    simp only [ctor_seq]
    by_cases h0 : elem = nullptr
    · obtain ⟨cells, c1, hr⟩ := ih c (fun q hq => hv q (List.mem_cons_of_mem _ hq))
      exact ⟨ZAMValUnion.nil :: cells, c1, by simp [h0, hr]⟩
    · obtain ⟨z, e1, c0, hz⟩ := hR c elem yt b vec false (hv elem (List.mem_cons_self _ _) h0)
      obtain ⟨cells, c1, hr⟩ := ih c0
        (fun q hq hq0 => hE (hC _ _ _ _ _ _ _ _ _ hz) (hv q (List.mem_cons_of_mem _ hq) hq0))
      have h0b : (elem == nullptr) = false := by simpa using h0
      exact ⟨z :: cells, c1, by simp [h0b, hz, hr]⟩

/-- The cell constructor returns for every well-formed element, with fuel for
the depth to which the element nests vectors. -/
theorem ZAMValUnion.ctor_returns (h : Host) (n : Nat) :
    ∀ (s : State) (p : Ptr) (yt : BroType) (b o : Ptr) (e : Bool), ElemOK h n s yt p →
      ∃ z e1 s1, ZAMValUnion.ctor h n s p yt b o e = .ok (z, e1, s1) := by
  induction n with
  | zero =>
    intro s p yt b o e hv
    obtain ⟨z, s1, hr, _⟩ := ZAMValUnion.ctor_valid h 0 0 b o e hv
    exact ⟨z, e, s1, hr⟩
  | succ k ih =>
    intro s p yt b o e hv
    simp only [ElemOK, ElemOK_step] at hv
    split at hv
    · rename_i htag
      obtain ⟨v, my_yt, v_yt, hp, hc, hy1, hy2, hcase⟩ := hv
      have hp0 : (p == nullptr) = false := by simpa using State.read_some_ne_null hp
      have hg : s.getVal p = .ok v := State.getVal_ok_iff.mpr hp
      simp only [htag] at hc
      simp only [ZAMValUnion.ctor, ZAMValUnion.ctor_step, hp0, Bool.false_eq_true, if_false, hg,
        Except_ok_bind, htag, hc, hy1, hy2]
      rcases hcase with hclash | ⟨elems, hel, hin, h0⟩
      · simp only [hclash, if_true]
        exact ⟨_, _, _, rfl⟩
      · cases hcl : (my_yt.Tag != v_yt.Tag && my_yt.Tag != TypeTag.TYPE_ANY
            && v_yt.Tag != TypeTag.TYPE_ANY) with
        | true =>
          simp only [if_true]
          exact ⟨_, _, _, rfl⟩
        | false =>
          simp only [Bool.false_eq_true, if_false]
          -- the shadow vector is loaded
          have hraw := to_raw_ZAM_vector_eq h k s p b v elems v_yt hp hel hy2
          have hE0 := State.Extends.alloc s (.ZAM_vector (ZAM_vector.make p b
            (if IsManagedType v_yt then some v_yt else none)))
          obtain ⟨cells, c1, hr⟩ := ctor_seq_returns (ZAMValUnion.ctor h k)
            (ZAMValUnion.ctor_extends h k) (ElemOK h k) (ElemOK.of_extends h k) ih v_yt b p elems _
            (fun q hq hq0 => ElemOK.of_extends h k hE0 (hin q hq hq0))
          obtain ⟨hE1, hlen, _, _⟩ :=
            ctor_seq_spec _ (ZAMValUnion.ctor_extends h k) _ _ _ _ _ _ _ hr
          rw [hr] at hraw
          have hE := hE0.trans hE1
          have hzv1 : c1.read (s.heap.length + 1) = some (.ZAM_vector (ZAM_vector.make p b
              (if IsManagedType v_yt then some v_yt else none))) :=
            hE1 _ _ (State.read_alloc_new s _)
          have hpne : p ≠ s.heap.length + 1 := by
            intro he
            have := State.read_alloc_fresh_none s (.ZAM_vector (ZAM_vector.make p b
              (if IsManagedType v_yt then some v_yt else none)))
            rw [State.alloc_fst, ← he, hp] at this
            cases this
          have hvne : v.val ≠ s.heap.length + 1 := by
            intro he
            have := State.read_alloc_fresh_none s (.ZAM_vector (ZAM_vector.make p b
              (if IsManagedType v_yt then some v_yt else none)))
            rw [State.alloc_fst, ← he, hel] at this
            cases this
          -- the handle is constructed
          have hz2 := State.getZAM_vector_ok_iff.mpr (State.read_write_self
            (.ZAM_vector { ZAM_vector.make p b (if IsManagedType v_yt then some v_yt else none)
              with zvec := cells }) hzv1)
          have hv2 : (c1.write (s.heap.length + 1) (.ZAM_vector
              { ZAM_vector.make p b (if IsManagedType v_yt then some v_yt else none)
                with zvec := cells })).getVal p = .ok v := by
            apply State.getVal_ok_iff.mpr
            rw [State.read_write_other _ _ hpne]
            exact hE _ _ hp
          have hs2 : (c1.write (s.heap.length + 1) (.ZAM_vector
              { ZAM_vector.make p b (if IsManagedType v_yt then some v_yt else none)
                with zvec := cells })).get_val_vec v.val = .ok elems := by
            unfold State.get_val_vec
            rw [State.read_write_other _ _ hvne, hE _ _ hel]
          have hvv : ({ ZAM_vector.make p b (if IsManagedType v_yt then some v_yt else none)
              with zvec := cells } : ZAM_vector).vv ≠ nullptr := by
            simpa [ZAM_vector.make] using State.read_some_ne_null hp
          have hhandle : ∃ r, ZAMVector.ctor (c1.write (s.heap.length + 1) (.ZAM_vector
              { ZAM_vector.make p b (if IsManagedType v_yt then some v_yt else none)
                with zvec := cells })) (s.heap.length + 1) = .ok r := by
            by_cases hany : v_yt.Tag = .TYPE_ANY
            · cases elems with
              | nil =>
                have hce : cells = [] := List.length_eq_zero.mp (by simpa using hlen)
                exact ⟨_, ZAMVector.ctor_any_empty _ _ _ v v_yt hz2 hvv hv2 hy2 hany
                  (by simp [hce])⟩
              | cons q0 rest =>
                have hq0 : q0 ≠ nullptr := by
                  intro he
                  exact h0 hany (by simp [he])
                obtain ⟨e0, he0⟩ := ElemOK.is_boxed h k (hin q0 (List.mem_cons_self _ _) hq0)
                have hcne : cells ≠ [] := by
                  intro hce
                  rw [hce] at hlen
                  simp at hlen
                have hge : (c1.write (s.heap.length + 1) (.ZAM_vector
                    { ZAM_vector.make p b (if IsManagedType v_yt then some v_yt else none)
                      with zvec := cells })).getVal ((q0 :: rest).getD 0 nullptr) = .ok e0 := by
                  apply State.getVal_ok_iff.mpr
                  have hq0ne : q0 ≠ s.heap.length + 1 := by
                    intro he
                    have := State.read_alloc_fresh_none s (.ZAM_vector (ZAM_vector.make p b
                      (if IsManagedType v_yt then some v_yt else none)))
                    rw [State.alloc_fst, ← he, he0] at this
                    cases this
                  simp only [List.getD_cons_zero]
                  rw [State.read_write_other _ _ hq0ne]
                  exact hE _ _ he0
                exact ⟨_, ZAMVector.ctor_any_elem0 _ _ _ v e0 v_yt (q0 :: rest) hz2 hvv hv2 hy2
                  hany (by simpa using hcne) hs2 hge⟩
            · exact ⟨_, ZAMVector.ctor_declared _ _ _ v v_yt hz2 hvv hv2 hy2 hany⟩
          obtain ⟨r, hr2⟩ := hhandle
          have hto : to_ZAM_vector_with (ZAMValUnion.ctor h k) s p b true = .ok r := by
            have hraw1 : to_raw_ZAM_vector_with (ZAMValUnion.ctor h k) s p b = _ := hraw
            simp only [to_ZAM_vector_with, Bool.not_true, Bool.false_eq_true, if_false, hraw1,
              Except_ok_bind]
            exact hr2
          rw [hto]
          exact ⟨_, _, _, rfl⟩
    · rename_i htag
      obtain ⟨z, s1, hr, _⟩ := ZAMValUnion.ctor_valid h (k + 1) 0 b o e hv
      exact ⟨z, e, s1, hr⟩

/-- The cell at index `i` of `ctor_seq` is what the constructor returns for
entry `i`, called in the state the run has reached after the entries before
it; what it built is still there when the run ends. -/
theorem ctor_seq_prefix
    (ctor : State → Ptr → BroType → Ptr → Ptr → Bool → Except Fault (ZAMValUnion × Bool × State))
    (hC : ∀ s v t b o e z e1 s1, ctor s v t b o e = .ok (z, e1, s1) → s.Extends s1)
    (yt : BroType) (bindings vec : Ptr) (elems : List Ptr) :
    ∀ (c c1 : State) (cells : List ZAMValUnion),
      ctor_seq ctor yt bindings vec elems c = .ok (cells, c1) →
      ∀ (i : Nat) (p : Ptr), elems[i]? = some p → p ≠ nullptr →
        ∃ cell ci e1 ci1, ctor_seq ctor yt bindings vec (elems.take i) c = .ok (cells.take i, ci)
          ∧ ctor ci p yt bindings vec false = .ok (cell, e1, ci1)
          ∧ cells[i]? = some cell ∧ ci1.Extends c1 := by
  induction elems with
  | nil =>
    intro c c1 cells _ i p hi
    simp at hi
  | cons elem rest ih =>
    intro c c1 cells hr i p hi hp
    simp only [ctor_seq] at hr
    split at hr
    · rename_i h0
      obtain ⟨r, hr1, hr2⟩ := Except_bind_eq_ok hr
      obtain ⟨cs, c2⟩ := r
      simp only [Except.ok.injEq, Prod.mk.injEq] at hr2
      obtain ⟨rfl, rfl⟩ := hr2
      cases i with
      | zero =>
        simp only [List.getElem?_cons_zero, Option.some.injEq] at hi
        subst hi
        exact absurd (by simpa using h0) hp
      | succ j =>
        rw [List.getElem?_cons_succ] at hi
        obtain ⟨cell, ci, e1, ci1, h1, h2, h3, h4⟩ := ih c c2 cs hr1 j p hi hp
        refine ⟨cell, ci, e1, ci1, ?_, h2, by rw [List.getElem?_cons_succ]; exact h3, h4⟩
        simp only [List.take_succ_cons, ctor_seq, h0, if_true, h1, Except_ok_bind]
    · rename_i hne
      obtain ⟨r0, hr0, hr⟩ := Except_bind_eq_ok hr
      obtain ⟨z, e0, c0⟩ := r0
      obtain ⟨r, hr1, hr2⟩ := Except_bind_eq_ok hr
      obtain ⟨cs, c2⟩ := r
      simp only [Except.ok.injEq, Prod.mk.injEq] at hr2
      obtain ⟨rfl, rfl⟩ := hr2
      cases i with
      | zero =>
        simp only [List.getElem?_cons_zero, Option.some.injEq] at hi
        subst hi
        exact ⟨z, c, e0, c0, rfl, hr0, by simp, (ctor_seq_spec ctor hC _ _ _ _ _ _ _ hr1).1⟩
      | succ j =>
        rw [List.getElem?_cons_succ] at hi
        obtain ⟨cell, ci, e1, ci1, h1, h2, h3, h4⟩ := ih c0 c2 cs hr1 j p hi hp
        refine ⟨cell, ci, e1, ci1, ?_, h2, by rw [List.getElem?_cons_succ]; exact h3, h4⟩
        simp only [List.take_succ_cons, ctor_seq, hne, if_false, hr0, h1, Except_ok_bind,
          Bool.false_eq_true]

/-- C13: `Freshen` on a shadow vector whose dirty flag is set takes the
assertion-failure path.  On a shadow vector whose dirty flag is unset and that
mirrors a boxed vector with entries `vals` of declared element type `yt`,
`Freshen` is the run of `ctor_seq` over the entries followed by one write that
puts the cells of the run in the place of the slots.  When the run returns
the cells `cells` and the state `c`: `Freshen` returns exactly `c` with the
slots of the shadow vector replaced by `cells`, so the prior slots are gone,
the dirty flag is still unset, and nothing else differs from `c`; `c` holds
every object of the starting state unchanged, the boxed vector and its
backing storage among them; there is one cell per entry; cell `i` is the nil
cell when entry `i` is null, and otherwise is the cell the constructor
returns for entry `i` against `yt`, called in the state the run has reached
after the entries before it, and what that call built is still there in `c`.
When the run ends in a fault, so does `Freshen`.  The run returns when every
entry that is not null is a well-formed element, vectors nesting at most as
deep as the fuel `n`. -/
theorem C13_Freshen (h : Host) (n : Nat) (s : State) (this : Ptr) (z : ZAM_vector)
    (hz : s.read this = some (.ZAM_vector z)) :
    (z.is_dirty = true → ZAM_vector.Freshen h n s this = .error .AssertFailure)
    ∧ (z.is_dirty = false → ∀ (vobj : Val) (vals : List Ptr) (yt : BroType),
        s.read z.vv = some (.Val vobj) → s.read vobj.val = some (.val_vec vals) →
        vobj.type.YieldType = some yt →
        (∀ cells c, ctor_seq (ZAMValUnion.ctor h n) yt z.bindings z.vv vals s = .ok (cells, c) →
          ZAM_vector.Freshen h n s this
              = .ok (c.write this (.ZAM_vector { z with zvec := cells }))
            ∧ s.Extends c
            ∧ (∀ q : Nat, q ≠ this →
                (c.write this (.ZAM_vector { z with zvec := cells })).read q = c.read q)
            ∧ (c.write this (.ZAM_vector { z with zvec := cells })).read this
                = some (.ZAM_vector { z with zvec := cells })
            ∧ cells.length = vals.length
            ∧ (∀ i : Nat, vals[i]? = some nullptr → cells[i]? = some ZAMValUnion.nil)
            ∧ (∀ (i : Nat) (p : Ptr), vals[i]? = some p → p ≠ nullptr →
                ∃ cell ci e1 ci1,
                  ctor_seq (ZAMValUnion.ctor h n) yt z.bindings z.vv (vals.take i) s
                      = .ok (cells.take i, ci)
                  ∧ ZAMValUnion.ctor h n ci p yt z.bindings z.vv false = .ok (cell, e1, ci1)
                  ∧ cells[i]? = some cell ∧ ci1.Extends c)
            ∧ (c.write this (.ZAM_vector { z with zvec := cells })).read z.vv
                = some (.Val vobj)
            ∧ (c.write this (.ZAM_vector { z with zvec := cells })).read vobj.val
                = some (.val_vec vals))
        ∧ (∀ e, ctor_seq (ZAMValUnion.ctor h n) yt z.bindings z.vv vals s = .error e →
            ZAM_vector.Freshen h n s this = .error e)
        ∧ ((∀ p ∈ vals, p ≠ nullptr → ElemOK h n s yt p) →
            ∃ r, ctor_seq (ZAMValUnion.ctor h n) yt z.bindings z.vv vals s = .ok r)) := by
  constructor
  · intro hd
    unfold ZAM_vector.Freshen ZAM_vector.Freshen_with
    simp [State.getZAM_vector, hz, hd]
  · intro hd vobj vals yt hv hvals hy
    have heq := ZAM_vector.Freshen_eq h n s this z vobj vals yt hz hd hv hvals hy
    refine ⟨?_, ?_, ?_⟩
    · intro cells c hr
      obtain ⟨hE, hl, hn, _⟩ := ctor_seq_spec _ (ZAMValUnion.ctor_extends h n) _ _ _ _ _ _ _ hr
      have h1 : this ≠ z.vv := by
        intro he
        rw [← he, hz] at hv
        cases hv
      have h2 : this ≠ vobj.val := by
        intro he
        rw [← he, hz] at hvals
        cases hvals
      refine ⟨by rw [heq, hr]; rfl, hE, fun q hq => State.read_write_other _ _ hq,
        State.read_write_self _ (hE _ _ hz), hl, hn,
        ctor_seq_prefix _ (ZAMValUnion.ctor_extends h n) _ _ _ _ _ _ _ hr, ?_, ?_⟩
      · rw [State.read_write_other _ _ (Ne.symm h1)]
        exact hE _ _ hv
      · rw [State.read_write_other _ _ (Ne.symm h2)]
        exact hE _ _ hvals
    · intro e he
      rw [heq, he]
      rfl
    · intro hvalid
      obtain ⟨cells, c1, hr⟩ := ctor_seq_returns (ZAMValUnion.ctor h n)
        (ZAMValUnion.ctor_extends h n) (ElemOK h n) (ElemOK.of_extends h n)
        (ZAMValUnion.ctor_returns h n) yt z.bindings z.vv vals s hvalid
      exact ⟨_, hr⟩

/-- C13 at three shadow vectors: the dirty one of `dirtyState`, on which
`Freshen` takes the assertion failure; the clean one over the boxed integer
vector `[1, <hole>, 3]`, on which it leaves the slots `[1, <nil>, 3]` and
changes nothing else; and the clean one over the boxed vector of vectors
`[[1], <hole>]`, whose element is well-formed at depth 1, so that the run of
the constructor returns and `Freshen` with it: the slots are then the handle
of a new shadow vector `[1]` for the inner vector, and the nil cell. -/
theorem C13_Freshen_witness :
    ZAM_vector.Freshen exampleHost 0 dirtyState 4 = .error .AssertFailure
    ∧ ZAM_vector.Freshen exampleHost 0 intVecState 5
        = .ok (intVecState.write 5
            (.ZAM_vector ⟨[⟨1⟩, ZAMValUnion.nil, ⟨3⟩], 4, false, none, nullptr⟩))
    ∧ (∃ cells c, ctor_seq (ZAMValUnion.ctor exampleHost 1) (.vector (.base .TYPE_INT)) nullptr 5
          [3, nullptr] nestedVecState = .ok (cells, c)
        ∧ ZAM_vector.Freshen exampleHost 1 nestedVecState 6
            = .ok (c.write 6 (.ZAM_vector ⟨cells, 5, false, none, nullptr⟩)))
    ∧ ZAM_vector.Freshen exampleHost 1 nestedVecState 6
        = .ok ⟨[.Val ⟨.base .TYPE_INT, 1, 1⟩, .val_vec [1],
            .Val ⟨.vector (.base .TYPE_INT), 2, 1⟩, .val_vec [3, nullptr],
            .Val ⟨.vector (.vector (.base .TYPE_INT)), 4, 1⟩,
            .ZAM_vector ⟨[⟨8⟩, ZAMValUnion.nil], 5, false, none, nullptr⟩,
            .ZAM_vector ⟨[⟨1⟩], 3, false, none, nullptr⟩,
            .ZAMVector ⟨7, some (.base .TYPE_INT)⟩], []⟩ := by
  refine ⟨(C13_Freshen exampleHost 0 dirtyState 4 ⟨[⟨1⟩, ⟨2⟩], 3, true, none, nullptr⟩
      (by decide)).1 rfl, ?_, ?_, by decide⟩
  · exact (((C13_Freshen exampleHost 0 intVecState 5 ⟨[], 4, false, none, nullptr⟩
      (by decide)).2 rfl ⟨.vector (.base .TYPE_INT), 3, 1⟩ [1, nullptr, 2] (.base .TYPE_INT)
      (by decide) (by decide) rfl).1 [⟨1⟩, ZAMValUnion.nil, ⟨3⟩] intVecState (by decide)).1
  · have hc := (C13_Freshen exampleHost 1 nestedVecState 6 ⟨[], 5, false, none, nullptr⟩
      (by decide)).2 rfl ⟨.vector (.vector (.base .TYPE_INT)), 4, 1⟩ [3, nullptr]
      (.vector (.base .TYPE_INT)) (by decide) (by decide) rfl
    suffices hr : ∃ r, ctor_seq (ZAMValUnion.ctor exampleHost 1) (.vector (.base .TYPE_INT))
        nullptr 5 [3, nullptr] nestedVecState = .ok r by
      obtain ⟨⟨cells, c⟩, hr⟩ := hr
      exact ⟨cells, c, hr, (hc.1 cells c hr).1⟩
    refine hc.2.2 ?_
    intro p hp hp0
    simp only [List.mem_cons, List.mem_singleton, List.not_mem_nil, or_false] at hp
    rcases hp with rfl | rfl
    · simp only [ElemOK, ElemOK_step]
      rw [if_pos (by decide)]
      refine ⟨⟨.vector (.base .TYPE_INT), 2, 1⟩, .base .TYPE_INT, .base .TYPE_INT, by decide,
        by decide, rfl, rfl, Or.inr ⟨[1], by decide, ?_, by decide⟩⟩
      intro q hq _
      simp only [List.mem_singleton] at hq
      subst hq
      exact ⟨⟨.base .TYPE_INT, 1, 1⟩, by decide, by decide, trivial⟩
    · exact absurd rfl hp0

/-! ## Frames -/

theorem Obj.Light.of_core {y y1 : Obj} (hc : y1.core = y.core) : y.Light y1 := by
  cases y with
  | Val v =>
    obtain ⟨rc, rfl⟩ := core_eq_Val hc
    exact ⟨_, rfl, rfl⟩
  | ZAM_vector z =>
    have := core_eq_ZAM_vector hc
    exact ⟨z, this, fun _ _ => rfl⟩
  | val_vec X => trivial
  | freed => trivial
  | _ => exact hc

theorem Obj.Light.compose {y y1 y2 : Obj} (h1 : y.Light y1) (h2 : y1.Light y2) : y.Light y2 := by
  cases y with
  | Val v =>
    obtain ⟨v1, rfl, ht1⟩ := h1
    obtain ⟨v2, rfl, ht2⟩ := h2
    exact ⟨v2, rfl, ht2.trans ht1⟩
  | ZAM_vector z =>
    obtain ⟨z1, rfl, hz1⟩ := h1
    obtain ⟨z2, rfl, hz2⟩ := h2
    refine ⟨z2, rfl, fun hv hd => ?_⟩
    have := hz1 hv hd
    subst this
    exact hz2 hv hd
  | val_vec X => trivial
  | freed => trivial
  | BroString b =>
    have := core_eq_BroString h1
    subst this
    exact h2
  | IPAddr b =>
    have := core_eq_IPAddr h1
    subst this
    exact h2
  | IPPrefix b l =>
    have := core_eq_IPPrefix h1
    subst this
    exact h2
  | ZAMVector zv =>
    have := core_eq_ZAMVector h1
    subst this
    exact h2
  | Func ft rc =>
    obtain ⟨rc1, rfl⟩ := core_eq_Func h1
    obtain ⟨rc2, rfl⟩ := core_eq_Func h2
    rfl
  | BroFile rc =>
    obtain ⟨rc1, rfl⟩ := core_eq_BroFile h1
    obtain ⟨rc2, rfl⟩ := core_eq_BroFile h2
    rfl

theorem State.Frame.unchanged (F : List Nat) (c : State) : State.Frame F c c :=
  fun _ y hq => ⟨y, hq, fun _ => rfl, Obj.Light.of_core rfl⟩

theorem State.Frame.of_keeps {c c1 : State} (F : List Nat) (hk : c.Keeps c1) :
    State.Frame F c c1 := by
  intro q y hq
  obtain ⟨y1, h1, hc⟩ := hk q y hq
  exact ⟨y1, h1, fun _ => hc, Obj.Light.of_core hc⟩

theorem State.Frame.widen {F G : List Nat} {c c1 : State} (hf : State.Frame F c c1)
    (hsub : ∀ q, q ∈ F → q ∉ G → c.read q = none) : State.Frame G c c1 := by
  intro q y hq
  obtain ⟨y1, h1, hc, hl⟩ := hf q y hq
  refine ⟨y1, h1, fun hqG => hc (fun hqF => ?_), hl⟩
  have := hsub q hqF hqG
  rw [hq] at this
  cases this

theorem State.Frame.mono {F G : List Nat} {c c1 : State} (hf : State.Frame F c c1)
    (hsub : ∀ q ∈ F, q ∈ G) : State.Frame G c c1 :=
  hf.widen (fun q hqF hqG => absurd (hsub q hqF) hqG)

theorem State.Frame.append {F G : List Nat} {c c1 c2 : State} (h1 : State.Frame F c c1)
    (h2 : State.Frame G c1 c2) : State.Frame (F ++ G) c c2 := by
  intro q y hq
  obtain ⟨y1, hr1, hc1, hl1⟩ := h1 q y hq
  obtain ⟨y2, hr2, hc2, hl2⟩ := h2 q y1 hr1
  refine ⟨y2, hr2, fun hqn => ?_, hl1.compose hl2⟩
  have hF : q ∉ F := fun hf => hqn (List.mem_append_left _ hf)
  have hG : q ∉ G := fun hg => hqn (List.mem_append_right _ hg)
  exact (hc2 hG).trans (hc1 hF)

theorem State.Frame.of_write {c : State} {q : Nat} {y y1 : Obj} (hq : c.read q = some y)
    (hl : y.Light y1) : State.Frame [q] c (c.write q y1) := by
  intro p x hp
  by_cases hpq : p = q
  · subst hpq
    rw [hq] at hp
    cases hp
    exact ⟨y1, State.read_write_self _ hq, fun hn => absurd (List.mem_singleton.mpr rfl) hn, hl⟩
  · exact ⟨x, by rw [State.read_write_other _ _ hpq]; exact hp, fun _ => rfl,
      Obj.Light.of_core rfl⟩

theorem State.Frame.storage_kept {F : List Nat} {c c1 : State} {q : Nat} {X : List Ptr}
    (hf : State.Frame F c c1) (hq : c.read q = some (.val_vec X)) (hn : q ∉ F) :
    c1.read q = some (.val_vec X) := by
  obtain ⟨y1, h1, hc, _⟩ := hf q _ hq
  rw [h1, core_eq_val_vec (hc hn)]

theorem State.Frame.shadow_kept {F : List Nat} {c c1 : State} {q : Nat} {z : ZAM_vector}
    (hf : State.Frame F c c1) (hq : c.read q = some (.ZAM_vector z)) (hn : q ∉ F) :
    c1.read q = some (.ZAM_vector z) := by
  obtain ⟨y1, h1, hc, _⟩ := hf q _ hq
  rw [h1, core_eq_ZAM_vector (hc hn)]

theorem State.Frame.read_cached {F : List Nat} {c c1 : State} {q : Nat} {z : ZAM_vector}
    (hf : State.Frame F c c1) (hq : c.read q = some (.ZAM_vector z)) (hv : z.vv ≠ nullptr)
    (hd : z.is_dirty = false) : c1.read q = some (.ZAM_vector z) := by
  obtain ⟨y1, h1, _, z1, rfl, hz⟩ := hf q _ hq
  rw [h1, hz hv hd]

theorem State.Frame.handle_kept {F : List Nat} {c c1 : State} {q : Nat} {zv : ZAMVector}
    (hf : State.Frame F c c1) (hq : c.read q = some (.ZAMVector zv)) :
    c1.read q = some (.ZAMVector zv) := by
  obtain ⟨y1, h1, _, hl⟩ := hf q _ hq
  rw [h1, core_eq_ZAMVector hl]

theorem State.Frame.boxed_kept {F : List Nat} {c c1 : State} {q : Nat} {v : Val}
    (hf : State.Frame F c c1) (hq : c.read q = some (.Val v)) (hn : q ∉ F) :
    ∃ rc, c1.read q = some (.Val { v with ref_cnt := rc }) := by
  obtain ⟨y1, h1, hc, _⟩ := hf q _ hq
  obtain ⟨rc, rfl⟩ := core_eq_Val (hc hn)
  exact ⟨rc, h1⟩

theorem State.Frame.read_boxed {F : List Nat} {c c1 : State} {q : Nat} {v : Val}
    (hf : State.Frame F c c1) (hq : c.read q = some (.Val v)) :
    ∃ v1, c1.read q = some (.Val v1) ∧ v1.type = v.type := by
  obtain ⟨y1, h1, _, v1, rfl, ht⟩ := hf q _ hq
  exact ⟨v1, h1, ht⟩

/-! ## Well-formed cells survive what leaves their addresses alone -/

theorem SlotValid.of_frame {h : Host} {n : Nat} {c c1 : State} {G : List Nat} {t : BroType}
    {e : ZAMValUnion} (hf : State.Frame G c c1) (ht : t.Tag ≠ .TYPE_VECTOR)
    (hv : SlotValid h n c t e) : SlotValid h n c1 t e := by
  unfold SlotValid at hv ⊢
  cases htag : t.Tag <;> simp only [htag] at hv ⊢
  case TYPE_VECTOR => exact absurd htag ht
  case TYPE_STRING =>
    obtain ⟨b, hb⟩ := hv
    obtain ⟨y, hy, _, hl⟩ := hf _ _ hb
    exact ⟨b, by rw [hy, core_eq_BroString hl]⟩
  case TYPE_ADDR =>
    obtain ⟨b, hb⟩ := hv
    obtain ⟨y, hy, _, hl⟩ := hf _ _ hb
    exact ⟨b, by rw [hy, core_eq_IPAddr hl]⟩
  case TYPE_SUBNET =>
    obtain ⟨b, l, hb⟩ := hv
    obtain ⟨y, hy, _, hl⟩ := hf _ _ hb
    exact ⟨b, l, by rw [hy, core_eq_IPPrefix hl]⟩
  case TYPE_FUNC =>
    obtain ⟨ft, rc, hb⟩ := hv
    obtain ⟨y, hy, _, hl⟩ := hf _ _ hb
    obtain ⟨rc1, rfl⟩ := core_eq_Func hl
    exact ⟨ft, rc1, hy⟩
  case TYPE_FILE =>
    obtain ⟨rc, hb⟩ := hv
    obtain ⟨y, hy, _, hl⟩ := hf _ _ hb
    obtain ⟨rc1, rfl⟩ := core_eq_BroFile hl
    exact ⟨rc1, hy⟩
  all_goals first
    | exact hv
    | (obtain ⟨v, hb⟩ := hv
       obtain ⟨v1, hy, _⟩ := hf.read_boxed hb
       exact ⟨_, hy⟩)

theorem SameShadow.kept {c c1 : State} {G F : List Nat} {t : BroType} {e e1 : ZAMValUnion}
    (hv : SameShadow c t e F e1) (hf : State.Frame G c c1) (hd : ∀ q ∈ F, q ∉ G) :
    SameShadow c1 t e F e1 := by
  obtain ⟨ht, zv, zv1, z, h1, h2, h3, h4, h5, h6⟩ := hv
  exact ⟨ht, zv, zv1, z, hf.handle_kept h1, hf.handle_kept h2, h3,
    hf.shadow_kept h4 (hd _ h5), h5, h6⟩

theorem SlotsOK_with.cons_inv {inner : State → BroType → ZAMValUnion → List Nat → Prop}
    {c : State} {yt : BroType} {e : ZAMValUnion} {rest : List ZAMValUnion}
    {Fs : List (List Nat)} (hv : SlotsOK_with inner c yt (e :: rest) Fs) :
    ∃ F Fs1, Fs = F :: Fs1 ∧ (if e.IsNil yt = true then F = [] else inner c yt e F)
      ∧ List.Forall₂ (fun e1 F1 => List.Disjoint F F1 ∨ SameShadow c yt e F e1) rest Fs1
      ∧ SlotsOK_with inner c yt rest Fs1 := by
  cases Fs with
  | nil => exact absurd hv (by simp [SlotsOK_with])
  | cons F Fs1 =>
    simp only [SlotsOK_with] at hv
    exact ⟨F, Fs1, rfl, hv.1, hv.2.1, hv.2.2⟩

theorem SlotsOK_with.nil_inv {inner : State → BroType → ZAMValUnion → List Nat → Prop}
    {c : State} {yt : BroType} {Fs : List (List Nat)} (hv : SlotsOK_with inner c yt [] Fs) :
    Fs = [] := by
  cases Fs with
  | nil => rfl
  | cons F Fs1 => exact absurd hv (by simp [SlotsOK_with])

theorem SlotsOK_with.frame {inner : State → BroType → ZAMValUnion → List Nat → Prop}
    (hS : Stable inner) {c c1 : State} {G : List Nat} {yt : BroType}
    {slots : List ZAMValUnion} {Fs : List (List Nat)}
    (hv : SlotsOK_with inner c yt slots Fs) (hf : State.Frame G c c1)
    (hd : ∀ q ∈ Fs.flatten, q ∉ G) : SlotsOK_with inner c1 yt slots Fs := by
  induction slots generalizing Fs with
  | nil =>
    rw [hv.nil_inv]
    simp [SlotsOK_with]
  | cons e rest ih =>
    obtain ⟨F, Fs1, rfl, hab, hpair, hrest⟩ := hv.cons_inv
    have hdF : ∀ q ∈ F, q ∉ G := fun q hq => hd q (by
      rw [List.flatten_cons]
      exact List.mem_append_left _ hq)
    simp only [SlotsOK_with]
    refine ⟨?_, ?_, ih hrest (fun q hq => hd q (by
      rw [List.flatten_cons]
      exact List.mem_append_right _ hq))⟩
    · split at hab
      · rename_i hnil
        rw [if_pos hnil]
        exact hab
      · rename_i hnil
        rw [if_neg hnil]
        exact hS _ _ _ _ _ _ hab hf hdF
    · exact hpair.imp (fun _ _ hx => hx.imp id (fun hs => hs.kept hf hdF))

theorem CellOK_step.is_stable (h : Host)
    {inner : State → BroType → ZAMValUnion → List Nat → Prop} (hS : Stable inner) :
    Stable (CellOK_step h inner) := by
  intro c c1 t e F G hv hf hd
  unfold CellOK_step at hv ⊢
  split at hv
  · rename_i htag
    rw [if_pos htag]
    obtain ⟨zv, z, h1, h2, hcase⟩ := hv
    have h1' := hf.handle_kept h1
    rcases hcase with ⟨hvv, hdirty, hF⟩ | ⟨hvv, hdirty, hm⟩ | ⟨hvv, hb⟩
    · exact ⟨zv, z, h1', hf.read_cached h2 hvv hdirty, Or.inl ⟨hvv, hdirty, hF⟩⟩
    · obtain ⟨vobj, yt, old, Fs, hv1, hy, hold, hrefs, hslots, hs1, hs2, hs3, hFeq⟩ := hm
      subst hFeq
      have hn1 : zv.vec ∉ G := hd _ (by simp)
      have hn2 : z.vv ∉ G := hd _ (by simp)
      have hn3 : vobj.val ∉ G := hd _ (by simp)
      obtain ⟨rc, hv1'⟩ := hf.boxed_kept hv1 hn2
      refine ⟨zv, z, h1', hf.shadow_kept h2 hn1, Or.inr (Or.inl ⟨hvv, hdirty,
        ⟨{ vobj with ref_cnt := rc }, yt, old, Fs, hv1', hy, hf.storage_kept hold hn3, ?_,
          hslots.frame hS hf (fun q hq => hd q (by simp [hq])), hs1, hs2, hs3, rfl⟩⟩)⟩
      intro p hp
      rcases hrefs p hp with h0 | ⟨v, hpv⟩
      · exact Or.inl h0
      · obtain ⟨v1, hv1, _⟩ := hf.read_boxed hpv
        exact Or.inr ⟨v1, hv1⟩
    · obtain ⟨yt, Fs, hy, hslots, hs1, hFeq⟩ := hb
      subst hFeq
      have hn1 : zv.vec ∉ G := hd _ (by simp)
      exact ⟨zv, z, h1', hf.shadow_kept h2 hn1, Or.inr (Or.inr ⟨hvv,
        ⟨yt, Fs, hy, hslots.frame hS hf (fun q hq => hd q (by simp [hq])), hs1, rfl⟩⟩)⟩
  · rename_i htag
    rw [if_neg htag]
    exact ⟨hv.1.of_frame hf htag, hv.2⟩

theorem CellOK.stable (h : Host) (n : Nat) : Stable (CellOK h n) := by
  induction n with
  | zero =>
    intro c c1 t e F G hv hf _
    exact ⟨hv.1, hv.2.1.of_frame hf hv.1, hv.2.2⟩
  | succ k ih => exact CellOK_step.is_stable h ih

theorem SlotsOK_with.footprint_allocated
    {inner : State → BroType → ZAMValUnion → List Nat → Prop}
    (hA : Allocated inner) {c : State} {yt : BroType}
    {slots : List ZAMValUnion} {Fs : List (List Nat)}
    (hv : SlotsOK_with inner c yt slots Fs) : ∀ q ∈ Fs.flatten, c.read q ≠ none := by
  induction slots generalizing Fs with
  | nil =>
    rw [hv.nil_inv]
    intro q hq
    simp at hq
  | cons e rest ih =>
    obtain ⟨F, Fs1, rfl, hab, _, hrest⟩ := hv.cons_inv
    intro q hq
    rw [List.flatten_cons, List.mem_append] at hq
    rcases hq with hq | hq
    · split at hab
      · subst hab
        simp at hq
      · exact hA _ _ _ _ hab q hq
    · exact ih hrest q hq

theorem CellOK_step.is_allocated (h : Host)
    {inner : State → BroType → ZAMValUnion → List Nat → Prop} (hA : Allocated inner) :
    Allocated (CellOK_step h inner) := by
  intro c t e F hv q hq
  unfold CellOK_step at hv
  split at hv
  · obtain ⟨zv, z, h1, h2, hcase⟩ := hv
    rcases hcase with ⟨_, _, hF⟩ | ⟨_, _, hm⟩ | ⟨_, hb⟩
    · subst hF
      simp at hq
    · obtain ⟨vobj, yt, old, Fs, hv1, hy, hold, hrefs, hslots, hs1, hs2, hs3, hFeq⟩ := hm
      subst hFeq
      simp only [List.mem_cons] at hq
      rcases hq with rfl | rfl | rfl | hq
      · rw [h2]; simp
      · rw [hv1]; simp
      · rw [hold]; simp
      · exact hslots.footprint_allocated hA q hq
    · obtain ⟨yt, Fs, hy, hslots, hs1, hFeq⟩ := hb
      subst hFeq
      simp only [List.mem_cons] at hq
      rcases hq with rfl | hq
      · rw [h2]; simp
      · exact hslots.footprint_allocated hA q hq
  · rw [hv.2] at hq
    simp at hq

theorem CellOK.allocated (h : Host) (n : Nat) : Allocated (CellOK h n) := by
  induction n with
  | zero =>
    intro c t e F hv q hq
    rw [hv.2.2] at hq
    simp at hq
  | succ k ih => exact CellOK_step.is_allocated h ih

/-! ## Converting the slots of a shadow vector -/

theorem SlotsOK_with.after {inner : State → BroType → ZAMValUnion → List Nat → Prop}
    (hS : Stable inner) {c c0 : State} {yt : BroType} {e : ZAMValUnion} {F : List Nat}
    (hf : State.Frame F c c0)
    (hre : ∀ e1, SameShadow c yt e F e1 → inner c0 yt e1 [])
    (rest : List ZAMValUnion) :
    ∀ (Fs1 : List (List Nat)),
      List.Forall₂ (fun e1 F1 => List.Disjoint F F1 ∨ SameShadow c yt e F e1) rest Fs1 →
      SlotsOK_with inner c yt rest Fs1 →
      ∃ Fs2, SlotsOK_with inner c0 yt rest Fs2
        ∧ List.Forall₂ (fun F1 F2 => F2 = [] ∨ (F2 = F1 ∧ List.Disjoint F F1)) Fs1 Fs2 := by
  induction rest with
  | nil =>
    intro Fs1 _ hrest
    rw [hrest.nil_inv]
    exact ⟨[], by simp [SlotsOK_with], List.Forall₂.nil⟩
  | cons e1 rest1 ih =>
    intro Fs1 hpair hrest
    obtain ⟨F1, Fs1a, rfl, hab1, hpair1, hrest1⟩ := hrest.cons_inv
    cases hpair with
    | cons h1 hpairt =>
      obtain ⟨Fs2, hok, hrel⟩ := ih Fs1a hpairt hrest1
      have hempty : ∀ (x : inner c0 yt e1 [] ∨ e1.IsNil yt = true),
          SlotsOK_with inner c0 yt (e1 :: rest1) ([] :: Fs2) := by
        intro x
        simp only [SlotsOK_with]
        refine ⟨?_, forall2_compose (fun _ _ _ _ _ => Or.inl (List.disjoint_nil_left _))
          hpair1 hrel, hok⟩
        by_cases hnil : e1.IsNil yt = true
        · rw [if_pos hnil]
          trivial
        · rw [if_neg hnil]
          rcases x with x | x
          · exact x
          · exact absurd x hnil
      by_cases hnil : e1.IsNil yt = true
      · exact ⟨[] :: Fs2, hempty (Or.inr hnil), List.Forall₂.cons (Or.inl rfl) hrel⟩
      · rw [if_neg hnil] at hab1
        rcases h1 with h1 | h1
        · have hd1 : ∀ q ∈ F1, q ∉ F := fun q hq hqF => h1 hqF hq
          refine ⟨F1 :: Fs2, ?_, List.Forall₂.cons (Or.inr ⟨rfl, h1⟩) hrel⟩
          simp only [SlotsOK_with]
          refine ⟨by rw [if_neg hnil]; exact hS _ _ _ _ _ _ hab1 hf hd1, ?_, hok⟩
          refine forall2_compose ?_ hpair1 hrel
          intro e2 F2 F2a hR hQ
          rcases hQ with rfl | ⟨rfl, _⟩
          · exact Or.inl (List.disjoint_nil_right _)
          · exact hR.imp id (fun hs => hs.kept hf hd1)
        · exact ⟨[] :: Fs2, hempty (Or.inl (hre e1 h1)), List.Forall₂.cons (Or.inl rfl) hrel⟩

theorem flatten_subset_of_forall2 {F : List Nat} {Fs1 Fs2 : List (List Nat)}
    (hrel : List.Forall₂ (fun F1 F2 => F2 = [] ∨ (F2 = F1 ∧ List.Disjoint F F1)) Fs1 Fs2) :
    ∀ q ∈ Fs2.flatten, q ∈ Fs1.flatten := by
  induction hrel with
  | nil => intro q hq; exact hq
  | cons hab _ ih =>
    intro q hq
    rw [List.flatten_cons, List.mem_append] at hq ⊢
    rcases hq with hq | hq
    · rcases hab with rfl | ⟨rfl, _⟩
      · simp at hq
      · exact Or.inl hq
    · exact Or.inr (ih q hq)

theorem Spill_entries_ok {T : State → ZAMValUnion → BroType → Except Fault (Ptr × State)}
    {inner : State → BroType → ZAMValUnion → List Nat → Prop}
    (hT : Converts T inner) (hS : Stable inner) (yt : BroType) (slots : List ZAMValUnion) :
    ∀ (Fs : List (List Nat)) (c : State), SlotsOK_with inner c yt slots Fs →
      ∃ ps c1, Spill_entries T yt slots c = .ok (ps, c1) ∧ State.Frame Fs.flatten c c1
        ∧ List.Forall₂ (fun e p => (e.IsNil yt = true → p = nullptr)
            ∧ (e.IsNil yt = false → (yt.Tag ≠ .TYPE_PORT → p ≠ nullptr)
                ∧ (yt.Tag = .TYPE_ANY → p = e.any_val))) slots ps
        ∧ ∀ (a : Nat) (X Y : List Ptr), c.read a = some (.val_vec X) → a ∉ Fs.flatten →
            Spill_entries T yt slots (c.write a (.val_vec Y))
              = .ok (ps, c1.write a (.val_vec Y)) := by
  induction slots with
  | nil =>
    intro Fs c hv
    rw [hv.nil_inv]
    exact ⟨[], c, rfl, State.Frame.unchanged _ _, List.Forall₂.nil, fun a X Y _ _ => rfl⟩
  | cons e rest ih =>
    intro Fs c hv
    obtain ⟨F, Fs1, rfl, hab, hpair, hrest⟩ := hv.cons_inv
    simp only [Spill_entries]
    cases hnil : e.IsNil yt with
    | true =>
      simp only [hnil, if_true] at hab
      subst hab
      obtain ⟨ps, c1, hr, hf, hF2, hw⟩ := ih Fs1 c hrest
      refine ⟨nullptr :: ps, c1, by simp [hr], by simpa using hf, ?_, ?_⟩
      · exact List.Forall₂.cons ⟨fun _ => rfl, fun hf => Bool.noConfusion (hnil.symm.trans hf)⟩
          hF2
      · intro a X Y ha hna
        simp only [if_true, hw a X Y ha (by simpa using hna), Except_ok_bind]
    | false =>
      simp only [hnil, Bool.false_eq_true, if_false] at hab
      obtain ⟨p, c0, hp, hf0, hp0, hpa, hw0, hre0⟩ := hT c yt e F hab
      obtain ⟨Fs2, hrest0, hrel⟩ := SlotsOK_with.after hS hf0 hre0 rest Fs1 hpair hrest
      have hsub := flatten_subset_of_forall2 hrel
      obtain ⟨ps, c1, hr, hf, hF2, hw⟩ := ih Fs2 c0 hrest0
      refine ⟨p :: ps, c1, by simp [hp, hr], ?_, ?_, ?_⟩
      · rw [List.flatten_cons]
        exact hf0.append (hf.mono hsub)
      · exact List.Forall₂.cons
          ⟨fun hf => Bool.noConfusion (hnil.symm.trans hf), fun _ => ⟨hp0, hpa⟩⟩ hF2
      · intro a X Y ha hna
        rw [List.flatten_cons, List.mem_append, not_or] at hna
        have ha0 := hf0.storage_kept ha hna.1
        simp only [Bool.false_eq_true, if_false, hw0 a X Y ha hna.1, Except_ok_bind,
          hw a X Y ha0 (fun hq => hna.2 (hsub a hq))]

/-- What the conversion of a slot leaves is kept to the end of the run: from
the state right after the conversion of slot `i` to the state in which the
run ends, the objects change only as the conversions of the slots allow. -/
theorem Spill_entries_kept {T : State → ZAMValUnion → BroType → Except Fault (Ptr × State)}
    {inner : State → BroType → ZAMValUnion → List Nat → Prop}
    (hT : Converts T inner) (hS : Stable inner) (yt : BroType) (slots : List ZAMValUnion) :
    ∀ (Fs : List (List Nat)) (c : State), SlotsOK_with inner c yt slots Fs →
      ∀ (ps : List Ptr) (c1 : State), Spill_entries T yt slots c = .ok (ps, c1) →
      ∀ (i : Nat) (e : ZAMValUnion), slots[i]? = some e → e.IsNil yt = false →
      ∀ (p : Ptr) (ci ci1 : State),
        Spill_entries T yt (slots.take i) c = .ok (ps.take i, ci) →
        T ci e yt = .ok (p, ci1) → State.Frame Fs.flatten ci1 c1 := by
  induction slots with
  | nil =>
    intro Fs c _ ps c1 _ i e he
    simp at he
  | cons e0 rest ih =>
    intro Fs c hv ps c1 hr i e he hne p ci ci1 hpre hconv
    obtain ⟨F, Fs1, rfl, hab, hpair, hrest⟩ := hv.cons_inv
    simp only [Spill_entries] at hr
    cases hnil : e0.IsNil yt with
    | true =>
      simp only [hnil, if_true] at hr
      obtain ⟨r, hr1, hr2⟩ := Except_bind_eq_ok hr
      obtain ⟨ps1, c2⟩ := r
      simp only [Except.ok.injEq, Prod.mk.injEq] at hr2
      obtain ⟨rfl, rfl⟩ := hr2
      cases i with
      | zero =>
        simp only [List.getElem?_cons_zero, Option.some.injEq] at he
        subst he
        rw [hnil] at hne
        cases hne
      | succ j =>
        rw [List.getElem?_cons_succ] at he
        simp only [List.take_succ_cons, Spill_entries, hnil, if_true] at hpre
        obtain ⟨r, hp1, hp2⟩ := Except_bind_eq_ok hpre
        obtain ⟨ps2, c3⟩ := r
        simp only [Except.ok.injEq, Prod.mk.injEq, List.cons.injEq, true_and] at hp2
        obtain ⟨rfl, rfl⟩ := hp2
        rw [List.flatten_cons]
        exact (ih Fs1 c hrest ps1 c2 hr1 j e he hne p c3 ci1 hp1 hconv).mono
          (fun q hq => List.mem_append_right _ hq)
    | false =>
      simp only [hnil, Bool.false_eq_true, if_false] at hab hr
      obtain ⟨p0, c0, hp0, hf0, _, _, _, hre0⟩ := hT c yt e0 F hab
      rw [hp0] at hr
      simp only [Except_ok_bind] at hr
      obtain ⟨r, hr1, hr2⟩ := Except_bind_eq_ok hr
      obtain ⟨ps1, c2⟩ := r
      simp only [Except.ok.injEq, Prod.mk.injEq] at hr2
      obtain ⟨rfl, rfl⟩ := hr2
      obtain ⟨Fs2, hrest0, hrel⟩ := SlotsOK_with.after hS hf0 hre0 rest Fs1 hpair hrest
      have hsub := flatten_subset_of_forall2 hrel
      rw [List.flatten_cons]
      cases i with
      | zero =>
        simp only [List.getElem?_cons_zero, Option.some.injEq] at he
        subst he
        simp only [List.take_zero, Spill_entries, Except.ok.injEq, Prod.mk.injEq,
          true_and] at hpre
        subst hpre
        rw [hp0] at hconv
        simp only [Except.ok.injEq, Prod.mk.injEq] at hconv
        obtain ⟨_, rfl⟩ := hconv
        obtain ⟨ps2, c3, hr3, hf3, _⟩ := Spill_entries_ok hT hS yt rest Fs2 c0 hrest0
        rw [hr1] at hr3
        simp only [Except.ok.injEq, Prod.mk.injEq] at hr3
        obtain ⟨_, rfl⟩ := hr3
        exact hf3.mono (fun q hq => List.mem_append_right _ (hsub q hq))
      | succ j =>
        rw [List.getElem?_cons_succ] at he
        simp only [List.take_succ_cons, Spill_entries, hnil, Bool.false_eq_true, if_false, hp0,
          Except_ok_bind] at hpre
        obtain ⟨r, hp1, hp2⟩ := Except_bind_eq_ok hpre
        obtain ⟨ps2, c3⟩ := r
        simp only [Except.ok.injEq, Prod.mk.injEq, List.cons.injEq, true_and] at hp2
        obtain ⟨rfl, rfl⟩ := hp2
        exact (ih Fs2 c0 hrest0 ps1 c2 hr1 j e he hne p c3 ci1 hp1 hconv).mono
          (fun q hq => List.mem_append_right _ (hsub q hq))

theorem ZAM_vector.Spill_loop_ok
    {T : State → ZAMValUnion → BroType → Except Fault (Ptr × State)}
    {inner : State → BroType → ZAMValUnion → List Nat → Prop}
    (hT : Converts T inner) (hS : Stable inner) (yt : BroType) {a : Nat}
    (slots : List ZAMValUnion) :
    ∀ (Fs : List (List Nat)) (c : State) (X : List Ptr), SlotsOK_with inner c yt slots Fs →
      c.read a = some (.val_vec X) → a ∉ Fs.flatten →
      ∀ (ps : List Ptr) (c1 : State), Spill_entries T yt slots c = .ok (ps, c1) →
      ∀ Y, ZAM_vector.Spill_loop T yt a slots (c.write a (.val_vec Y))
        = .ok (c1.write a (.val_vec (Y ++ ps))) := by
  induction slots with
  | nil =>
    intro Fs c X _ _ _ ps c1 hr Y
    simp only [Spill_entries, Except.ok.injEq, Prod.mk.injEq] at hr
    obtain ⟨rfl, rfl⟩ := hr
    simp [ZAM_vector.Spill_loop]
  | cons e rest ih =>
    intro Fs c X hv ha hna ps c1 hr Y
    obtain ⟨F, Fs1, rfl, hab, hpair, hrest⟩ := hv.cons_inv
    rw [List.flatten_cons, List.mem_append, not_or] at hna
    simp only [Spill_entries] at hr
    simp only [ZAM_vector.Spill_loop]
    cases hnil : e.IsNil yt with
    | true =>
      simp only [hnil, if_true] at hr
      obtain ⟨r, hr1, hr2⟩ := Except_bind_eq_ok hr
      obtain ⟨ps1, c2⟩ := r
      simp only [Except.ok.injEq, Prod.mk.injEq] at hr2
      obtain ⟨rfl, rfl⟩ := hr2
      simp only [if_true, State.val_vec_push_back_written Y _ ha, Except_ok_bind,
        ih Fs1 c X hrest ha hna.2 ps1 c2 hr1]
      simp
    | false =>
      simp only [hnil, Bool.false_eq_true, if_false] at hab hr
      obtain ⟨p, c0, hp, hf0, _, _, hw0, hre0⟩ := hT c yt e F hab
      rw [hp] at hr
      simp only [Except_ok_bind] at hr
      obtain ⟨r, hr1, hr2⟩ := Except_bind_eq_ok hr
      obtain ⟨ps1, c2⟩ := r
      simp only [Except.ok.injEq, Prod.mk.injEq] at hr2
      obtain ⟨rfl, rfl⟩ := hr2
      have ha0 := hf0.storage_kept ha hna.1
      obtain ⟨Fs2, hrest0, hrel⟩ := SlotsOK_with.after hS hf0 hre0 rest Fs1 hpair hrest
      have hsub := flatten_subset_of_forall2 hrel
      simp only [Bool.false_eq_true, if_false, hw0 a X Y ha hna.1, Except_ok_bind,
        State.val_vec_push_back_written Y _ ha0,
        ih Fs2 c0 X hrest0 ha0 (fun hq => hna.2 (hsub a hq)) ps1 c2 hr1]
      simp

theorem VectorVal.stored_getD (yt : BroType) (slots : List ZAMValUnion) :
    ∀ (ps : List Ptr) (i : Nat) (L : List Ptr),
      List.Forall₂ (fun e p => e.IsNil yt = true → p = nullptr) slots ps → L.length ≤ i →
      (VectorVal.stored yt i slots ps L).length ≤ i + slots.length
      ∧ ∀ j : Nat, (VectorVal.stored yt i slots ps L).getD j nullptr
          = if j < i then L.getD j nullptr else ps.getD (j - i) nullptr := by
  induction slots with
  | nil =>
    intro ps i L hF hL
    cases hF
    refine ⟨by simpa [VectorVal.stored] using hL, ?_⟩
    intro j
    simp only [VectorVal.stored]
    by_cases hj : j < i
    · simp [hj]
    · have : L[j]? = none := List.getElem?_eq_none (by omega)
      simp [hj, List.getD_eq_getElem?_getD, this]
  | cons e rest ih =>
    intro ps i L hF hL
    cases hF with
    | cons hep hrest =>
      rename_i p ps1
      simp only [VectorVal.stored]
      cases hnil : e.IsNil yt with
      | true =>
        have hp0 := hep hnil
        subst hp0
        obtain ⟨hl, hget⟩ := ih ps1 (i + 1) L hrest (by omega)
        simp only [if_true]
        refine ⟨by simp only [List.length_cons]; omega, ?_⟩
        intro j
        rw [hget j]
        by_cases h1 : j < i
        · have h2 : j < i + 1 := by omega
          simp [h1, h2]
        · by_cases h2 : j = i
          · subst h2
            have : L[j]? = none := List.getElem?_eq_none (by omega)
            simp [List.getD_eq_getElem?_getD, this]
          · have h3 : ¬ (j < i + 1) := by omega
            have h4 : j - i = (j - (i + 1)) + 1 := by omega
            simp only [h1, h3, if_false]
            rw [h4]
            rfl
      | false =>
        obtain ⟨hl, hget⟩ := ih ps1 (i + 1)
          ((L ++ List.replicate (i + 1 - L.length) nullptr).set i p) hrest
          (by rw [assign_length L i p hL])
        simp only [Bool.false_eq_true, if_false]
        refine ⟨by simp only [List.length_cons]; omega, ?_⟩
        intro j
        rw [hget j, assign_getD L i p hL j]
        by_cases h1 : j < i
        · have h2 : j < i + 1 := by omega
          simp [h1, h2]
        · by_cases h2 : j = i
          · subst h2
            simp
          · have h3 : ¬ (j < i + 1) := by omega
            have h4 : j - i = (j - (i + 1)) + 1 := by omega
            simp only [h1, h3, if_false]
            rw [h4]
            rfl

theorem ZAMValUnion.ToVector_loop_ok
    {T : State → ZAMValUnion → BroType → Except Fault (Ptr × State)}
    {inner : State → BroType → ZAMValUnion → List Nat → Prop}
    (hT : Converts T inner) (hS : Stable inner)
    (hAny : ∀ s e yt, yt.Tag = .TYPE_ANY → T s e yt = (do
      let s ← NewRef s e.any_val
      pure (e.any_val, s)))
    (yt : BroType) {v a : Nat} (slots : List ZAMValUnion) :
    ∀ (Fs : List (List Nat)) (c : State) (X : List Ptr) (vv : Val),
      SlotsOK_with inner c yt slots Fs →
      c.read a = some (.val_vec X) → c.read v = some (.Val vv) → vv.val = a →
      a ∉ Fs.flatten → v ∉ Fs.flatten →
      ∀ (ps : List Ptr) (c1 : State), Spill_entries T yt slots c = .ok (ps, c1) →
      ∀ (i : Nat) (Y : List Ptr),
        ZAMValUnion.ToVector_loop T yt (yt.Tag == .TYPE_ANY) v i slots (c.write a (.val_vec Y))
          = .ok (c1.write a (.val_vec (VectorVal.stored yt i slots ps Y))) := by
  induction slots with
  | nil =>
    intro Fs c X vv _ _ _ _ _ _ ps c1 hr i Y
    simp only [Spill_entries, Except.ok.injEq, Prod.mk.injEq] at hr
    obtain ⟨rfl, rfl⟩ := hr
    simp [ZAMValUnion.ToVector_loop, VectorVal.stored]
  | cons e rest ih =>
    intro Fs c X vv hv ha hvv hval hna hnv ps c1 hr i Y
    obtain ⟨F, Fs1, rfl, hab, hpair, hrest⟩ := hv.cons_inv
    rw [List.flatten_cons, List.mem_append, not_or] at hna hnv
    simp only [Spill_entries] at hr
    simp only [ZAMValUnion.ToVector_loop]
    cases hnil : e.IsNil yt with
    | true =>
      simp only [hnil, if_true] at hr
      obtain ⟨r, hr1, hr2⟩ := Except_bind_eq_ok hr
      obtain ⟨ps1, c2⟩ := r
      simp only [Except.ok.injEq, Prod.mk.injEq] at hr2
      obtain ⟨rfl, rfl⟩ := hr2
      simp only [if_true, ih Fs1 c X vv hrest ha hvv hval hna.2 hnv.2 ps1 c2 hr1,
        VectorVal.stored, hnil]
    | false =>
      simp only [hnil, Bool.false_eq_true, if_false] at hab hr
      obtain ⟨p, c0, hp, hf0, _, _, hw0, hre0⟩ := hT c yt e F hab
      rw [hp] at hr
      simp only [Except_ok_bind] at hr
      obtain ⟨r, hr1, hr2⟩ := Except_bind_eq_ok hr
      obtain ⟨ps1, c2⟩ := r
      simp only [Except.ok.injEq, Prod.mk.injEq] at hr2
      obtain ⟨rfl, rfl⟩ := hr2
      have ha0 := hf0.storage_kept ha hna.1
      obtain ⟨rc0, hv0⟩ := hf0.boxed_kept hvv hnv.1
      obtain ⟨Fs2, hrest0, hrel⟩ := SlotsOK_with.after hS hf0 hre0 rest Fs1 hpair hrest
      have hsub := flatten_subset_of_forall2 hrel
      have hwY := hw0 a X Y ha hna.1
      have hnext := ih Fs2 c0 X _ hrest0 ha0 hv0 hval (fun hq => hna.2 (hsub a hq))
        (fun hq => hnv.2 (hsub v hq)) ps1 c2 hr1 (i + 1)
        ((Y ++ List.replicate (i + 1 - Y.length) nullptr).set i p)
      simp only [Bool.false_eq_true, if_false, VectorVal.stored, hnil]
      by_cases hany : yt.Tag = .TYPE_ANY
      · have hb : (yt.Tag == TypeTag.TYPE_ANY) = true := by simpa using hany
        rw [hAny _ e yt hany] at hwY
        rw [hb] at hnext
        simp only [hb, if_true]
        cases hN : NewRef (c.write a (.val_vec Y)) e.any_val with
        | error x =>
          rw [hN] at hwY
          cases hwY
        | ok s1 =>
          rw [hN] at hwY
          simp only [Except_ok_bind, pure, Except.pure, Except.ok.injEq, Prod.mk.injEq] at hwY
          obtain ⟨hp1, hs1⟩ := hwY
          simp only [Except_ok_bind, pure, Except.pure, hp1, hs1,
            VectorVal.Assign_written Y i p hv0 hval ha0, hnext]
      · have hb : (yt.Tag == TypeTag.TYPE_ANY) = false := by simpa using hany
        rw [hb] at hnext
        simp only [hb, Bool.false_eq_true, if_false, hwY, Except_ok_bind,
          VectorVal.Assign_written Y i p hv0 hval ha0, hnext]

/-- Releasing the references of old entries, each null or a boxed value, in
a state in which a backing storage has been overwritten. -/
theorem ZAM_vector.Spill_unref_write_storage (old : List Ptr) :
    ∀ (c : State) (b : Nat) (X Y : List Ptr), c.read b = some (.val_vec X) →
      (∀ p ∈ old, p = nullptr ∨ ∃ v, c.read p = some (.Val v)) →
      ZAM_vector.Spill_unref old (c.write b (.val_vec Y))
        = ZAM_vector.Spill_unref old c >>= fun c1 => .ok (c1.write b (.val_vec Y)) := by
  induction old with
  | nil =>
    intro c b X Y _ _
    rfl
  | cons p rest ih =>
    intro c b X Y hb hv
    simp only [ZAM_vector.Spill_unref]
    rcases hv p (List.mem_cons_self _ _) with h0 | ⟨v, hp⟩
    · subst h0
      have hu : ∀ s : State, s.Unref nullptr = .ok s := fun s => by simp [State.Unref]
      simp only [hu, Except_ok_bind]
      exact ih c b X Y hb (fun q hq => hv q (List.mem_cons_of_mem _ hq))
    · have hne : ¬ (p = nullptr) := State.read_some_ne_null hp
      have hpb : p ≠ b := by
        intro he
        rw [he, hb] at hp
        cases hp
      have hu1 : c.Unref p = .ok (c.write p (.Val { v with ref_cnt := v.ref_cnt - 1 })) := by
        unfold State.Unref
        rw [if_neg hne, hp]
      have hu2 : (c.write b (.val_vec Y)).Unref p
          = .ok ((c.write p (.Val { v with ref_cnt := v.ref_cnt - 1 })).write b
              (.val_vec Y)) := by
        unfold State.Unref
        rw [if_neg hne, State.read_write_other _ _ hpb, hp]
        simp only [State.write_write_comm _ _ _ (Ne.symm hpb)]
      simp only [hu1, hu2, Except_ok_bind]
      apply ih _ b X Y
      · rw [State.read_write_other _ _ (Ne.symm hpb)]
        exact hb
      · intro q hq
        rcases hv q (List.mem_cons_of_mem _ hq) with h0 | ⟨w, hqw⟩
        · exact Or.inl h0
        · by_cases hqp : q = p
          · subst hqp
            exact Or.inr ⟨_, State.read_write_self _ hp⟩
          · exact Or.inr ⟨w, by rw [State.read_write_other _ _ hqp]; exact hqw⟩

/-! ## Flushing a shadow vector with well-formed slots -/

/-- `Spill` on a dirty shadow vector that mirrors a boxed vector and has
well-formed slots, over a conversion `T` of the slots: it returns; the state
it returns is the state `c3` that the conversions of the slots and the
release of the old entries leave, with the old storage released, the new
storage recorded on the boxed vector and the dirty flag unset. -/
theorem ZAM_vector.Spill_with_ok
    {T : State → ZAMValUnion → BroType → Except Fault (Ptr × State)}
    {inner : State → BroType → ZAMValUnion → List Nat → Prop}
    (hT : Converts T inner) (hS : Stable inner) (hA : Allocated inner)
    (c : State) (this : Ptr) (z : ZAM_vector) (vobj : Val) (yt : BroType) (old : List Ptr)
    (Fs : List (List Nat))
    (hz : c.read this = some (.ZAM_vector z)) (hd : z.is_dirty = true)
    (hv : c.read z.vv = some (.Val vobj)) (hy : vobj.type.YieldType = some yt)
    (hold : c.read vobj.val = some (.val_vec old))
    (hrefs : ∀ p ∈ old, p = nullptr ∨ ∃ v, c.read p = some (.Val v))
    (hslots : SlotsOK_with inner c yt z.zvec Fs)
    (hs1 : this ∉ Fs.flatten) (hs2 : z.vv ∉ Fs.flatten) (hs3 : vobj.val ∉ Fs.flatten) :
    ∃ ps c1 c3 rc,
      Spill_entries T yt z.zvec (c.alloc (.val_vec [])).2 = .ok (ps, c1)
      ∧ State.Frame Fs.flatten (c.alloc (.val_vec [])).2 c1
      ∧ ZAM_vector.Spill_unref old (c1.write (c.heap.length + 1) (.val_vec ps)) = .ok c3
      ∧ (c1.write (c.heap.length + 1) (.val_vec ps)).Keeps c3
      ∧ c3.read z.vv = some (.Val { vobj with ref_cnt := rc })
      ∧ c3.read vobj.val = some (.val_vec old)
      ∧ c3.read this = some (.ZAM_vector z)
      ∧ c3.read (c.heap.length + 1) = some (.val_vec ps)
      ∧ ZAM_vector.Spill_with T c this
          = .ok (((c3.write vobj.val .freed).write z.vv
              (.Val ⟨vobj.type, c.heap.length + 1, rc⟩)).write this
                (.ZAM_vector { z with is_dirty := false }))
      ∧ State.Frame (this :: z.vv :: vobj.val :: Fs.flatten) c
          (((c3.write vobj.val .freed).write z.vv
              (.Val ⟨vobj.type, c.heap.length + 1, rc⟩)).write this
                (.ZAM_vector { z with is_dirty := false }))
      ∧ List.Forall₂ (fun e p => (e.IsNil yt = true → p = nullptr)
            ∧ (e.IsNil yt = false → (yt.Tag ≠ .TYPE_PORT → p ≠ nullptr)
                ∧ (yt.Tag = .TYPE_ANY → p = e.any_val))) z.zvec ps := by
  have ha0 : (c.alloc (.val_vec [])).2.read (c.heap.length + 1) = some (.val_vec []) :=
    State.read_alloc_new c _
  have hs0 := State.write_read_same ha0
  have hk0 : c.Keeps (c.alloc (.val_vec [])).2 := State.Keeps.of_alloc _ _
  have hf00 : State.Frame [] c (c.alloc (.val_vec [])).2 := State.Frame.of_keeps [] hk0
  have ha_none : c.read (c.heap.length + 1) = none := State.read_alloc_fresh_none c (.val_vec [])
  have hna : c.heap.length + 1 ∉ Fs.flatten :=
    fun hq => hslots.footprint_allocated hA _ hq ha_none
  have hslots0 : SlotsOK_with inner (c.alloc (.val_vec [])).2 yt z.zvec Fs :=
    hslots.frame hS hf00 (fun q _ hq => by simp at hq)
  obtain ⟨ps, c1, hr, hf1, hF2, hw⟩ := Spill_entries_ok hT hS yt z.zvec Fs _ hslots0
  have hloop := ZAM_vector.Spill_loop_ok hT hS yt z.zvec Fs _ [] hslots0 ha0 hna ps c1 hr []
  rw [hs0] at hloop
  simp only [List.nil_append] at hloop
  -- the addresses involved are pairwise distinct
  have hne_vv : z.vv ≠ c.heap.length + 1 := by
    intro he
    rw [he, ha_none] at hv
    cases hv
  have hne_old : vobj.val ≠ c.heap.length + 1 := by
    intro he
    rw [he, ha_none] at hold
    cases hold
  have hne_this : this ≠ c.heap.length + 1 := by
    intro he
    rw [he, ha_none] at hz
    cases hz
  have hne1 : this ≠ z.vv := by
    intro he
    rw [he, hv] at hz
    cases hz
  have hne2 : this ≠ vobj.val := by
    intro he
    rw [he, hold] at hz
    cases hz
  have hne3 : z.vv ≠ vobj.val := by
    intro he
    rw [he, hold] at hv
    cases hv
  have hvv0 : (z.vv == nullptr) = false := by simpa using State.read_some_ne_null hv
  -- after the loop
  obtain ⟨rc1, h_vv1⟩ := hf1.boxed_kept (State.read_alloc_old _ hv) hs2
  have h_this1 := hf1.shadow_kept (State.read_alloc_old _ hz) hs1
  have h_old1 := hf1.storage_kept (State.read_alloc_old _ hold) hs3
  have ha1 := hf1.storage_kept ha0 hna
  have h_vv2 : (c1.write (c.heap.length + 1) (.val_vec ps)).read z.vv
      = some (.Val { vobj with ref_cnt := rc1 }) := by
    rw [State.read_write_other _ _ hne_vv]
    exact h_vv1
  have h_this2 : (c1.write (c.heap.length + 1) (.val_vec ps)).read this
      = some (.ZAM_vector z) := by
    rw [State.read_write_other _ _ hne_this]
    exact h_this1
  have h_old2 : (c1.write (c.heap.length + 1) (.val_vec ps)).read vobj.val
      = some (.val_vec old) := by
    rw [State.read_write_other _ _ hne_old]
    exact h_old1
  have h_a2 : (c1.write (c.heap.length + 1) (.val_vec ps)).read (c.heap.length + 1)
      = some (.val_vec ps) := State.read_write_self _ ha1
  have hrefs2 : ∀ p ∈ old, p = nullptr
      ∨ ∃ v, (c1.write (c.heap.length + 1) (.val_vec ps)).read p = some (.Val v) := by
    intro p hp
    rcases hrefs p hp with h0 | ⟨v, hpv⟩
    · exact Or.inl h0
    · obtain ⟨v1, hv1, _⟩ := hf1.read_boxed (State.read_alloc_old _ hpv)
      have hpa : p ≠ c.heap.length + 1 := by
        intro he
        rw [he, ha_none] at hpv
        cases hpv
      exact Or.inr ⟨_, by rw [State.read_write_other _ _ hpa]; exact hv1⟩
  obtain ⟨c3, hu, hk3⟩ := ZAM_vector.Spill_unref_valid old _ hrefs2
  obtain ⟨rc3, h_vv3⟩ := hk3.read_Val h_vv2
  have h_this3 := hk3.read_ZAM_vector h_this2
  have h_old3 := hk3.read_val_vec h_old2
  have h_a3 := hk3.read_val_vec h_a2
  have hdel : c3.delete vobj.val = .ok (c3.write vobj.val .freed) := by
    unfold State.delete
    have h0 : ¬ (vobj.val = nullptr) := State.read_some_ne_null hold
    rw [if_neg h0, h_old3]
  have h_vv4 : (c3.write vobj.val .freed).read z.vv
      = some (.Val { type := vobj.type, val := vobj.val, ref_cnt := rc3 }) := by
    rw [State.read_write_other _ _ hne3]
    exact h_vv3
  have h_this4 : (c3.write vobj.val .freed).read this = some (.ZAM_vector z) := by
    rw [State.read_write_other _ _ hne2]
    exact h_this3
  have h_this5 : ((c3.write vobj.val .freed).write z.vv
      (.Val { type := vobj.type, val := c.heap.length + 1, ref_cnt := rc3 })).read this
        = some (.ZAM_vector z) := by
    rw [State.read_write_other _ _ hne1]
    exact h_this4
  refine ⟨ps, c1, c3, rc3, hr, hf1, hu, hk3, h_vv3, h_old3, h_this3, h_a3, ?_, ?_, hF2⟩
  · unfold ZAM_vector.Spill_with
    simp only [State.getZAM_vector, hz, Except_ok_bind, hvv0, hd, Bool.not_true, Bool.or_false,
      Bool.false_eq_true, if_false, State.getVal, hv, hy]
    simp only [State.alloc_fst, hloop, Except_ok_bind, h_vv2, State.get_val_vec, h_old2, hu,
      hdel, h_vv4, h_this5]
  · have hfa : State.Frame [c.heap.length + 1] c1
        (c1.write (c.heap.length + 1) (.val_vec ps)) := State.Frame.of_write ha1 trivial
    have hf3 : State.Frame [] (c1.write (c.heap.length + 1) (.val_vec ps)) c3 :=
      State.Frame.of_keeps [] hk3
    have hf4 : State.Frame [vobj.val] c3 (c3.write vobj.val .freed) :=
      State.Frame.of_write h_old3 trivial
    have hf5 : State.Frame [z.vv] (c3.write vobj.val .freed)
        ((c3.write vobj.val .freed).write z.vv
          (.Val { type := vobj.type, val := c.heap.length + 1, ref_cnt := rc3 })) :=
      State.Frame.of_write h_vv4 ⟨_, rfl, rfl⟩
    have hf6 : State.Frame [this] _
        (((c3.write vobj.val .freed).write z.vv
          (.Val { type := vobj.type, val := c.heap.length + 1, ref_cnt := rc3 })).write this
            (.ZAM_vector { z with is_dirty := false })) :=
      State.Frame.of_write h_this5 ⟨_, rfl, fun _ hc => by rw [hd] at hc; cases hc⟩
    have hall := ((((((hf00.append hf1).append hfa).append hf3).append hf4).append hf5).append hf6)
    refine hall.widen ?_
    intro q hq hnq
    simp only [List.mem_append, List.mem_cons, List.mem_singleton, List.not_mem_nil,
      or_false, false_or] at hq
    simp only [List.mem_cons, not_or] at hnq
    rcases hq with ((((hq | hq) | hq) | hq) | hq)
    · exact absurd hq hnq.2.2.2
    · rw [hq]
      exact ha_none
    · exact absurd hq hnq.2.2.1
    · exact absurd hq hnq.2.1
    · exact absurd hq hnq.1

theorem ZAM_vector.Spill_with_write_storage
    {T : State → ZAMValUnion → BroType → Except Fault (Ptr × State)}
    {inner : State → BroType → ZAMValUnion → List Nat → Prop}
    (hT : Converts T inner) (hS : Stable inner) (hA : Allocated inner)
    (c : State) (this : Ptr) (z : ZAM_vector) (vobj : Val) (yt : BroType) (old : List Ptr)
    (Fs : List (List Nat))
    (hz : c.read this = some (.ZAM_vector z)) (hd : z.is_dirty = true)
    (hv : c.read z.vv = some (.Val vobj)) (hy : vobj.type.YieldType = some yt)
    (hold : c.read vobj.val = some (.val_vec old))
    (hrefs : ∀ p ∈ old, p = nullptr ∨ ∃ v, c.read p = some (.Val v))
    (hslots : SlotsOK_with inner c yt z.zvec Fs)
    (hs1 : this ∉ Fs.flatten) (hs2 : z.vv ∉ Fs.flatten) (hs3 : vobj.val ∉ Fs.flatten)
    (b : Nat) (X Y : List Ptr) (hb : c.read b = some (.val_vec X))
    (hnb : b ∉ this :: z.vv :: vobj.val :: Fs.flatten)
    (S : State) (hres : ZAM_vector.Spill_with T c this = .ok S) :
    ZAM_vector.Spill_with T (c.write b (.val_vec Y)) this = .ok (S.write b (.val_vec Y)) := by
  simp only [List.mem_cons, not_or] at hnb
  obtain ⟨hb1, hb2, hb3, hb4⟩ := hnb
  have hfb : State.Frame [b] c (c.write b (.val_vec Y)) := State.Frame.of_write hb trivial
  have hz' : (c.write b (.val_vec Y)).read this = some (.ZAM_vector z) := by
    rw [State.read_write_other _ _ (Ne.symm hb1)]
    exact hz
  have hv' : (c.write b (.val_vec Y)).read z.vv = some (.Val vobj) := by
    rw [State.read_write_other _ _ (Ne.symm hb2)]
    exact hv
  have hold' : (c.write b (.val_vec Y)).read vobj.val = some (.val_vec old) := by
    rw [State.read_write_other _ _ (Ne.symm hb3)]
    exact hold
  have hrefs' : ∀ p ∈ old, p = nullptr
      ∨ ∃ v, (c.write b (.val_vec Y)).read p = some (.Val v) := by
    intro p hp
    rcases hrefs p hp with h0 | ⟨v, hpv⟩
    · exact Or.inl h0
    · refine Or.inr ⟨v, ?_⟩
      rw [State.read_write_other _ _ (by intro he; rw [he, hb] at hpv; cases hpv)]
      exact hpv
  have hslots' : SlotsOK_with inner (c.write b (.val_vec Y)) yt z.zvec Fs :=
    hslots.frame hS hfb (fun q hq hqb => by
      rw [List.mem_singleton] at hqb
      exact hb4 (hqb ▸ hq))
  obtain ⟨ps, c1, c3, rc, hr, hf1, hu, hk3, h_vv3, h_old3, h_this3, h_a3, hres1, _, _⟩ :=
    ZAM_vector.Spill_with_ok hT hS hA c this z vobj yt old Fs hz hd hv hy hold hrefs hslots
      hs1 hs2 hs3
  obtain ⟨ps', c1', c3', rc', hr', _, hu', _, h_vv3', _, _, _, hres', _, _⟩ :=
    ZAM_vector.Spill_with_ok hT hS hA (c.write b (.val_vec Y)) this z vobj yt old Fs hz' hd hv'
      hy hold' hrefs' hslots' hs1 hs2 hs3
  rw [hres] at hres1
  simp only [Except.ok.injEq] at hres1
  subst hres1
  rw [hres']
  -- the two runs agree up to the write
  have hk0 : c.Keeps (c.alloc (.val_vec [])).2 := State.Keeps.of_alloc _ _
  have hslots0 : SlotsOK_with inner (c.alloc (.val_vec [])).2 yt z.zvec Fs :=
    hslots.frame hS (State.Frame.of_keeps [] hk0) (fun q _ hq => by simp at hq)
  obtain ⟨ps2, c12, hr2, _, _, hw⟩ := Spill_entries_ok hT hS yt z.zvec Fs _ hslots0
  rw [hr] at hr2
  simp only [Except.ok.injEq, Prod.mk.injEq] at hr2
  obtain ⟨rfl, rfl⟩ := hr2
  have hb0 : (c.alloc (.val_vec [])).2.read b = some (.val_vec X) := State.read_alloc_old _ hb
  have hchain := hw b X Y hb0 hb4
  rw [State.alloc_write_comm _ _ hb] at hr'
  simp only at hr'
  rw [hchain] at hr'
  simp only [Except.ok.injEq, Prod.mk.injEq] at hr'
  obtain ⟨rfl, rfl⟩ := hr'
  have hlen : (c.write b (.val_vec Y)).heap.length = c.heap.length := State.write_length _ _ _
  rw [hlen] at hu' ⊢
  have hba : b ≠ c.heap.length + 1 := by
    intro he
    have := State.read_alloc_fresh_none c (.val_vec [])
    rw [State.alloc_fst, ← he, hb] at this
    cases this
  have hb1' : c1.read b = some (.val_vec X) := hf1.storage_kept hb0 hb4
  have hb2' : (c1.write (c.heap.length + 1) (.val_vec ps)).read b = some (.val_vec X) := by
    rw [State.read_write_other _ _ hba]
    exact hb1'
  have hrefs2 : ∀ p ∈ old, p = nullptr
      ∨ ∃ v, (c1.write (c.heap.length + 1) (.val_vec ps)).read p = some (.Val v) := by
    intro p hp
    rcases hrefs p hp with h0 | ⟨v, hpv⟩
    · exact Or.inl h0
    · obtain ⟨v1, hv1, _⟩ := hf1.read_boxed (State.read_alloc_old _ hpv)
      have hpa : p ≠ c.heap.length + 1 := by
        intro he
        have := State.read_alloc_fresh_none c (.val_vec [])
        rw [State.alloc_fst, ← he, hpv] at this
        cases this
      exact Or.inr ⟨_, by rw [State.read_write_other _ _ hpa]; exact hv1⟩
  rw [State.write_write_comm _ _ _ hba,
    ZAM_vector.Spill_unref_write_storage old _ b X Y hb2' hrefs2, hu] at hu'
  simp only [Except_ok_bind, Except.ok.injEq] at hu'
  subst hu'
  rw [State.read_write_other _ _ (Ne.symm hb2), h_vv3] at h_vv3'
  simp only [Option.some.injEq, Obj.Val.injEq, Val.mk.injEq, true_and] at h_vv3'
  subst h_vv3'
  rw [State.write_write_comm _ _ _ hb3, State.write_write_comm _ _ _ hb2,
    State.write_write_comm _ _ _ hb1]

/-! ## Boxing a shadow vector with well-formed slots -/

/-- `ToVector` on a cell whose shadow vector mirrors nothing and has
well-formed slots, over a conversion `T` of the slots: it returns a new boxed
vector, in the state that the conversions of the slots leave, with the new
backing storage filled as `VectorVal.stored` says and the new vector recorded
on the shadow vector. -/
theorem ZAMValUnion.ToVector_with_build
    {T : State → ZAMValUnion → BroType → Except Fault (Ptr × State)}
    {inner : State → BroType → ZAMValUnion → List Nat → Prop}
    (hT : Converts T inner) (hS : Stable inner) (hA : Allocated inner)
    (hAny : ∀ s e yt, yt.Tag = .TYPE_ANY → T s e yt = (do
      let s ← NewRef s e.any_val
      pure (e.any_val, s)))
    (c : State) (e : ZAMValUnion) (t yt : BroType) (zv : ZAMVector) (z : ZAM_vector)
    (Fs : List (List Nat))
    (h1 : c.read e.vector_val = some (.ZAMVector zv))
    (h2 : c.read zv.vec = some (.ZAM_vector z)) (h3 : z.vv = nullptr)
    (ht : t.YieldType = some yt)
    (hslots : SlotsOK_with inner c (zv.yield_type.getD yt) z.zvec Fs)
    (hs1 : zv.vec ∉ Fs.flatten) :
    ∃ ps c1 rc,
      Spill_entries T (zv.yield_type.getD yt) z.zvec
        ((c.alloc (.val_vec [])).2.alloc (.Val ⟨t, c.heap.length + 1, 1⟩)).2 = .ok (ps, c1)
      ∧ State.Frame Fs.flatten
          ((c.alloc (.val_vec [])).2.alloc (.Val ⟨t, c.heap.length + 1, 1⟩)).2 c1
      ∧ c1.read ((c.alloc (.val_vec [])).2.heap.length + 1)
          = some (.Val ⟨t, c.heap.length + 1, rc⟩)
      ∧ c1.read (c.heap.length + 1) = some (.val_vec [])
      ∧ c1.read zv.vec = some (.ZAM_vector z)
      ∧ c1.read e.vector_val = some (.ZAMVector zv)
      ∧ ZAMValUnion.ToVector_with T c e t
          = .ok ((c.alloc (.val_vec [])).2.heap.length + 1,
              (c1.write (c.heap.length + 1)
                (.val_vec (VectorVal.stored (zv.yield_type.getD yt) 0 z.zvec ps []))).write
                zv.vec (.ZAM_vector { z with vv := (c.alloc (.val_vec [])).2.heap.length + 1 }))
      ∧ State.Frame (zv.vec :: Fs.flatten) c
          ((c1.write (c.heap.length + 1)
            (.val_vec (VectorVal.stored (zv.yield_type.getD yt) 0 z.zvec ps []))).write
            zv.vec (.ZAM_vector { z with vv := (c.alloc (.val_vec [])).2.heap.length + 1 }))
      ∧ List.Forall₂ (fun e p => (e.IsNil (zv.yield_type.getD yt) = true → p = nullptr)
            ∧ (e.IsNil (zv.yield_type.getD yt) = false →
                ((zv.yield_type.getD yt).Tag ≠ .TYPE_PORT → p ≠ nullptr)
                ∧ ((zv.yield_type.getD yt).Tag = .TYPE_ANY → p = e.any_val))) z.zvec ps := by
  have ha0 : ((c.alloc (.val_vec [])).2.alloc
      (.Val ⟨t, c.heap.length + 1, 1⟩)).2.read (c.heap.length + 1) = some (.val_vec []) :=
    State.read_alloc_old _ (State.read_alloc_new c _)
  have hv0 : ((c.alloc (.val_vec [])).2.alloc
      (.Val ⟨t, c.heap.length + 1, 1⟩)).2.read ((c.alloc (.val_vec [])).2.heap.length + 1)
        = some (.Val ⟨t, c.heap.length + 1, 1⟩) := State.read_alloc_new _ _
  have hs0 := State.write_read_same ha0
  have hk0 : c.Keeps ((c.alloc (.val_vec [])).2.alloc (.Val ⟨t, c.heap.length + 1, 1⟩)).2 :=
    (State.Keeps.of_alloc _ _).chain (State.Keeps.of_alloc _ _)
  have hf00 := State.Frame.of_keeps [] hk0
  have ha_none : c.read (c.heap.length + 1) = none := State.read_alloc_fresh_none c (.val_vec [])
  have hv_none : c.read ((c.alloc (.val_vec [])).2.heap.length + 1) = none := by
    simp [State.read, State.alloc]
  have hna : c.heap.length + 1 ∉ Fs.flatten := fun hq => hslots.footprint_allocated hA _ hq ha_none
  have hnv : (c.alloc (.val_vec [])).2.heap.length + 1 ∉ Fs.flatten :=
    fun hq => hslots.footprint_allocated hA _ hq hv_none
  have hslots0 := hslots.frame hS hf00 (fun q _ hq => by simp at hq)
  obtain ⟨ps, c1, hr, hf1, hF2, _⟩ :=
    Spill_entries_ok hT hS (zv.yield_type.getD yt) z.zvec Fs _ hslots0
  have hL := ZAMValUnion.ToVector_loop_ok hT hS hAny (zv.yield_type.getD yt) z.zvec Fs _ []
    _ hslots0 ha0 hv0 rfl hna hnv ps c1 hr 0 []
  rw [hs0] at hL
  obtain ⟨rc, hv1⟩ := hf1.boxed_kept hv0 hnv
  have ha1 := hf1.storage_kept ha0 hna
  have hz1 := hf1.shadow_kept (hk0.read_ZAM_vector h2) hs1
  have hc1 := hf1.handle_kept (hk0.read_ZAMVector h1)
  have hne_za : zv.vec ≠ c.heap.length + 1 := by
    intro he
    rw [he, ha_none] at h2
    cases h2
  have hz2 : (c1.write (c.heap.length + 1)
      (.val_vec (VectorVal.stored (zv.yield_type.getD yt) 0 z.zvec ps []))).read zv.vec
        = some (.ZAM_vector z) := by
    rw [State.read_write_other _ _ hne_za]
    exact hz1
  refine ⟨ps, c1, rc, hr, hf1, hv1, ha1, hz1, hc1, ?_, ?_, hF2⟩
  · unfold ZAMValUnion.ToVector_with ZAM_vector.Spill_with
    simp only [State.getZAMVector, h1, Except_ok_bind, State.getZAM_vector, h2, h3,
      beq_self_eq_true, Bool.true_or, if_true, bne_self_eq_false, Bool.false_eq_true, if_false,
      ht, VectorVal.make, State.new_Val, State.alloc_fst]
    cases hzy : zv.yield_type with
    | none =>
      rw [hzy] at hL hz2
      simp only [Option.getD_none] at hL hz2
      simp only [hL, Except_ok_bind, State.getZAM_vector, hz2, Option.getD_none]
    | some y =>
      rw [hzy] at hL hz2
      simp only [Option.getD_some] at hL hz2
      simp only [hL, Except_ok_bind, State.getZAM_vector, hz2, Option.getD_some]
  · have hfa : State.Frame [c.heap.length + 1] c1 (c1.write (c.heap.length + 1)
        (.val_vec (VectorVal.stored (zv.yield_type.getD yt) 0 z.zvec ps []))) :=
      State.Frame.of_write ha1 trivial
    have hfz : State.Frame [zv.vec] _ ((c1.write (c.heap.length + 1)
        (.val_vec (VectorVal.stored (zv.yield_type.getD yt) 0 z.zvec ps []))).write
          zv.vec (.ZAM_vector { z with vv := (c.alloc (.val_vec [])).2.heap.length + 1 })) :=
      State.Frame.of_write hz2 ⟨_, rfl, fun hc => absurd h3 hc⟩
    refine (((hf00.append hf1).append hfa).append hfz).widen ?_
    intro q hq hnq
    simp only [List.mem_append, List.mem_cons, List.mem_singleton, List.not_mem_nil,
      or_false, false_or] at hq
    simp only [List.mem_cons, not_or] at hnq
    rcases hq with ((hq | hq) | hq)
    · exact absurd hq hnq.2
    · rw [hq]
      exact ha_none
    · exact absurd hq hnq.1

theorem ZAMValUnion.ToVector_with_build_write_storage
    {T : State → ZAMValUnion → BroType → Except Fault (Ptr × State)}
    {inner : State → BroType → ZAMValUnion → List Nat → Prop}
    (hT : Converts T inner) (hS : Stable inner) (hA : Allocated inner)
    (hAny : ∀ s e yt, yt.Tag = .TYPE_ANY → T s e yt = (do
      let s ← NewRef s e.any_val
      pure (e.any_val, s)))
    (c : State) (e : ZAMValUnion) (t yt : BroType) (zv : ZAMVector) (z : ZAM_vector)
    (Fs : List (List Nat))
    (h1 : c.read e.vector_val = some (.ZAMVector zv))
    (h2 : c.read zv.vec = some (.ZAM_vector z)) (h3 : z.vv = nullptr)
    (ht : t.YieldType = some yt)
    (hslots : SlotsOK_with inner c (zv.yield_type.getD yt) z.zvec Fs)
    (hs1 : zv.vec ∉ Fs.flatten)
    (b : Nat) (X Y : List Ptr) (hb : c.read b = some (.val_vec X))
    (hnb : b ∉ zv.vec :: Fs.flatten)
    (p : Ptr) (S : State) (hres : ZAMValUnion.ToVector_with T c e t = .ok (p, S)) :
    ZAMValUnion.ToVector_with T (c.write b (.val_vec Y)) e t
      = .ok (p, S.write b (.val_vec Y)) := by
  simp only [List.mem_cons, not_or] at hnb
  obtain ⟨hb1, hb4⟩ := hnb
  have hfb : State.Frame [b] c (c.write b (.val_vec Y)) := State.Frame.of_write hb trivial
  have h1' : (c.write b (.val_vec Y)).read e.vector_val = some (.ZAMVector zv) := by
    rw [State.read_write_other _ _ (by intro he; rw [he, hb] at h1; cases h1)]
    exact h1
  have h2' : (c.write b (.val_vec Y)).read zv.vec = some (.ZAM_vector z) := by
    rw [State.read_write_other _ _ (Ne.symm hb1)]
    exact h2
  have hslots' : SlotsOK_with inner (c.write b (.val_vec Y)) (zv.yield_type.getD yt) z.zvec Fs :=
    hslots.frame hS hfb (fun q hq hqb => by
      rw [List.mem_singleton] at hqb
      exact hb4 (hqb ▸ hq))
  obtain ⟨ps, c1, rc, hr, hf1, _, _, _, _, hres1, _, _⟩ :=
    ZAMValUnion.ToVector_with_build hT hS hA hAny c e t yt zv z Fs h1 h2 h3 ht hslots hs1
  obtain ⟨ps', c1', rc', hr', _, _, _, _, _, hres', _, _⟩ :=
    ZAMValUnion.ToVector_with_build hT hS hA hAny (c.write b (.val_vec Y)) e t yt zv z Fs
      h1' h2' h3 ht hslots' hs1
  rw [hres] at hres1
  simp only [Except.ok.injEq, Prod.mk.injEq] at hres1
  obtain ⟨rfl, rfl⟩ := hres1
  rw [hres']
  have hk0 : c.Keeps ((c.alloc (.val_vec [])).2.alloc (.Val ⟨t, c.heap.length + 1, 1⟩)).2 :=
    (State.Keeps.of_alloc _ _).chain (State.Keeps.of_alloc _ _)
  have hslots0 := hslots.frame hS (State.Frame.of_keeps [] hk0) (fun q _ hq => by simp at hq)
  obtain ⟨ps2, c12, hr2, _, _, hw⟩ :=
    Spill_entries_ok hT hS (zv.yield_type.getD yt) z.zvec Fs _ hslots0
  rw [hr] at hr2
  simp only [Except.ok.injEq, Prod.mk.injEq] at hr2
  obtain ⟨rfl, rfl⟩ := hr2
  have hb0 : ((c.alloc (.val_vec [])).2.alloc (.Val ⟨t, c.heap.length + 1, 1⟩)).2.read b
      = some (.val_vec X) := State.read_alloc_old _ (State.read_alloc_old _ hb)
  have hchain := hw b X Y hb0 hb4
  have hlen : (c.write b (.val_vec Y)).heap.length = c.heap.length := State.write_length _ _ _
  have hal : ((c.write b (.val_vec Y)).alloc (.val_vec [])).2
      = (c.alloc (.val_vec [])).2.write b (.val_vec Y) := by
    rw [State.alloc_write_comm _ _ hb]
  have hal2 : (((c.alloc (.val_vec [])).2.write b (.val_vec Y)).alloc
      (.Val ⟨t, c.heap.length + 1, 1⟩)).2
        = ((c.alloc (.val_vec [])).2.alloc (.Val ⟨t, c.heap.length + 1, 1⟩)).2.write b
            (.val_vec Y) := by
    rw [State.alloc_write_comm _ _ (State.read_alloc_old _ hb)]
  have hlen2 : ((c.alloc (.val_vec [])).2.write b (.val_vec Y)).heap.length
      = (c.alloc (.val_vec [])).2.heap.length := State.write_length _ _ _
  rw [hlen, hal, hal2, hchain] at hr'
  simp only [Except.ok.injEq, Prod.mk.injEq] at hr'
  obtain ⟨rfl, rfl⟩ := hr'
  have hba : b ≠ c.heap.length + 1 := by
    intro he
    have := State.read_alloc_fresh_none c (.val_vec [])
    rw [State.alloc_fst, ← he, hb] at this
    cases this
  rw [hlen, hal, hlen2, State.write_write_comm _ _ _ hba, State.write_write_comm _ _ _ hb1]

/-! ## Every well-formed cell converts -/

/-- One level of the conversion: when the conversion `T` of the slots converts
every cell that meets `inner`, `ToVal` with `ToVector` over `T` converts every
cell that meets `CellOK_step` over `inner`. -/
theorem ZAMValUnion.ToVal_step_converts (h : Host)
    {T : State → ZAMValUnion → BroType → Except Fault (Ptr × State)}
    {inner : State → BroType → ZAMValUnion → List Nat → Prop}
    (hT : Converts T inner) (hS : Stable inner) (hA : Allocated inner)
    (hAny : ∀ s e yt, yt.Tag = .TYPE_ANY → T s e yt = (do
      let s ← NewRef s e.any_val
      pure (e.any_val, s))) :
    Converts (ZAMValUnion.ToVal_step h (ZAMValUnion.ToVector_with T)) (CellOK_step h inner) := by
  intro c t e F hv
  unfold CellOK_step at hv
  by_cases htag : t.Tag = .TYPE_VECTOR
  · rw [if_pos htag] at hv
    obtain ⟨zv, z, h1, h2, hcase⟩ := hv
    have hstep : ∀ s, ZAMValUnion.ToVal_step h (ZAMValUnion.ToVector_with T) s e t
        = ZAMValUnion.ToVector_with T s e t := by
      intro s
      simp only [ZAMValUnion.ToVal_step, htag]
    have hany : ¬ (t.Tag = .TYPE_ANY) := by
      rw [htag]
      decide
    have hne_zc : zv.vec ≠ e.vector_val := by
      intro he
      rw [he, h1] at h2
      cases h2
    rcases hcase with ⟨h3, h4, rfl⟩ | ⟨h3, h4, hm⟩ | ⟨h3, hb⟩
    · have h3b : (z.vv == nullptr) = false := by simpa using h3
      have h3c : (z.vv != nullptr) = true := by simpa using h3
      have key : ∀ s, s.read e.vector_val = some (.ZAMVector zv) →
          s.read zv.vec = some (.ZAM_vector z) →
          ZAMValUnion.ToVector_with T s e t = .ok (z.vv, s) := by
        intro s g1 g2
        unfold ZAMValUnion.ToVector_with ZAM_vector.Spill_with
        simp only [State.getZAMVector, g1, Except_ok_bind, State.getZAM_vector, g2, h3b, h4,
          Bool.not_false, Bool.or_true, if_true, h3c]
      refine ⟨z.vv, c, by rw [hstep]; exact key c h1 h2, State.Frame.unchanged _ _, fun _ => h3,
        fun hf => absurd hf hany, ?_, ?_⟩
      · intro a X Y ha _
        rw [hstep]
        apply key
        · rw [State.read_write_other _ _ (by intro he; rw [he, ha] at h1; cases h1)]
          exact h1
        · rw [State.read_write_other _ _ (by intro he; rw [he, ha] at h2; cases h2)]
          exact h2
      · intro e1 hs
        obtain ⟨_, _, _, _, _, _, _, _, g5, _⟩ := hs
        simp at g5
    · obtain ⟨vobj, yt, old, Fs, hv, hy, hold, hrefs, hslots, hs1, hs2, hs3, rfl⟩ := hm
      have h3c : (z.vv != nullptr) = true := by simpa using h3
      obtain ⟨ps, c1, c3, rc, _, _, _, _, _, _, hz3, _, hres, hfr, _⟩ :=
        ZAM_vector.Spill_with_ok hT hS hA c zv.vec z vobj yt old Fs h2 h4 hv hy hold hrefs
          hslots hs1 hs2 hs3
      have hne1 : zv.vec ≠ z.vv := by
        intro he
        rw [he, hv] at h2
        cases h2
      have hne2 : zv.vec ≠ vobj.val := by
        intro he
        rw [he, hold] at h2
        cases h2
      have hzS : (((c3.write vobj.val .freed).write z.vv
          (.Val ⟨vobj.type, c.heap.length + 1, rc⟩)).write zv.vec
            (.ZAM_vector { z with is_dirty := false })).read zv.vec
          = some (.ZAM_vector { z with is_dirty := false }) := by
        apply State.read_write_self
        rw [State.read_write_other _ _ hne1, State.read_write_other _ _ hne2]
        exact hz3
      have key : ∀ s S, s.read e.vector_val = some (.ZAMVector zv) →
          ZAM_vector.Spill_with T s zv.vec = .ok S →
          S.read zv.vec = some (.ZAM_vector { z with is_dirty := false }) →
          ZAMValUnion.ToVector_with T s e t = .ok (z.vv, S) := by
        intro s S g1 g2 g3
        unfold ZAMValUnion.ToVector_with
        simp only [State.getZAMVector, g1, Except_ok_bind, g2, State.getZAM_vector, g3, h3c,
          if_true]
      refine ⟨z.vv, _, by rw [hstep]; exact key c _ h1 hres hzS, hfr, fun _ => h3,
        fun hf => absurd hf hany, ?_, ?_⟩
      · intro a X Y ha hna
        rw [hstep]
        have hna1 : zv.vec ≠ a := by
          intro he
          rw [he, ha] at h2
          cases h2
        apply key
        · rw [State.read_write_other _ _ (by intro he; rw [he, ha] at h1; cases h1)]
          exact h1
        · exact ZAM_vector.Spill_with_write_storage hT hS hA c zv.vec z vobj yt old Fs h2 h4 hv
            hy hold hrefs hslots hs1 hs2 hs3 a X Y ha hna _ hres
        · rw [State.read_write_other _ _ hna1]
          exact hzS
      · intro e1 hs
        obtain ⟨_, zv0, zv1, z0, g1, g2, g3, _, _, _⟩ := hs
        rw [h1] at g1
        simp only [Option.some.injEq, Obj.ZAMVector.injEq] at g1
        subst g1
        unfold CellOK_step
        rw [if_pos htag]
        exact ⟨zv1, { z with is_dirty := false }, hfr.handle_kept g2, by rw [g3]; exact hzS,
          Or.inl ⟨h3, rfl, rfl⟩⟩
    · obtain ⟨yt, Fs, ht, hslots, hs1, rfl⟩ := hb
      obtain ⟨ps, c1, rc, _, _, _, _, hz1, _, hres, hfr, _⟩ :=
        ZAMValUnion.ToVector_with_build hT hS hA hAny c e t yt zv z Fs h1 h2 h3 ht hslots hs1
      refine ⟨_, _, by rw [hstep]; exact hres, hfr, fun _ => Nat.succ_ne_zero _,
        fun hf => absurd hf hany, ?_, ?_⟩
      · intro a X Y ha hna
        rw [hstep]
        exact ZAMValUnion.ToVector_with_build_write_storage hT hS hA hAny c e t yt zv z Fs h1 h2
          h3 ht hslots hs1 a X Y ha hna _ _ hres
      · intro e1 hs
        obtain ⟨_, zv0, zv1, z0, g1, g2, g3, g4, _, g6⟩ := hs
        rw [h1] at g1
        simp only [Option.some.injEq, Obj.ZAMVector.injEq] at g1
        subst g1
        rw [h2] at g4
        simp only [Option.some.injEq, Obj.ZAM_vector.injEq] at g4
        subst g4
        have hclean : z.is_dirty = false := g6.resolve_left (fun hx => hx h3)
        have ha_none : c.read (c.heap.length + 1) = none :=
          State.read_alloc_fresh_none c (.val_vec [])
        have hne_za : zv.vec ≠ c.heap.length + 1 := by
          intro he
          rw [he, ha_none] at h2
          cases h2
        unfold CellOK_step
        rw [if_pos htag]
        refine ⟨zv1, { z with vv := (c.alloc (.val_vec [])).2.heap.length + 1 },
          hfr.handle_kept g2, ?_, Or.inl ⟨Nat.succ_ne_zero _, hclean, rfl⟩⟩
        rw [g3]
        apply State.read_write_self
        rw [State.read_write_other _ _ hne_za]
        exact hz1
  · rw [if_neg htag] at hv
    obtain ⟨hv, rfl⟩ := hv
    obtain ⟨p, s1, hr, hk, hp, ha, hw⟩ := ZAMValUnion.ToVal_step_valid h 0
      (ZAMValUnion.ToVector_with T) (fun hf => absurd rfl hf) hv
    exact ⟨p, s1, hr, State.Frame.of_keeps [] hk, hp, ha, fun a X Y hx _ => hw a X Y hx,
      fun e1 hs => absurd hs.1 htag⟩

/-- Every well-formed cell converts: `ToVal` at depth `n` returns on a cell
that meets `CellOK` at depth `n`, changing no object outside the footprint of
the cell but for reference counts. -/
theorem ZAMValUnion.ToVal_converts (h : Host) (n : Nat) :
    Converts (ZAMValUnion.ToVal h n) (CellOK h n) := by
  induction n with
  | zero =>
    intro c t e F hv
    obtain ⟨htag, hv, rfl⟩ := hv
    obtain ⟨p, s1, hr, hk, hp, ha, hw⟩ := ZAMValUnion.ToVal_step_valid h 0
      (fun _ _ _ => .error .OutOfFuel) (fun hf => absurd rfl hf) hv
    exact ⟨p, s1, hr, State.Frame.of_keeps [] hk, hp, ha, fun a X Y hx _ => hw a X Y hx,
      fun e1 hs => absurd hs.1 htag⟩
  | succ k ih =>
    exact ZAMValUnion.ToVal_step_converts h ih (CellOK.stable h k) (CellOK.allocated h k)
      (ZAMValUnion.ToVal_any h k)

/-- The run of `Spill_entries` taken apart at slot `i`: the run over the slots
before it reaches a state `ci` and gives the pointers before index `i`; a nil
slot gives the null pointer and leaves `ci`; any other slot gives what the
conversion returns when called in `ci`; the run over the slots after it goes
on from there and ends in the final state. -/
theorem Spill_entries_prefix
    (T : State → ZAMValUnion → BroType → Except Fault (Ptr × State))
    (yt : BroType) (slots : List ZAMValUnion) :
    ∀ (c c1 : State) (ps : List Ptr), Spill_entries T yt slots c = .ok (ps, c1) →
      ps.length = slots.length
      ∧ ∀ (i : Nat) (e : ZAMValUnion), slots[i]? = some e →
          ∃ ci, Spill_entries T yt (slots.take i) c = .ok (ps.take i, ci)
            ∧ (e.IsNil yt = true → ps[i]? = some nullptr
                ∧ Spill_entries T yt (slots.drop (i + 1)) ci = .ok (ps.drop (i + 1), c1))
            ∧ (e.IsNil yt = false → ∃ p ci1, T ci e yt = .ok (p, ci1) ∧ ps[i]? = some p
                ∧ Spill_entries T yt (slots.drop (i + 1)) ci1 = .ok (ps.drop (i + 1), c1)) := by
  induction slots with
  | nil =>
    intro c c1 ps hr
    simp only [Spill_entries, Except.ok.injEq, Prod.mk.injEq] at hr
    obtain ⟨rfl, rfl⟩ := hr
    exact ⟨rfl, fun i e hi => by simp at hi⟩
  | cons e0 rest ih =>
    intro c c1 ps hr
    simp only [Spill_entries] at hr
    split at hr
    · rename_i h0
      obtain ⟨r, hr1, hr2⟩ := Except_bind_eq_ok hr
      obtain ⟨ps1, c2⟩ := r
      simp only [Except.ok.injEq, Prod.mk.injEq] at hr2
      obtain ⟨rfl, rfl⟩ := hr2
      obtain ⟨hl, hi⟩ := ih _ _ _ hr1
      refine ⟨by simp [hl], ?_⟩
      intro i e he
      cases i with
      | zero =>
        simp only [List.getElem?_cons_zero, Option.some.injEq] at he
        subst he
        refine ⟨c, rfl, fun _ => ⟨by simp, by simpa using hr1⟩, fun hf => ?_⟩
        rw [h0] at hf
        cases hf
      | succ j =>
        rw [List.getElem?_cons_succ] at he
        obtain ⟨ci, h1, h2, h3⟩ := hi j e he
        refine ⟨ci, ?_, ?_, ?_⟩
        · simp only [List.take_succ_cons, Spill_entries, h0, if_true, h1, Except_ok_bind]
        · intro hn
          obtain ⟨g1, g2⟩ := h2 hn
          exact ⟨by rw [List.getElem?_cons_succ]; exact g1, by simpa using g2⟩
        · intro hn
          obtain ⟨p, ci1, g0, g1, g2⟩ := h3 hn
          exact ⟨p, ci1, g0, by rw [List.getElem?_cons_succ]; exact g1, by simpa using g2⟩
    · rename_i h0
      obtain ⟨r0, hr0, hr⟩ := Except_bind_eq_ok hr
      obtain ⟨p0, c0⟩ := r0
      obtain ⟨r, hr1, hr2⟩ := Except_bind_eq_ok hr
      obtain ⟨ps1, c2⟩ := r
      simp only [Except.ok.injEq, Prod.mk.injEq] at hr2
      obtain ⟨rfl, rfl⟩ := hr2
      obtain ⟨hl, hi⟩ := ih _ _ _ hr1
      refine ⟨by simp [hl], ?_⟩
      intro i e he
      cases i with
      | zero =>
        simp only [List.getElem?_cons_zero, Option.some.injEq] at he
        subst he
        refine ⟨c, rfl, fun hf => absurd hf h0, fun _ => ⟨p0, c0, hr0, by simp, ?_⟩⟩
        simpa using hr1
      | succ j =>
        rw [List.getElem?_cons_succ] at he
        obtain ⟨ci, h1, h2, h3⟩ := hi j e he
        refine ⟨ci, ?_, ?_, ?_⟩
        · simp only [List.take_succ_cons, Spill_entries, h0, if_false, hr0, h1, Except_ok_bind,
            Bool.false_eq_true]
        · intro hn
          obtain ⟨g1, g2⟩ := h2 hn
          exact ⟨by rw [List.getElem?_cons_succ]; exact g1, by simpa using g2⟩
        · intro hn
          obtain ⟨p, ci1, g0, g1, g2⟩ := h3 hn
          exact ⟨p, ci1, g0, by rw [List.getElem?_cons_succ]; exact g1, by simpa using g2⟩

/-! ## Flushing and boxing: the postconditions -/

/-- C11: `Spill` on a shadow vector that is dirty, mirrors a boxed vector of
declared element type `yt` and has no nil slot.  The slots are well-formed
cells at depth `n` with the footprints `Fs`: a slot that is not a vector
points to an object of its class; a vector slot is a handle whose shadow
vector is flushed already, or is dirty and mirrors a boxed vector, or mirrors
nothing, its own slots being well-formed in turn; two slots either have
footprints that do not overlap or share one shadow vector that the first
conversion leaves flushed; the footprints hold neither the shadow vector nor
its boxed vector nor the backing storage; the old entries of the boxed vector
are null or boxed values.  `Spill` returns, and the state it returns is given
in full: with `ps` and `c1` the pointers and the state of the run of `ToVal`
over the slots from the state in which the new storage has been allocated,
and `c3` the state after the release of the old entries, it is `c3` with the
old storage released, the new storage recorded on the boxed vector and the
dirty flag unset.  The backing storage of the boxed vector is then the new
storage, which holds exactly `ps`: one pointer per slot, in slot order,
pointer `i` being what `ToVal` returns for slot `i` against `yt` when called
in the state the run has reached after the slots before it; every object that
is there right after that call is still there when `Spill` returns, the same
but for its reference count unless it lies in a footprint or is one of the
four objects that `Spill` itself rewrites.  The shadow vector has the slots
it had and its dirty flag is clear.  But for reference counts, what the
conversions left is changed only at the new storage, the old storage, the
boxed vector and the shadow vector, and the starting state only there and in
the footprints of the slots. -/
theorem C11_Spill_postcondition (h : Host) (n : Nat) (s : State) (this : Ptr) (z : ZAM_vector)
    (vobj : Val) (yt : BroType) (old : List Ptr) (Fs : List (List Nat))
    (hz : s.read this = some (.ZAM_vector z)) (hd : z.is_dirty = true)
    (hv : s.read z.vv = some (.Val vobj)) (hy : vobj.type.YieldType = some yt)
    (hold : s.read vobj.val = some (.val_vec old))
    (hrefs : ∀ p ∈ old, p = nullptr ∨ ∃ v, s.read p = some (.Val v))
    (hnil : ∀ e ∈ z.zvec, e.IsNil yt = false)
    (hslots : SlotsOK_with (CellOK h n) s yt z.zvec Fs)
    (hs1 : this ∉ Fs.flatten) (hs2 : z.vv ∉ Fs.flatten) (hs3 : vobj.val ∉ Fs.flatten) :
    ∃ ps c1 c3 rc,
      ToVal_seq (ZAMValUnion.ToVal h n) yt z.zvec (s.alloc (.val_vec [])).2 = .ok (ps, c1)
      ∧ ZAM_vector.Spill_unref old (c1.write (s.heap.length + 1) (.val_vec ps)) = .ok c3
      ∧ c3.read z.vv = some (.Val { vobj with ref_cnt := rc })
      ∧ ZAM_vector.Spill h n s this
          = .ok (((c3.write vobj.val .freed).write z.vv
              (.Val ⟨vobj.type, s.heap.length + 1, rc⟩)).write this
                (.ZAM_vector { z with is_dirty := false }))
      ∧ (((c3.write vobj.val .freed).write z.vv
              (.Val ⟨vobj.type, s.heap.length + 1, rc⟩)).write this
                (.ZAM_vector { z with is_dirty := false })).read z.vv
          = some (.Val ⟨vobj.type, s.heap.length + 1, rc⟩)
      ∧ (((c3.write vobj.val .freed).write z.vv
              (.Val ⟨vobj.type, s.heap.length + 1, rc⟩)).write this
                (.ZAM_vector { z with is_dirty := false })).read (s.heap.length + 1)
          = some (.val_vec ps)
      ∧ (((c3.write vobj.val .freed).write z.vv
              (.Val ⟨vobj.type, s.heap.length + 1, rc⟩)).write this
                (.ZAM_vector { z with is_dirty := false })).read vobj.val
          = some .freed
      ∧ (((c3.write vobj.val .freed).write z.vv
              (.Val ⟨vobj.type, s.heap.length + 1, rc⟩)).write this
                (.ZAM_vector { z with is_dirty := false })).read this
          = some (.ZAM_vector { z with is_dirty := false })
      ∧ ps.length = z.zvec.length
      ∧ (∀ (i : Nat) (e : ZAMValUnion), z.zvec[i]? = some e →
          ∃ p ci ci1,
            ToVal_seq (ZAMValUnion.ToVal h n) yt (z.zvec.take i) (s.alloc (.val_vec [])).2
                = .ok (ps.take i, ci)
            ∧ ZAMValUnion.ToVal h n ci e yt = .ok (p, ci1)
            ∧ ps[i]? = some p
            ∧ ToVal_seq (ZAMValUnion.ToVal h n) yt (z.zvec.drop (i + 1)) ci1
                = .ok (ps.drop (i + 1), c1)
            ∧ State.Frame ((s.heap.length + 1) :: vobj.val :: z.vv :: this :: Fs.flatten) ci1
                (((c3.write vobj.val .freed).write z.vv
                  (.Val ⟨vobj.type, s.heap.length + 1, rc⟩)).write this
                    (.ZAM_vector { z with is_dirty := false })))
      ∧ State.Frame [s.heap.length + 1, vobj.val, z.vv, this] c1
          (((c3.write vobj.val .freed).write z.vv
              (.Val ⟨vobj.type, s.heap.length + 1, rc⟩)).write this
                (.ZAM_vector { z with is_dirty := false }))
      ∧ State.Frame (this :: z.vv :: vobj.val :: Fs.flatten) s
          (((c3.write vobj.val .freed).write z.vv
              (.Val ⟨vobj.type, s.heap.length + 1, rc⟩)).write this
                (.ZAM_vector { z with is_dirty := false })) := by
  obtain ⟨ps, c1, c3, rc, hr, hf1, hun, hk3, hvv3, hold3, hz3, ha3, hres, hfr, _⟩ :=
    ZAM_vector.Spill_with_ok (ZAMValUnion.ToVal_converts h n) (CellOK.stable h n)
      (CellOK.allocated h n) s this z vobj yt old Fs hz hd hv hy hold hrefs hslots hs1 hs2 hs3
  have ha_none : s.read (s.heap.length + 1) = none := State.read_alloc_fresh_none s (.val_vec [])
  have hna : s.heap.length + 1 ∉ Fs.flatten :=
    fun hq => hslots.footprint_allocated (CellOK.allocated h n) _ hq ha_none
  have ha1 : c1.read (s.heap.length + 1) = some (.val_vec []) :=
    hf1.storage_kept (State.read_alloc_new s _) hna
  have hne_vv : z.vv ≠ s.heap.length + 1 := by
    intro he
    rw [he, ha_none] at hv
    cases hv
  have hne_old : vobj.val ≠ s.heap.length + 1 := by
    intro he
    rw [he, ha_none] at hold
    cases hold
  have hne_this : this ≠ s.heap.length + 1 := by
    intro he
    rw [he, ha_none] at hz
    cases hz
  have hne1 : this ≠ z.vv := by
    intro he
    rw [he, hv] at hz
    cases hz
  have hne2 : this ≠ vobj.val := by
    intro he
    rw [he, hold] at hz
    cases hz
  have hne3 : z.vv ≠ vobj.val := by
    intro he
    rw [he, hold] at hv
    cases hv
  have g_vv : (c3.write vobj.val .freed).read z.vv = some (.Val { vobj with ref_cnt := rc }) := by
    rw [State.read_write_other _ _ hne3]
    exact hvv3
  have g_this : ((c3.write vobj.val .freed).write z.vv
      (.Val ⟨vobj.type, s.heap.length + 1, rc⟩)).read this = some (.ZAM_vector z) := by
    rw [State.read_write_other _ _ hne1, State.read_write_other _ _ hne2]
    exact hz3
  have hseq := Spill_entries_eq_ToVal_seq (ZAMValUnion.ToVal h n) yt z.zvec hnil
  obtain ⟨hlen, hpre⟩ := Spill_entries_prefix _ _ _ _ _ _ hr
  have hslots0 : SlotsOK_with (CellOK h n) (s.alloc (.val_vec [])).2 yt z.zvec Fs :=
    hslots.frame (CellOK.stable h n) (State.Frame.of_keeps [] (State.Keeps.of_alloc _ _))
      (fun q _ hq => by simp at hq)
  have hlast : State.Frame [s.heap.length + 1, vobj.val, z.vv, this] c1
      (((c3.write vobj.val .freed).write z.vv
          (.Val ⟨vobj.type, s.heap.length + 1, rc⟩)).write this
            (.ZAM_vector { z with is_dirty := false })) := by
    have f1 : State.Frame [s.heap.length + 1] c1
        (c1.write (s.heap.length + 1) (.val_vec ps)) := State.Frame.of_write ha1 trivial
    have f2 : State.Frame [] (c1.write (s.heap.length + 1) (.val_vec ps)) c3 :=
      State.Frame.of_keeps [] hk3
    have f3 : State.Frame [vobj.val] c3 (c3.write vobj.val .freed) :=
      State.Frame.of_write hold3 trivial
    have f4 : State.Frame [z.vv] (c3.write vobj.val .freed)
        ((c3.write vobj.val .freed).write z.vv (.Val ⟨vobj.type, s.heap.length + 1, rc⟩)) :=
      State.Frame.of_write g_vv ⟨_, rfl, rfl⟩
    have f5 : State.Frame [this] ((c3.write vobj.val .freed).write z.vv
        (.Val ⟨vobj.type, s.heap.length + 1, rc⟩))
          (((c3.write vobj.val .freed).write z.vv
            (.Val ⟨vobj.type, s.heap.length + 1, rc⟩)).write this
              (.ZAM_vector { z with is_dirty := false })) :=
      State.Frame.of_write g_this ⟨_, rfl, fun _ hf => by rw [hd] at hf; cases hf⟩
    refine ((((f1.append f2).append f3).append f4).append f5).mono ?_
    intro q hq
    simpa using hq
  refine ⟨ps, c1, c3, rc, by rw [← hseq]; exact hr, hun, hvv3, hres, ?_, ?_, ?_, ?_, hlen, ?_,
    hlast, hfr⟩
  · rw [State.read_write_other _ _ (Ne.symm hne1)]
    exact State.read_write_self _ g_vv
  · rw [State.read_write_other _ _ (Ne.symm hne_this),
      State.read_write_other _ _ (Ne.symm hne_vv), State.read_write_other _ _ (Ne.symm hne_old)]
    exact ha3
  · rw [State.read_write_other _ _ (Ne.symm hne2), State.read_write_other _ _ (Ne.symm hne3)]
    exact State.read_write_self _ hold3
  · exact State.read_write_self _ g_this
  · intro i e he
    obtain ⟨ci, h1, _, h3⟩ := hpre i e he
    obtain ⟨p, ci1, g0, g1, g2⟩ := h3 (hnil e (List.getElem?_mem he))
    refine ⟨p, ci, ci1, ?_, g0, g1, ?_, ?_⟩
    · rw [← Spill_entries_eq_ToVal_seq (ZAMValUnion.ToVal h n) yt (z.zvec.take i)
        (fun x hx => hnil x (List.mem_of_mem_take hx))]
      exact h1
    · rw [← Spill_entries_eq_ToVal_seq (ZAMValUnion.ToVal h n) yt (z.zvec.drop (i + 1))
        (fun x hx => hnil x (List.mem_of_mem_drop hx))]
      exact g2
    · have hkept := Spill_entries_kept (ZAMValUnion.ToVal_converts h n) (CellOK.stable h n) yt
        z.zvec Fs _ hslots0 ps c1 hr i e he (hnil e (List.getElem?_mem he)) p ci ci1 h1 g0
      refine (hkept.append hlast).mono ?_
      intro q hq
      simp only [List.mem_append, List.mem_cons, List.mem_singleton, List.not_mem_nil,
        or_false] at hq ⊢
      rcases hq with hq | hq | hq | hq | hq
      · exact Or.inr (Or.inr (Or.inr (Or.inr hq)))
      · exact Or.inl hq
      · exact Or.inr (Or.inl hq)
      · exact Or.inr (Or.inr (Or.inl hq))
      · exact Or.inr (Or.inr (Or.inr (Or.inl hq)))


/-- C11 at the scenario of the spec and at a nested vector.  From the boxed
integer vector `[1, <hole>, 3]`, `Freshen`, the assignment of integer 2 to
slot 1 and `ModVec` give the dirty shadow vector of `intVecDirty`, which
meets the premises; `Spill` on it returns, and the boxed vector then reads
`[1, 2, 3]` with no hole.  The dirty shadow vector of `nestedDirtyState` has
two slots that share one shadow vector `[7]`, which mirrors nothing,
well-formed at depth 1; `Spill` on it returns, and the boxed vector then
holds twice the new boxed vector `[7]` that `ToVal` built for the first
slot and returned again for the second. -/
theorem C11_Spill_postcondition_witness :
    (do let s ← ZAM_vector.Freshen exampleHost 0 intVecState 5
        let s ← s.zvec_set 5 1 ⟨2⟩
        ZAM_vector.ModVec s 5) = .ok intVecDirty
    ∧ (∃ s1, ZAM_vector.Spill exampleHost 0 intVecDirty 5 = .ok s1
        ∧ s1.read 4 = some (.Val ⟨.vector (.base .TYPE_INT), 6, 1⟩)
        ∧ s1.read 6 = some (.val_vec [7, 8, 9])
        ∧ s1.read 7 = some (.Val ⟨.base .TYPE_INT, 1, 1⟩)
        ∧ s1.read 8 = some (.Val ⟨.base .TYPE_INT, 2, 1⟩)
        ∧ s1.read 9 = some (.Val ⟨.base .TYPE_INT, 3, 1⟩)
        ∧ s1.read 5 = some (.ZAM_vector ⟨[⟨1⟩, ⟨2⟩, ⟨3⟩], 4, false, none, nullptr⟩))
    ∧ (∃ s1, ZAM_vector.Spill exampleHost 1 nestedDirtyState 5 = .ok s1
        ∧ s1.read 4 = some (.Val ⟨.vector (.vector (.base .TYPE_INT)), 6, 1⟩)
        ∧ s1.read 6 = some (.val_vec [8, 8])
        ∧ s1.read 8 = some (.Val ⟨.vector (.base .TYPE_INT), 7, 1⟩)
        ∧ s1.read 7 = some (.val_vec [9])
        ∧ s1.read 9 = some (.Val ⟨.base .TYPE_INT, 7, 1⟩)
        ∧ s1.read 1 = some (.ZAM_vector ⟨[⟨7⟩], 8, false, none, nullptr⟩)
        ∧ s1.read 5 = some (.ZAM_vector ⟨[⟨2⟩, ⟨2⟩], 4, false, none, nullptr⟩)) := by
  refine ⟨by decide, ?_, ?_⟩
  · obtain ⟨ps, c1, c3, rc, _, _, _, hs, _⟩ :=
      C11_Spill_postcondition exampleHost 0 intVecDirty 5
        ⟨[⟨1⟩, ⟨2⟩, ⟨3⟩], 4, true, none, nullptr⟩ ⟨.vector (.base .TYPE_INT), 3, 1⟩
        (.base .TYPE_INT) [1, nullptr, 2] [[], [], []] (by decide) rfl (by decide) rfl
        (by decide)
        (by
          intro p hp
          simp only [List.mem_cons, List.mem_singleton, List.not_mem_nil, or_false] at hp
          rcases hp with rfl | rfl | rfl
          · exact Or.inr ⟨⟨.base .TYPE_INT, 1, 1⟩, by decide⟩
          · exact Or.inl rfl
          · exact Or.inr ⟨⟨.base .TYPE_INT, 3, 1⟩, by decide⟩)
        (by decide)
        ⟨⟨by decide, trivial, rfl⟩,
          List.Forall₂.cons (Or.inl (List.disjoint_nil_left _))
            (List.Forall₂.cons (Or.inl (List.disjoint_nil_left _)) List.Forall₂.nil),
          ⟨by decide, trivial, rfl⟩,
          List.Forall₂.cons (Or.inl (List.disjoint_nil_left _)) List.Forall₂.nil,
          ⟨by decide, trivial, rfl⟩, List.Forall₂.nil, trivial⟩
        (by simp) (by simp) (by simp)
    have hev : ZAM_vector.Spill exampleHost 0 intVecDirty 5
        = .ok ⟨[.Val ⟨.base .TYPE_INT, 1, 0⟩, .Val ⟨.base .TYPE_INT, 3, 0⟩, .freed,
            .Val ⟨.vector (.base .TYPE_INT), 6, 1⟩,
            .ZAM_vector ⟨[⟨1⟩, ⟨2⟩, ⟨3⟩], 4, false, none, nullptr⟩,
            .val_vec [7, 8, 9], .Val ⟨.base .TYPE_INT, 1, 1⟩, .Val ⟨.base .TYPE_INT, 2, 1⟩,
            .Val ⟨.base .TYPE_INT, 3, 1⟩], []⟩ := by decide
    rw [Except.ok.inj (hs.symm.trans hev)] at hs
    exact ⟨_, hs, by decide, by decide, by decide, by decide, by decide, by decide⟩
  · obtain ⟨ps, c1, c3, rc, _, _, _, hs, _⟩ :=
      C11_Spill_postcondition exampleHost 1 nestedDirtyState 5
        ⟨[⟨2⟩, ⟨2⟩], 4, true, none, nullptr⟩ ⟨.vector (.vector (.base .TYPE_INT)), 3, 1⟩
        (.vector (.base .TYPE_INT)) [] [[1], [1]] (by decide) rfl (by decide) rfl
        (by decide) (by simp) (by decide)
        ⟨⟨⟨1, none⟩, ⟨[⟨7⟩], nullptr, false, none, nullptr⟩, by decide, by decide,
            Or.inr (Or.inr ⟨rfl, .base .TYPE_INT, [[]], rfl,
              ⟨⟨by decide, trivial, rfl⟩, List.Forall₂.nil, trivial⟩, by simp, rfl⟩)⟩,
          List.Forall₂.cons
            (Or.inr ⟨rfl, ⟨1, none⟩, ⟨1, none⟩, ⟨[⟨7⟩], nullptr, false, none, nullptr⟩,
              by decide, by decide, rfl, by decide, by simp, Or.inr rfl⟩)
            List.Forall₂.nil,
          ⟨⟨1, none⟩, ⟨[⟨7⟩], nullptr, false, none, nullptr⟩, by decide, by decide,
            Or.inr (Or.inr ⟨rfl, .base .TYPE_INT, [[]], rfl,
              ⟨⟨by decide, trivial, rfl⟩, List.Forall₂.nil, trivial⟩, by simp, rfl⟩)⟩,
          List.Forall₂.nil, trivial⟩
        (by simp) (by simp) (by simp)
    have hev : ZAM_vector.Spill exampleHost 1 nestedDirtyState 5
        = .ok ⟨[.ZAM_vector ⟨[⟨7⟩], 8, false, none, nullptr⟩, .ZAMVector ⟨1, none⟩, .freed,
            .Val ⟨.vector (.vector (.base .TYPE_INT)), 6, 1⟩,
            .ZAM_vector ⟨[⟨2⟩, ⟨2⟩], 4, false, none, nullptr⟩,
            .val_vec [8, 8], .val_vec [9], .Val ⟨.vector (.base .TYPE_INT), 7, 1⟩,
            .Val ⟨.base .TYPE_INT, 7, 1⟩], []⟩ := by decide
    rw [Except.ok.inj (hs.symm.trans hev)] at hs
    exact ⟨_, hs, by decide, by decide, by decide, by decide, by decide, by decide, by decide⟩

/-- C17, as amended: `ToVector` on a vector cell whose shadow vector mirrors
no boxed vector.  The slots for which `IsNil` does not hold against the
resolved element type (the yield type of the handle, or that of the target
type when the handle has none) are well-formed cells at depth `n` with the
footprints `Fs`, as for C11; two slots either have footprints that do not
overlap or share one shadow vector that the first conversion leaves flushed,
and the footprints do not hold the shadow vector.  `ToVector` returns the new
boxed vector at the second fresh address, whose backing storage is at the
first, and the state it returns is given in full: with `ps` and `c1` the
pointers and the state of the run of `ToVal` over the slots that are not nil,
from the state in which the new vector has been allocated, it is `c1` with
the storage filled and the new vector recorded on the shadow vector.  Entry
`i` of the new vector is a hole when `IsNil` holds of slot `i`, and otherwise
is what `ToVal` returns for slot `i` against the resolved element type when
called in the state the run has reached after the slots before it; for the
element type "any" that is the held pointer itself with one more reference;
every object that is there right after that call is still there when
`ToVector` returns, the same but for its reference count unless it lies in a
footprint or is the new storage or the shadow vector.  Past the slots the
vector has holes only.  But for reference counts, what the conversions left
is changed only at the new storage and the shadow vector, and the starting
state only at the shadow vector and in the footprints of the slots.  When the
dirty flag of the shadow vector is unset, a second `ToVector`, and a second
`ToVal`, return the same boxed vector and leave the state as it is. -/
theorem C17_ToVector_materialises (h : Host) (n : Nat) (s : State) (cell : ZAMValUnion)
    (t yt : BroType) (zv : ZAMVector) (z : ZAM_vector) (Fs : List (List Nat))
    (h1 : s.read cell.vector_val = some (.ZAMVector zv))
    (h2 : s.read zv.vec = some (.ZAM_vector z)) (h3 : z.vv = nullptr)
    (ht : t.YieldType = some yt)
    (hslots : SlotsOK_with (CellOK h n) s (zv.yield_type.getD yt) z.zvec Fs)
    (hs1 : zv.vec ∉ Fs.flatten) :
    ∃ ps c1 rc,
      Spill_entries (ZAMValUnion.ToVal h n) (zv.yield_type.getD yt) z.zvec
        ((s.alloc (.val_vec [])).2.alloc (.Val ⟨t, s.heap.length + 1, 1⟩)).2 = .ok (ps, c1)
      ∧ c1.read (s.heap.length + 2) = some (.Val ⟨t, s.heap.length + 1, rc⟩)
      ∧ ZAMValUnion.ToVector h n s cell t
          = .ok (s.heap.length + 2,
              (c1.write (s.heap.length + 1)
                (.val_vec (VectorVal.stored (zv.yield_type.getD yt) 0 z.zvec ps []))).write
                zv.vec (.ZAM_vector { z with vv := s.heap.length + 2 }))
      ∧ s.read (s.heap.length + 1) = none
      ∧ s.read (s.heap.length + 2) = none
      ∧ ((c1.write (s.heap.length + 1)
                (.val_vec (VectorVal.stored (zv.yield_type.getD yt) 0 z.zvec ps []))).write
                zv.vec (.ZAM_vector { z with vv := s.heap.length + 2 })).read
            (s.heap.length + 2) = some (.Val ⟨t, s.heap.length + 1, rc⟩)
      ∧ ((c1.write (s.heap.length + 1)
                (.val_vec (VectorVal.stored (zv.yield_type.getD yt) 0 z.zvec ps []))).write
                zv.vec (.ZAM_vector { z with vv := s.heap.length + 2 })).read
            (s.heap.length + 1)
          = some (.val_vec (VectorVal.stored (zv.yield_type.getD yt) 0 z.zvec ps []))
      ∧ ((c1.write (s.heap.length + 1)
                (.val_vec (VectorVal.stored (zv.yield_type.getD yt) 0 z.zvec ps []))).write
                zv.vec (.ZAM_vector { z with vv := s.heap.length + 2 })).read zv.vec
          = some (.ZAM_vector { z with vv := s.heap.length + 2 })
      ∧ (∀ (i : Nat) (e : ZAMValUnion), z.zvec[i]? = some e →
          ∃ ci,
            Spill_entries (ZAMValUnion.ToVal h n) (zv.yield_type.getD yt) (z.zvec.take i)
                ((s.alloc (.val_vec [])).2.alloc (.Val ⟨t, s.heap.length + 1, 1⟩)).2
              = .ok (ps.take i, ci)
            ∧ (e.IsNil (zv.yield_type.getD yt) = true →
                VectorVal.Lookup ((c1.write (s.heap.length + 1)
                    (.val_vec (VectorVal.stored (zv.yield_type.getD yt) 0 z.zvec ps []))).write
                    zv.vec (.ZAM_vector { z with vv := s.heap.length + 2 }))
                  (s.heap.length + 2) i = .ok nullptr
                ∧ Spill_entries (ZAMValUnion.ToVal h n) (zv.yield_type.getD yt)
                    (z.zvec.drop (i + 1)) ci = .ok (ps.drop (i + 1), c1))
            ∧ (e.IsNil (zv.yield_type.getD yt) = false →
                ∃ p ci1, ZAMValUnion.ToVal h n ci e (zv.yield_type.getD yt) = .ok (p, ci1)
                  ∧ VectorVal.Lookup ((c1.write (s.heap.length + 1)
                      (.val_vec (VectorVal.stored (zv.yield_type.getD yt) 0 z.zvec ps []))).write
                      zv.vec (.ZAM_vector { z with vv := s.heap.length + 2 }))
                    (s.heap.length + 2) i = .ok p
                  ∧ ((zv.yield_type.getD yt).Tag = .TYPE_ANY →
                      p = e.any_val ∧ NewRef ci e.any_val = .ok ci1)
                  ∧ Spill_entries (ZAMValUnion.ToVal h n) (zv.yield_type.getD yt)
                      (z.zvec.drop (i + 1)) ci1 = .ok (ps.drop (i + 1), c1)
                  ∧ State.Frame ((s.heap.length + 1) :: zv.vec :: Fs.flatten) ci1
                      ((c1.write (s.heap.length + 1)
                        (.val_vec (VectorVal.stored (zv.yield_type.getD yt) 0 z.zvec ps
                          []))).write
                        zv.vec (.ZAM_vector { z with vv := s.heap.length + 2 }))))
      ∧ (∀ i : Nat, z.zvec.length ≤ i →
          VectorVal.Lookup ((c1.write (s.heap.length + 1)
              (.val_vec (VectorVal.stored (zv.yield_type.getD yt) 0 z.zvec ps []))).write
              zv.vec (.ZAM_vector { z with vv := s.heap.length + 2 }))
            (s.heap.length + 2) i = .ok nullptr)
      ∧ State.Frame [s.heap.length + 1, zv.vec] c1
          ((c1.write (s.heap.length + 1)
            (.val_vec (VectorVal.stored (zv.yield_type.getD yt) 0 z.zvec ps []))).write
            zv.vec (.ZAM_vector { z with vv := s.heap.length + 2 }))
      ∧ State.Frame (zv.vec :: Fs.flatten) s
          ((c1.write (s.heap.length + 1)
            (.val_vec (VectorVal.stored (zv.yield_type.getD yt) 0 z.zvec ps []))).write
            zv.vec (.ZAM_vector { z with vv := s.heap.length + 2 }))
      ∧ (z.is_dirty = false →
          ZAMValUnion.ToVector h n
              ((c1.write (s.heap.length + 1)
                (.val_vec (VectorVal.stored (zv.yield_type.getD yt) 0 z.zvec ps []))).write
                zv.vec (.ZAM_vector { z with vv := s.heap.length + 2 })) cell t
            = .ok (s.heap.length + 2,
                (c1.write (s.heap.length + 1)
                  (.val_vec (VectorVal.stored (zv.yield_type.getD yt) 0 z.zvec ps []))).write
                  zv.vec (.ZAM_vector { z with vv := s.heap.length + 2 }))
          ∧ ZAMValUnion.ToVal h (n + 1)
              ((c1.write (s.heap.length + 1)
                (.val_vec (VectorVal.stored (zv.yield_type.getD yt) 0 z.zvec ps []))).write
                zv.vec (.ZAM_vector { z with vv := s.heap.length + 2 })) cell t
            = .ok (s.heap.length + 2,
                (c1.write (s.heap.length + 1)
                  (.val_vec (VectorVal.stored (zv.yield_type.getD yt) 0 z.zvec ps []))).write
                  zv.vec (.ZAM_vector { z with vv := s.heap.length + 2 }))) := by
  obtain ⟨ps, c1, rc, hr, hf1, hv1, ha1, hz1, hc1, hres, hfr, hF2⟩ :=
    ZAMValUnion.ToVector_with_build (ZAMValUnion.ToVal_converts h n) (CellOK.stable h n)
      (CellOK.allocated h n) (ZAMValUnion.ToVal_any h n) s cell t yt zv z Fs h1 h2 h3 ht
      hslots hs1
  rw [State.alloc_length] at hv1 hres hfr
  have ha_none : s.read (s.heap.length + 1) = none := State.read_alloc_fresh_none s (.val_vec [])
  have hv_none : s.read (s.heap.length + 2) = none := by
    have hx : (s.heap.length + 2 = nullptr) = False := by simp
    simp [State.read, hx]
  have hne_za : zv.vec ≠ s.heap.length + 1 := by
    intro he
    rw [he, ha_none] at h2
    cases h2
  have hne_zv : zv.vec ≠ s.heap.length + 2 := by
    intro he
    rw [he, hv_none] at h2
    cases h2
  have hne_ca : cell.vector_val ≠ s.heap.length + 1 := by
    intro he
    rw [he, ha_none] at h1
    cases h1
  have hne_cz : cell.vector_val ≠ zv.vec := by
    intro he
    rw [he, h2] at h1
    cases h1
  have hne_va : s.heap.length + 2 ≠ s.heap.length + 1 := by omega
  have hz2 : (c1.write (s.heap.length + 1)
      (.val_vec (VectorVal.stored (zv.yield_type.getD yt) 0 z.zvec ps []))).read zv.vec
        = some (.ZAM_vector z) := by
    rw [State.read_write_other _ _ hne_za]
    exact hz1
  have hv3 : ((c1.write (s.heap.length + 1)
      (.val_vec (VectorVal.stored (zv.yield_type.getD yt) 0 z.zvec ps []))).write zv.vec
        (.ZAM_vector { z with vv := s.heap.length + 2 })).read (s.heap.length + 2)
          = some (.Val ⟨t, s.heap.length + 1, rc⟩) := by
    rw [State.read_write_other _ _ (Ne.symm hne_zv), State.read_write_other _ _ hne_va]
    exact hv1
  have ha3 : ((c1.write (s.heap.length + 1)
      (.val_vec (VectorVal.stored (zv.yield_type.getD yt) 0 z.zvec ps []))).write zv.vec
        (.ZAM_vector { z with vv := s.heap.length + 2 })).read (s.heap.length + 1)
          = some (.val_vec (VectorVal.stored (zv.yield_type.getD yt) 0 z.zvec ps [])) := by
    rw [State.read_write_other _ _ (Ne.symm hne_za)]
    exact State.read_write_self _ ha1
  have hc3 : ((c1.write (s.heap.length + 1)
      (.val_vec (VectorVal.stored (zv.yield_type.getD yt) 0 z.zvec ps []))).write zv.vec
        (.ZAM_vector { z with vv := s.heap.length + 2 })).read cell.vector_val
          = some (.ZAMVector zv) := by
    rw [State.read_write_other _ _ hne_cz, State.read_write_other _ _ hne_ca]
    exact hc1
  have hz3 := State.read_write_self (.ZAM_vector { z with vv := s.heap.length + 2 }) hz2
  have hF3 : List.Forall₂ (fun e p => e.IsNil (zv.yield_type.getD yt) = true → p = nullptr)
      z.zvec ps := hF2.imp (fun _ _ hx => hx.1)
  have hlook : ∀ i : Nat, VectorVal.Lookup ((c1.write (s.heap.length + 1)
      (.val_vec (VectorVal.stored (zv.yield_type.getD yt) 0 z.zvec ps []))).write zv.vec
        (.ZAM_vector { z with vv := s.heap.length + 2 })) (s.heap.length + 2) i
          = .ok (ps.getD i nullptr) := by
    intro i
    rw [VectorVal.Lookup_eq i hv3 ha3,
      (VectorVal.stored_getD (zv.yield_type.getD yt) z.zvec ps 0 [] hF3 (by simp)).2 i]
    simp
  obtain ⟨hlen, hpre⟩ := Spill_entries_prefix _ _ _ _ _ _ hr
  have hslots0 : SlotsOK_with (CellOK h n)
      ((s.alloc (.val_vec [])).2.alloc (.Val ⟨t, s.heap.length + 1, 1⟩)).2
      (zv.yield_type.getD yt) z.zvec Fs :=
    hslots.frame (CellOK.stable h n)
      (State.Frame.of_keeps [] ((State.Keeps.of_alloc _ _).chain (State.Keeps.of_alloc _ _)))
      (fun q _ hq => by simp at hq)
  have hlast : State.Frame [s.heap.length + 1, zv.vec] c1
      ((c1.write (s.heap.length + 1)
        (.val_vec (VectorVal.stored (zv.yield_type.getD yt) 0 z.zvec ps []))).write
        zv.vec (.ZAM_vector { z with vv := s.heap.length + 2 })) := by
    have f1 : State.Frame [s.heap.length + 1] c1 (c1.write (s.heap.length + 1)
        (.val_vec (VectorVal.stored (zv.yield_type.getD yt) 0 z.zvec ps []))) :=
      State.Frame.of_write ha1 trivial
    have f2 : State.Frame [zv.vec] _ ((c1.write (s.heap.length + 1)
        (.val_vec (VectorVal.stored (zv.yield_type.getD yt) 0 z.zvec ps []))).write
          zv.vec (.ZAM_vector { z with vv := s.heap.length + 2 })) :=
      State.Frame.of_write hz2 ⟨_, rfl, fun hc => absurd h3 hc⟩
    exact (f1.append f2).mono (fun q hq => by simpa using hq)
  refine ⟨ps, c1, rc, hr, hv1, hres, ha_none, hv_none, hv3, ha3, hz3, ?_, ?_, hlast, hfr, ?_⟩
  · intro i e he
    obtain ⟨ci, g1, g2, g3⟩ := hpre i e he
    refine ⟨ci, g1, ?_, ?_⟩
    · intro hn
      obtain ⟨k1, k2⟩ := g2 hn
      refine ⟨?_, k2⟩
      rw [hlook i, List.getD_eq_getElem?_getD, k1]
      rfl
    · intro hn
      obtain ⟨p, ci1, k0, k1, k2⟩ := g3 hn
      have hkept := Spill_entries_kept (ZAMValUnion.ToVal_converts h n) (CellOK.stable h n)
        (zv.yield_type.getD yt) z.zvec Fs _ hslots0 ps c1 hr i e he hn p ci ci1 g1 k0
      have hk2 : State.Frame ((s.heap.length + 1) :: zv.vec :: Fs.flatten) ci1
          ((c1.write (s.heap.length + 1)
            (.val_vec (VectorVal.stored (zv.yield_type.getD yt) 0 z.zvec ps []))).write
            zv.vec (.ZAM_vector { z with vv := s.heap.length + 2 })) := by
        refine (hkept.append hlast).mono ?_
        intro q hq
        simp only [List.mem_append, List.mem_cons, List.mem_singleton, List.not_mem_nil,
          or_false] at hq ⊢
        rcases hq with hq | hq | hq
        · exact Or.inr (Or.inr hq)
        · exact Or.inl hq
        · exact Or.inr (Or.inl hq)
      refine ⟨p, ci1, k0, ?_, ?_, k2, hk2⟩
      · rw [hlook i, List.getD_eq_getElem?_getD, k1]
        rfl
      · intro hany
        rw [ZAMValUnion.ToVal_any h n _ e _ hany] at k0
        cases hN : NewRef ci e.any_val with
        | error x =>
          rw [hN] at k0
          cases k0
        | ok s2 =>
          rw [hN] at k0
          simp only [Except_ok_bind, pure, Except.pure, Except.ok.injEq, Prod.mk.injEq] at k0
          exact ⟨k0.1.symm, by rw [k0.2]⟩
  · intro i hi
    have : ps[i]? = none := List.getElem?_eq_none (by omega)
    rw [hlook i, List.getD_eq_getElem?_getD, this]
    rfl
  · intro hd
    have hcached := ZAMValUnion.ToVector_cached h n _ cell t zv
      { z with vv := s.heap.length + 2 } hc3 hz3 (by simp) hd
    refine ⟨hcached, ?_⟩
    have htag : t.Tag = .TYPE_VECTOR := by
      cases t <;> simp [BroType.YieldType] at ht
      rfl
    simp only [ZAMValUnion.ToVal, ZAMValUnion.ToVal_step, htag]
    exact hcached


/-- C17 as amended, at two shadow vectors that mirror nothing.  The one of
`anyOutputState` has the slots `[<the count at 1>, <nil>]` of element type
"any": the new boxed vector has the held pointer itself at index 0, with one
more reference, and a hole at index 1, and a second call returns the same
vector and the same state.  The one of `nestedOutputState` has two slots
that share one dirty shadow vector `[9]`, which mirrors a boxed vector,
well-formed at depth 1: the new boxed vector holds that boxed vector twice,
flushed so that it reads `[9]`, and a second call returns the same vector
and the same state. -/
theorem C17_ToVector_materialises_witness :
    (∃ s1, ZAMValUnion.ToVector exampleHost 0 anyOutputState ⟨3⟩ (.vector (.base .TYPE_ANY))
        = .ok (5, s1)
      ∧ VectorVal.Lookup s1 5 0 = .ok 1
      ∧ VectorVal.Lookup s1 5 1 = .ok nullptr
      ∧ s1.read 1 = some (.Val ⟨.base .TYPE_COUNT, 5, 2⟩)
      ∧ s1.read 2 = some (.ZAM_vector ⟨[⟨1⟩, ZAMValUnion.nil], 5, false, none, nullptr⟩)
      ∧ ZAMValUnion.ToVector exampleHost 0 s1 ⟨3⟩ (.vector (.base .TYPE_ANY)) = .ok (5, s1)
      ∧ ZAMValUnion.ToVal exampleHost 1 s1 ⟨3⟩ (.vector (.base .TYPE_ANY)) = .ok (5, s1))
    ∧ (∃ s1, ZAMValUnion.ToVector exampleHost 1 nestedOutputState ⟨7⟩
          (.vector (.vector (.base .TYPE_INT))) = .ok (9, s1)
      ∧ VectorVal.Lookup s1 9 0 = .ok 3
      ∧ VectorVal.Lookup s1 9 1 = .ok 3
      ∧ VectorVal.Lookup s1 9 2 = .ok nullptr
      ∧ VectorVal.Lookup s1 3 0 = .ok 11
      ∧ s1.read 11 = some (.Val ⟨.base .TYPE_INT, 9, 1⟩)
      ∧ s1.read 4 = some (.ZAM_vector ⟨[⟨9⟩], 3, false, none, nullptr⟩)
      ∧ s1.read 6 = some (.ZAM_vector ⟨[⟨5⟩, ⟨5⟩], 9, false, none, nullptr⟩)
      ∧ ZAMValUnion.ToVector exampleHost 1 s1 ⟨7⟩ (.vector (.vector (.base .TYPE_INT)))
          = .ok (9, s1)
      ∧ ZAMValUnion.ToVal exampleHost 2 s1 ⟨7⟩ (.vector (.vector (.base .TYPE_INT)))
          = .ok (9, s1)) := by
  constructor
  · obtain ⟨ps, c1, rc, _, _, hs, _, _, _, _, _, _, _, _, _, hagain⟩ :=
      C17_ToVector_materialises exampleHost 0 anyOutputState ⟨3⟩ (.vector (.base .TYPE_ANY))
        (.base .TYPE_ANY) ⟨2, none⟩ ⟨[⟨1⟩, ZAMValUnion.nil], nullptr, false, none, nullptr⟩
        [[], []] (by decide) (by decide) rfl rfl
        ⟨⟨by decide, ⟨⟨.base .TYPE_COUNT, 5, 1⟩, by decide⟩, rfl⟩,
          List.Forall₂.cons (Or.inl (List.disjoint_nil_left _)) List.Forall₂.nil,
          rfl, List.Forall₂.nil, trivial⟩
        (by simp)
    have hev : ZAMValUnion.ToVector exampleHost 0 anyOutputState ⟨3⟩ (.vector (.base .TYPE_ANY))
        = .ok (5, ⟨[.Val ⟨.base .TYPE_COUNT, 5, 2⟩,
            .ZAM_vector ⟨[⟨1⟩, ZAMValUnion.nil], 5, false, none, nullptr⟩, .ZAMVector ⟨2, none⟩,
            .val_vec [1], .Val ⟨.vector (.base .TYPE_ANY), 4, 1⟩], []⟩) := by decide
    have hfin := (Prod.mk.inj (Except.ok.inj (hs.symm.trans hev))).2
    rw [hfin] at hs hagain
    exact ⟨_, hs, by decide, by decide, by decide, by decide, (hagain rfl).1, (hagain rfl).2⟩
  · obtain ⟨ps, c1, rc, _, _, hs, _, _, _, _, _, _, _, _, _, hagain⟩ :=
      C17_ToVector_materialises exampleHost 1 nestedOutputState ⟨7⟩
        (.vector (.vector (.base .TYPE_INT))) (.vector (.base .TYPE_INT)) ⟨6, none⟩
        ⟨[⟨5⟩, ⟨5⟩], nullptr, false, none, nullptr⟩ [[4, 3, 2], [4, 3, 2]] (by decide)
        (by decide) rfl rfl
        ⟨⟨⟨4, none⟩, ⟨[⟨9⟩], 3, true, none, nullptr⟩, by decide, by decide,
            Or.inr (Or.inl ⟨by decide, rfl, ⟨.vector (.base .TYPE_INT), 2, 1⟩, .base .TYPE_INT,
              [1], [[]], by decide, rfl, by decide,
              (by
                intro p hp
                simp only [List.mem_singleton] at hp
                subst hp
                exact Or.inr ⟨⟨.base .TYPE_INT, 4, 1⟩, by decide⟩),
              ⟨⟨by decide, trivial, rfl⟩, List.Forall₂.nil, trivial⟩,
              by simp, by simp, by simp, rfl⟩)⟩,
          List.Forall₂.cons
            (Or.inr ⟨rfl, ⟨4, none⟩, ⟨4, none⟩, ⟨[⟨9⟩], 3, true, none, nullptr⟩,
              by decide, by decide, rfl, by decide, by simp, Or.inl (by decide)⟩)
            List.Forall₂.nil,
          ⟨⟨4, none⟩, ⟨[⟨9⟩], 3, true, none, nullptr⟩, by decide, by decide,
            Or.inr (Or.inl ⟨by decide, rfl, ⟨.vector (.base .TYPE_INT), 2, 1⟩, .base .TYPE_INT,
              [1], [[]], by decide, rfl, by decide,
              (by
                intro p hp
                simp only [List.mem_singleton] at hp
                subst hp
                exact Or.inr ⟨⟨.base .TYPE_INT, 4, 1⟩, by decide⟩),
              ⟨⟨by decide, trivial, rfl⟩, List.Forall₂.nil, trivial⟩,
              by simp, by simp, by simp, rfl⟩)⟩,
          List.Forall₂.nil, trivial⟩
        (by simp)
    have hev : ZAMValUnion.ToVector exampleHost 1 nestedOutputState ⟨7⟩
        (.vector (.vector (.base .TYPE_INT)))
        = .ok (9, ⟨[.Val ⟨.base .TYPE_INT, 4, 0⟩, .freed,
            .Val ⟨.vector (.base .TYPE_INT), 10, 1⟩,
            .ZAM_vector ⟨[⟨9⟩], 3, false, none, nullptr⟩, .ZAMVector ⟨4, none⟩,
            .ZAM_vector ⟨[⟨5⟩, ⟨5⟩], 9, false, none, nullptr⟩, .ZAMVector ⟨6, none⟩,
            .val_vec [3, 3], .Val ⟨.vector (.vector (.base .TYPE_INT)), 8, 1⟩,
            .val_vec [11], .Val ⟨.base .TYPE_INT, 9, 1⟩], []⟩) := by decide
    have hfin := (Prod.mk.inj (Except.ok.inj (hs.symm.trans hev))).2
    rw [hfin] at hs hagain
    exact ⟨_, hs, by decide, by decide, by decide, by decide, by decide, by decide, by decide,
      (hagain rfl).1, (hagain rfl).2⟩

end ZVal
